import Mathlib

/-!
# FHT8V wireless radiator valve support: codec and frame builder

A shallow embedding of `FHT8V_Wireless_Rad_Valve.cpp` (snapshot r3772) and of the
declarations of `FHT8V_Wireless_Rad_Valve.h`, followed by theorems about it.

Conventions of the embedding.

* Byte memory is a function from addresses to byte values (`Mem`); a C pointer is an
  address (`Nat`).  A function that writes through a pointer takes the memory and
  returns the updated memory together with its C result.
* `uint8_t` values are natural numbers; where the C code relies on truncation to
  eight bits the embedding writes `% 256` explicitly.
* The build is the one without `FHT8V_ADR_USED`: `fht8v_msg_t` has no address field and
  the address byte sent on the air is zero.
-/

set_option autoImplicit false

/-! ## Memory -/

/-- Byte-addressed memory: the value stored at each address. -/
abbrev Mem := Nat → Nat

/-- Store `v` at address `a` (the C assignment `*a = v`). -/
def poke (m : Mem) (a v : Nat) : Mem := fun i => if i = a then v else m i

/-- The `n` bytes of memory starting at address `a`, in address order. -/
def memList (m : Mem) (a n : Nat) : List Nat := (List.range n).map (fun j => m (a + j))

/-- The C library call `memset(a, v, n)`: store `v` at the `n` addresses from `a`. -/
def memset (m : Mem) (a v : Nat) : Nat → Mem
  | 0 => m
  | n + 1 => poke (memset m a v n) (a + n) v

/-! ## Message type (`FHT8V_Wireless_Rad_Valve.h`) -/

/-- Information content of an FHT8V message; the address field is omitted because
`FHT8V_ADR_USED` is not defined. -/
structure fht8v_msg_t where
  hc1 : Nat
  hc2 : Nat
  command : Nat
  extension : Nat
deriving DecidableEq, Repr

/-- All four fields are `uint8_t` values. -/
def fht8v_msg_t.valid (c : fht8v_msg_t) : Prop :=
  c.hc1 < 256 ∧ c.hc2 < 256 ∧ c.command < 256 ∧ c.extension < 256

instance (c : fht8v_msg_t) : Decidable c.valid := by
  unfold fht8v_msg_t.valid; infer_instance

/-- Buffer size for the longest-possible encoded command plus terminating 0xff. -/
def MIN_FHT8V_200US_BIT_STREAM_BUF_SIZE : Nat := 46

/-! ## Bit encoder (`FHT8V_Wireless_Rad_Valve.cpp`, lines 117-236) -/

/-- Appends the encoded 200us-bit representation of a logical bit (1100 for 0, 111000
for 1) to the byte stream under construction at `bptr`; returns the updated memory and
the updated `bptr`. -/
def _FHT8VCreate200usAppendEncBit (m : Mem) (bptr : Nat) (is1 : Bool) : Mem × Nat :=
  let bitPairsLeft := m bptr &&& 3
  if !is1 then
    match bitPairsLeft with
    | 3 => (poke m bptr 0xcd, bptr)
    | 2 => (poke m bptr ((m bptr &&& 0xc0) ||| 0x30), bptr)
    | 1 => (poke (poke m bptr ((m bptr &&& 0xf0) ||| 0xc)) (bptr + 1) 0xff, bptr + 1)
    | _ => (poke (poke m bptr (m bptr ||| 3)) (bptr + 1) 0x3e, bptr + 1)
  else
    match bitPairsLeft with
    | 3 => (poke m bptr 0xe0, bptr)
    | 2 => (poke (poke m bptr ((m bptr &&& 0xc0) ||| 0x38)) (bptr + 1) 0xff, bptr + 1)
    | 1 => (poke (poke m bptr ((m bptr &&& 0xf0) ||| 0xe)) (bptr + 1) 0x3e, bptr + 1)
    | _ => (poke (poke m bptr (m bptr ||| 3)) (bptr + 1) 0x8d, bptr + 1)

/-- The avr-libc routine `parity_even_bit` of `util/parity.h` on an `unsigned char`:
the byte is xor-ed with its nibble-swapped self, then with itself shifted right by two,
and the result is `((t + 1) >> 1) & 1`. -/
def parity_even_bit (val : Nat) : Nat :=
  let v := val % 256
  let swapped := ((v <<< 4) ||| (v >>> 4)) % 256
  let t := swapped ^^^ v
  let t := (t >>> 2) ^^^ t
  ((t + 1) >>> 1) &&& 1

/-- Appends encoded byte `b` msbit first plus trailing even parity bit (9 bits total).
The list holds the successive values of the loop variable
`for(mask = 0x80; mask != 0; mask >>= 1)`. -/
def _FHT8VCreate200usAppendByteEP (m : Mem) (bptr : Nat) (b : Nat) : Mem × Nat :=
  let s := [0x80, 0x40, 0x20, 0x10, 8, 4, 2, 1].foldl
    (fun (s : Mem × Nat) (mask : Nat) =>
      _FHT8VCreate200usAppendEncBit s.1 s.2 (0 != (b &&& mask)))
    (m, bptr)
  _FHT8VCreate200usAppendEncBit s.1 s.2 (parity_even_bit b != 0)

/-- Create the stream of bytes to be transmitted to the FHT80V at 200us per bit, msbit of
each byte first, terminated by 0xff.  Returns the memory and the address of the
terminating 0xff. -/
def FHT8VCreate200usBitStreamBptr (m : Mem) (bptr : Nat) (command : fht8v_msg_t) :
    Mem × Nat :=
  let m := poke m bptr 0xcc
  let m := poke m (bptr + 1) 0xcc
  let m := poke m (bptr + 2) 0xcc
  let m := poke m (bptr + 3) 0xcc
  let m := poke m (bptr + 4) 0xcc
  let m := poke m (bptr + 5) 0xcc
  let m := poke m (bptr + 6) 0xff
  let s := _FHT8VCreate200usAppendEncBit m (bptr + 6) true
  let s := _FHT8VCreate200usAppendByteEP s.1 s.2 command.hc1
  let s := _FHT8VCreate200usAppendByteEP s.1 s.2 command.hc2
  let s := _FHT8VCreate200usAppendByteEP s.1 s.2 0
  let s := _FHT8VCreate200usAppendByteEP s.1 s.2 command.command
  let s := _FHT8VCreate200usAppendByteEP s.1 s.2 command.extension
  let checksum :=
    (0xc + command.hc1 + command.hc2 + command.command + command.extension) % 256
  let s := _FHT8VCreate200usAppendByteEP s.1 s.2 checksum
  let s := _FHT8VCreate200usAppendEncBit s.1 s.2 false
  let s := _FHT8VCreate200usAppendEncBit s.1 s.2 false
  let s := _FHT8VCreate200usAppendEncBit s.1 s.2 false
  (poke s.1 s.2 0xff, s.2)

/-! ## Bit decoder (`FHT8V_Wireless_Rad_Valve.cpp`, lines 856-1059) -/

/-- Current decode state: `bitStream` is the address of the byte being read, `lastByte`
the address of the last byte of the stream, `mask` the next pair of bits to read
(initially 0 to become 0xc0), `failed` is set once the decode has failed. -/
structure decode_state_t where
  bitStream : Nat
  lastByte : Nat
  mask : Nat
  failed : Bool
deriving DecidableEq, Repr

/-- Decode bit pattern 1100 as 0, 111000 as 1.  Returns the bit decoded (0 when the
state is or becomes failed) and the updated state. -/
def readOneBit (m : Mem) (state : decode_state_t) : Nat × decode_state_t :=
  -- Stop if off the buffer end.
  let state := if state.bitStream > state.lastByte then { state with failed := true } else state
  -- Refuse to do anything further once decoding has failed.
  if state.failed then (0, state) else
  -- Special treatment of 0 as equivalent to 0xc0 on entry.
  let state := if state.mask = 0 then { state with mask := 0xc0 } else state
  -- First two bits read must be 11.
  if state.mask ≠ (state.mask &&& m state.bitStream) then
    (0, { state with failed := true })
  else
  -- Advance the mask; if the mask becomes 0 (then 0xc0 again) then advance the byte pointer.
  let state := { state with mask := state.mask >>> 2 }
  if state.mask = 0 ∧ state.bitStream + 1 > state.lastByte then
    (0, { state with mask := 0xc0, bitStream := state.bitStream + 1, failed := true })
  else
  let state :=
    if state.mask = 0 then { state with mask := 0xc0, bitStream := state.bitStream + 1 }
    else state
  -- Next two bits can be 00 to decode a zero, or 10 (followed by 00) to decode a one.
  let secondPair := state.mask &&& m state.bitStream
  if secondPair = 0 then
    let state := { state with mask := state.mask >>> 2 }
    let state :=
      if state.mask = 0 then { state with bitStream := state.bitStream + 1 } else state
    (0, state)
  else if secondPair = 0x80 ∨ secondPair = 0x20 ∨ secondPair = 8 ∨ secondPair = 2 then
    -- OK: looks like second pair of an encoded 1.
    let state := { state with mask := state.mask >>> 2 }
    if state.mask = 0 ∧ state.bitStream + 1 > state.lastByte then
      (0, { state with mask := 0xc0, bitStream := state.bitStream + 1, failed := true })
    else
    let state :=
      if state.mask = 0 then { state with mask := 0xc0, bitStream := state.bitStream + 1 }
      else state
    -- Third pair of bits must be 00.
    if 0 ≠ (state.mask &&& m state.bitStream) then
      (0, { state with failed := true })
    else
    let state := { state with mask := state.mask >>> 2 }
    let state :=
      if state.mask = 0 then { state with bitStream := state.bitStream + 1 } else state
    (1, state)
  else
    (0, { state with failed := true })

/-- One pass of the body of the loop `for(int i = 7; --i >= 0; )` of
`readOneByteWithParity`, on the triple (state, parity, result). -/
def readOneByteWithParity_step (m : Mem) (acc : decode_state_t × Nat × Nat) :
    decode_state_t × Nat × Nat :=
  let r := readOneBit m acc.1
  let bit := r.1
  (r.2, acc.2.1 ^^^ bit, ((acc.2.2 <<< 1) ||| bit) % 256)

/-- Decodes a series of encoded bits plus parity (and checks the parity, failing if
wrong).  Returns the byte decoded and the updated state. -/
def readOneByteWithParity (m : Mem) (state : decode_state_t) : Nat × decode_state_t :=
  if state.failed then (0, state) else
  -- Read first bit specially...
  let r := readOneBit m state
  let b7 := r.1
  -- Then remaining 7 bits...
  let acc := (List.range 7).foldl (fun acc _ => readOneByteWithParity_step m acc)
    (r.2, b7, b7)
  -- Then get parity bit and check.
  let r := readOneBit m acc.1
  let state := if acc.2.1 ≠ r.1 then { r.2 with failed := true } else r.2
  (acc.2.2, state)

/-- The loop `while(0 == readOneBit(&state)) { if(state.failed) { return(NULL); } }` that
finds and absorbs the leading encoded 1.  The first argument bounds the number of
passes; the result is `none` when that bound is used up before the loop ends, else
`some none` for the `return(NULL)` and `some (some state)` when the loop is left. -/
def findLeadingOne (m : Mem) : Nat → decode_state_t → Option (Option decode_state_t)
  | 0, _ => none
  | fuel + 1, state =>
    let r := readOneBit m state
    if 0 = r.1 then
      if r.2.failed then some none else findLeadingOne m fuel r.2
    else some (some r.2)

/-- Decode a raw bitstream into a command.  The first argument bounds the passes of the
loop over the leading zeros.  The result is `none` when that bound is used up, `some none`
when the C function returns NULL, and `some (some (p, command))` when it returns the
pointer `p` to the next full byte after the last decoded, with the decoded command. -/
def FHT8VDecodeBitStream (fuel : Nat) (m : Mem) (bitStream lastByte : Nat) :
    Option (Option (Nat × fht8v_msg_t)) :=
  let state : decode_state_t :=
    { bitStream := bitStream, lastByte := lastByte, mask := 0, failed := false }
  -- Find and absorb the leading encoded 1, else quit if not found by end of stream.
  match findLeadingOne m fuel state with
  | none => none
  | some none => some none
  | some (some state) =>
    let r := readOneByteWithParity m state
    let hc1 := r.1
    let r := readOneByteWithParity m r.2
    let hc2 := r.1
    let r := readOneByteWithParity m r.2
    let address := r.1
    let r := readOneByteWithParity m r.2
    let command := r.1
    let r := readOneByteWithParity m r.2
    let extension := r.1
    let r := readOneByteWithParity m r.2
    let checksumRead := r.1
    let state := r.2
    if state.failed then some none else
    -- Generate and check checksum.
    let checksum := (0xc + hc1 + hc2 + address + command + extension) % 256
    if checksum ≠ checksumRead then some none else
    -- Check the trailing encoded 0.
    let r := readOneBit m state
    if 0 ≠ r.1 then some none else
    if r.2.failed then some none else
    -- Return pointer to where any trailing data may be in next byte beyond end of frame.
    some (some (r.2.bitStream + 1,
      { hc1 := hc1, hc2 := hc2, command := command, extension := extension }))

/-! ## Frame builder (`FHT8V_Wireless_Rad_Valve.cpp`, lines 239-383) -/

/-- The part of `FullStatsMessageCore_t` (declared in `Messaging.h`) that this file
reads or writes: the three content flags, the ID bytes and the temperature-and-power
payload, which is kept as one opaque number. -/
structure FullStatsMessageCore_t where
  containsID : Bool
  containsTempAndPower : Bool
  containsAmbL : Bool
  id0 : Nat
  id1 : Nat
  tempAndPower : Nat
deriving DecidableEq, Repr

/-- What the frame builder takes from outside this file: constants of `RFM22_Radio.h`
and of the header, the stats codec of `Messaging.h`, the valve position source and the
non-volatile house code.  The two codec routines write through a pointer, so they take
the memory and return the updated memory; `encodeFullStatsMessageCore` also returns its
tail pointer, `none` standing for NULL. -/
structure Externals where
  RFM22_PREAMBLE_BYTE : Nat
  RFM22_PREAMBLE_BYTES : Nat
  FHT8V_200US_BIT_STREAM_FRAME_BUF_SIZE : Nat
  writeTrailingMinimalStatsPayload : Mem → Nat → Nat → Mem
  encodeFullStatsMessageCore :
    Mem → Nat → Nat → Nat → Bool → FullStatsMessageCore_t → Mem × Option Nat
  getStatsTXLevel : Nat
  enableTrailingMinimalStatsPayload : Bool
  getMinValvePcReallyOpen : Nat
  populateCoreStats : FullStatsMessageCore_t
  FHT8VGetHC1 : Nat
  FHT8VGetHC2 : Nat
  NominalRadValve_get : Nat

/-- Result of the frame builders: the memory, the command as left in `*command`, and the
returned pointer to the terminating 0xff. -/
structure frame_result_t where
  mem : Mem
  command : fht8v_msg_t
  bptr : Nat

/-- Create FHT8V TRV outgoing valve-setting command frame (terminated with 0xff) at
`bptrInitial` with optional headers and trailers; `trailer = none` is the NULL trailer.
`TRVPercentOpen * 255` is computed in the 16-bit `int` of the target, which it fits for
every `TRVPercentOpen` up to 128; the quotient is then stored in a `uint8_t`. -/
def FHT8VCreateValveSetCmdFrameHT_r (env : Externals) (m : Mem) (bptrInitial : Nat)
    (doHeader : Bool) (command : fht8v_msg_t) (TRVPercentOpen : Nat)
    (trailer : Option FullStatsMessageCore_t) : frame_result_t :=
  let bptr := bptrInitial
  let command := { command with command := 0x26 }
  let command := { command with extension := ((TRVPercentOpen * 255) / 100) % 256 }
  -- Add RFM22/32-friendly pre-preamble if requested.
  let s : Mem × Nat :=
    if doHeader then
      (memset m bptr env.RFM22_PREAMBLE_BYTE env.RFM22_PREAMBLE_BYTES,
        bptr + env.RFM22_PREAMBLE_BYTES)
    else (m, bptr)
  let s := FHT8VCreate200usBitStreamBptr s.1 s.2 command
  match trailer with
  | none => { mem := s.1, command := command, bptr := s.2 }
  | some trailer =>
    -- As bandwidth optimisation just write minimal trailer if only temp&power available.
    if trailer.containsTempAndPower && !trailer.containsID && !trailer.containsAmbL then
      let m := env.writeTrailingMinimalStatsPayload s.1 s.2 trailer.tempAndPower
      let bptr := s.2 + 3
      { mem := poke m bptr 0xff, command := command, bptr := bptr }
    else
      -- Assume enough space in buffer for largest possible stats message.
      let r := env.encodeFullStatsMessageCore s.1 s.2
        (env.FHT8V_200US_BIT_STREAM_FRAME_BUF_SIZE - (s.2 - bptrInitial))
        env.getStatsTXLevel false trailer
      match r.2 with
      | some tail => { mem := r.1, command := command, bptr := tail }
      | none => { mem := r.1, command := command, bptr := s.2 }

/-- Create FHT8V TRV outgoing valve-setting command frame at `bptr`, deciding whether to
add the optional header and trailer.  `RFM22_SYNC_BCFH` is defined, as in the header.
The call `recordCoreStats(true, &trailer)` only updates the stats store and is left
out. -/
def FHT8VCreateValveSetCmdFrame_r (env : Externals) (m : Mem) (bptr : Nat)
    (command : fht8v_msg_t) (TRVPercentOpen : Nat) : frame_result_t :=
  let etmsp := env.enableTrailingMinimalStatsPayload
  -- Add RFM22-friendly pre-preamble only if calling for heat from the boiler
  -- OR if adding a trailer that the hub should see.
  let doHeader := etmsp || decide (TRVPercentOpen ≥ env.getMinValvePcReallyOpen)
  let doTrailer := etmsp
  let trailer : Option FullStatsMessageCore_t :=
    if doTrailer then
      -- Ensure that no ID is encoded in the message sent on the air.
      some { env.populateCoreStats with containsID := false }
    else none
  FHT8VCreateValveSetCmdFrameHT_r env m bptr doHeader command TRVPercentOpen trailer

/-- Returns true if the valve is to be controlled by this unit: false if the house code
parts are set to invalid or uninitialised values (>99). -/
def localFHT8VTRVEnabled (env : Externals) : Bool :=
  decide (env.FHT8VGetHC1 ≤ 99) && decide (env.FHT8VGetHC2 ≤ 99)

/-- Create FHT8V TRV outgoing valve-setting command frame in the shared TX buffer
`FHT8VTXCommandArea`, which is the memory passed in, addressed from 0.  The C code leaves
`command.command` and `command.extension` unset before the call that sets them; they are
0 here. -/
def FHT8VCreateValveSetCmdFrame (env : Externals) (FHT8VTXCommandArea : Mem) : Mem :=
  if !localFHT8VTRVEnabled env then
    -- Ensure that buffer is terminated, though empty.
    poke FHT8VTXCommandArea 0 0xff
  else
    let command : fht8v_msg_t :=
      { hc1 := env.FHT8VGetHC1, hc2 := env.FHT8VGetHC2, command := 0, extension := 0 }
    (FHT8VCreateValveSetCmdFrame_r env FHT8VTXCommandArea 0 command
      env.NominalRadValve_get).mem

/-! ## The wire format in the words of the specification -/

/-- Line code on physical bits: a logical 0 is sent as 1100 and a logical 1 as 111000. -/
def lineCode : List Bool → List Bool
  | [] => []
  | false :: bs => [true, true, false, false] ++ lineCode bs
  | true :: bs => [true, true, true, false, false, false] ++ lineCode bs

/-- The eight bits of a byte, most significant first. -/
def byteBitsMSB (b : Nat) : List Bool :=
  [7, 6, 5, 4, 3, 2, 1, 0].map (fun i => decide (b / 2 ^ i % 2 = 1))

/-- Number of set bits among the eight bits of a byte. -/
def popCount8 (b : Nat) : Nat := (byteBitsMSB b).count true

/-- Even-parity bit of a byte: 1 if the byte has an odd number of set bits, else 0. -/
def evenParityBit (b : Nat) : Bool := decide (popCount8 b % 2 = 1)

/-- A data byte as sent: its eight bits most significant first, then its parity bit. -/
def byteWithParity (b : Nat) : List Bool := byteBitsMSB b ++ [evenParityBit b]

/-- Checksum of a command with the address field disabled. -/
def frameChecksum (c : fht8v_msg_t) : Nat :=
  (0x0c + c.hc1 + c.hc2 + c.command + c.extension) % 256

/-- Logical bits of the frame body carrying checksum byte `ck`: leading 1, then hc1, hc2,
the zero address byte, command, extension and `ck`, each with parity, then the trailing
0. -/
def bodyBits (c : fht8v_msg_t) (ck : Nat) : List Bool :=
  [true] ++ byteWithParity c.hc1 ++ byteWithParity c.hc2 ++ byteWithParity 0 ++
    byteWithParity c.command ++ byteWithParity c.extension ++ byteWithParity ck ++ [false]

/-- Logical bits of a whole frame for a command: twelve 0 bits of preamble, the body with
the right checksum, and the two extra 0 bits that flush the encoder. -/
def frameBits (c : fht8v_msg_t) : List Bool :=
  List.replicate 12 false ++ bodyBits c (frameChecksum c) ++ [false, false]

/-- Whole bytes of an MSB-first packing of physical bits; a last group of fewer than
eight bits is dropped. -/
def packMSB : List Bool → List Nat
  | b7 :: b6 :: b5 :: b4 :: b3 :: b2 :: b1 :: b0 :: rest =>
    (128 * b7.toNat + 64 * b6.toNat + 32 * b5.toNat + 16 * b4.toNat + 8 * b3.toNat +
      4 * b2.toNat + 2 * b1.toNat + b0.toNat) :: packMSB rest
  | _ => []

/-- Integer nearest to `n / d`, halves rounded up. -/
def roundDiv (n d : Nat) : Nat := (2 * n + d) / (2 * d)

/-! ## Bit pairs: the common view of encoder and decoder -/

/-- Line code of one logical bit as a list of bit pairs (each pair a number below 4). -/
def encBit : Bool → List Nat
  | false => [3, 0]
  | true => [3, 2, 0]

/-- Line code of a list of logical bits as a list of bit pairs. -/
def encBits : List Bool → List Nat
  | [] => []
  | b :: bs => encBit b ++ encBits bs

/-- Whole bytes of a list of bit pairs, four pairs to the byte, first pair on top. -/
def packPairs : List Nat → List Nat
  | a :: b :: c :: d :: rest => (64 * a + 16 * b + 4 * c + d) :: packPairs rest
  | _ => []

/-- Pairs left over after the whole bytes of a list of bit pairs. -/
def leftPairs : List Nat → List Nat
  | _ :: _ :: _ :: _ :: rest => leftPairs rest
  | l => l

/-- The four bit pairs of a byte, first pair on top. -/
def unpackByte (x : Nat) : List Nat := [x / 64 % 4, x / 16 % 4, x / 4 % 4, x % 4]

/-- The bit pairs of a list of bytes. -/
def unpackBytes : List Nat → List Nat
  | [] => []
  | x :: xs => unpackByte x ++ unpackBytes xs

/-- The two bits of a bit pair. -/
def pairBits : List Nat → List Bool
  | [] => []
  | p :: ps => decide (p / 2 % 2 = 1) :: decide (p % 2 = 1) :: pairBits ps

/-- The byte under construction by the encoder holds the given leftover pairs: the
pairs on top and the count of free pairs less one in the two low bits, 0xff when
empty. -/
def PartialByte (x : Nat) : List Nat → Prop
  | [] => x = 0xff
  | [a] => x / 64 = a ∧ x % 4 = 2 ∧ x < 256
  | [a, b] => x / 16 = 4 * a + b ∧ x % 4 = 1 ∧ x < 256
  | [a, b, c] => x / 4 = 16 * a + 4 * b + c ∧ x % 4 = 0 ∧ x < 256
  | _ => False

/-- Encoder invariant: from address `b0` the memory holds the whole bytes of the pairs
`ps`, `bptr` is the address after them, and the byte at `bptr` holds the leftover. -/
def EncInv (b0 : Nat) (m : Mem) (bptr : Nat) (ps : List Nat) : Prop :=
  bptr = b0 + (packPairs ps).length ∧
  memList m b0 (packPairs ps).length = packPairs ps ∧
  PartialByte (m bptr) (leftPairs ps)

/-- The bit pair at pair index `q` of memory (four pairs per byte, first pair on top). -/
def pairAt (m : Mem) (q : Nat) : Nat := m (q / 4) / 4 ^ (3 - q % 4) % 4

/-- The `n` bit pairs of memory from pair index `q`. -/
def pairsFrom (m : Mem) (q : Nat) : Nat → List Nat
  | 0 => []
  | n + 1 => pairAt m q :: pairsFrom m (q + 1) n

/-- Index within the byte of the pair selected by a decoder mask. -/
def maskIndex (mask : Nat) : Nat :=
  if mask = 0x30 then 1 else if mask = 0xc then 2 else if mask = 3 then 3 else 0

/-- The decoder mask is one of the values the decoder produces. -/
def MaskOK (mask : Nat) : Prop :=
  mask = 0 ∨ mask = 0xc0 ∨ mask = 0x30 ∨ mask = 0xc ∨ mask = 3

/-- Pair index of the decoder cursor. -/
def statePos (st : decode_state_t) : Nat := 4 * st.bitStream + maskIndex st.mask

/-- A live decoder state with last byte `l` has exactly the pairs `L` left to read. -/
def Reads (m : Mem) (l : Nat) (st : decode_state_t) (L : List Nat) : Prop :=
  st.lastByte = l ∧ st.failed = false ∧ MaskOK st.mask ∧
  L = pairsFrom m (statePos st) (4 * (l + 1) - statePos st)

/-- Reading one logical bit from a list of bit pairs. -/
def absReadBit : List Nat → Option (Nat × List Nat)
  | 3 :: 0 :: rest => some (0, rest)
  | 3 :: 2 :: 0 :: rest => some (1, rest)
  | _ => none

/-- A failed state is failed; a live state has the pairs `L` left to read. -/
def Sim (m : Mem) (l : Nat) (st : decode_state_t) : Option (List Nat) → Prop
  | none => st.failed = true
  | some L => Reads m l st L ∧ statePos st + L.length = 4 * (l + 1)

/-- The function `readOneBit` on lists of pairs: `none` is the failed state, on which
a read returns 0 and stays failed. -/
def absStep (o : Option (List Nat)) : Nat × Option (List Nat) :=
  match o with
  | none => (0, none)
  | some L =>
    match absReadBit L with
    | some (b, L2) => (b, some L2)
    | none => (0, none)

/-- State after `n` successive reads of one bit. -/
def absRun : Nat → Option (List Nat) → Option (List Nat)
  | 0, o => o
  | n + 1, o => absRun n (absStep o).2

/-- The function `readOneByteWithParity_step` on lists of pairs. -/
def absByteStep (acc : Option (List Nat) × Nat × Nat) : Option (List Nat) × Nat × Nat :=
  let r := absStep acc.1
  (r.2, acc.2.1 ^^^ r.1, ((acc.2.2 <<< 1) ||| r.1) % 256)

/-- The function `readOneByteWithParity` on lists of pairs. -/
def absByte (o : Option (List Nat)) : Nat × Option (List Nat) :=
  match o with
  | none => (0, none)
  | some L =>
    let r := absStep (some L)
    let acc := (List.range 7).foldl (fun acc _ => absByteStep acc) (r.2, r.1, r.1)
    let r := absStep acc.1
    (acc.2.2, if acc.2.1 ≠ r.1 then none else r.2)

/-- The function `findLeadingOne` on lists of pairs. -/
def absFindLeadingOne : Nat → Option (List Nat) → Option (Option (List Nat))
  | 0, _ => none
  | fuel + 1, o =>
    let r := absStep o
    if 0 = r.1 then
      if r.2 = none then some none else absFindLeadingOne fuel r.2
    else some r.2

/-- The part of `FHT8VDecodeBitStream` after the leading 1, on lists of pairs; a
successful decode gives the pairs left after the trailing 0 and the command. -/
def absBody (o : Option (List Nat)) : Option (List Nat × fht8v_msg_t) :=
  let r := absByte o
  let hc1 := r.1
  let r := absByte r.2
  let hc2 := r.1
  let r := absByte r.2
  let address := r.1
  let r := absByte r.2
  let command := r.1
  let r := absByte r.2
  let extension := r.1
  let r := absByte r.2
  let checksumRead := r.1
  let o := r.2
  if o = none then none else
  let checksum := (0xc + hc1 + hc2 + address + command + extension) % 256
  if checksum ≠ checksumRead then none else
  let r := absStep o
  if 0 ≠ r.1 then none else
  match r.2 with
  | none => none
  | some L => some (L, { hc1 := hc1, hc2 := hc2, command := command, extension := extension })

/-- The function `FHT8VDecodeBitStream` on lists of pairs. -/
def absDecode (fuel : Nat) (L : List Nat) : Option (Option (List Nat × fht8v_msg_t)) :=
  match absFindLeadingOne fuel (some L) with
  | none => none
  | some none => some none
  | some (some L) => some (absBody (some L))

/-- Address returned by a decode up to last byte `l` that leaves the pairs `L`. -/
def endAddress (l : Nat) (L : List Nat) : Nat := (4 * (l + 1) - L.length) / 4 + 1

/-! ## Test frames -/

/-- Append a list of logical bits with `_FHT8VCreate200usAppendEncBit`. -/
def appendEncBits (s : Mem × Nat) (bs : List Bool) : Mem × Nat :=
  bs.foldl (fun s b => _FHT8VCreate200usAppendEncBit s.1 s.2 b) s

/-- The frame for a command built with the steps of `FHT8VCreate200usBitStreamBptr`, but
carrying the byte `ck` in the checksum position. -/
def frameWithChecksum (m : Mem) (bptr : Nat) (command : fht8v_msg_t) (ck : Nat) :
    Mem × Nat :=
  let m := poke m bptr 0xcc
  let m := poke m (bptr + 1) 0xcc
  let m := poke m (bptr + 2) 0xcc
  let m := poke m (bptr + 3) 0xcc
  let m := poke m (bptr + 4) 0xcc
  let m := poke m (bptr + 5) 0xcc
  let m := poke m (bptr + 6) 0xff
  let s := _FHT8VCreate200usAppendEncBit m (bptr + 6) true
  let s := _FHT8VCreate200usAppendByteEP s.1 s.2 command.hc1
  let s := _FHT8VCreate200usAppendByteEP s.1 s.2 command.hc2
  let s := _FHT8VCreate200usAppendByteEP s.1 s.2 0
  let s := _FHT8VCreate200usAppendByteEP s.1 s.2 command.command
  let s := _FHT8VCreate200usAppendByteEP s.1 s.2 command.extension
  let s := _FHT8VCreate200usAppendByteEP s.1 s.2 ck
  let s := _FHT8VCreate200usAppendEncBit s.1 s.2 false
  let s := _FHT8VCreate200usAppendEncBit s.1 s.2 false
  let s := _FHT8VCreate200usAppendEncBit s.1 s.2 false
  (poke s.1 s.2 0xff, s.2)

/-- Memory with physical bit `t` of the stream that starts at `bptr` inverted; bit 0 is
the most significant bit of the first byte. -/
def flipBit (m : Mem) (bptr t : Nat) : Mem :=
  poke m (bptr + t / 8) (m (bptr + t / 8) ^^^ (0x80 >>> (t % 8)))

/-- Number of physical bits of the encoded stream from its first preamble bit up to and
including the last bit of the encoded trailing 0. -/
def frameBitLength (c : fht8v_msg_t) : Nat :=
  (lineCode (List.replicate 12 false ++ bodyBits c (frameChecksum c))).length

/-- Memory after the preamble bytes and the empty byte that follows them are written. -/
def preambleMem (m : Mem) (bptr : Nat) : Mem :=
  poke (poke (poke (poke (poke (poke (poke m bptr 0xcc) (bptr + 1) 0xcc) (bptr + 2) 0xcc)
    (bptr + 3) 0xcc) (bptr + 4) 0xcc) (bptr + 5) 0xcc) (bptr + 6) 0xff

/-- The update `result = (result << 1) | bit` on a `uint8_t` result. -/
def shiftIn (acc bit : Nat) : Nat := ((acc <<< 1) ||| bit) % 256

/-! ## Assumptions on the stats codec, and a sample environment -/

/-- What the frame builder needs from the stats codec of `Messaging.h` for its output to
be a function of its inputs: both routines leave the bytes before the pointer they are
given alone; what they write from that pointer on, and whether the full encoding
succeeds, does not depend on what the buffer held; a failed full encoding leaves the byte
at the pointer alone. -/
structure StatsCodecOK (env : Externals) : Prop where
  minimal_before : ∀ (m : Mem) (p x i : Nat), i < p →
    env.writeTrailingMinimalStatsPayload m p x i = m i
  minimal_bytes : ∀ (m1 m2 : Mem) (p x i : Nat), p ≤ i → i < p + 3 →
    env.writeTrailingMinimalStatsPayload m1 p x i =
      env.writeTrailingMinimalStatsPayload m2 p x i
  full_before : ∀ (m : Mem) (p n lvl : Nat) (s : Bool) (t : FullStatsMessageCore_t) (i : Nat),
    i < p → (env.encodeFullStatsMessageCore m p n lvl s t).1 i = m i
  full_tail : ∀ (m1 m2 : Mem) (p n lvl : Nat) (s : Bool) (t : FullStatsMessageCore_t),
    (env.encodeFullStatsMessageCore m1 p n lvl s t).2 =
      (env.encodeFullStatsMessageCore m2 p n lvl s t).2
  full_bytes : ∀ (m1 m2 : Mem) (p n lvl : Nat) (s : Bool) (t : FullStatsMessageCore_t)
    (tail i : Nat), (env.encodeFullStatsMessageCore m1 p n lvl s t).2 = some tail →
    p ≤ i → i ≤ tail →
    (env.encodeFullStatsMessageCore m1 p n lvl s t).1 i =
      (env.encodeFullStatsMessageCore m2 p n lvl s t).1 i
  full_failed : ∀ (m : Mem) (p n lvl : Nat) (s : Bool) (t : FullStatsMessageCore_t),
    (env.encodeFullStatsMessageCore m p n lvl s t).2 = none →
    (env.encodeFullStatsMessageCore m p n lvl s t).1 p = m p

/-- A sample environment: a four-byte 0xaa pre-preamble, a minimal-stats writer that
stores three fixed-format bytes, a full-stats encoder that always fails, stats reporting
as given, really-open threshold 10%, house code 13/73 and the valve 50% open. -/
def sampleExternals (stats : Bool) : Externals where
  RFM22_PREAMBLE_BYTE := 0xaa
  RFM22_PREAMBLE_BYTES := 4
  FHT8V_200US_BIT_STREAM_FRAME_BUF_SIZE := 64
  writeTrailingMinimalStatsPayload := fun m p x =>
    poke (poke (poke m p 0x40) (p + 1) (x % 256)) (p + 2) 0x55
  encodeFullStatsMessageCore := fun m _ _ _ _ _ => (m, none)
  getStatsTXLevel := 0
  enableTrailingMinimalStatsPayload := stats
  getMinValvePcReallyOpen := 10
  populateCoreStats :=
    { containsID := true, containsTempAndPower := true, containsAmbL := false,
      id0 := 13, id1 := 73, tempAndPower := 0x123 }
  FHT8VGetHC1 := 13
  FHT8VGetHC2 := 73
  NominalRadValve_get := 50

/-- Address of the terminator of the frame that `FHT8VCreateValveSetCmdFrame` leaves in
the shared TX buffer: 0 when no valve is set up, else the pointer returned by
`FHT8VCreateValveSetCmdFrame_r`. -/
def txFrameEnd (env : Externals) (FHT8VTXCommandArea : Mem) : Nat :=
  if !localFHT8VTRVEnabled env then 0
  else
    (FHT8VCreateValveSetCmdFrame_r env FHT8VTXCommandArea 0
      { hc1 := env.FHT8VGetHC1, hc2 := env.FHT8VGetHC2, command := 0, extension := 0 }
      env.NominalRadValve_get).bptr

/-- Pairs that can follow a complete symbol: none at all, or a pair 11. -/
def HeadOK (R : List Nat) : Prop := R = [] ∨ ∃ X, R = 3 :: X

/-! ## Sync and transmission scheduler (`FHT8V_Wireless_Rad_Valve.cpp`, lines 385-756)

The file-scope variables of the scheduler are the fields of `fht8v_sync_t`; the radio is
the list of transmissions made so far.  The build is the one without `IGNORE_FHT_SYNC`
and without `DEBUG`.  Sleeping until the transmit slot, serial output, and in a build with
`ENABLE_BOILER_HUB` the polls of the receiver and the stopping and restarting of
eavesdropping around a transmission are left out: they change none of the fields below. -/

/-- Conversion of a C `int` value to `uint8_t`. -/
def toUInt8 (i : Int) : Nat := (i % 256).toNat

/-- Max allowed value of halfSecondCount: 3 with `TWO_S_TICK_RTC_SUPPORT`, else 1. -/
def MAX_HSC (TWO_S_TICK_RTC_SUPPORT : Bool) : Nat := if TWO_S_TICK_RTC_SUPPORT then 3 else 1

/-- One transmission by the radio: the buffer it was given, which it sends up to the first
0xff, and whether it sent it twice. -/
structure radio_tx_t where
  frame : Mem
  doubleTX : Bool

/-- The scheduler's variables and the transmissions made so far, oldest first. -/
structure fht8v_sync_t where
  syncedWithFHT8V : Bool
  FHT8V_isValveOpen : Bool
  syncStateFHT8V : Nat
  halfSecondsToNextFHT8VTX : Nat
  halfSecondCount : Nat
  FHT8VTXCommandArea : Mem
  radio : List radio_tx_t

/-- True if the FHT8V valve is believed to be open under instruction from this system;
false if not in sync. -/
def getFHT8V_isValveOpen (s : fht8v_sync_t) : Bool :=
  s.syncedWithFHT8V && s.FHT8V_isValveOpen

/-- Call just after TX of valve-setting command which is assumed to reflect current
TRVPercentOpen state. -/
def setFHT8V_isValveOpen (env : Externals) (s : fht8v_sync_t) : fht8v_sync_t :=
  { s with FHT8V_isValveOpen :=
      decide (env.NominalRadValve_get ≥ env.getMinValvePcReallyOpen) }

/-- Call to reset comms with FHT8V valve and force resync. -/
def FHT8VSyncAndTXReset (s : fht8v_sync_t) : fht8v_sync_t :=
  { s with syncedWithFHT8V := false, syncStateFHT8V := 0, halfSecondsToNextFHT8VTX := 0,
           FHT8V_isValveOpen := false }

/-- Sends the command bitstream in the shared TX buffer up until the terminating 0xff;
returns immediately without transmitting if the buffer starts with 0xff (is empty). -/
def FHT8VTXFHTQueueAndSendCmd (s : fht8v_sync_t) (doubleTX : Bool) : fht8v_sync_t :=
  if 0xff = s.FHT8VTXCommandArea 0 then s
  else { s with radio := s.radio ++ [{ frame := s.FHT8VTXCommandArea, doubleTX := doubleTX }] }

/-- Send current (assumed valve-setting) command and adjust FHT8V_isValveOpen as
appropriate. -/
def valveSettingTX (env : Externals) (s : fht8v_sync_t) (allowDoubleTX : Bool) : fht8v_sync_t :=
  -- Transmit correct valve-setting command that should already be in the buffer...
  let s := FHT8VTXFHTQueueAndSendCmd s allowDoubleTX
  -- Indicate state that valve should now actually be in (or physically moving to)...
  setFHT8V_isValveOpen env s

/-- Compute interval (in half seconds) between TXes for FHT8V given house code 2. -/
def FHT8VTXGapHalfSeconds (hc2 : Nat) : Nat := toUInt8 (((hc2 &&& 7 : Nat) : Int) + 230)

/-- The two-argument `FHT8VTXGapHalfSeconds`: the interval given the current half second
count in the minor cycle, assuming all remaining tick calls to _Next will be foregone in
this minor cycle. -/
def FHT8VTXGapHalfSeconds_inCycle (TWO_S_TICK_RTC_SUPPORT : Bool) (hc2 : Nat)
    (halfSecondCountInMinorCycle : Nat) : Nat :=
  toUInt8 ((FHT8VTXGapHalfSeconds hc2 : Int) -
    ((MAX_HSC TWO_S_TICK_RTC_SUPPORT : Int) - (halfSecondCountInMinorCycle : Int)))

/-- Run the algorithm to get in sync with the receiver.  Returns the updated variables
and the C result: true iff another call of FHT8VPollSyncAndTX_Next() should be made. -/
def doSync (TWO_S_TICK_RTC_SUPPORT : Bool) (env : Externals) (allowDoubleTX : Bool)
    (s : fht8v_sync_t) : fht8v_sync_t × Bool :=
  -- Do not attempt sync at all if local FHT8V valve disabled.
  if !localFHT8VTRVEnabled env then ({ s with syncedWithFHT8V := false }, false) else
  -- Starting sync process.
  let s : fht8v_sync_t := if 0 = s.syncStateFHT8V then { s with syncStateFHT8V := 241 } else s
  if s.syncStateFHT8V ≥ 2 then
    -- Generate and send sync (command 12) message immediately for odd-numbered ticks.
    let s : fht8v_sync_t :=
      if s.syncStateFHT8V &&& 1 ≠ 0 then
        let command : fht8v_msg_t :=
          { hc1 := env.FHT8VGetHC1, hc2 := env.FHT8VGetHC2, command := 0x2c,
            extension := s.syncStateFHT8V }
        let s : fht8v_sync_t := { s with FHT8VTXCommandArea :=
          (FHT8VCreate200usBitStreamBptr s.FHT8VTXCommandArea 0 command).1 }
        FHT8VTXFHTQueueAndSendCmd s allowDoubleTX
      else s
    -- After penultimate sync TX set up time to sending of final sync command.
    let s : fht8v_sync_t := { s with syncStateFHT8V := toUInt8 ((s.syncStateFHT8V : Int) - 1) }
    if 1 = s.syncStateFHT8V then
      let s : fht8v_sync_t := { s with halfSecondsToNextFHT8VTX :=
        (toUInt8 (((env.FHT8VGetHC2 &&& 7 : Nat) : Int) + 8)) }
      let s : fht8v_sync_t := { s with halfSecondsToNextFHT8VTX :=
        (toUInt8 ((s.halfSecondsToNextFHT8VTX : Int) -
          ((MAX_HSC TWO_S_TICK_RTC_SUPPORT : Int) - (s.halfSecondCount : Int)))) }
      (s, false)
    else (s, true)
  else
    -- syncStateFHT8V == 1 so waiting to send sync final (0) command...
    let s : fht8v_sync_t := { s with halfSecondsToNextFHT8VTX :=
      (toUInt8 ((s.halfSecondsToNextFHT8VTX : Int) - 1)) }
    if s.halfSecondsToNextFHT8VTX = 0 then
      -- Send sync final command.
      let command : fht8v_msg_t :=
        { hc1 := env.FHT8VGetHC1, hc2 := env.FHT8VGetHC2, command := 0x20, extension := 0 }
      let s : fht8v_sync_t := { s with FHT8V_isValveOpen := false }
      let s : fht8v_sync_t := { s with FHT8VTXCommandArea :=
        (FHT8VCreate200usBitStreamBptr s.FHT8VTXCommandArea 0 command).1 }
      let s := FHT8VTXFHTQueueAndSendCmd s allowDoubleTX
      -- Assume now in sync...
      let s : fht8v_sync_t := { s with syncedWithFHT8V := true }
      -- Fill command buffer immediately with valve-setting command.
      let s : fht8v_sync_t := { s with FHT8VTXCommandArea :=
        (FHT8VCreateValveSetCmdFrame env s.FHT8VTXCommandArea) }
      -- Set up correct delay to next TX; no more this minor cycle...
      let s : fht8v_sync_t := { s with halfSecondsToNextFHT8VTX :=
        (FHT8VTXGapHalfSeconds_inCycle TWO_S_TICK_RTC_SUPPORT command.hc2
          s.halfSecondCount) }
      (s, false)
    else
      -- For simplicity, insist on being called every half-second during sync.
      (s, true)

/-- Call at start of minor cycle to manage initial sync and subsequent comms with FHT8V
valve.  Returns the updated variables and the C result: true iff
FHT8VPollSyncAndTX_Next() is to be called in this minor cycle. -/
def FHT8VPollSyncAndTX_First (TWO_S_TICK_RTC_SUPPORT : Bool) (env : Externals)
    (allowDoubleTX : Bool) (s : fht8v_sync_t) : fht8v_sync_t × Bool :=
  let s : fht8v_sync_t := { s with halfSecondCount := 0 }
  -- Always make maximum effort to be heard by valve when syncing (ie do double TX).
  if !s.syncedWithFHT8V then doSync TWO_S_TICK_RTC_SUPPORT env true s else
  -- If no TX required in this minor cycle then can return false quickly.
  if s.halfSecondsToNextFHT8VTX > MAX_HSC TWO_S_TICK_RTC_SUPPORT + 1 then
    ({ s with halfSecondsToNextFHT8VTX :=
        (toUInt8 ((s.halfSecondsToNextFHT8VTX : Int) -
          ((MAX_HSC TWO_S_TICK_RTC_SUPPORT : Int) + 1))) }, false)
  else
  -- TX is due this (first) slot so do it (and no more will be needed this minor cycle).
  let s : fht8v_sync_t := { s with halfSecondsToNextFHT8VTX :=
    (toUInt8 ((s.halfSecondsToNextFHT8VTX : Int) - 1)) }
  if 0 = s.halfSecondsToNextFHT8VTX then
    let s := valveSettingTX env s allowDoubleTX
    -- Set up correct delay to next TX.
    ({ s with halfSecondsToNextFHT8VTX :=
        (FHT8VTXGapHalfSeconds_inCycle TWO_S_TICK_RTC_SUPPORT env.FHT8VGetHC2 0) }, false)
  else
    -- Will need to TX in a following slot in this minor cycle...
    (s, true)

/-- If FHT8VPollSyncAndTX_First() returned true then call this each 0.5s from the start
of the cycle.  Returns the updated variables and the C result: false iff no further TX
slots will be needed on this minor cycle. -/
def FHT8VPollSyncAndTX_Next (TWO_S_TICK_RTC_SUPPORT : Bool) (env : Externals)
    (allowDoubleTX : Bool) (s : fht8v_sync_t) : fht8v_sync_t × Bool :=
  let s : fht8v_sync_t := { s with halfSecondCount := toUInt8 ((s.halfSecondCount : Int) + 1) }
  -- Always make maximum effort to be heard by valve when syncing (ie do double TX).
  if !s.syncedWithFHT8V then doSync TWO_S_TICK_RTC_SUPPORT env true s else
  -- TX is due this slot so do it (and no more will be needed this minor cycle).
  let s : fht8v_sync_t := { s with halfSecondsToNextFHT8VTX :=
    (toUInt8 ((s.halfSecondsToNextFHT8VTX : Int) - 1)) }
  if 0 = s.halfSecondsToNextFHT8VTX then
    let s := valveSettingTX env s allowDoubleTX
    -- Set up correct delay to next TX.
    ({ s with halfSecondsToNextFHT8VTX :=
        (FHT8VTXGapHalfSeconds_inCycle TWO_S_TICK_RTC_SUPPORT env.FHT8VGetHC2
          s.halfSecondCount) }, false)
  else
    -- Will need to TX in a following slot in this minor cycle...
    (s, true)

/-! ## Callers of the scheduler -/

/-- The power-on values of the scheduler's variables, with the given buffer contents and
no transmission made. -/
def resetState (area : Mem) : fht8v_sync_t :=
  { syncedWithFHT8V := false, FHT8V_isValveOpen := false, syncStateFHT8V := 0,
    halfSecondsToNextFHT8VTX := 0, halfSecondCount := 0, FHT8VTXCommandArea := area,
    radio := [] }

/-- One poll of the scheduler: `p.1` picks FHT8VPollSyncAndTX_First (true) or _Next
(false), `p.2` is the `allowDoubleTX` argument. -/
def pollStep (two : Bool) (env : Externals) (s : fht8v_sync_t) (p : Bool × Bool) :
    fht8v_sync_t × Bool :=
  if p.1 then FHT8VPollSyncAndTX_First two env p.2 s
  else FHT8VPollSyncAndTX_Next two env p.2 s

/-- The variables after a sequence of polls. -/
def runPolls (two : Bool) (env : Externals) (s : fht8v_sync_t) (ps : List (Bool × Bool)) :
    fht8v_sync_t :=
  ps.foldl (fun s p => (pollStep two env s p).1) s

/-- The calls of _Next in one minor cycle: at most `n` of them, each made only while the
previous poll returned true. -/
def nextPolls (two : Bool) (env : Externals) (allowDoubleTX : Bool) :
    Nat → fht8v_sync_t × Bool → fht8v_sync_t × Bool
  | 0, r => r
  | n + 1, r =>
    if r.2 then nextPolls two env allowDoubleTX n
      (FHT8VPollSyncAndTX_Next two env allowDoubleTX r.1)
    else r

/-- One minor cycle of the caller: _First at the cycle start, then _Next at each later
half-second slot while the previous poll returned true, at most MAX_HSC times. -/
def pollCycle (two : Bool) (env : Externals) (allowDoubleTX : Bool) (s : fht8v_sync_t) :
    fht8v_sync_t :=
  (nextPolls two env allowDoubleTX (MAX_HSC two)
    (FHT8VPollSyncAndTX_First two env allowDoubleTX s)).1

/-- Run minor cycles until one transmits, at most `fuel` of them.  The result is the
number of half-second slots from the start of the first cycle run to the slot of the
transmission, with the variables after that cycle. -/
def untilTX (two : Bool) (env : Externals) (allowDoubleTX : Bool) :
    Nat → fht8v_sync_t → Option (Nat × fht8v_sync_t)
  | 0, _ => none
  | fuel + 1, s =>
    let r := pollCycle two env allowDoubleTX s
    if r.radio.length ≠ s.radio.length then some (r.halfSecondCount, r)
    else
      match untilTX two env allowDoubleTX fuel r with
      | none => none
      | some (t, r2) => some (t + (MAX_HSC two + 1), r2)

/-- The sample environment with the house code erased (both parts 255). -/
def sampleUnconfigured : Externals :=
  { sampleExternals false with FHT8VGetHC1 := 255, FHT8VGetHC2 := 255 }

/-- A scheduler state in sync with the next transmission due at the next poll: belief
false, countdown 1, nothing transmitted so far and the given buffer contents. -/
def sampleDue (area : Mem) : fht8v_sync_t :=
  { syncedWithFHT8V := true, FHT8V_isValveOpen := false, syncStateFHT8V := 1,
    halfSecondsToNextFHT8VTX := 1, halfSecondCount := 0, FHT8VTXCommandArea := area,
    radio := [] }

/-- A scheduler state just after a transmission in slot 0 with the sample house code
(`hc2 = 73`, gap 231): in sync, countdown `231 - 3`, the buffer holding 0xcc bytes. -/
def sampleSent : fht8v_sync_t :=
  { syncedWithFHT8V := true, FHT8V_isValveOpen := false, syncStateFHT8V := 1,
    halfSecondsToNextFHT8VTX := 228, halfSecondCount := 0,
    FHT8VTXCommandArea := fun _ => 0xcc, radio := [] }

/-- A scheduler state out of sync with the sync counter at 2: the last sync tick is the
next poll. -/
def sampleLastTick : fht8v_sync_t :=
  { syncedWithFHT8V := false, FHT8V_isValveOpen := false, syncStateFHT8V := 2,
    halfSecondsToNextFHT8VTX := 0, halfSecondCount := 1,
    FHT8VTXCommandArea := fun _ => 0xcc, radio := [] }

/-! ## Hub-mode receiver (`FHT8V_Wireless_Rad_Valve.cpp`, lines 785-854 and 1061-1334)

The file-scope variables of the receiver are the fields of `fht8v_hub_t`.  Recording of
stats (`recordJSONStats`, `recordCoreStats`, `recordMinimalStats`), gathering of entropy
(`seedRNG8`, `addEntropyToPool`) and `_SetupRFM22ToEavesdropOnFHT8V`, which only restarts
the radio's receiver, are left out: they change none of these variables. -/

/-- Generic error in FHT8V reception. -/
def FHT8VRXErr_GENERIC : Nat := 1

/-- Bad preamble to primary FHT8V frame. -/
def FHT8VRXErr_BAD_PREAMBLE : Nat := 2

/-- Primary FHT8V frame corrupt. -/
def FHT8VRXErr_BAD_RX_FRAME : Nat := 3

/-- CRC or similar failure in FHT8V piggyback frame. -/
def FHT8VRXErr_BAD_RX_SUBFRAME : Nat := 4

/-- CRC or similar failure in stand-alone stats frame on FHT8V carrier. -/
def FHT8VRXErr_BAD_RX_STATSFRAME : Nat := 5

/-- What the receiver takes from outside this file: whether `PIN_RFM_NIRQ` and
`SUPPORT_TEMP_TX` are defined, the size of the receive buffer, constants and routines of
`Messaging.h`, and the house code filter `FHT8VHubAcceptedHouseCode`, which a build may
replace (the default at the end of the file accepts every house code).
`adjustJSONMsgForRXAndCheckCRC` works on the buffer in place, so it takes the memory, the
address and the length and returns the updated memory with its result;
`decodeFullStatsMessageCore` returns `none` for NULL, else the pointer and the content. -/
structure HubExternals where
  PIN_RFM_NIRQ : Bool
  SUPPORT_TEMP_TX : Bool
  FHT8V_MAX_FRAME_SIZE : Nat
  MSG_JSON_LEADING_CHAR : Nat
  MESSAGING_FULL_STATS_FLAGS_HEADER_MSBS : Nat
  MESSAGING_FULL_STATS_FLAGS_HEADER_MASK : Nat
  MESSAGING_TRAILING_MINIMAL_STATS_HEADER_MSBS : Nat
  MESSAGING_TRAILING_MINIMAL_STATS_HEADER_MASK : Nat
  FullStatsMessageCore_MAX_BYTES_ON_WIRE : Nat
  MESSAGING_TRAILING_MINIMAL_STATS_PAYLOAD_BYTES : Nat
  stTXalwaysAll : Nat
  adjustJSONMsgForRXAndCheckCRC : Mem → Nat → Nat → Mem × Int
  decodeFullStatsMessageCore : Mem → Nat → Nat → Nat → Bool →
    Option (Nat × FullStatsMessageCore_t)
  verifyHeaderAndCRCForTrailingMinimalStatsPayload : Mem → Nat → Bool
  FHT8VHubAcceptedHouseCode : Nat → Nat → Bool

/-- What the radio presents at one poll: the level of the nIRQ line as read by
`fastDigitalRead(PIN_RFM_NIRQ)` (LOW is 0), the two status registers as returned by
`RFM22ReadStatusBoth()`, and `RFM22RXFIFO`, which reads the received frame into the
buffer given by memory, address and size. -/
structure rfm22_rx_t where
  nIRQ : Nat
  status : Nat
  RFM22RXFIFO : Mem → Nat → Nat → Mem

/-- The receiver's variables: `lastCallForHeatHC` is a `uint16_t`, all ones if no call
for heat is held; the receive buffer `FHT8VRXHubArea` is addressed from 0. -/
structure fht8v_hub_t where
  eavesdropping : Bool
  lastCallForHeatHC : Nat
  lastRXerrno : Nat
  FHT8VRXHubArea : Mem

/-- Records the last (FHT8V) RX error code. -/
def setLastRXErr (st : fht8v_hub_t) (err : Nat) : fht8v_hub_t :=
  { st with lastRXerrno := err }

/-- How the loop over the preamble in `FHT8VCallForHeatPoll` ends: with a `return` of the
poll, or at the position `pos` from which the body of the frame is decoded. -/
inductive preamble_scan_t where
  | returned (r : fht8v_hub_t × Bool)
  | body (pos : Nat)

/-- The loop `for(pos = 0; pos < 6; ++pos)` of `FHT8VCallForHeatPoll` that validates the
preamble (zeros encoded as up to 6x 0xcc bytes); the first argument counts the passes
left, 6 at the start. -/
def preambleScan (henv : HubExternals) (st : fht8v_hub_t) : Nat → Nat → preamble_scan_t
  | 0, pos => .body pos
  | n + 1, pos =>
    let b := st.FHT8VRXHubArea pos
    if 0xcc ≠ b then
      if henv.MSG_JSON_LEADING_CHAR = b then
        let r := henv.adjustJSONMsgForRXAndCheckCRC st.FHT8VRXHubArea pos
          (henv.FHT8V_MAX_FRAME_SIZE - pos)
        let st : fht8v_hub_t := { st with FHT8VRXHubArea := r.1 }
        if r.2 > 0 then
          -- Claim that something has been received.
          .returned (st, true)
        else
          -- Didn't look like valid JSON.
          .returned (setLastRXErr st FHT8VRXErr_BAD_RX_STATSFRAME, false)
      else if henv.MESSAGING_FULL_STATS_FLAGS_HEADER_MSBS =
          (b &&& henv.MESSAGING_FULL_STATS_FLAGS_HEADER_MASK) then
        -- May be binary stats frame, so attempt to decode...
        match henv.decodeFullStatsMessageCore st.FHT8VRXHubArea 0
            (henv.FHT8V_MAX_FRAME_SIZE - pos) henv.stTXalwaysAll false with
        | some _ => .returned (st, true)
        | none => .returned (st, false)
      else if pos < 2 then
        .returned (setLastRXErr st FHT8VRXErr_BAD_PREAMBLE, false)
      else
        -- If enough preamble has been seen, move on to the body.
        .body pos
    else preambleScan henv st n (pos + 1)

/-- The block of `FHT8VCallForHeatPoll` under `#if defined(SUPPORT_TEMP_TX)`: if the
whole FHT8V frame was OK then check if there is a valid stats trailer. -/
def statsTrailerCheck (henv : HubExternals) (st : fht8v_hub_t) (trailer lastByte : Nat)
    (command : fht8v_msg_t) : fht8v_hub_t :=
  let m := st.FHT8VRXHubArea
  -- Check for 'core' stats trailer.
  if trailer + henv.FullStatsMessageCore_MAX_BYTES_ON_WIRE ≤ lastByte ∧
      henv.MESSAGING_FULL_STATS_FLAGS_HEADER_MSBS =
        (m trailer &&& henv.MESSAGING_FULL_STATS_FLAGS_HEADER_MASK) then
    match henv.decodeFullStatsMessageCore m trailer (lastByte - trailer)
        henv.stTXalwaysAll false with
    | some (_, content) =>
      -- If ID is present then make sure it matches that implied by the FHT8V frame.
      let allGood :=
        if content.containsID then
          if content.id0 ≠ command.hc1 ∨ content.id1 ≠ command.hc2 then false else true
        else true
      if allGood then st else setLastRXErr st FHT8VRXErr_BAD_RX_SUBFRAME
    | none => st
  -- Check for minimum stats trailer.
  else if trailer + henv.MESSAGING_TRAILING_MINIMAL_STATS_PAYLOAD_BYTES ≤ lastByte ∧
      henv.MESSAGING_TRAILING_MINIMAL_STATS_HEADER_MSBS =
        (m trailer &&& henv.MESSAGING_TRAILING_MINIMAL_STATS_HEADER_MASK) then
    if henv.verifyHeaderAndCRCForTrailingMinimalStatsPayload m trailer then st
    else
      -- Failed to verify; deduce bad frame if header looks OK.
      if henv.MESSAGING_TRAILING_MINIMAL_STATS_HEADER_MSBS =
          (m trailer &&& henv.MESSAGING_TRAILING_MINIMAL_STATS_HEADER_MASK) then
        setLastRXErr st FHT8VRXErr_BAD_RX_SUBFRAME
      else st
  else st

/-- Polls radio for OpenTRV calls for heat once/if SetupToEavesdropOnFHT8V() is in
effect.  The first argument bounds the passes of the decoder's loop over leading zeros;
the result is `none` when that bound is used up, else the updated variables and the C
result: true if any useful activity/progress was detected by this call. -/
def FHT8VCallForHeatPoll (fuel : Nat) (env : Externals) (henv : HubExternals)
    (rx : rfm22_rx_t) (st : fht8v_hub_t) : Option (fht8v_hub_t × Bool) :=
  -- Do nothing unless already in eavesdropping mode.
  if !st.eavesdropping then some (st, false) else
  -- If nIRQ line is available then abort if it is not active.
  if henv.PIN_RFM_NIRQ && decide (rx.nIRQ ≠ 0) then some (st, false) else
  let status := rx.status
  if status &&& 0x1000 ≠ 0 then
    -- Received frame: clear the buffer and attempt to read the entire frame.
    let buf := memset st.FHT8VRXHubArea 0 0xff henv.FHT8V_MAX_FRAME_SIZE
    let buf := rx.RFM22RXFIFO buf 0 henv.FHT8V_MAX_FRAME_SIZE
    let st : fht8v_hub_t := { st with FHT8VRXHubArea := buf }
    match preambleScan henv st 6 0 with
    | .returned r => some r
    | .body pos =>
      let lastByte := 0 + env.FHT8V_200US_BIT_STREAM_FRAME_BUF_SIZE - 1
      match FHT8VDecodeBitStream fuel st.FHT8VRXHubArea (0 + pos) lastByte with
      | none => none
      | some none => some (setLastRXErr st FHT8VRXErr_BAD_RX_FRAME, false)
      | some (some (trailer, command)) =>
        let st := if henv.SUPPORT_TEMP_TX then
          statsTrailerCheck henv st trailer lastByte command else st
        -- Potentially accept as call for heat only if command is 0x26 (38) and value
        -- open enough as used by OpenTRV to TX.
        let st :=
          if 0x26 = command.command ∧ command.extension ≥ env.getMinValvePcReallyOpen then
            if henv.FHT8VHubAcceptedHouseCode command.hc1 command.hc2 then
              -- Accept if house code not filtered out.
              let compoundHC := ((command.hc1 <<< 8) ||| command.hc2) % 65536
              { st with lastCallForHeatHC := compoundHC }
            else st
          else st
        -- Got a valid frame.
        some (st, true)
  else if status &&& 0x80 ≠ 0 then
    -- Got sync from incoming FHT8V message.
    some (st, true)
  else if status &&& 0x8000 ≠ 0 then
    -- RX FIFO overflow/underflow: give up and restart...
    some (setLastRXErr st FHT8VRXErr_GENERIC, false)
  else some (st, false)

/-- The default `FHT8VHubAcceptedHouseCode` at the end of the file: returns true if the
supplied house code is to be accepted, which is every one (marked TODO in the source). -/
def FHT8VHubAcceptedHouseCode (_hc1 _hc2 : Nat) : Bool := true

/-- A sample receiver environment: no nIRQ pin, stats trailers supported, a 64-byte
buffer, the JSON leading character and the stats header constants, a JSON check and a
full-stats decoder that always fail, a minimal-stats check that always passes, and the
source's default house code filter. -/
def sampleHubExternals : HubExternals where
  PIN_RFM_NIRQ := false
  SUPPORT_TEMP_TX := true
  FHT8V_MAX_FRAME_SIZE := 64
  MSG_JSON_LEADING_CHAR := 0x7b
  MESSAGING_FULL_STATS_FLAGS_HEADER_MSBS := 0x70
  MESSAGING_FULL_STATS_FLAGS_HEADER_MASK := 0xf0
  MESSAGING_TRAILING_MINIMAL_STATS_HEADER_MSBS := 0x40
  MESSAGING_TRAILING_MINIMAL_STATS_HEADER_MASK := 0xe0
  FullStatsMessageCore_MAX_BYTES_ON_WIRE := 8
  MESSAGING_TRAILING_MINIMAL_STATS_PAYLOAD_BYTES := 3
  stTXalwaysAll := 0
  adjustJSONMsgForRXAndCheckCRC := fun m _ _ => (m, -1)
  decodeFullStatsMessageCore := fun _ _ _ _ _ => none
  verifyHeaderAndCRCForTrailingMinimalStatsPayload := fun _ _ => true
  FHT8VHubAcceptedHouseCode := FHT8VHubAcceptedHouseCode

/-- A sample reception: a frame is flagged in the status registers and the FIFO holds the
given bytes, read to the start of the buffer up to its size. -/
def sampleRX (bytes : List Nat) : rfm22_rx_t where
  nIRQ := 0
  status := 0x1000
  RFM22RXFIFO := fun m a n i =>
    if a ≤ i ∧ i < a + n ∧ i - a < bytes.length then bytes.getD (i - a) 0 else m i

/-- A sample receiver state: eavesdropping, no call for heat held, no error and the
buffer zeroed. -/
def sampleHub : fht8v_hub_t :=
  { eavesdropping := true, lastCallForHeatHC := 0xffff, lastRXerrno := 0,
    FHT8VRXHubArea := fun _ => 0 }

/-- The receive buffer once `FHT8VCallForHeatPoll` has cleared it to 0xff and read the
FIFO into it. -/
def receivedFrame (henv : HubExternals) (rx : rfm22_rx_t) (st : fht8v_hub_t) : Mem :=
  rx.RFM22RXFIFO (memset st.FHT8VRXHubArea 0 0xff henv.FHT8V_MAX_FRAME_SIZE) 0
    henv.FHT8V_MAX_FRAME_SIZE

/-- The bytes of the bit stream for house code 13/73, command 0x26 (valve setting) and
extension 127 (half open), terminator included. -/
def sampleValveFrame : List Nat :=
  [204, 204, 204, 204, 204, 204, 227, 51, 51, 142, 51, 142, 51, 140, 206, 51, 56, 227, 51,
   51, 51, 51, 51, 56, 204, 227, 140, 227, 56, 227, 142, 56, 227, 142, 51, 51, 51, 142, 56,
   227, 51, 255]

/-- The bytes of the bit stream for house code 13/73, command 0x2c (sync) and extension
241, terminator included. -/
def sampleSyncFrame : List Nat :=
  [204, 204, 204, 204, 204, 204, 227, 51, 51, 142, 51, 142, 51, 140, 206, 51, 56, 227, 51,
   51, 51, 51, 51, 56, 206, 56, 204, 227, 142, 56, 227, 51, 56, 227, 56, 227, 142, 56, 227,
   142, 51, 255]

/-! ## The call-for-heat mailbox (`FHT8V_Wireless_Rad_Valve.cpp`, lines 1337-1354) -/

/-- Returns true if there is a pending accepted call for heat.  The C function only reads
`lastCallForHeatHC`, so it is a function of the receiver's variables to its result. -/
def FHT8VCallForHeatHeard (st : fht8v_hub_t) : Bool :=
  decide (st.lastCallForHeatHC ≠ 0xffff)

/-- Atomically returns and clears one housecode calling for heat heard since last call,
or ~0 (0xffff) if none.  Returns the updated variables and the C result. -/
def FHT8VCallForHeatHeardGetAndClear (st : fht8v_hub_t) : fht8v_hub_t × Nat :=
  let result := st.lastCallForHeatHC
  ({ st with lastCallForHeatHC := 0xffff }, result)

/-- The sample valve-setting frame with one bit pair of its body changed (byte 10, 0x33
sent as 0x32). -/
def sampleBadFrame : List Nat :=
  [204, 204, 204, 204, 204, 204, 227, 51, 51, 142, 50, 142, 51, 140, 206, 51, 56, 227, 51,
   51, 51, 51, 51, 56, 204, 227, 140, 227, 56, 227, 142, 56, 227, 142, 51, 51, 51, 142, 56,
   227, 51, 255]

/-- Address of the byte that holds the final bit pair of the encoded trailing 0 of the
frame for `c` written at `bptr`. -/
def trailingZeroByte (bptr : Nat) (c : fht8v_msg_t) : Nat :=
  bptr + (frameBitLength c - 1) / 8

/-! ## Sequences of polls with a bounded number of calls of _Next -/

/-- A sequence of polls in which no more than MAX_HSC calls of FHT8VPollSyncAndTX_Next
follow a call of FHT8VPollSyncAndTX_First; `n` is the number of calls of _Next already
made since the last _First (or since reset). -/
def pollsBounded (two : Bool) : Nat → List (Bool × Bool) → Bool
  | _, [] => true
  | n, p :: ps =>
    if p.1 then pollsBounded two 0 ps
    else decide (n < MAX_HSC two) && pollsBounded two (n + 1) ps

/-- The invariant of the scheduler's counters after `n` calls of _Next in the current minor
cycle: the slot count is `n`, the countdown is at most 237, it is at least 1 while in
sync and while the sync final is pending, and otherwise the sync counter is 0 or within
2..241. -/
def CountdownOK (two : Bool) (n : Nat) (s : fht8v_sync_t) : Prop :=
  s.halfSecondCount = n ∧ n ≤ MAX_HSC two ∧ s.halfSecondsToNextFHT8VTX ≤ 237 ∧
  (s.syncedWithFHT8V = true → 1 ≤ s.halfSecondsToNextFHT8VTX) ∧
  (s.syncedWithFHT8V = false →
    s.syncStateFHT8V = 0 ∨ (2 ≤ s.syncStateFHT8V ∧ s.syncStateFHT8V ≤ 241) ∨
      (s.syncStateFHT8V = 1 ∧ 1 ≤ s.halfSecondsToNextFHT8VTX))

/-! ## The decoder with its reads recorded

The functions of the bit decoder once more, each returning besides its result the list
of the addresses it dereferences (`*(state->bitStream)`), in order. -/

/-- The function `readOneBit` with the addresses it reads: at most three, one for each
pair of bits tested. -/
def readOneBit_traced (m : Mem) (state : decode_state_t) :
    (Nat × decode_state_t) × List Nat :=
  -- Stop if off the buffer end.
  let state := if state.bitStream > state.lastByte then { state with failed := true } else state
  -- Refuse to do anything further once decoding has failed.
  if state.failed then ((0, state), []) else
  -- Special treatment of 0 as equivalent to 0xc0 on entry.
  let state := if state.mask = 0 then { state with mask := 0xc0 } else state
  -- First two bits read must be 11.
  let reads := [state.bitStream]
  if state.mask ≠ (state.mask &&& m state.bitStream) then
    ((0, { state with failed := true }), reads)
  else
  -- Advance the mask; if the mask becomes 0 (then 0xc0 again) then advance the byte pointer.
  let state := { state with mask := state.mask >>> 2 }
  if state.mask = 0 ∧ state.bitStream + 1 > state.lastByte then
    ((0, { state with mask := 0xc0, bitStream := state.bitStream + 1, failed := true }), reads)
  else
  let state :=
    if state.mask = 0 then { state with mask := 0xc0, bitStream := state.bitStream + 1 }
    else state
  -- Next two bits can be 00 to decode a zero, or 10 (followed by 00) to decode a one.
  let reads := reads ++ [state.bitStream]
  let secondPair := state.mask &&& m state.bitStream
  if secondPair = 0 then
    let state := { state with mask := state.mask >>> 2 }
    let state :=
      if state.mask = 0 then { state with bitStream := state.bitStream + 1 } else state
    ((0, state), reads)
  else if secondPair = 0x80 ∨ secondPair = 0x20 ∨ secondPair = 8 ∨ secondPair = 2 then
    -- OK: looks like second pair of an encoded 1.
    let state := { state with mask := state.mask >>> 2 }
    if state.mask = 0 ∧ state.bitStream + 1 > state.lastByte then
      ((0, { state with mask := 0xc0, bitStream := state.bitStream + 1, failed := true }),
        reads)
    else
    let state :=
      if state.mask = 0 then { state with mask := 0xc0, bitStream := state.bitStream + 1 }
      else state
    -- Third pair of bits must be 00.
    let reads := reads ++ [state.bitStream]
    if 0 ≠ (state.mask &&& m state.bitStream) then
      ((0, { state with failed := true }), reads)
    else
    let state := { state with mask := state.mask >>> 2 }
    let state :=
      if state.mask = 0 then { state with bitStream := state.bitStream + 1 } else state
    ((1, state), reads)
  else
    ((0, { state with failed := true }), reads)

/-- One pass of the loop of `readOneByteWithParity` with the reads made so far. -/
def readOneByteWithParity_step_traced (m : Mem)
    (acc : (decode_state_t × Nat × Nat) × List Nat) :
    (decode_state_t × Nat × Nat) × List Nat :=
  let r := readOneBit_traced m acc.1.1
  let bit := r.1.1
  ((r.1.2, acc.1.2.1 ^^^ bit, ((acc.1.2.2 <<< 1) ||| bit) % 256), acc.2 ++ r.2)

/-- The function `readOneByteWithParity` with the addresses it reads. -/
def readOneByteWithParity_traced (m : Mem) (state : decode_state_t) :
    (Nat × decode_state_t) × List Nat :=
  if state.failed then ((0, state), []) else
  -- Read first bit specially...
  let r := readOneBit_traced m state
  let b7 := r.1.1
  -- Then remaining 7 bits...
  let acc := (List.range 7).foldl (fun acc _ => readOneByteWithParity_step_traced m acc)
    ((r.1.2, b7, b7), r.2)
  -- Then get parity bit and check.
  let r := readOneBit_traced m acc.1.1
  let state := if acc.1.2.1 ≠ r.1.1 then { r.1.2 with failed := true } else r.1.2
  ((acc.1.2.2, state), acc.2 ++ r.2)

/-- The loop that finds the leading encoded 1, with the addresses it reads. -/
def findLeadingOne_traced (m : Mem) :
    Nat → decode_state_t → Option (Option decode_state_t) × List Nat
  | 0, _ => (none, [])
  | fuel + 1, state =>
    let r := readOneBit_traced m state
    if 0 = r.1.1 then
      if r.1.2.failed then (some none, r.2)
      else
        let q := findLeadingOne_traced m fuel r.1.2
        (q.1, r.2 ++ q.2)
    else (some (some r.1.2), r.2)

/-- The function `FHT8VDecodeBitStream` with the addresses it reads. -/
def FHT8VDecodeBitStream_traced (fuel : Nat) (m : Mem) (bitStream lastByte : Nat) :
    Option (Option (Nat × fht8v_msg_t)) × List Nat :=
  let state : decode_state_t :=
    { bitStream := bitStream, lastByte := lastByte, mask := 0, failed := false }
  -- Find and absorb the leading encoded 1, else quit if not found by end of stream.
  let f := findLeadingOne_traced m fuel state
  match f.1 with
  | none => (none, f.2)
  | some none => (some none, f.2)
  | some (some state) =>
    let r1 := readOneByteWithParity_traced m state
    let hc1 := r1.1.1
    let r2 := readOneByteWithParity_traced m r1.1.2
    let hc2 := r2.1.1
    let r3 := readOneByteWithParity_traced m r2.1.2
    let address := r3.1.1
    let r4 := readOneByteWithParity_traced m r3.1.2
    let command := r4.1.1
    let r5 := readOneByteWithParity_traced m r4.1.2
    let extension := r5.1.1
    let r6 := readOneByteWithParity_traced m r5.1.2
    let checksumRead := r6.1.1
    let state := r6.1.2
    let reads := f.2 ++ r1.2 ++ r2.2 ++ r3.2 ++ r4.2 ++ r5.2 ++ r6.2
    if state.failed then (some none, reads) else
    -- Generate and check checksum.
    let checksum := (0xc + hc1 + hc2 + address + command + extension) % 256
    if checksum ≠ checksumRead then (some none, reads) else
    -- Check the trailing encoded 0.
    let r := readOneBit_traced m state
    let reads := reads ++ r.2
    if 0 ≠ r.1.1 then (some none, reads) else
    if r.1.2.failed then (some none, reads) else
    -- Return pointer to where any trailing data may be in next byte beyond end of frame.
    (some (some (r.1.2.bitStream + 1,
      { hc1 := hc1, hc2 := hc2, command := command, extension := extension })), reads)

/-- A decode state of a decode from `s` to last byte `l`: the last byte is `l`, the cursor
is not before `s` and the mask is one of the decoder's values. -/
def CursorOK (s l : Nat) (st : decode_state_t) : Prop :=
  st.lastByte = l ∧ s ≤ st.bitStream ∧ MaskOK st.mask

/-- All the addresses of a list of reads are from `s` to `l` inclusive. -/
def ReadsWithin (s l : Nat) (reads : List Nat) : Prop := ∀ a ∈ reads, s ≤ a ∧ a ≤ l

/-! ## Frames that carry an address byte -/

/-- Logical bits of a frame body whose address byte is `a` and whose checksum byte is
`ck`: leading 1, then hc1, hc2, `a`, command, extension and `ck`, each with parity, then
the trailing 0. -/
def bodyBitsWithAddress (c : fht8v_msg_t) (a ck : Nat) : List Bool :=
  [true] ++ byteWithParity c.hc1 ++ byteWithParity c.hc2 ++ byteWithParity a ++
    byteWithParity c.command ++ byteWithParity c.extension ++ byteWithParity ck ++ [false]

/-- The frame for a command built with the steps of `FHT8VCreate200usBitStreamBptr`, but
carrying the byte `a` in the address position and the byte `ck` in the checksum
position. -/
def frameWithAddress (m : Mem) (bptr : Nat) (command : fht8v_msg_t) (a ck : Nat) :
    Mem × Nat :=
  let m := poke m bptr 0xcc
  let m := poke m (bptr + 1) 0xcc
  let m := poke m (bptr + 2) 0xcc
  let m := poke m (bptr + 3) 0xcc
  let m := poke m (bptr + 4) 0xcc
  let m := poke m (bptr + 5) 0xcc
  let m := poke m (bptr + 6) 0xff
  let s := _FHT8VCreate200usAppendEncBit m (bptr + 6) true
  let s := _FHT8VCreate200usAppendByteEP s.1 s.2 command.hc1
  let s := _FHT8VCreate200usAppendByteEP s.1 s.2 command.hc2
  let s := _FHT8VCreate200usAppendByteEP s.1 s.2 a
  let s := _FHT8VCreate200usAppendByteEP s.1 s.2 command.command
  let s := _FHT8VCreate200usAppendByteEP s.1 s.2 command.extension
  let s := _FHT8VCreate200usAppendByteEP s.1 s.2 ck
  let s := _FHT8VCreate200usAppendEncBit s.1 s.2 false
  let s := _FHT8VCreate200usAppendEncBit s.1 s.2 false
  let s := _FHT8VCreate200usAppendEncBit s.1 s.2 false
  (poke s.1 s.2 0xff, s.2)

/-! ## Bitwise operations on bytes as arithmetic -/

theorem poke_same (m : Mem) (a v : Nat) : poke m a v a = v := by simp [poke]

theorem poke_other (m : Mem) (a v i : Nat) (h : i ≠ a) : poke m a v i = m i := by
  simp [poke, h]

theorem land_mod256 (c x : Nat) (hc : c &&& 255 = c) : c &&& x = c &&& (x % 256) := by
  have h := Nat.and_pow_two_sub_one_eq_mod x 8
  have h2 : x % 256 = x &&& 255 := by simpa using h.symm
  rw [h2, Nat.land_comm x 255, ← Nat.land_assoc, hc]

theorem land_three (x : Nat) : x &&& 3 = x % 4 := Nat.and_pow_two_sub_one_eq_mod x 2

set_option maxRecDepth 100000 in
theorem land_c0_byte : ∀ y < 256, 0xc0 &&& y = y / 64 % 4 * 64 := by decide

set_option maxRecDepth 100000 in
theorem land_30_byte : ∀ y < 256, 0x30 &&& y = y / 16 % 4 * 16 := by decide

set_option maxRecDepth 100000 in
theorem land_0c_byte : ∀ y < 256, 0xc &&& y = y / 4 % 4 * 4 := by decide

set_option maxRecDepth 100000 in
theorem land_03_byte : ∀ y < 256, 3 &&& y = y % 4 := by decide

theorem land_c0 (x : Nat) : 0xc0 &&& x = x / 64 % 4 * 64 := by
  rw [land_mod256 _ x (by decide), land_c0_byte _ (Nat.mod_lt _ (by norm_num))]
  omega

theorem land_30 (x : Nat) : 0x30 &&& x = x / 16 % 4 * 16 := by
  rw [land_mod256 _ x (by decide), land_30_byte _ (Nat.mod_lt _ (by norm_num))]
  omega

theorem land_0c (x : Nat) : 0xc &&& x = x / 4 % 4 * 4 := by
  rw [land_mod256 _ x (by decide), land_0c_byte _ (Nat.mod_lt _ (by norm_num))]
  omega

theorem land_03 (x : Nat) : 3 &&& x = x % 4 := by
  rw [land_mod256 _ x (by decide), land_03_byte _ (Nat.mod_lt _ (by norm_num))]
  omega

set_option maxRecDepth 100000 in
theorem enc_byte_ops : ∀ x < 256,
    (x &&& 0xc0) ||| 0x30 = x / 64 * 64 + 0x30 ∧ (x &&& 0xc0) ||| 0x38 = x / 64 * 64 + 0x38 ∧
    (x &&& 0xf0) ||| 0xc = x / 16 * 16 + 0xc ∧ (x &&& 0xf0) ||| 0xe = x / 16 * 16 + 0xe ∧
    x ||| 3 = x / 4 * 4 + 3 := by
  decide

/-! ## Memory lemmas -/

theorem memList_length (m : Mem) (a n : Nat) : (memList m a n).length = n := by
  simp [memList]

theorem memList_succ (m : Mem) (a n : Nat) :
    memList m a (n + 1) = memList m a n ++ [m (a + n)] := by
  simp [memList, List.range_succ]

theorem memList_congr (m m2 : Mem) (a n : Nat) (h : ∀ i, a ≤ i → i < a + n → m2 i = m i) :
    memList m2 a n = memList m a n := by
  unfold memList
  apply List.map_congr_left
  intro j hj
  have hj2 : j < n := List.mem_range.mp hj
  exact h (a + j) (by omega) (by omega)

theorem memList_poke (m : Mem) (a n p v : Nat) (h : a + n ≤ p) :
    memList (poke m p v) a n = memList m a n := by
  apply memList_congr
  intro i _ h2
  exact poke_other m p v i (by omega)

/-! ## Packing of bit pairs -/

theorem leftPairs_length_lt (ps : List Nat) : (leftPairs ps).length < 4 := by
  induction ps using leftPairs.induct with
  | case1 a b c d rest ih => simpa [leftPairs] using ih
  | case2 l h =>
    rw [leftPairs]
    · match l, h with
      | [], _ => simp
      | [_], _ => simp
      | [_, _], _ => simp
      | [_, _, _], _ => simp
      | a :: b :: c :: d :: rest, h => exact absurd rfl (h a b c d rest)
    · exact h

theorem packPairs_append (ps xs : List Nat) :
    packPairs (ps ++ xs) = packPairs ps ++ packPairs (leftPairs ps ++ xs) := by
  induction ps using leftPairs.induct with
  | case1 a b c d rest ih => simp [packPairs, leftPairs, ih]
  | case2 l h =>
    match l, h with
    | [], _ => simp [packPairs, leftPairs]
    | [_], _ => simp [packPairs, leftPairs]
    | [_, _], _ => simp [packPairs, leftPairs]
    | [_, _, _], _ => simp [packPairs, leftPairs]
    | a :: b :: c :: d :: rest, h => exact absurd rfl (h a b c d rest)

theorem leftPairs_append (ps xs : List Nat) :
    leftPairs (ps ++ xs) = leftPairs (leftPairs ps ++ xs) := by
  induction ps using leftPairs.induct with
  | case1 a b c d rest ih => simp [leftPairs, ih]
  | case2 l h =>
    match l, h with
    | [], _ => simp [leftPairs]
    | [_], _ => simp [leftPairs]
    | [_, _], _ => simp [leftPairs]
    | [_, _, _], _ => simp [leftPairs]
    | a :: b :: c :: d :: rest, h => exact absurd rfl (h a b c d rest)

/-! ## The encoder keeps its invariant -/

theorem appendEncBit_eq (m : Mem) (p : Nat) (is1 : Bool) :
    _FHT8VCreate200usAppendEncBit m p is1 =
      if m p % 4 = 3 then (poke m p (if is1 then 0xe0 else 0xcd), p)
      else if m p % 4 = 2 then
        (if is1 then (poke (poke m p ((m p &&& 0xc0) ||| 0x38)) (p + 1) 0xff, p + 1)
         else (poke m p ((m p &&& 0xc0) ||| 0x30), p))
      else if m p % 4 = 1 then
        (poke (poke m p ((m p &&& 0xf0) ||| (if is1 then 0xe else 0xc))) (p + 1)
          (if is1 then 0x3e else 0xff), p + 1)
      else (poke (poke m p (m p ||| 3)) (p + 1) (if is1 then 0x8d else 0x3e), p + 1) := by
  have h4 : m p % 4 < 4 := Nat.mod_lt _ (by norm_num)
  unfold _FHT8VCreate200usAppendEncBit
  simp only [land_three]
  generalize m p % 4 = k at h4
  interval_cases k <;> cases is1 <;> simp

theorem encInv_step (b0 : Nat) (m : Mem) (p : Nat) (ps : List Nat) (b : Bool)
    (h : EncInv b0 m p ps) :
    EncInv b0 (_FHT8VCreate200usAppendEncBit m p b).1 (_FHT8VCreate200usAppendEncBit m p b).2
      (ps ++ encBit b) := by
  obtain ⟨hp, hmem, hpart⟩ := h
  have hlen := leftPairs_length_lt ps
  unfold EncInv
  rw [packPairs_append, leftPairs_append, appendEncBit_eq]
  generalize leftPairs ps = l at hpart hlen
  generalize hD : packPairs ps = done at hp hmem
  have hm1 : memList m b0 (done.length + 1) = done ++ [m p] := by
    rw [memList_succ, hmem, hp]
  match l, hlen, hpart with
  | [], _, hpart =>
    simp only [PartialByte] at hpart
    cases b <;>
    · simp [encBit, packPairs, leftPairs, PartialByte, hpart, poke_same]
      refine ⟨by omega, ?_⟩
      rw [memList_poke _ _ _ _ _ (by omega), hmem]
  | [a], _, hpart =>
    obtain ⟨h1, h2, h3⟩ := hpart
    have ops := enc_byte_ops _ h3
    cases b
    · simp [encBit, packPairs, leftPairs, PartialByte, h2, poke_same, ops]
      refine ⟨by omega, ?_, by omega⟩
      rw [memList_poke _ _ _ _ _ (by omega), hmem]
    · simp [encBit, packPairs, leftPairs, PartialByte, h2, poke_same, ops, poke_other]
      refine ⟨by omega, ?_⟩
      rw [memList_poke _ _ _ _ _ (by omega), memList_succ,
        memList_poke _ _ _ _ _ (by omega), hmem, ← hp, poke_same]
      simp; omega
  | [a, b2], _, hpart =>
    obtain ⟨h1, h2, h3⟩ := hpart
    have ops := enc_byte_ops _ h3
    cases b <;>
    · simp [encBit, packPairs, leftPairs, PartialByte, h2, poke_same, ops, poke_other]
      refine ⟨by omega, ?_⟩
      rw [memList_poke _ _ _ _ _ (by omega), memList_succ,
        memList_poke _ _ _ _ _ (by omega), hmem, ← hp, poke_same]
      simp; omega
  | [a, b2, c], _, hpart =>
    obtain ⟨h1, h2, h3⟩ := hpart
    have ops := enc_byte_ops _ h3
    cases b <;>
    · simp [encBit, packPairs, leftPairs, PartialByte, h2, poke_same, ops, poke_other]
      refine ⟨by omega, ?_⟩
      rw [memList_poke _ _ _ _ _ (by omega), memList_succ,
        memList_poke _ _ _ _ _ (by omega), hmem, ← hp, poke_same]
      simp; omega

/-! ## The decoder reads bit pairs -/

theorem pairAt_off (m : Mem) (p : Nat) :
    pairAt m (4 * p) = m p / 64 % 4 ∧ pairAt m (4 * p + 1) = m p / 16 % 4 ∧
    pairAt m (4 * p + 2) = m p / 4 % 4 ∧ pairAt m (4 * p + 3) = m p % 4 ∧
    pairAt m (4 * p + 4) = m (p + 1) / 64 % 4 ∧ pairAt m (4 * p + 5) = m (p + 1) / 16 % 4 := by
  unfold pairAt
  have e0 : 4 * p / 4 = p := by omega
  have e1 : (4 * p + 1) / 4 = p := by omega
  have e2 : (4 * p + 2) / 4 = p := by omega
  have e3 : (4 * p + 3) / 4 = p := by omega
  have e4 : (4 * p + 4) / 4 = p + 1 := by omega
  have e5 : (4 * p + 5) / 4 = p + 1 := by omega
  have f0 : 4 * p % 4 = 0 := by omega
  have f1 : (4 * p + 1) % 4 = 1 := by omega
  have f2 : (4 * p + 2) % 4 = 2 := by omega
  have f3 : (4 * p + 3) % 4 = 3 := by omega
  have f4 : (4 * p + 4) % 4 = 0 := by omega
  have f5 : (4 * p + 5) % 4 = 1 := by omega
  simp [e0, e1, e2, e3, e4, e5, f0, f1, f2, f3, f4, f5]

theorem readOneBit_cases (m : Mem) (st : decode_state_t) (hf : st.failed = false)
    (hm : MaskOK st.mask) :
    (readOneBit m st).2.lastByte = st.lastByte ∧
    ((statePos st + 1 < 4 * (st.lastByte + 1) ∧ pairAt m (statePos st) = 3 ∧
        pairAt m (statePos st + 1) = 0 ∧
        (readOneBit m st).1 = 0 ∧ (readOneBit m st).2.failed = false ∧
        MaskOK (readOneBit m st).2.mask ∧ statePos (readOneBit m st).2 = statePos st + 2) ∨
     (statePos st + 2 < 4 * (st.lastByte + 1) ∧ pairAt m (statePos st) = 3 ∧
        pairAt m (statePos st + 1) = 2 ∧ pairAt m (statePos st + 2) = 0 ∧
        (readOneBit m st).1 = 1 ∧ (readOneBit m st).2.failed = false ∧
        MaskOK (readOneBit m st).2.mask ∧ statePos (readOneBit m st).2 = statePos st + 3) ∨
     ((readOneBit m st).1 = 0 ∧ (readOneBit m st).2.failed = true ∧
        ¬ (statePos st + 1 < 4 * (st.lastByte + 1) ∧ pairAt m (statePos st) = 3 ∧
          pairAt m (statePos st + 1) = 0) ∧
        ¬ (statePos st + 2 < 4 * (st.lastByte + 1) ∧ pairAt m (statePos st) = 3 ∧
          pairAt m (statePos st + 1) = 2 ∧ pairAt m (statePos st + 2) = 0))) := by
  obtain ⟨p, l, mask, fl⟩ := st
  simp only at hf hm
  subst hf
  obtain ⟨e0, e1, e2, e3, e4, e5⟩ := pairAt_off m p
  by_cases hpl : l < p
  · have hr : readOneBit m ⟨p, l, mask, false⟩ = (0, ⟨p, l, mask, true⟩) := by
      simp [readOneBit, hpl]
    rw [hr]
    refine ⟨rfl, Or.inr (Or.inr ⟨rfl, rfl, ?_, ?_⟩)⟩ <;>
      simp only [statePos] <;> omega
  generalize hr : readOneBit m ⟨p, l, mask, false⟩ = r
  rcases hm with h | h | h | h | h <;> subst h <;>
  · simp [readOneBit, hpl, land_c0, land_30, land_0c, land_03] at hr
    split_ifs at hr <;> subst hr <;>
      simp [statePos, maskIndex, MaskOK, e0, e1, e2, e3, e4, e5] <;> omega

theorem absReadBit_eq_some (L L2 : List Nat) (b : Nat) (h : absReadBit L = some (b, L2)) :
    (b = 0 ∧ L = 3 :: 0 :: L2) ∨ (b = 1 ∧ L = 3 :: 2 :: 0 :: L2) := by
  unfold absReadBit at h
  split at h <;> simp at h
  · exact Or.inl ⟨h.1.symm, by rw [h.2]⟩
  · exact Or.inr ⟨h.1.symm, by rw [h.2]⟩

theorem absReadBit_zero (L : List Nat) : absReadBit (3 :: 0 :: L) = some (0, L) := rfl

theorem absReadBit_one (L : List Nat) : absReadBit (3 :: 2 :: 0 :: L) = some (1, L) := rfl

theorem absReadBit_encBit (b : Bool) (L : List Nat) :
    absReadBit (encBit b ++ L) = some (b.toNat, L) := by
  cases b <;> rfl

theorem pairsFrom_length (m : Mem) (q n : Nat) : (pairsFrom m q n).length = n := by
  induction n generalizing q with
  | zero => rfl
  | succ n ih => simp [pairsFrom, ih]

theorem pairsFrom_two (m : Mem) (q e : Nat) (h : q + 1 < e) :
    pairsFrom m q (e - q) = pairAt m q :: pairAt m (q + 1) :: pairsFrom m (q + 2) (e - (q + 2)) := by
  obtain ⟨k, hk⟩ : ∃ k, e - q = k + 2 := ⟨e - q - 2, by omega⟩
  have h2 : e - (q + 2) = k := by omega
  rw [hk, h2]
  rfl

theorem pairsFrom_three (m : Mem) (q e : Nat) (h : q + 2 < e) :
    pairsFrom m q (e - q) = pairAt m q :: pairAt m (q + 1) :: pairAt m (q + 2) ::
      pairsFrom m (q + 3) (e - (q + 3)) := by
  obtain ⟨k, hk⟩ : ∃ k, e - q = k + 3 := ⟨e - q - 3, by omega⟩
  have h2 : e - (q + 3) = k := by omega
  rw [hk, h2]
  rfl

theorem pairsFrom_eq_cons (m : Mem) (q n x : Nat) (L : List Nat)
    (h : pairsFrom m q n = x :: L) :
    0 < n ∧ pairAt m q = x ∧ pairsFrom m (q + 1) (n - 1) = L := by
  cases n with
  | zero => simp [pairsFrom] at h
  | succ n => simpa [pairsFrom] using h

/-- One call of `readOneBit` on a live state follows `absReadBit` on the pairs left. -/
theorem reads_step (m : Mem) (l : Nat) (st : decode_state_t) (L : List Nat)
    (h : Reads m l st L) :
    (∀ b L2, absReadBit L = some (b, L2) →
      (readOneBit m st).1 = b ∧ Reads m l (readOneBit m st).2 L2 ∧
        statePos (readOneBit m st).2 + L2.length = 4 * (l + 1)) ∧
    (absReadBit L = none →
      (readOneBit m st).1 = 0 ∧ (readOneBit m st).2.failed = true) := by
  obtain ⟨hl, hf, hm, hL⟩ := h
  obtain ⟨hlb, hc⟩ := readOneBit_cases m st hf hm
  rw [hl] at hc hlb
  rcases hc with ⟨hq, p0, p1, r1, r2, r3, r4⟩ | ⟨hq, p0, p1, p2, r1, r2, r3, r4⟩ |
    ⟨r1, r2, n1, n2⟩
  · have hL2 := pairsFrom_two m (statePos st) _ hq
    rw [← hL, p0, p1] at hL2
    subst hL2
    refine ⟨?_, by simp [absReadBit_zero]⟩
    intro b L2 hb
    rw [absReadBit_zero] at hb
    simp only [Option.some.injEq, Prod.mk.injEq] at hb
    obtain ⟨rfl, rfl⟩ := hb
    refine ⟨r1, ⟨hlb, r2, r3, by rw [r4]⟩, ?_⟩
    rw [r4, pairsFrom_length]
    omega
  · have hL2 := pairsFrom_three m (statePos st) _ hq
    rw [← hL, p0, p1, p2] at hL2
    subst hL2
    refine ⟨?_, by simp [absReadBit_one]⟩
    intro b L2 hb
    rw [absReadBit_one] at hb
    simp only [Option.some.injEq, Prod.mk.injEq] at hb
    obtain ⟨rfl, rfl⟩ := hb
    refine ⟨r1, ⟨hlb, r2, r3, by rw [r4]⟩, ?_⟩
    rw [r4, pairsFrom_length]
    omega
  · refine ⟨?_, fun _ => ⟨r1, r2⟩⟩
    intro b L2 hb
    exfalso
    rcases absReadBit_eq_some L L2 b hb with ⟨_, hLe⟩ | ⟨_, hLe⟩
    · rw [hL] at hLe
      obtain ⟨k1, k2, k3⟩ := pairsFrom_eq_cons _ _ _ _ _ hLe
      obtain ⟨k4, k5, _⟩ := pairsFrom_eq_cons _ _ _ _ _ k3
      exact n1 ⟨by omega, k2, k5⟩
    · rw [hL] at hLe
      obtain ⟨k1, k2, k3⟩ := pairsFrom_eq_cons _ _ _ _ _ hLe
      obtain ⟨k4, k5, k6⟩ := pairsFrom_eq_cons _ _ _ _ _ k3
      obtain ⟨k7, k8, _⟩ := pairsFrom_eq_cons _ _ _ _ _ k6
      exact n2 ⟨by omega, k2, k5, k8⟩

/-- A failed state stays failed and `readOneBit` returns 0 on it. -/
theorem readOneBit_failed (m : Mem) (st : decode_state_t) (h : st.failed = true) :
    readOneBit m st = (0, st) := by
  obtain ⟨p, l, mask, fl⟩ := st
  simp only at h
  subst h
  by_cases hpl : l < p <;> simp [readOneBit, hpl]

/-! ## The decoder follows its list model -/

theorem sim_step (m : Mem) (l : Nat) (st : decode_state_t) (o : Option (List Nat))
    (h : Sim m l st o) :
    (readOneBit m st).1 = (absStep o).1 ∧ Sim m l (readOneBit m st).2 (absStep o).2 := by
  cases o with
  | none =>
    simp only [Sim] at h
    rw [readOneBit_failed m st h]
    exact ⟨rfl, h⟩
  | some L =>
    obtain ⟨hr, hlen⟩ := h
    obtain ⟨h1, h2⟩ := reads_step m l st L hr
    cases hA : absReadBit L with
    | none =>
      obtain ⟨r1, r2⟩ := h2 hA
      simp only [absStep, hA]
      exact ⟨r1, r2⟩
    | some bl =>
      obtain ⟨b, L2⟩ := bl
      obtain ⟨r1, r2, r3⟩ := h1 b L2 hA
      simp only [absStep, hA]
      exact ⟨r1, r2, r3⟩

theorem sim_fold (m : Mem) (l : Nat) (xs : List Nat) :
    ∀ (acc : decode_state_t × Nat × Nat) (accA : Option (List Nat) × Nat × Nat),
      Sim m l acc.1 accA.1 → acc.2 = accA.2 →
      Sim m l (xs.foldl (fun a _ => readOneByteWithParity_step m a) acc).1
          (xs.foldl (fun a _ => absByteStep a) accA).1 ∧
        (xs.foldl (fun a _ => readOneByteWithParity_step m a) acc).2 =
          (xs.foldl (fun a _ => absByteStep a) accA).2 := by
  induction xs with
  | nil => intro acc accA h1 h2; exact ⟨h1, h2⟩
  | cons x xs ih =>
    intro acc accA h1 h2
    simp only [List.foldl_cons]
    obtain ⟨s1, s2⟩ := sim_step m l acc.1 accA.1 h1
    apply ih
    · exact s2
    · simp only [readOneByteWithParity_step, absByteStep, s1, h2]

theorem sim_byte (m : Mem) (l : Nat) (st : decode_state_t) (o : Option (List Nat))
    (h : Sim m l st o) :
    (readOneByteWithParity m st).1 = (absByte o).1 ∧
      Sim m l (readOneByteWithParity m st).2 (absByte o).2 := by
  cases o with
  | none =>
    simp only [Sim] at h
    simp [readOneByteWithParity, h, absByte, Sim]
  | some L =>
    have hf : st.failed = false := h.1.2.1
    obtain ⟨s1, s2⟩ := sim_step m l st (some L) h
    obtain ⟨f1, f2⟩ := sim_fold m l (List.range 7) ((readOneBit m st).2, (readOneBit m st).1,
      (readOneBit m st).1) ((absStep (some L)).2, (absStep (some L)).1, (absStep (some L)).1)
      s2 (by rw [s1])
    obtain ⟨t1, t2⟩ := sim_step m l _ _ f1
    simp only [readOneByteWithParity, hf, absByte]
    simp only [Bool.false_eq_true, if_false]
    rw [f2, t1]
    refine ⟨rfl, ?_⟩
    split
    · simp [Sim]
    · exact t2

theorem sim_find (m : Mem) (l : Nat) :
    ∀ (fuel : Nat) (st : decode_state_t) (o : Option (List Nat)), Sim m l st o →
      match absFindLeadingOne fuel o with
      | none => findLeadingOne m fuel st = none
      | some none => findLeadingOne m fuel st = some none
      | some (some L) =>
        ∃ st2, findLeadingOne m fuel st = some (some st2) ∧ Sim m l st2 (some L) := by
  intro fuel
  induction fuel with
  | zero => intro st o _; simp [absFindLeadingOne, findLeadingOne]
  | succ fuel ih =>
    intro st o h
    obtain ⟨s1, s2⟩ := sim_step m l st o h
    simp only [absFindLeadingOne, findLeadingOne, s1]
    by_cases hz : 0 = (absStep o).1
    · simp only [hz, if_true]
      cases hA : (absStep o).2 with
      | none =>
        rw [hA] at s2
        simp only [Sim] at s2
        simp [s2]
      | some L2 =>
        rw [hA] at s2
        have hf : (readOneBit m st).2.failed = false := s2.1.2.1
        simp only [hf]
        simpa using ih _ _ s2
    · simp only [hz, if_false]
      cases hA : (absStep o).2 with
      | none =>
        exfalso
        cases o with
        | none => simp [absStep] at hz
        | some L =>
          simp only [absStep] at hz hA
          split at hA <;> simp_all
      | some L2 =>
        rw [hA] at s2
        exact ⟨_, rfl, s2⟩

theorem maskIndex_lt (mask : Nat) : maskIndex mask < 4 := by
  unfold maskIndex
  split_ifs <;> omega

theorem sim_endAddress (m : Mem) (l : Nat) (st : decode_state_t) (L : List Nat)
    (h : Sim m l st (some L)) : st.bitStream + 1 = endAddress l L := by
  obtain ⟨_, hpos⟩ := h
  have := maskIndex_lt st.mask
  unfold statePos at hpos
  unfold endAddress
  omega

theorem sim_body (m : Mem) (l : Nat) (st : decode_state_t) (L : List Nat)
    (h : Sim m l st (some L)) :
    (let r := readOneByteWithParity m st
    let hc1 := r.1
    let r := readOneByteWithParity m r.2
    let hc2 := r.1
    let r := readOneByteWithParity m r.2
    let address := r.1
    let r := readOneByteWithParity m r.2
    let command := r.1
    let r := readOneByteWithParity m r.2
    let extension := r.1
    let r := readOneByteWithParity m r.2
    let checksumRead := r.1
    let state := r.2
    if state.failed then some none else
    let checksum := (0xc + hc1 + hc2 + address + command + extension) % 256
    if checksum ≠ checksumRead then some none else
    let r := readOneBit m state
    if 0 ≠ r.1 then some none else
    if r.2.failed then some none else
    some (some (r.2.bitStream + 1,
      ({ hc1 := hc1, hc2 := hc2, command := command, extension := extension } : fht8v_msg_t))))
    = some ((absBody (some L)).map (fun x => (endAddress l x.1, x.2))) := by
  obtain ⟨a1, b1⟩ := sim_byte m l _ _ h
  obtain ⟨a2, b2⟩ := sim_byte m l _ _ b1
  obtain ⟨a3, b3⟩ := sim_byte m l _ _ b2
  obtain ⟨a4, b4⟩ := sim_byte m l _ _ b3
  obtain ⟨a5, b5⟩ := sim_byte m l _ _ b4
  obtain ⟨a6, b6⟩ := sim_byte m l _ _ b5
  obtain ⟨a7, b7⟩ := sim_step m l _ _ b6
  simp only [absBody, a1, a2, a3, a4, a5, a6, a7]
  generalize (absByte (absByte (absByte (absByte (absByte (absByte (some L)).2).2).2).2).2) = rA
    at a6 b6 a7 b7 ⊢
  generalize (readOneByteWithParity m (readOneByteWithParity m (readOneByteWithParity m
    (readOneByteWithParity m (readOneByteWithParity m (readOneByteWithParity m st).2).2).2).2).2)
    = rC at a6 b6 a7 b7 ⊢
  cases hA : rA.2 with
  | none =>
    rw [hA] at b6
    simp only [Sim] at b6
    simp [b6]
  | some L6 =>
    rw [hA] at b6 b7 a7
    have hf : rC.2.failed = false := b6.1.2.1
    simp only [hf, Bool.false_eq_true, if_false, reduceCtorEq]
    split
    · rfl
    · split
      · rfl
      · cases hB : (absStep (some L6)).2 with
        | none =>
          rw [hB] at b7
          simp only [Sim] at b7
          simp [b7]
        | some L7 =>
          rw [hB] at b7
          have hf2 : (readOneBit m rC.2).2.failed = false := b7.1.2.1
          simp [hf2, sim_endAddress m l _ _ b7]

theorem decode_refines (fuel : Nat) (m : Mem) (s l : Nat) (h : s ≤ l + 1) :
    FHT8VDecodeBitStream fuel m s l =
      (absDecode fuel (pairsFrom m (4 * s) (4 * (l + 1) - 4 * s))).map
        (fun r => r.map (fun x => (endAddress l x.1, x.2))) := by
  have h0 : Sim m l ⟨s, l, 0, false⟩ (some (pairsFrom m (4 * s) (4 * (l + 1) - 4 * s))) := by
    refine ⟨⟨rfl, rfl, Or.inl rfl, ?_⟩, ?_⟩
    · simp [statePos, maskIndex]
    · simp only [statePos, maskIndex, pairsFrom_length]
      simp
      omega
  have hfind := sim_find m l fuel _ _ h0
  unfold FHT8VDecodeBitStream absDecode
  cases hA : absFindLeadingOne fuel (some (pairsFrom m (4 * s) (4 * (l + 1) - 4 * s))) with
  | none =>
    rw [hA] at hfind
    simp only at hfind
    simp [hfind]
  | some o =>
    cases o with
    | none =>
      rw [hA] at hfind
      simp only at hfind
      simp [hfind]
    | some L =>
      rw [hA] at hfind
      obtain ⟨st2, e1, e2⟩ := hfind
      simp only [e1]
      rw [sim_body m l st2 L e2]
      rfl

/-! ## Layout of the encoded frame -/

theorem encInv_bits (b0 : Nat) (bs : List Bool) :
    ∀ (m : Mem) (p : Nat) (ps : List Nat), EncInv b0 m p ps →
      EncInv b0 (appendEncBits (m, p) bs).1 (appendEncBits (m, p) bs).2 (ps ++ encBits bs) := by
  induction bs with
  | nil => intro m p ps h; simpa [appendEncBits, encBits] using h
  | cons b bs ih =>
    intro m p ps h
    have h1 := encInv_step b0 m p ps b h
    have h2 := ih _ _ _ h1
    simpa [appendEncBits, encBits, List.append_assoc] using h2

theorem encBits_append (xs ys : List Bool) :
    encBits (xs ++ ys) = encBits xs ++ encBits ys := by
  induction xs with
  | nil => rfl
  | cons x xs ih => simp [encBits, ih]

theorem appendEncBits_append (s : Mem × Nat) (xs ys : List Bool) :
    appendEncBits s (xs ++ ys) = appendEncBits (appendEncBits s xs) ys := by
  simp [appendEncBits]

set_option maxRecDepth 100000 in
theorem byte_bits_eq : ∀ b < 256,
    [0 != (b &&& 0x80), 0 != (b &&& 0x40), 0 != (b &&& 0x20), 0 != (b &&& 0x10),
      0 != (b &&& 8), 0 != (b &&& 4), 0 != (b &&& 2), 0 != (b &&& 1),
      parity_even_bit b != 0] = byteWithParity b := by
  decide

theorem appendByteEP_eq (m : Mem) (p b : Nat) (hb : b < 256) :
    _FHT8VCreate200usAppendByteEP m p b = appendEncBits (m, p) (byteWithParity b) := by
  rw [← byte_bits_eq b hb]
  rfl

theorem appendEncBits_single (m : Mem) (p : Nat) (b : Bool) :
    _FHT8VCreate200usAppendEncBit m p b = appendEncBits (m, p) [b] := rfl

theorem appendEncBits_eta (s : Mem × Nat) (bs : List Bool) :
    appendEncBits (s.1, s.2) bs = appendEncBits s bs := rfl

theorem frameWithChecksum_eq (m : Mem) (p : Nat) (c : fht8v_msg_t) (ck : Nat)
    (hc : c.valid) (hk : ck < 256) :
    frameWithChecksum m p c ck =
      (poke (appendEncBits (preambleMem m p, p + 6) (bodyBits c ck ++ [false, false])).1
        (appendEncBits (preambleMem m p, p + 6) (bodyBits c ck ++ [false, false])).2 0xff,
       (appendEncBits (preambleMem m p, p + 6) (bodyBits c ck ++ [false, false])).2) := by
  obtain ⟨h1, h2, h3, h4⟩ := hc
  have e : bodyBits c ck ++ [false, false] =
      [true] ++ (byteWithParity c.hc1 ++ (byteWithParity c.hc2 ++ (byteWithParity 0 ++
        (byteWithParity c.command ++ (byteWithParity c.extension ++ (byteWithParity ck ++
          ([false] ++ ([false] ++ [false])))))))) := by
    simp [bodyBits]
  rw [e]
  simp only [appendEncBits_append]
  unfold frameWithChecksum
  simp only [appendByteEP_eq _ _ _ h1, appendByteEP_eq _ _ _ h2, appendByteEP_eq _ _ _ h3,
    appendByteEP_eq _ _ _ h4, appendByteEP_eq _ _ _ hk,
    appendByteEP_eq _ _ 0 (by norm_num), appendEncBits_single, appendEncBits_eta, preambleMem]

theorem createBitStream_eq (m : Mem) (p : Nat) (c : fht8v_msg_t) :
    FHT8VCreate200usBitStreamBptr m p c = frameWithChecksum m p c (frameChecksum c) := rfl

theorem frameChecksum_lt (c : fht8v_msg_t) : frameChecksum c < 256 :=
  Nat.mod_lt _ (by norm_num)

theorem preamble_encInv (m : Mem) (p : Nat) :
    EncInv p (preambleMem m p) (p + 6) (encBits (List.replicate 12 false)) := by
  have e : (packPairs (encBits (List.replicate 12 false))) =
      [0xcc, 0xcc, 0xcc, 0xcc, 0xcc, 0xcc] := by decide
  have e2 : leftPairs (encBits (List.replicate 12 false)) = [] := by decide
  unfold EncInv
  rw [e, e2]
  refine ⟨rfl, ?_, ?_⟩
  · simp [memList, List.range, List.range.loop, poke, preambleMem]
  · simp [PartialByte, poke, preambleMem]

/-- Bytes of the whole frame carrying checksum byte `ck`: from `p` the memory holds the
whole bytes of the line code of the frame bits, followed by the terminator. -/
theorem frame_layout (m : Mem) (p : Nat) (c : fht8v_msg_t) (ck : Nat)
    (hc : c.valid) (hk : ck < 256) :
    (frameWithChecksum m p c ck).2 = p + (packPairs (encBits
        (List.replicate 12 false ++ bodyBits c ck ++ [false, false]))).length ∧
      memList (frameWithChecksum m p c ck).1 p (packPairs (encBits
        (List.replicate 12 false ++ bodyBits c ck ++ [false, false]))).length =
        packPairs (encBits (List.replicate 12 false ++ bodyBits c ck ++ [false, false])) ∧
      (frameWithChecksum m p c ck).1 (frameWithChecksum m p c ck).2 = 0xff := by
  have h := encInv_bits p (bodyBits c ck ++ [false, false]) _ _ _ (preamble_encInv m p)
  have e : encBits (List.replicate 12 false) ++ encBits (bodyBits c ck ++ [false, false]) =
      encBits (List.replicate 12 false ++ bodyBits c ck ++ [false, false]) := by
    simp only [encBits_append, List.append_assoc]
  rw [e] at h
  have hq := frameWithChecksum_eq m p c ck hc hk
  generalize appendEncBits (preambleMem m p, p + 6) (bodyBits c ck ++ [false, false]) = s
    at h hq
  generalize encBits (List.replicate 12 false ++ bodyBits c ck ++ [false, false]) = P at h ⊢
  rw [hq]
  obtain ⟨h1, h2, _⟩ := h
  refine ⟨h1, ?_, poke_same _ _ _⟩
  rw [memList_poke _ _ _ _ _ (by omega)]
  exact h2

/-! ## Round trip on lists of pairs -/

theorem absStep_zero (X : List Nat) : absStep (some (3 :: 0 :: X)) = (0, some X) := rfl

theorem absStep_one (X : List Nat) : absStep (some (3 :: 2 :: 0 :: X)) = (1, some X) := rfl

theorem absStep_encBit (c : Bool) (X : List Nat) :
    absStep (some (encBit c ++ X)) = (c.toNat, some X) := by
  cases c <;> rfl

theorem absByte_bits (c7 c6 c5 c4 c3 c2 c1 c0 pb : Bool) (X : List Nat) :
    absByte (some (encBits [c7, c6, c5, c4, c3, c2, c1, c0, pb] ++ X)) =
      (shiftIn (shiftIn (shiftIn (shiftIn (shiftIn (shiftIn (shiftIn c7.toNat c6.toNat)
        c5.toNat) c4.toNat) c3.toNat) c2.toNat) c1.toNat) c0.toNat,
       if (c7.toNat ^^^ c6.toNat ^^^ c5.toNat ^^^ c4.toNat ^^^ c3.toNat ^^^ c2.toNat ^^^
          c1.toNat ^^^ c0.toNat) ≠ pb.toNat then none else some X) := by
  simp only [absByte, encBits, List.append_assoc, absStep_encBit, absByteStep, List.range,
    List.range.loop, List.foldl, List.nil_append, shiftIn]

set_option maxRecDepth 100000 in
theorem byte_value_parity : ∀ b < 256,
    shiftIn (shiftIn (shiftIn (shiftIn (shiftIn (shiftIn (shiftIn
      (decide (b / 2 ^ 7 % 2 = 1)).toNat (decide (b / 2 ^ 6 % 2 = 1)).toNat)
      (decide (b / 2 ^ 5 % 2 = 1)).toNat) (decide (b / 2 ^ 4 % 2 = 1)).toNat)
      (decide (b / 2 ^ 3 % 2 = 1)).toNat) (decide (b / 2 ^ 2 % 2 = 1)).toNat)
      (decide (b / 2 ^ 1 % 2 = 1)).toNat) (decide (b / 2 ^ 0 % 2 = 1)).toNat = b ∧
    ((decide (b / 2 ^ 7 % 2 = 1)).toNat ^^^ (decide (b / 2 ^ 6 % 2 = 1)).toNat ^^^
      (decide (b / 2 ^ 5 % 2 = 1)).toNat ^^^ (decide (b / 2 ^ 4 % 2 = 1)).toNat ^^^
      (decide (b / 2 ^ 3 % 2 = 1)).toNat ^^^ (decide (b / 2 ^ 2 % 2 = 1)).toNat ^^^
      (decide (b / 2 ^ 1 % 2 = 1)).toNat ^^^ (decide (b / 2 ^ 0 % 2 = 1)).toNat) =
      (evenParityBit b).toNat := by
  decide

theorem absByte_enc (b : Nat) (hb : b < 256) (X : List Nat) :
    absByte (some (encBits (byteWithParity b) ++ X)) = (b, some X) := by
  have h := byte_value_parity b hb
  have e : byteWithParity b = [decide (b / 2 ^ 7 % 2 = 1), decide (b / 2 ^ 6 % 2 = 1),
      decide (b / 2 ^ 5 % 2 = 1), decide (b / 2 ^ 4 % 2 = 1), decide (b / 2 ^ 3 % 2 = 1),
      decide (b / 2 ^ 2 % 2 = 1), decide (b / 2 ^ 1 % 2 = 1), decide (b / 2 ^ 0 % 2 = 1),
      evenParityBit b] := rfl
  rw [e, absByte_bits, h.1, h.2]
  simp

theorem absFind_zeros (j : Nat) :
    ∀ (fuel : Nat) (Y : List Nat), j + 1 ≤ fuel →
      absFindLeadingOne fuel (some (encBits (List.replicate j false) ++ 3 :: 2 :: 0 :: Y)) =
        some (some Y) := by
  induction j with
  | zero =>
    intro fuel Y h
    obtain ⟨f, rfl⟩ : ∃ f, fuel = f + 1 := ⟨fuel - 1, by omega⟩
    simp [absFindLeadingOne, encBits, absStep_one]
  | succ j ih =>
    intro fuel Y h
    obtain ⟨f, rfl⟩ : ∃ f, fuel = f + 1 := ⟨fuel - 1, by omega⟩
    have hf : j + 1 ≤ f := by omega
    simp [absFindLeadingOne, encBits, encBit, List.replicate_succ, absStep_zero, ih f Y hf]

theorem absBody_frame (c : fht8v_msg_t) (ck : Nat) (hc : c.valid) (hk : ck < 256)
    (X : List Nat) :
    absBody (some (encBits (byteWithParity c.hc1 ++ byteWithParity c.hc2 ++
      byteWithParity 0 ++ byteWithParity c.command ++ byteWithParity c.extension ++
      byteWithParity ck ++ [false]) ++ X)) =
      if frameChecksum c = ck then some (X, c) else none := by
  obtain ⟨h1, h2, h3, h4⟩ := hc
  simp only [encBits_append, List.append_assoc]
  unfold absBody
  simp only [absByte_enc _ h1, absByte_enc _ h2, absByte_enc _ h3, absByte_enc _ h4,
    absByte_enc _ hk, absByte_enc 0 (by norm_num)]
  simp only [encBits, encBit, List.append_nil, List.cons_append, List.nil_append,
    absStep_zero, frameChecksum]
  by_cases hck : (12 + c.hc1 + c.hc2 + c.command + c.extension) % 256 = ck
  · simp [hck]
  · simp [hck]

theorem absDecode_frame (c : fht8v_msg_t) (ck : Nat) (hc : c.valid) (hk : ck < 256)
    (X : List Nat) (fuel : Nat) (hfuel : 13 ≤ fuel) :
    absDecode fuel (encBits (List.replicate 12 false ++ bodyBits c ck) ++ X) =
      some (if frameChecksum c = ck then some (X, c) else none) := by
  have e : encBits (List.replicate 12 false ++ bodyBits c ck) ++ X =
      encBits (List.replicate 12 false) ++ 3 :: 2 :: 0 ::
        (encBits (byteWithParity c.hc1 ++ byteWithParity c.hc2 ++
          byteWithParity 0 ++ byteWithParity c.command ++ byteWithParity c.extension ++
          byteWithParity ck ++ [false]) ++ X) := by
    simp [bodyBits, encBits_append, encBits, encBit]
  rw [e]
  unfold absDecode
  rw [absFind_zeros 12 fuel _ (by omega)]
  simp only
  rw [absBody_frame c ck hc hk X]

/-! ## The pairs the decoder finds in an encoded frame -/

theorem memList_cons (m : Mem) (a n : Nat) :
    memList m a (n + 1) = m a :: memList m (a + 1) n := by
  simp only [memList, List.range_succ_eq_map, List.map_cons, List.map_map]
  refine congrArg₂ _ rfl ?_
  apply List.map_congr_left
  intro j _
  simp only [Function.comp]
  congr 1
  omega

theorem memList_append (m : Mem) (a n k : Nat) :
    memList m a (n + k) = memList m a n ++ memList m (a + n) k := by
  induction k with
  | zero => simp [memList]
  | succ k ih =>
    rw [← Nat.add_assoc, memList_succ, ih, memList_succ, List.append_assoc, Nat.add_assoc]

theorem pairsFrom_bytes (m : Mem) (n : Nat) :
    ∀ a, pairsFrom m (4 * a) (4 * n) = unpackBytes (memList m a n) := by
  induction n with
  | zero => intro a; rfl
  | succ n ih =>
    intro a
    obtain ⟨e0, e1, e2, e3, _, _⟩ := pairAt_off m a
    have e : 4 * (n + 1) = 4 * n + 1 + 1 + 1 + 1 := by omega
    rw [e, memList_cons]
    simp only [pairsFrom, unpackBytes, unpackByte]
    have e4 : 4 * a + 1 + 1 + 1 + 1 = 4 * (a + 1) := by omega
    rw [e4, ih (a + 1), e0, e1, e2, e3]
    rfl

theorem unpackBytes_append (xs ys : List Nat) :
    unpackBytes (xs ++ ys) = unpackBytes xs ++ unpackBytes ys := by
  induction xs with
  | nil => rfl
  | cons x xs ih => simp [unpackBytes, ih]

theorem unpackBytes_length (xs : List Nat) : (unpackBytes xs).length = 4 * xs.length := by
  induction xs with
  | nil => rfl
  | cons x xs ih => simp [unpackBytes, unpackByte, ih]; omega

theorem encBits_lt (bs : List Bool) : ∀ x ∈ encBits bs, x < 4 := by
  induction bs with
  | nil => intro x hx; simp [encBits] at hx
  | cons b bs ih =>
    intro x hx
    simp only [encBits, List.mem_append] at hx
    rcases hx with hx | hx
    · cases b <;> simp [encBit] at hx <;> omega
    · exact ih x hx

theorem unpack_pack (ps : List Nat) (h : ∀ x ∈ ps, x < 4) :
    unpackBytes (packPairs ps) ++ leftPairs ps = ps := by
  induction ps using leftPairs.induct with
  | case1 a b c d rest ih =>
    have ha : a < 4 := h a (by simp)
    have hb : b < 4 := h b (by simp)
    have hc : c < 4 := h c (by simp)
    have hd : d < 4 := h d (by simp)
    have hr : ∀ x ∈ rest, x < 4 := fun x hx => h x (by simp [hx])
    have e1 : (64 * a + 16 * b + 4 * c + d) / 64 % 4 = a := by omega
    have e2 : (64 * a + 16 * b + 4 * c + d) / 16 % 4 = b := by omega
    have e3 : (64 * a + 16 * b + 4 * c + d) / 4 % 4 = c := by omega
    have e4 : (64 * a + 16 * b + 4 * c + d) % 4 = d := by omega
    simp only [packPairs, leftPairs, unpackBytes, unpackByte, e1, e2, e3, e4]
    simpa using ih hr
  | case2 l hl =>
    match l, hl with
    | [], _ => rfl
    | [_], _ => rfl
    | [_, _], _ => rfl
    | [_, _, _], _ => rfl
    | a :: b :: c :: d :: rest, hl => exact absurd rfl (hl a b c d rest)

/-- Whole bytes of pairs that end with the two extra 0 bits: all the pairs before them
and at least the first pair of the extra bits. -/
theorem unpack_pack_extra (E : List Nat) (h : ∀ x ∈ E, x < 4) :
    ∃ T, unpackBytes (packPairs (E ++ [3, 0, 3, 0])) = E ++ 3 :: T ∧
      T.length + (leftPairs (E ++ [3, 0, 3, 0])).length = 3 := by
  have h4 : ∀ x ∈ E ++ [3, 0, 3, 0], x < 4 := by
    intro x hx
    rcases List.mem_append.mp hx with hx | hx
    · exact h x hx
    · simp at hx; omega
  have hu := unpack_pack _ h4
  have hl := leftPairs_length_lt (E ++ [3, 0, 3, 0])
  generalize unpackBytes (packPairs (E ++ [3, 0, 3, 0])) = U at hu
  generalize leftPairs (E ++ [3, 0, 3, 0]) = left at hu hl
  have hlen : U.length + left.length = E.length + 4 := by
    have := congrArg List.length hu
    simpa using this
  have hU : U = (E ++ [3, 0, 3, 0]).take (E.length + (4 - left.length)) := by
    rw [← hu, List.take_append_of_le_length (by omega), List.take_of_length_le (by omega)]
  rw [List.take_append] at hU
  obtain ⟨k, hk⟩ : ∃ k, 4 - left.length = k + 1 := ⟨3 - left.length, by omega⟩
  rw [hk] at hU
  refine ⟨List.take k [0, 3, 0], ?_, ?_⟩
  · rw [hU]; rfl
  · simp only [List.length_take, List.length_cons, List.length_nil]
    omega

theorem packPairs_length (ps : List Nat) : (packPairs ps).length = ps.length / 4 := by
  induction ps using leftPairs.induct with
  | case1 a b c d rest ih =>
    simp only [packPairs, List.length_cons, ih]
    omega
  | case2 l hl =>
    match l, hl with
    | [], _ => rfl
    | [_], _ => simp [packPairs]
    | [_, _], _ => simp [packPairs]
    | [_, _, _], _ => simp [packPairs]
    | a :: b :: c :: d :: rest, hl => exact absurd rfl (hl a b c d rest)

/-- What the decoder finds when it reads a frame from its first byte with the last byte
at the terminator: the line code of the preamble and the body, then at least one more
pair, and a cursor that would end at the terminator. -/
theorem frame_pairs (m : Mem) (p : Nat) (c : fht8v_msg_t) (ck : Nat)
    (hc : c.valid) (hk : ck < 256) :
    ∃ T, pairsFrom (frameWithChecksum m p c ck).1 (4 * p)
        (4 * ((frameWithChecksum m p c ck).2 + 1) - 4 * p) =
        encBits (List.replicate 12 false ++ bodyBits c ck) ++ 3 :: T ∧
      endAddress (frameWithChecksum m p c ck).2 (3 :: T) = (frameWithChecksum m p c ck).2 ∧
      p ≤ (frameWithChecksum m p c ck).2 := by
  obtain ⟨h1, h2, h3⟩ := frame_layout m p c ck hc hk
  have eP : encBits (List.replicate 12 false ++ bodyBits c ck ++ [false, false]) =
      encBits (List.replicate 12 false ++ bodyBits c ck) ++ [3, 0, 3, 0] := by
    rw [encBits_append]; rfl
  rw [eP] at h1 h2
  obtain ⟨T, hT, hTl⟩ := unpack_pack_extra _ (encBits_lt (List.replicate 12 false ++ bodyBits c ck))
  generalize frameWithChecksum m p c ck = r at h1 h2 h3 ⊢
  generalize encBits (List.replicate 12 false ++ bodyBits c ck) = E at h1 h2 hT hTl ⊢
  generalize hK : (packPairs (E ++ [3, 0, 3, 0])).length = K at h1 h2
  have hlenU := congrArg List.length hT
  rw [unpackBytes_length, hK] at hlenU
  simp only [List.length_append, List.length_cons] at hlenU
  have hll := leftPairs_length_lt (E ++ [3, 0, 3, 0])
  refine ⟨T ++ [3, 3, 3, 3], ?_, ?_, by omega⟩
  · have e1 : 4 * (r.2 + 1) - 4 * p = 4 * (K + 1) := by omega
    rw [e1, pairsFrom_bytes, memList_succ, unpackBytes_append, h2, hT, ← h1, h3]
    simp [unpackBytes, unpackByte]
  · unfold endAddress
    simp only [List.length_append, List.length_cons, List.length_nil]
    omega

/-- Decoding a frame that carries checksum byte `ck`, from its first byte with the last
byte at the terminator: the command comes back with the terminator address when `ck` is
the checksum of the command, and the decode returns NULL otherwise. -/
theorem decode_frameWithChecksum (m : Mem) (p : Nat) (c : fht8v_msg_t) (ck fuel : Nat)
    (hc : c.valid) (hk : ck < 256) (hfuel : 13 ≤ fuel) :
    FHT8VDecodeBitStream fuel (frameWithChecksum m p c ck).1 p (frameWithChecksum m p c ck).2 =
      some (if frameChecksum c = ck then some ((frameWithChecksum m p c ck).2, c) else none) := by
  obtain ⟨T, hT, hend, hle⟩ := frame_pairs m p c ck hc hk
  rw [decode_refines fuel _ p _ (by omega), hT, absDecode_frame c ck hc hk _ fuel hfuel]
  by_cases h : frameChecksum c = ck
  · simp [h, hend]
  · simp [h]

/-! ## The frame bytes in the words of the specification -/

theorem lineCode_eq (bs : List Bool) : lineCode bs = pairBits (encBits bs) := by
  induction bs with
  | nil => rfl
  | cons b bs ih =>
    cases b <;> simp [lineCode, encBits, encBit, pairBits, ih]

theorem pair_bits_value (a : Nat) (h : a < 4) :
    2 * (decide (a / 2 % 2 = 1)).toNat + (decide (a % 2 = 1)).toNat = a := by
  interval_cases a <;> rfl

theorem packMSB_pairBits (ps : List Nat) (h : ∀ x ∈ ps, x < 4) :
    packMSB (pairBits ps) = packPairs ps := by
  induction ps using leftPairs.induct with
  | case1 a b c d rest ih =>
    have ha := pair_bits_value a (h a (by simp))
    have hb := pair_bits_value b (h b (by simp))
    have hc := pair_bits_value c (h c (by simp))
    have hd := pair_bits_value d (h d (by simp))
    have hr : ∀ x ∈ rest, x < 4 := fun x hx => h x (by simp [hx])
    simp only [pairBits, packMSB, packPairs, ih hr]
    congr 1
    omega
  | case2 l hl =>
    match l, hl with
    | [], _ => rfl
    | [_], _ => rfl
    | [_, _], _ => rfl
    | [_, _, _], _ => rfl
    | a :: b :: c :: d :: rest, hl => exact absurd rfl (hl a b c d rest)

theorem packMSB_lineCode (bs : List Bool) : packMSB (lineCode bs) = packPairs (encBits bs) := by
  rw [lineCode_eq, packMSB_pairBits _ (encBits_lt bs)]

theorem frameBits_eq (c : fht8v_msg_t) (ck : Nat) :
    List.replicate 12 false ++ bodyBits c ck ++ [false, false] =
      List.replicate 12 false ++ (bodyBits c ck ++ [false, false]) := by
  rw [List.append_assoc]

/-! ## No encoded byte is 0xff -/

theorem encBits_head (bs : List Bool) : encBits bs = [] ∨ ∃ X, encBits bs = 3 :: X := by
  cases bs with
  | nil => exact Or.inl rfl
  | cons b bs => cases b <;> exact Or.inr ⟨_, rfl⟩

theorem encBits_chain (bs : List Bool) :
    List.Chain' (fun a b => a = 3 → ¬ b = 3) (encBits bs) := by
  induction bs with
  | nil => exact List.chain'_nil
  | cons b bs ih =>
    rcases encBits_head bs with h | ⟨X, h⟩
    · cases b <;> simp [encBits, encBit, h]
    · rw [h] at ih
      cases b <;> simp [encBits, encBit, h, ih]

theorem packPairs_ne_ff (ps : List Nat) (h4 : ∀ x ∈ ps, x < 4)
    (hch : List.Chain' (fun a b => a = 3 → ¬ b = 3) ps) :
    ∀ x ∈ packPairs ps, x ≠ 0xff := by
  induction ps using leftPairs.induct with
  | case1 a b c d rest ih =>
    have ha := h4 a (by simp)
    have hb := h4 b (by simp)
    have hc := h4 c (by simp)
    have hd := h4 d (by simp)
    have hr : ∀ x ∈ rest, x < 4 := fun x hx => h4 x (by simp [hx])
    have hab : a = 3 → ¬ b = 3 := (List.chain'_cons.mp hch).1
    have hch2 : List.Chain' (fun a b => a = 3 → ¬ b = 3) rest :=
      hch.tail.tail.tail.tail
    intro x hx
    simp only [packPairs, List.mem_cons] at hx
    rcases hx with hx | hx
    · omega
    · exact ih hr hch2 x hx
  | case2 l hl =>
    match l, hl with
    | [], _ => simp [packPairs]
    | [_], _ => simp [packPairs]
    | [_, _], _ => simp [packPairs]
    | [_, _, _], _ => simp [packPairs]
    | a :: b :: c :: d :: rest, hl => exact absurd rfl (hl a b c d rest)

theorem memList_get (m : Mem) (a n i : Nat) (h : i < n) :
    m (a + i) ∈ memList m a n := by
  unfold memList
  exact List.mem_map.mpr ⟨i, List.mem_range.mpr h, rfl⟩

/-! ## Length of the encoded frame -/

theorem encBits_length (bs : List Bool) :
    (encBits bs).length = 2 * bs.length + bs.count true := by
  induction bs with
  | nil => rfl
  | cons b bs ih =>
    cases b <;> simp [encBits, encBit, ih] <;> omega

set_option maxRecDepth 100000 in
theorem byteWithParity_count : ∀ b < 256,
    (byteWithParity b).length = 9 ∧ (byteWithParity b).count true ≤ 8 ∧
      (byteWithParity b).count true % 2 = 0 := by
  decide

theorem frame_length_bounds (c : fht8v_msg_t) (ck : Nat) (hc : c.valid) (hk : ck < 256) :
    35 ≤ (packPairs (encBits (List.replicate 12 false ++ bodyBits c ck ++
        [false, false]))).length ∧
      (packPairs (encBits (List.replicate 12 false ++ bodyBits c ck ++
        [false, false]))).length ≤ 45 := by
  obtain ⟨h1, h2, h3, h4⟩ := hc
  obtain ⟨a1, a2, _⟩ := byteWithParity_count _ h1
  obtain ⟨b1, b2, _⟩ := byteWithParity_count _ h2
  obtain ⟨c1, c2, _⟩ := byteWithParity_count _ h3
  obtain ⟨d1, d2, _⟩ := byteWithParity_count _ h4
  obtain ⟨e1, e2, _⟩ := byteWithParity_count _ hk
  have z1 : (byteWithParity 0).length = 9 := by decide
  have z2 : (byteWithParity 0).count true = 0 := by decide
  rw [packPairs_length, encBits_length]
  simp only [bodyBits, List.length_append, List.count_append, List.length_replicate,
    List.length_cons, List.length_nil, a1, b1, c1, d1, e1, z1, z2, List.count_replicate]
  simp
  omega

set_option maxRecDepth 100000 in
theorem parity_even_bit_eq : ∀ b < 256, parity_even_bit b = popCount8 b % 2 := by
  decide

/-! ## The encoder writes only from its start address to its end address -/

theorem appendEncBit_frame (m : Mem) (p : Nat) (b : Bool) :
    p ≤ (_FHT8VCreate200usAppendEncBit m p b).2 ∧
      ∀ i, (i < p ∨ (_FHT8VCreate200usAppendEncBit m p b).2 < i) →
        (_FHT8VCreate200usAppendEncBit m p b).1 i = m i := by
  rw [appendEncBit_eq]
  split_ifs <;> cases b <;> simp only [Bool.false_eq_true, if_false, if_true] <;>
    refine ⟨by omega, fun i hi => ?_⟩ <;>
    simp only [poke] <;> split_ifs <;> first | rfl | omega

theorem appendEncBits_frame (bs : List Bool) :
    ∀ (m : Mem) (p : Nat), p ≤ (appendEncBits (m, p) bs).2 ∧
      ∀ i, (i < p ∨ (appendEncBits (m, p) bs).2 < i) → (appendEncBits (m, p) bs).1 i = m i := by
  induction bs with
  | nil => intro m p; exact ⟨Nat.le_refl _, fun _ _ => rfl⟩
  | cons b bs ih =>
    intro m p
    obtain ⟨h1, h2⟩ := appendEncBit_frame m p b
    obtain ⟨h3, h4⟩ := ih (_FHT8VCreate200usAppendEncBit m p b).1
      (_FHT8VCreate200usAppendEncBit m p b).2
    have e : appendEncBits (m, p) (b :: bs) =
        appendEncBits ((_FHT8VCreate200usAppendEncBit m p b).1,
          (_FHT8VCreate200usAppendEncBit m p b).2) bs := rfl
    rw [e]
    refine ⟨by omega, fun i hi => ?_⟩
    rw [h4 i (by omega), h2 i (by omega)]

/-- The frame builder changes no byte before its start address or after its
terminator. -/
theorem frameWithChecksum_frame (m : Mem) (p : Nat) (c : fht8v_msg_t) (ck : Nat)
    (hc : c.valid) (hk : ck < 256) (i : Nat)
    (hi : i < p ∨ (frameWithChecksum m p c ck).2 < i) :
    (frameWithChecksum m p c ck).1 i = m i := by
  have hq := frameWithChecksum_eq m p c ck hc hk
  obtain ⟨h1, h2⟩ := appendEncBits_frame (bodyBits c ck ++ [false, false]) (preambleMem m p) (p + 6)
  generalize appendEncBits (preambleMem m p, p + 6) (bodyBits c ck ++ [false, false]) = s
    at hq h1 h2
  rw [hq] at hi ⊢
  simp only at hi ⊢
  rw [poke_other _ _ _ _ (by omega), h2 i (by omega)]
  simp only [preambleMem, poke]
  split_ifs <;> first | rfl | omega

/-! ## The frame builders are functions of their inputs -/

theorem memset_apply (m : Mem) (a v n i : Nat) :
    memset m a v n i = if a ≤ i ∧ i < a + n then v else m i := by
  induction n with
  | zero =>
    simp only [memset]
    split_ifs <;> first | rfl | omega
  | succ n ih =>
    simp only [memset, poke, ih]
    split_ifs <;> first | rfl | omega

theorem memList_eq_get (m1 m2 : Mem) (a n : Nat) (h : memList m1 a n = memList m2 a n) :
    ∀ j, j < n → m1 (a + j) = m2 (a + j) := by
  induction n with
  | zero => intro j hj; omega
  | succ n ih =>
    intro j hj
    rw [memList_succ, memList_succ] at h
    have hl : (memList m1 a n).length = (memList m2 a n).length := by
      rw [memList_length, memList_length]
    obtain ⟨h1, h2⟩ := List.append_inj h hl
    by_cases hjn : j < n
    · exact ih h1 j hjn
    · have : j = n := by omega
      subst this
      simpa using h2

/-- The encoder's output from its start address to its terminator does not depend on what
the memory held before. -/
theorem frame_independent (m1 m2 : Mem) (p : Nat) (c : fht8v_msg_t) (hc : c.valid) :
    (FHT8VCreate200usBitStreamBptr m1 p c).2 = (FHT8VCreate200usBitStreamBptr m2 p c).2 ∧
      ∀ i, p ≤ i → i ≤ (FHT8VCreate200usBitStreamBptr m1 p c).2 →
        (FHT8VCreate200usBitStreamBptr m1 p c).1 i = (FHT8VCreate200usBitStreamBptr m2 p c).1 i := by
  obtain ⟨a1, a2, a3⟩ := frame_layout m1 p c (frameChecksum c) hc (frameChecksum_lt c)
  obtain ⟨b1, b2, b3⟩ := frame_layout m2 p c (frameChecksum c) hc (frameChecksum_lt c)
  rw [← createBitStream_eq] at a1 a2 a3 b1 b2 b3
  have he : (FHT8VCreate200usBitStreamBptr m1 p c).2 = (FHT8VCreate200usBitStreamBptr m2 p c).2 := by
    rw [a1, b1]
  refine ⟨he, fun i hi1 hi2 => ?_⟩
  by_cases hlt : i < (FHT8VCreate200usBitStreamBptr m1 p c).2
  · have := memList_eq_get _ _ p _ (a2.trans b2.symm) (i - p) (by omega)
    rwa [show p + (i - p) = i by omega] at this
  · have hi : i = (FHT8VCreate200usBitStreamBptr m1 p c).2 := by omega
    rw [hi, a3, he, b3]

/-- The valve-set frame builder's output from `bptr` to the returned terminator address,
the returned address and the command it leaves do not depend on what the memory held
before. -/
theorem frameHT_independent (env : Externals) (hcodec : StatsCodecOK env) (m1 m2 : Mem)
    (bptr : Nat) (doHeader : Bool) (cmd : fht8v_msg_t) (pc : Nat)
    (trailer : Option FullStatsMessageCore_t) (h1 : cmd.hc1 < 256) (h2 : cmd.hc2 < 256) :
    (FHT8VCreateValveSetCmdFrameHT_r env m1 bptr doHeader cmd pc trailer).bptr =
        (FHT8VCreateValveSetCmdFrameHT_r env m2 bptr doHeader cmd pc trailer).bptr ∧
      (FHT8VCreateValveSetCmdFrameHT_r env m1 bptr doHeader cmd pc trailer).command =
        (FHT8VCreateValveSetCmdFrameHT_r env m2 bptr doHeader cmd pc trailer).command ∧
      ∀ i, bptr ≤ i →
        i ≤ (FHT8VCreateValveSetCmdFrameHT_r env m1 bptr doHeader cmd pc trailer).bptr →
        (FHT8VCreateValveSetCmdFrameHT_r env m1 bptr doHeader cmd pc trailer).mem i =
          (FHT8VCreateValveSetCmdFrameHT_r env m2 bptr doHeader cmd pc trailer).mem i := by
  -- the command as set by the builder
  generalize hcmd : (⟨cmd.hc1, cmd.hc2, 0x26, pc * 255 / 100 % 256⟩ : fht8v_msg_t) = cmd2
  have hv : cmd2.valid := by
    subst hcmd
    exact ⟨h1, h2, by norm_num, Nat.mod_lt _ (by norm_num)⟩
  -- the header stage
  generalize hq : (if doHeader then bptr + env.RFM22_PREAMBLE_BYTES else bptr) = q
  generalize hs1 : (if doHeader then memset m1 bptr env.RFM22_PREAMBLE_BYTE
    env.RFM22_PREAMBLE_BYTES else m1) = s1
  generalize hs2 : (if doHeader then memset m2 bptr env.RFM22_PREAMBLE_BYTE
    env.RFM22_PREAMBLE_BYTES else m2) = s2
  have hle : bptr ≤ q := by subst hq; split_ifs <;> omega
  have hhead : ∀ i, bptr ≤ i → i < q → s1 i = s2 i := by
    intro i hi1 hi2
    subst hq hs1 hs2
    cases doHeader
    · simp only [Bool.false_eq_true, if_false] at hi2; omega
    · simp only [if_true] at hi2 ⊢
      rw [memset_apply, memset_apply]
      simp [hi1, hi2]
  -- the encoded frame
  obtain ⟨fe, fb⟩ := frame_independent s1 s2 q cmd2 hv
  have fr1 := fun i => frameWithChecksum_frame s1 q cmd2 (frameChecksum cmd2) hv
    (frameChecksum_lt _) i
  have fr2 := fun i => frameWithChecksum_frame s2 q cmd2 (frameChecksum cmd2) hv
    (frameChecksum_lt _) i
  have fle := (frame_pairs s1 q cmd2 (frameChecksum cmd2) hv (frameChecksum_lt _)).choose_spec.2.2
  rw [← createBitStream_eq] at fr1 fr2 fle
  have hall : ∀ i, bptr ≤ i → i ≤ (FHT8VCreate200usBitStreamBptr s1 q cmd2).2 →
      (FHT8VCreate200usBitStreamBptr s1 q cmd2).1 i =
        (FHT8VCreate200usBitStreamBptr s2 q cmd2).1 i := by
    intro i hi1 hi2
    by_cases hiq : i < q
    · rw [fr1 i (Or.inl hiq), fr2 i (Or.inl hiq)]
      exact hhead i hi1 hiq
    · exact fb i (by omega) hi2
  have key : ∀ (m : Mem) (s : Mem),
      (if doHeader then memset m bptr env.RFM22_PREAMBLE_BYTE env.RFM22_PREAMBLE_BYTES
        else m) = s →
      FHT8VCreateValveSetCmdFrameHT_r env m bptr doHeader cmd pc trailer =
        (match trailer with
        | none => { mem := (FHT8VCreate200usBitStreamBptr s q cmd2).1, command := cmd2,
                    bptr := (FHT8VCreate200usBitStreamBptr s q cmd2).2 }
        | some t =>
          if t.containsTempAndPower && !t.containsID && !t.containsAmbL then
            { mem := poke (env.writeTrailingMinimalStatsPayload
                (FHT8VCreate200usBitStreamBptr s q cmd2).1
                (FHT8VCreate200usBitStreamBptr s q cmd2).2 t.tempAndPower)
                ((FHT8VCreate200usBitStreamBptr s q cmd2).2 + 3) 0xff,
              command := cmd2, bptr := (FHT8VCreate200usBitStreamBptr s q cmd2).2 + 3 }
          else
            match (env.encodeFullStatsMessageCore (FHT8VCreate200usBitStreamBptr s q cmd2).1
              (FHT8VCreate200usBitStreamBptr s q cmd2).2
              (env.FHT8V_200US_BIT_STREAM_FRAME_BUF_SIZE -
                ((FHT8VCreate200usBitStreamBptr s q cmd2).2 - bptr))
              env.getStatsTXLevel false t).2 with
            | some tail =>
              { mem := (env.encodeFullStatsMessageCore (FHT8VCreate200usBitStreamBptr s q cmd2).1
                  (FHT8VCreate200usBitStreamBptr s q cmd2).2
                  (env.FHT8V_200US_BIT_STREAM_FRAME_BUF_SIZE -
                    ((FHT8VCreate200usBitStreamBptr s q cmd2).2 - bptr))
                  env.getStatsTXLevel false t).1, command := cmd2, bptr := tail }
            | none =>
              { mem := (env.encodeFullStatsMessageCore (FHT8VCreate200usBitStreamBptr s q cmd2).1
                  (FHT8VCreate200usBitStreamBptr s q cmd2).2
                  (env.FHT8V_200US_BIT_STREAM_FRAME_BUF_SIZE -
                    ((FHT8VCreate200usBitStreamBptr s q cmd2).2 - bptr))
                  env.getStatsTXLevel false t).1, command := cmd2,
                bptr := (FHT8VCreate200usBitStreamBptr s q cmd2).2 }) := by
    intro m s hs
    subst hs hq hcmd
    unfold FHT8VCreateValveSetCmdFrameHT_r
    cases doHeader <;> rfl
  rw [key m1 s1 hs1, key m2 s2 hs2]
  clear key
  generalize FHT8VCreate200usBitStreamBptr s1 q cmd2 = f1 at fe fb fr1 fle hall ⊢
  generalize FHT8VCreate200usBitStreamBptr s2 q cmd2 = f2 at fe fb fr2 hall ⊢
  obtain ⟨f1m, f1p⟩ := f1
  obtain ⟨f2m, f2p⟩ := f2
  simp only at fe hall fle ⊢
  subst fe
  cases trailer with
  | none => exact ⟨rfl, rfl, hall⟩
  | some t =>
    simp only
    split_ifs with hmin
    · refine ⟨rfl, rfl, fun i hi1 hi2 => ?_⟩
      simp only at hi2 ⊢
      simp only [poke]
      split_ifs with h3
      · rfl
      · by_cases hb : i < f1p
        · rw [hcodec.minimal_before _ _ _ _ hb, hcodec.minimal_before _ _ _ _ hb]
          exact hall i hi1 (by omega)
        · rw [hcodec.minimal_bytes f1m f2m f1p _ i (by omega) (by omega)]
    · have ht := hcodec.full_tail f1m f2m f1p
        (env.FHT8V_200US_BIT_STREAM_FRAME_BUF_SIZE - (f1p - bptr)) env.getStatsTXLevel false t
      cases hr : (env.encodeFullStatsMessageCore f1m f1p
        (env.FHT8V_200US_BIT_STREAM_FRAME_BUF_SIZE - (f1p - bptr))
        env.getStatsTXLevel false t).2 with
      | none =>
        rw [hr] at ht
        rw [← ht]
        refine ⟨rfl, rfl, fun i hi1 hi2 => ?_⟩
        simp only at hi2 ⊢
        by_cases hb : i < f1p
        · rw [hcodec.full_before _ _ _ _ _ _ _ hb, hcodec.full_before _ _ _ _ _ _ _ hb]
          exact hall i hi1 (by omega)
        · have hi : i = f1p := by omega
          subst hi
          rw [hcodec.full_failed _ _ _ _ _ _ hr, hcodec.full_failed _ _ _ _ _ _ ht.symm]
          exact hall i hi1 (Nat.le_refl _)
      | some tail =>
        rw [hr] at ht
        rw [← ht]
        refine ⟨rfl, rfl, fun i hi1 hi2 => ?_⟩
        simp only at hi2 ⊢
        by_cases hb : i < f1p
        · rw [hcodec.full_before _ _ _ _ _ _ _ hb, hcodec.full_before _ _ _ _ _ _ _ hb]
          exact hall i hi1 (by omega)
        · exact hcodec.full_bytes f1m f2m f1p _ _ _ _ tail i hr (by omega) hi2

theorem frameHT_command (env : Externals) (m : Mem) (bptr : Nat) (doHeader : Bool)
    (cmd : fht8v_msg_t) (pc : Nat) (trailer : Option FullStatsMessageCore_t) :
    (FHT8VCreateValveSetCmdFrameHT_r env m bptr doHeader cmd pc trailer).command =
      ⟨cmd.hc1, cmd.hc2, 0x26, pc * 255 / 100 % 256⟩ := by
  unfold FHT8VCreateValveSetCmdFrameHT_r
  cases trailer with
  | none => rfl
  | some t =>
    simp only
    split_ifs <;> first | rfl | (split <;> rfl)

theorem frameHT_cmd_congr (env : Externals) (m : Mem) (bptr : Nat) (doHeader : Bool)
    (cmd cmd2 : fht8v_msg_t) (pc : Nat) (trailer : Option FullStatsMessageCore_t)
    (h1 : cmd2.hc1 = cmd.hc1) (h2 : cmd2.hc2 = cmd.hc2) :
    FHT8VCreateValveSetCmdFrameHT_r env m bptr doHeader cmd2 pc trailer =
      FHT8VCreateValveSetCmdFrameHT_r env m bptr doHeader cmd pc trailer := by
  unfold FHT8VCreateValveSetCmdFrameHT_r
  simp only [h1, h2]

/-- The shared-buffer frame builder's output up to its terminator does not depend on what
the buffer held before. -/
theorem txFrame_independent (env : Externals) (hcodec : StatsCodecOK env) (b1 b2 : Mem) :
    txFrameEnd env b1 = txFrameEnd env b2 ∧
      ∀ i, i ≤ txFrameEnd env b1 →
        FHT8VCreateValveSetCmdFrame env b1 i = FHT8VCreateValveSetCmdFrame env b2 i := by
  unfold txFrameEnd FHT8VCreateValveSetCmdFrame
  by_cases hen : localFHT8VTRVEnabled env = true
  · have hh : env.FHT8VGetHC1 ≤ 99 ∧ env.FHT8VGetHC2 ≤ 99 := by
      simpa [localFHT8VTRVEnabled] using hen
    simp only [hen, Bool.not_true, Bool.false_eq_true, if_false]
    unfold FHT8VCreateValveSetCmdFrame_r
    obtain ⟨k1, _, k3⟩ := frameHT_independent env hcodec b1 b2 0
      (env.enableTrailingMinimalStatsPayload ||
        decide (env.NominalRadValve_get ≥ env.getMinValvePcReallyOpen))
      ⟨env.FHT8VGetHC1, env.FHT8VGetHC2, 0, 0⟩ env.NominalRadValve_get
      (if env.enableTrailingMinimalStatsPayload then
        some { env.populateCoreStats with containsID := false } else none)
      (by simp only; omega) (by simp only; omega)
    exact ⟨k1, fun i hi => k3 i (Nat.zero_le _) hi⟩
  · simp only [Bool.not_eq_true] at hen
    simp only [hen, Bool.not_false, if_true]
    refine ⟨trivial, fun i hi => ?_⟩
    have : i = 0 := by omega
    subst this
    simp [poke]

/-! ## A changed bit pair makes the decode fail -/

theorem absReadBit_head (v : Nat) (L : List Nat) (h : v ≠ 3) : absReadBit (v :: L) = none := by
  cases hA : absReadBit (v :: L) with
  | none => rfl
  | some bl =>
    exfalso
    rcases absReadBit_eq_some _ bl.2 bl.1 hA with ⟨_, e⟩ | ⟨_, e⟩ <;>
      simp only [List.cons.injEq] at e <;> omega

theorem absReadBit_second (v : Nat) (L : List Nat) (h0 : v ≠ 0) (h2 : v ≠ 2) :
    absReadBit (3 :: v :: L) = none := by
  cases hA : absReadBit (3 :: v :: L) with
  | none => rfl
  | some bl =>
    exfalso
    rcases absReadBit_eq_some _ bl.2 bl.1 hA with ⟨_, e⟩ | ⟨_, e⟩ <;>
      simp only [List.cons.injEq] at e <;> omega

theorem absReadBit_third (v : Nat) (L : List Nat) (h0 : v ≠ 0) :
    absReadBit (3 :: 2 :: v :: L) = none := by
  cases hA : absReadBit (3 :: 2 :: v :: L) with
  | none => rfl
  | some bl =>
    exfalso
    rcases absReadBit_eq_some _ bl.2 bl.1 hA with ⟨_, e⟩ | ⟨_, e⟩ <;>
      simp only [List.cons.injEq] at e <;> omega

theorem absReadBit_short_two (v : Nat) : absReadBit [3, v] = some (0, []) ∨ absReadBit [3, v] = none := by
  cases hA : absReadBit [3, v] with
  | none => exact Or.inr rfl
  | some bl =>
    left
    rcases absReadBit_eq_some _ bl.2 bl.1 hA with ⟨e1, e⟩ | ⟨_, e⟩
    · simp only [List.cons.injEq] at e
      obtain ⟨b, L2⟩ := bl
      simp only at e1 e
      rw [e1, ← e.2.2]
    · simp at e

theorem absReadBit_second_end (v : Nat) (Y : List Nat) (h0 : v ≠ 0) (hY : HeadOK Y) :
    absReadBit (3 :: v :: Y) = none := by
  by_cases h2 : v = 2
  · subst h2
    rcases hY with rfl | ⟨X, rfl⟩
    · rcases absReadBit_short_two 2 with h | h
      · rcases absReadBit_eq_some _ _ _ h with ⟨_, e⟩ | ⟨_, e⟩ <;> simp at e
      · exact h
    · exact absReadBit_third 3 X (by norm_num)
  · exact absReadBit_second v Y h0 h2

theorem headOK_encBits (S : List Bool) (R : List Nat) (hR : HeadOK R) :
    HeadOK (encBits S ++ R) := by
  rcases encBits_head S with h | ⟨X, h⟩
  · rw [h]; exact hR
  · rw [h]; exact Or.inr ⟨_, rfl⟩

theorem absRun_none (n : Nat) : absRun n none = none := by
  induction n with
  | zero => rfl
  | succ n ih => simpa [absRun, absStep] using ih

theorem absRun_fail (n : Nat) (L : List Nat) (h : absReadBit L = none) :
    absRun (n + 1) (some L) = none := by
  simp [absRun, absStep, h, absRun_none]

theorem absRun_add (a b : Nat) (o : Option (List Nat)) :
    absRun (a + b) o = absRun b (absRun a o) := by
  induction a generalizing o with
  | zero => simp [absRun]
  | succ a ih =>
    rw [Nat.add_right_comm]
    simp only [absRun]
    exact ih _

/-- Reading as many bits as there are symbols from a line-coded stream with one pair
changed ends in the failed state, when the last symbol is a 0 or one more bit is read. -/
theorem run_flip (S : List Bool) :
    ∀ (q v n : Nat) (R : List Nat), q < (encBits S).length → (encBits S)[q]? ≠ some v →
      HeadOK R → (S.length + 1 ≤ n ∨ (S.length ≤ n ∧ S.getLast? = some false)) →
      absRun n (some ((encBits S ++ R).set q v)) = none := by
  induction S with
  | nil => intro q v n R hq; simp [encBits] at hq
  | cons b S ih =>
    intro q v n R hq hv hR hn
    have hY : HeadOK (encBits S ++ R) := headOK_encBits S R hR
    have hn1 : 1 ≤ n := by
      rcases hn with h | h
      · simp only [List.length_cons] at h; omega
      · simp only [List.length_cons] at h; omega
    obtain ⟨n1, rfl⟩ : ∃ n1, n = n1 + 1 := ⟨n - 1, by omega⟩
    have hrec : ∀ q2, q2 < (encBits S).length → (encBits S)[q2]? ≠ some v →
        absRun n1 (some ((encBits S ++ R).set q2 v)) = none := by
      intro q2 hq2 hv2
      apply ih q2 v n1 R hq2 hv2 hR
      have hne : S ≠ [] := by
        intro h; subst h; simp [encBits] at hq2
      rcases hn with h | h
      · left; simp only [List.length_cons] at h; omega
      · right
        simp only [List.length_cons] at h
        refine ⟨by omega, ?_⟩
        rw [← h.2]
        cases S with
        | nil => exact absurd rfl hne
        | cons b2 S2 => rw [List.getLast?_cons_cons]
    cases b with
    | false =>
      simp only [encBits, encBit, List.cons_append, List.nil_append] at hq hv ⊢
      match q, hq, hv with
      | 0, _, hv =>
        simp only [List.set_cons_zero]
        exact absRun_fail _ _ (absReadBit_head _ _ (by simpa using Ne.symm hv))
      | 1, _, hv =>
        simp only [List.set_cons_succ, List.set_cons_zero]
        exact absRun_fail _ _ (absReadBit_second_end _ _ (by simpa using Ne.symm hv) hY)
      | q2 + 2, hq, hv =>
        simp only [List.set_cons_succ]
        simp only [absRun, absStep_zero]
        apply hrec q2
        · simpa using hq
        · simpa using hv
    | true =>
      simp only [encBits, encBit, List.cons_append, List.nil_append] at hq hv ⊢
      match q, hq, hv with
      | 0, _, hv =>
        simp only [List.set_cons_zero]
        exact absRun_fail _ _ (absReadBit_head _ _ (by simpa using Ne.symm hv))
      | 1, _, hv =>
        simp only [List.set_cons_succ, List.set_cons_zero]
        have hv2 : v ≠ 2 := by simpa using Ne.symm hv
        by_cases hv0 : v = 0
        · subst hv0
          have hn2 : 1 ≤ n1 := by
            rcases hn with h | h
            · simp only [List.length_cons] at h; omega
            · have hne : S ≠ [] := by
                intro hS; subst hS; simp at h
              have := List.length_pos.mpr hne
              simp only [List.length_cons] at h; omega
          obtain ⟨n2, rfl⟩ : ∃ n2, n1 = n2 + 1 := ⟨n1 - 1, by omega⟩
          simp only [absRun, absStep_zero]
          exact absRun_fail _ _ (absReadBit_head _ _ (by norm_num))
        · exact absRun_fail _ _ (absReadBit_second _ _ hv0 hv2)
      | 2, _, hv =>
        simp only [List.set_cons_succ, List.set_cons_zero]
        exact absRun_fail _ _ (absReadBit_third _ _ (by simpa using Ne.symm hv))
      | q2 + 3, hq, hv =>
        simp only [List.set_cons_succ]
        simp only [absRun, absStep_one]
        apply hrec q2
        · simpa using hq
        · simpa using hv

theorem absStep_none_val (o : Option (List Nat)) (h : (absStep o).2 = none) :
    (absStep o).1 = 0 := by
  cases o with
  | none => rfl
  | some L =>
    simp only [absStep] at h ⊢
    split at h
    · simp at h
    · next hA => simp [hA]

theorem absByte_none : absByte none = (0, none) := rfl

theorem absByte_state (o : Option (List Nat)) :
    (absByte o).2 = none ∨ (absByte o).2 = absRun 9 o := by
  cases o with
  | none => exact Or.inl rfl
  | some L =>
    simp only [absByte, absByteStep, List.range, List.range.loop, List.foldl, absRun]
    split_ifs
    · exact Or.inl rfl
    · exact Or.inr rfl

theorem absByte_chain (o : Option (List Nat)) (n : Nat) (o2 : Option (List Nat))
    (h : o2 = none ∨ o2 = absRun n o) :
    (absByte o2).2 = none ∨ (absByte o2).2 = absRun (n + 9) o := by
  rcases h with h | h
  · subst h; exact Or.inl rfl
  · rcases absByte_state o2 with h2 | h2
    · exact Or.inl h2
    · right; rw [h2, h, absRun_add]

/-- If 55 reads of one bit end in the failed state, the decode after the leading 1
fails. -/
theorem absBody_none_of_run (o : Option (List Nat)) (h : absRun 55 o = none) :
    absBody o = none := by
  have h1 := absByte_chain o 0 o (Or.inr rfl)
  have h2 := absByte_chain o _ _ h1
  have h3 := absByte_chain o _ _ h2
  have h4 := absByte_chain o _ _ h3
  have h5 := absByte_chain o _ _ h4
  have h6 := absByte_chain o _ _ h5
  unfold absBody
  simp only
  generalize (absByte (absByte (absByte (absByte (absByte (absByte o).2).2).2).2).2) = r6 at h6 ⊢
  split_ifs with c1 c2 c3
  · rfl
  · rfl
  · rfl
  · rcases h6 with h6 | h6
    · exact absurd h6 c1
    · have hs : (absStep r6.2).2 = none := by
        have e : absRun 55 o = absRun 1 (absRun 54 o) := absRun_add 54 1 o
        rw [e, ← h6] at h
        exact h
      rw [hs]

theorem absFind_fail (f : Nat) (L : List Nat) (h : absReadBit L = none) :
    absFindLeadingOne (f + 1) (some L) = some none := by
  simp [absFindLeadingOne, absStep, h]

/-- A changed pair within the preamble zeros or the leading 1 makes the search for the
leading 1 fail. -/
theorem absFind_flip (j : Nat) :
    ∀ (q v fuel : Nat) (Y : List Nat), q < 2 * j + 3 →
      (encBits (List.replicate j false ++ [true]))[q]? ≠ some v → j + 2 ≤ fuel →
      absFindLeadingOne fuel
        (some ((encBits (List.replicate j false ++ [true]) ++ Y).set q v)) = some none := by
  induction j with
  | zero =>
    intro q v fuel Y hq hv hfuel
    obtain ⟨f, rfl⟩ : ∃ f, fuel = f + 2 := ⟨fuel - 2, by omega⟩
    simp only [List.replicate_zero, List.nil_append, encBits, encBit, List.cons_append,
      List.append_nil] at hv ⊢
    match q, hq, hv with
    | 0, _, hv =>
      simp only [List.set_cons_zero]
      exact absFind_fail _ _ (absReadBit_head _ _ (by simpa using Ne.symm hv))
    | 1, _, hv =>
      simp only [List.set_cons_succ, List.set_cons_zero]
      have hv2 : v ≠ 2 := by simpa using Ne.symm hv
      by_cases hv0 : v = 0
      · subst hv0
        have e : absFindLeadingOne (f + 2) (some (3 :: 0 :: 0 :: Y)) =
            absFindLeadingOne (f + 1) (some (0 :: Y)) := by
          simp [absFindLeadingOne, absStep_zero]
        rw [e]
        exact absFind_fail _ _ (absReadBit_head _ _ (by norm_num))
      · exact absFind_fail _ _ (absReadBit_second _ _ hv0 hv2)
    | 2, _, hv =>
      simp only [List.set_cons_succ, List.set_cons_zero]
      exact absFind_fail _ _ (absReadBit_third _ _ (by simpa using Ne.symm hv))
  | succ j ih =>
    intro q v fuel Y hq hv hfuel
    obtain ⟨f, rfl⟩ : ∃ f, fuel = f + 1 := ⟨fuel - 1, by omega⟩
    have hY : HeadOK (encBits (List.replicate j false ++ [true]) ++ Y) := by
      rcases encBits_head (List.replicate j false ++ [true]) with h | ⟨X, h⟩
      · have := congrArg List.length h
        rw [encBits_length] at this
        simp at this
      · rw [h]; exact Or.inr ⟨_, rfl⟩
    have hlen : (encBits (List.replicate j false ++ [true])).length = 2 * j + 3 := by
      rw [encBits_length]
      simp [List.count_replicate]
      omega
    have e : encBits (List.replicate (j + 1) false ++ [true]) =
        3 :: 0 :: encBits (List.replicate j false ++ [true]) := by
      simp [List.replicate_succ, encBits, encBit]
    rw [e] at hv
    rw [e]
    simp only [List.cons_append]
    match q, hq, hv with
    | 0, _, hv =>
      simp only [List.set_cons_zero]
      exact absFind_fail _ _ (absReadBit_head _ _ (by simpa using Ne.symm hv))
    | 1, _, hv =>
      simp only [List.set_cons_succ, List.set_cons_zero]
      exact absFind_fail _ _ (absReadBit_second_end _ _ (by simpa using Ne.symm hv) hY)
    | q2 + 2, hq, hv =>
      simp only [List.set_cons_succ]
      have e2 : absFindLeadingOne (f + 1) (some (3 :: 0 ::
          (encBits (List.replicate j false ++ [true]) ++ Y).set q2 v)) =
          absFindLeadingOne f
            (some ((encBits (List.replicate j false ++ [true]) ++ Y).set q2 v)) := by
        simp [absFindLeadingOne, absStep_zero]
      rw [e2]
      exact ih q2 v f Y (by omega) (by simpa using hv) (by omega)

/-- A changed pair anywhere from the first preamble pair to the last pair of the trailing
0 makes the decode of a frame fail. -/
theorem absDecode_flip (c : fht8v_msg_t) (ck : Nat) (T : List Nat) (q v fuel : Nat)
    (hq : q < (encBits (List.replicate 12 false ++ bodyBits c ck)).length)
    (hv : (encBits (List.replicate 12 false ++ bodyBits c ck))[q]? ≠ some v)
    (hfuel : 14 ≤ fuel) :
    absDecode fuel ((encBits (List.replicate 12 false ++ bodyBits c ck) ++ 3 :: T).set q v) =
      some none := by
  have hsplit : List.replicate 12 false ++ bodyBits c ck =
      (List.replicate 12 false ++ [true]) ++ (byteWithParity c.hc1 ++ byteWithParity c.hc2 ++
        byteWithParity 0 ++ byteWithParity c.command ++ byteWithParity c.extension ++
        byteWithParity ck ++ [false]) := by
    simp [bodyBits]
  generalize hB : (byteWithParity c.hc1 ++ byteWithParity c.hc2 ++
        byteWithParity 0 ++ byteWithParity c.command ++ byteWithParity c.extension ++
        byteWithParity ck ++ [false]) = B at hsplit
  have hBlen : B.length = 55 := by
    subst hB
    simp [byteWithParity, byteBitsMSB]
  have hBlast : B.getLast? = some false := by
    subst hB
    simp
  rw [hsplit, encBits_append] at hq hv ⊢
  have hlen : (encBits (List.replicate 12 false ++ [true])).length = 27 := by decide
  unfold absDecode
  by_cases hlt : q < 27
  · rw [List.getElem?_append_left (by omega)] at hv
    rw [List.append_assoc]
    rw [absFind_flip 12 q v fuel _ (by omega) hv (by omega)]
  · have hge : (encBits (List.replicate 12 false ++ [true])).length ≤ q := by omega
    rw [List.getElem?_append_right hge] at hv
    rw [List.append_assoc, List.set_append_right _ _ hge]
    have e : encBits (List.replicate 12 false ++ [true]) =
        encBits (List.replicate 12 false) ++ [3, 2, 0] := by decide
    rw [e, List.append_assoc]
    simp only [List.cons_append, List.nil_append]
    rw [absFind_zeros 12 fuel _ (by omega)]
    simp only
    rw [absBody_none_of_run]
    rw [← e]
    apply run_flip B _ v 55 (3 :: T)
    · rw [List.length_append] at hq; omega
    · exact hv
    · exact Or.inr ⟨_, rfl⟩
    · exact Or.inr ⟨by omega, hBlast⟩

/-! ## An inverted physical bit is a changed bit pair -/

set_option maxRecDepth 1000000 in
theorem flip_byte_pairs : ∀ j < 8, ∀ k < 4, ∀ x < 256,
    (x ^^^ (0x80 >>> j)) / 4 ^ (3 - k) % 4 =
      if k = j / 2 then (x / 4 ^ (3 - k) % 4) ^^^ (2 - j % 2) else x / 4 ^ (3 - k) % 4 := by
  decide

theorem flip_pair_ne : ∀ j < 8, ∀ y < 4, y ^^^ (2 - j % 2) ≠ y := by decide

theorem pairsFrom_congr (m1 m2 : Mem) (n : Nat) :
    ∀ q, (∀ i, q ≤ i → pairAt m1 i = pairAt m2 i) → pairsFrom m1 q n = pairsFrom m2 q n := by
  induction n with
  | zero => intro q _; rfl
  | succ n ih =>
    intro q h
    simp only [pairsFrom]
    rw [h q (Nat.le_refl _), ih (q + 1) (fun i hi => h i (by omega))]

theorem pairsFrom_set (m1 m2 : Mem) (v : Nat) (n : Nat) :
    ∀ q k, (∀ i, i ≠ q + k → pairAt m2 i = pairAt m1 i) → pairAt m2 (q + k) = v →
      pairsFrom m2 q n = (pairsFrom m1 q n).set k v := by
  induction n with
  | zero => intro q k _ _; rfl
  | succ n ih =>
    intro q k h hv
    simp only [pairsFrom]
    cases k with
    | zero =>
      simp only [List.set_cons_zero, Nat.add_zero] at hv ⊢
      rw [hv, pairsFrom_congr m2 m1 n (q + 1) (fun i hi => h i (by omega))]
    | succ k =>
      simp only [List.set_cons_succ]
      rw [h q (by omega), ih (q + 1) k (fun i hi => h i (by omega))
        (by rw [show q + 1 + k = q + (k + 1) by omega]; exact hv)]

theorem pairsFrom_getElem? (m : Mem) (n : Nat) :
    ∀ q k, k < n → (pairsFrom m q n)[k]? = some (pairAt m (q + k)) := by
  induction n with
  | zero => intro q k h; omega
  | succ n ih =>
    intro q k h
    simp only [pairsFrom]
    cases k with
    | zero => simp
    | succ k =>
      simp only [List.getElem?_cons_succ]
      rw [ih (q + 1) k (by omega), show q + 1 + k = q + (k + 1) by omega]

/-- Inverting physical bit `t` of a stream of bytes below 256 changes pair `t / 2` of
the stream, and no other pair. -/
theorem flipBit_pairs (m : Mem) (p t : Nat) (hx : m (p + t / 8) < 256) :
    (∀ i, i ≠ 4 * p + t / 2 → pairAt (flipBit m p t) i = pairAt m i) ∧
      pairAt (flipBit m p t) (4 * p + t / 2) ≠ pairAt m (4 * p + t / 2) := by
  have hj : t % 8 < 8 := Nat.mod_lt _ (by norm_num)
  constructor
  · intro i hi
    unfold pairAt flipBit poke
    by_cases hb : i / 4 = p + t / 8
    · simp only [hb, if_true]
      have hk : i % 4 < 4 := Nat.mod_lt _ (by norm_num)
      rw [flip_byte_pairs _ hj _ hk _ hx]
      have hne : i % 4 ≠ t % 8 / 2 := by omega
      simp [hne]
    · simp only [hb, if_false]
  · unfold pairAt flipBit poke
    have e1 : (4 * p + t / 2) / 4 = p + t / 8 := by omega
    have e2 : (4 * p + t / 2) % 4 = t % 8 / 2 := by omega
    have hk : t % 8 / 2 < 4 := by omega
    simp only [e1, e2, if_true]
    rw [flip_byte_pairs _ hj _ hk _ hx]
    simp only [if_true]
    exact flip_pair_ne _ hj _ (Nat.mod_lt _ (by norm_num))

theorem packPairs_lt (ps : List Nat) (h4 : ∀ x ∈ ps, x < 4) :
    ∀ y ∈ packPairs ps, y < 256 := by
  induction ps using leftPairs.induct with
  | case1 a b c d rest ih =>
    have ha := h4 a (by simp)
    have hb := h4 b (by simp)
    have hc := h4 c (by simp)
    have hd := h4 d (by simp)
    have hr : ∀ x ∈ rest, x < 4 := fun x hx => h4 x (by simp [hx])
    intro y hy
    simp only [packPairs, List.mem_cons] at hy
    rcases hy with hy | hy
    · omega
    · exact ih hr y hy
  | case2 l hl =>
    match l, hl with
    | [], _ => simp [packPairs]
    | [_], _ => simp [packPairs]
    | [_, _], _ => simp [packPairs]
    | [_, _, _], _ => simp [packPairs]
    | a :: b :: c :: d :: rest, hl => exact absurd rfl (hl a b c d rest)

theorem lineCode_length (bs : List Bool) : (lineCode bs).length = 2 * (encBits bs).length := by
  induction bs with
  | nil => rfl
  | cons b bs ih => cases b <;> simp [lineCode, encBits, encBit, ih] <;> omega

/-- Decoding the encoder's output with one physical bit inverted, anywhere from the first
preamble bit to the last bit of the encoded trailing 0, returns NULL. -/
theorem decode_flipped (m : Mem) (p : Nat) (c : fht8v_msg_t) (t fuel : Nat) (hc : c.valid)
    (ht : t < frameBitLength c) (hfuel : 14 ≤ fuel) :
    FHT8VDecodeBitStream fuel (flipBit (FHT8VCreate200usBitStreamBptr m p c).1 p t) p
      (FHT8VCreate200usBitStreamBptr m p c).2 = some none := by
  have hk := frameChecksum_lt c
  obtain ⟨T, hT, _, hle⟩ := frame_pairs m p c (frameChecksum c) hc hk
  obtain ⟨l1, l2, _⟩ := frame_layout m p c (frameChecksum c) hc hk
  rw [← createBitStream_eq] at hT hle l1 l2
  unfold frameBitLength at ht
  rw [lineCode_length] at ht
  generalize hE : encBits (List.replicate 12 false ++ bodyBits c (frameChecksum c)) = E
    at hT ht
  have eP : encBits (List.replicate 12 false ++ bodyBits c (frameChecksum c) ++
      [false, false]) = E ++ [3, 0, 3, 0] := by
    rw [encBits_append, hE]; rfl
  rw [eP] at l1 l2
  have hK : (packPairs (E ++ [3, 0, 3, 0])).length = (E.length + 4) / 4 := by
    rw [packPairs_length]; simp
  have h4 : ∀ x ∈ E ++ [3, 0, 3, 0], x < 4 := by
    rw [← eP]; exact encBits_lt _
  -- the byte that holds bit `t` is an encoded byte
  have hbyte : (FHT8VCreate200usBitStreamBptr m p c).1 (p + t / 8) < 256 := by
    have hmem := memList_get (FHT8VCreate200usBitStreamBptr m p c).1 p
      (packPairs (E ++ [3, 0, 3, 0])).length (t / 8) (by omega)
    rw [l2] at hmem
    exact packPairs_lt _ h4 _ hmem
  obtain ⟨f1, f2⟩ := flipBit_pairs (FHT8VCreate200usBitStreamBptr m p c).1 p t hbyte
  generalize FHT8VCreate200usBitStreamBptr m p c = r at hT hle l1 l2 hbyte f1 f2 ⊢
  have hlenL : (E ++ 3 :: T).length = 4 * (r.2 + 1) - 4 * p := by
    rw [← hT, pairsFrom_length]
  have hq : t / 2 < 4 * (r.2 + 1) - 4 * p := by
    rw [← hlenL, List.length_append]; omega
  have hset := pairsFrom_set r.1 (flipBit r.1 p t) (pairAt (flipBit r.1 p t) (4 * p + t / 2))
    (4 * (r.2 + 1) - 4 * p) (4 * p) (t / 2) f1 rfl
  rw [hT] at hset
  have horig : (E ++ 3 :: T)[t / 2]? = some (pairAt r.1 (4 * p + t / 2)) := by
    rw [← hT]; exact pairsFrom_getElem? r.1 _ (4 * p) (t / 2) hq
  rw [List.getElem?_append_left (by omega)] at horig
  rw [decode_refines fuel _ p _ (by omega), hset, ← hE]
  rw [absDecode_flip c (frameChecksum c) T (t / 2) _ fuel (by rw [hE]; omega)
    (by rw [hE, horig]; simpa using Ne.symm f2) hfuel]
  rfl

/-! ## The sample environment -/

theorem sampleExternals_codecOK (stats : Bool) : StatsCodecOK (sampleExternals stats) where
  minimal_before := by
    intro m p x i hi
    simp only [sampleExternals, poke]
    split_ifs <;> first | rfl | omega
  minimal_bytes := by
    intro m1 m2 p x i h1 h2
    simp only [sampleExternals, poke]
    split_ifs <;> first | rfl | omega
  full_before := by intro m p n lvl s t i _; rfl
  full_tail := by intro m1 m2 p n lvl s t; rfl
  full_bytes := by
    intro m1 m2 p n lvl s t tail i h
    simp [sampleExternals] at h
  full_failed := by intro m p n lvl s t _; rfl

/-! ## The scheduler: arithmetic and single steps -/

theorem toUInt8_sub (a b : Nat) (h : b ≤ a) (ha : a < 256) :
    toUInt8 ((a : Int) - (b : Int)) = a - b := by
  unfold toUInt8
  omega

theorem toUInt8_small (a : Nat) (ha : a < 256) : toUInt8 (a : Int) = a := by
  unfold toUInt8
  omega

theorem land_seven (x : Nat) : x &&& 7 = x % 8 := Nat.and_pow_two_sub_one_eq_mod x 3

theorem land_one (x : Nat) : x &&& 1 = x % 2 := Nat.and_pow_two_sub_one_eq_mod x 1

theorem gap_value (hc2 : Nat) : FHT8VTXGapHalfSeconds hc2 = hc2 % 8 + 230 := by
  unfold FHT8VTXGapHalfSeconds toUInt8
  rw [land_seven]
  omega

theorem gap_inCycle_value (two : Bool) (hc2 h : Nat) (hh : h ≤ MAX_HSC two) :
    FHT8VTXGapHalfSeconds_inCycle two hc2 h = hc2 % 8 + 230 - (MAX_HSC two - h) := by
  have hM : MAX_HSC two ≤ 3 := by cases two <;> simp [MAX_HSC]
  unfold FHT8VTXGapHalfSeconds_inCycle toUInt8
  rw [gap_value]
  omega

theorem bitStream_head (m : Mem) (c : fht8v_msg_t) (hc : c.valid) :
    (FHT8VCreate200usBitStreamBptr m 0 c).1 0 = 0xcc := by
  rw [createBitStream_eq]
  have hq := frameWithChecksum_eq m 0 c (frameChecksum c) hc (frameChecksum_lt c)
  obtain ⟨h1, h2⟩ := appendEncBits_frame (bodyBits c (frameChecksum c) ++ [false, false])
    (preambleMem m 0) (0 + 6)
  generalize appendEncBits (preambleMem m 0, 0 + 6)
    (bodyBits c (frameChecksum c) ++ [false, false]) = s at hq h1 h2
  rw [hq]
  simp only
  rw [poke_other _ _ _ _ (by omega), h2 0 (by omega)]
  simp [preambleMem, poke]

theorem queue_send (s : fht8v_sync_t) (d : Bool) (h : s.FHT8VTXCommandArea 0 ≠ 0xff) :
    FHT8VTXFHTQueueAndSendCmd s d =
      { s with radio := s.radio ++ [{ frame := s.FHT8VTXCommandArea, doubleTX := d }] } := by
  unfold FHT8VTXFHTQueueAndSendCmd
  rw [if_neg (fun e => h e.symm)]

theorem queue_empty (s : fht8v_sync_t) (d : Bool) (h : s.FHT8VTXCommandArea 0 = 0xff) :
    FHT8VTXFHTQueueAndSendCmd s d = s := by
  unfold FHT8VTXFHTQueueAndSendCmd
  rw [if_pos h.symm]

/-- A sync tick: with the counter at `n ≥ 3` the frame for tick `n` goes out if `n` is
odd, and the counter drops by one. -/
theorem doSync_tick (two : Bool) (env : Externals) (a : Bool) (s : fht8v_sync_t) (n : Nat)
    (hen : localFHT8VTRVEnabled env = true) (hn : 3 ≤ n) (hn2 : n < 256)
    (hs : s.syncStateFHT8V = n) :
    doSync two env a s =
      (if n % 2 = 1 then
        { s with
          syncStateFHT8V := n - 1,
          FHT8VTXCommandArea := (FHT8VCreate200usBitStreamBptr s.FHT8VTXCommandArea 0
            ⟨env.FHT8VGetHC1, env.FHT8VGetHC2, 0x2c, n⟩).1,
          radio := s.radio ++ [⟨(FHT8VCreate200usBitStreamBptr s.FHT8VTXCommandArea 0
            ⟨env.FHT8VGetHC1, env.FHT8VGetHC2, 0x2c, n⟩).1, a⟩] }
      else { s with syncStateFHT8V := n - 1 }, true) := by
  have hh : env.FHT8VGetHC1 ≤ 99 ∧ env.FHT8VGetHC2 ≤ 99 := by
    simpa [localFHT8VTRVEnabled] using hen
  obtain ⟨sy, bel, st, hs0, hsc, buf, rad⟩ := s
  simp only at hs
  subst hs
  have hv : (⟨env.FHT8VGetHC1, env.FHT8VGetHC2, 0x2c, st⟩ : fht8v_msg_t).valid := by
    refine ⟨?_, ?_, ?_, ?_⟩ <;> simp only <;> omega
  have hhead := bitStream_head buf _ hv
  have e1 : toUInt8 ((st : Int) - 1) = st - 1 := toUInt8_sub st 1 (by omega) hn2
  have e2 : ¬ (0 = st) := by omega
  have e3 : ¬ (1 = st - 1) := by omega
  by_cases hodd : st % 2 = 1
  · simp [doSync, hen, e2, e3, land_one, hodd, e1, queue_send, hhead, hn]
    intro h
    omega
  · simp [doSync, hen, e2, e3, land_one, hodd, e1, hn]
    intro h
    omega

theorem doSync_disabled (two : Bool) (env : Externals) (a : Bool) (s : fht8v_sync_t)
    (hen : localFHT8VTRVEnabled env = false) :
    doSync two env a s = ({ s with syncedWithFHT8V := false }, false) := by
  simp [doSync, hen]

theorem doSync_start (two : Bool) (env : Externals) (a : Bool) (s : fht8v_sync_t)
    (hen : localFHT8VTRVEnabled env = true) (hs : s.syncStateFHT8V = 0) :
    doSync two env a s = doSync two env a { s with syncStateFHT8V := 241 } := by
  obtain ⟨sy, bel, st, hs0, hsc, buf, rad⟩ := s
  simp only at hs
  subst hs
  simp only [doSync, hen, Bool.not_true, Bool.false_eq_true, if_false]
  rfl

/-- The last sync tick: the counter goes from 2 to 1 without a transmission and the
countdown to the sync-final command is set. -/
theorem doSync_last_tick (two : Bool) (env : Externals) (a : Bool) (s : fht8v_sync_t)
    (hen : localFHT8VTRVEnabled env = true) (hs : s.syncStateFHT8V = 2) :
    doSync two env a s =
      ({ s with syncStateFHT8V := 1,
                halfSecondsToNextFHT8VTX :=
                  toUInt8 (((env.FHT8VGetHC2 % 8 + 8 : Nat) : Int) -
                    ((MAX_HSC two : Int) - (s.halfSecondCount : Int))) }, false) := by
  obtain ⟨sy, bel, st, hs0, hsc, buf, rad⟩ := s
  simp only at hs
  subst hs
  have e1 : toUInt8 (((env.FHT8VGetHC2 &&& 7 : Nat) : Int) + 8) = env.FHT8VGetHC2 % 8 + 8 := by
    rw [land_seven]
    unfold toUInt8
    omega
  have e2 : toUInt8 1 = 1 := by decide
  simp only [doSync, hen]
  simp [land_one, e1, e2]

theorem last_tick_countdown (two : Bool) (hc2 h : Nat) (hh : h ≤ MAX_HSC two) :
    toUInt8 (((hc2 % 8 + 8 : Nat) : Int) - ((MAX_HSC two : Int) - (h : Int))) =
      hc2 % 8 + 8 - (MAX_HSC two - h) := by
  have hM : MAX_HSC two ≤ 3 := by cases two <;> simp [MAX_HSC]
  unfold toUInt8
  omega

/-- Waiting for the sync-final slot: the countdown drops by one. -/
theorem doSync_wait (two : Bool) (env : Externals) (a : Bool) (s : fht8v_sync_t) (n : Nat)
    (hen : localFHT8VTRVEnabled env = true) (hs : s.syncStateFHT8V = 1)
    (hn : 2 ≤ n) (hn2 : n < 256) (hh : s.halfSecondsToNextFHT8VTX = n) :
    doSync two env a s = ({ s with halfSecondsToNextFHT8VTX := n - 1 }, true) := by
  obtain ⟨sy, bel, st, hs0, hsc, buf, rad⟩ := s
  simp only at hs hh
  subst hs hh
  have e1 : toUInt8 ((hs0 : Int) - 1) = hs0 - 1 := toUInt8_sub hs0 1 (by omega) hn2
  have e2 : ¬ (hs0 - 1 = 0) := by omega
  simp [doSync, hen, e1, e2]

/-- The sync-final slot: the command 0x20 goes out, the unit is in sync, the buffer holds
the valve-setting frame and the countdown is the gap to the first valve-setting TX. -/
theorem doSync_final (two : Bool) (env : Externals) (a : Bool) (s : fht8v_sync_t)
    (hen : localFHT8VTRVEnabled env = true) (hs : s.syncStateFHT8V = 1)
    (hh : s.halfSecondsToNextFHT8VTX = 1) :
    doSync two env a s =
      ({ syncedWithFHT8V := true, FHT8V_isValveOpen := false, syncStateFHT8V := 1,
         halfSecondsToNextFHT8VTX :=
           FHT8VTXGapHalfSeconds_inCycle two env.FHT8VGetHC2 s.halfSecondCount,
         halfSecondCount := s.halfSecondCount,
         FHT8VTXCommandArea := FHT8VCreateValveSetCmdFrame env
           (FHT8VCreate200usBitStreamBptr s.FHT8VTXCommandArea 0
             ⟨env.FHT8VGetHC1, env.FHT8VGetHC2, 0x20, 0⟩).1,
         radio := s.radio ++ [⟨(FHT8VCreate200usBitStreamBptr s.FHT8VTXCommandArea 0
             ⟨env.FHT8VGetHC1, env.FHT8VGetHC2, 0x20, 0⟩).1, a⟩] }, false) := by
  have hh2 : env.FHT8VGetHC1 ≤ 99 ∧ env.FHT8VGetHC2 ≤ 99 := by
    simpa [localFHT8VTRVEnabled] using hen
  obtain ⟨sy, bel, st, hs0, hsc, buf, rad⟩ := s
  simp only at hs hh
  subst hs hh
  have hv : (⟨env.FHT8VGetHC1, env.FHT8VGetHC2, 0x20, 0⟩ : fht8v_msg_t).valid := by
    refine ⟨?_, ?_, ?_, ?_⟩ <;> simp only <;> omega
  have hhead := bitStream_head buf _ hv
  have e1 : toUInt8 0 = 0 := by decide
  simp [doSync, hen, e1, queue_send, hhead]

theorem pollStep_unsynced (two : Bool) (env : Externals) (s : fht8v_sync_t) (p : Bool × Bool)
    (h : s.syncedWithFHT8V = false) :
    pollStep two env s p = doSync two env true
      { s with halfSecondCount := if p.1 then 0 else toUInt8 ((s.halfSecondCount : Int) + 1) } := by
  obtain ⟨f, a⟩ := p
  cases f <;> simp [pollStep, FHT8VPollSyncAndTX_First, FHT8VPollSyncAndTX_Next, h]

theorem valveSettingTX_send (env : Externals) (s : fht8v_sync_t) (a : Bool)
    (h : s.FHT8VTXCommandArea 0 ≠ 0xff) :
    valveSettingTX env s a =
      { s with
        FHT8V_isValveOpen := decide (env.NominalRadValve_get ≥ env.getMinValvePcReallyOpen),
        radio := s.radio ++ [⟨s.FHT8VTXCommandArea, a⟩] } := by
  simp [valveSettingTX, setFHT8V_isValveOpen, queue_send, h]

theorem valveSettingTX_empty (env : Externals) (s : fht8v_sync_t) (a : Bool)
    (h : s.FHT8VTXCommandArea 0 = 0xff) :
    valveSettingTX env s a =
      { s with
        FHT8V_isValveOpen := decide (env.NominalRadValve_get ≥ env.getMinValvePcReallyOpen) } := by
  simp [valveSettingTX, setFHT8V_isValveOpen, queue_empty, h]

/-- In sync with more than a whole minor cycle to wait: _First takes the cycle off the
countdown and asks for no further poll. -/
theorem first_skip (two : Bool) (env : Externals) (a : Bool) (s : fht8v_sync_t) (n : Nat)
    (hsy : s.syncedWithFHT8V = true) (hh : s.halfSecondsToNextFHT8VTX = n)
    (hn : MAX_HSC two + 1 < n) (hn2 : n < 256) :
    FHT8VPollSyncAndTX_First two env a s =
      ({ s with halfSecondCount := 0,
                halfSecondsToNextFHT8VTX := n - (MAX_HSC two + 1) }, false) := by
  obtain ⟨sy, bel, st, hs0, hsc, buf, rad⟩ := s
  simp only at hsy hh
  subst hsy hh
  have e1 : toUInt8 ((hs0 : Int) - ((MAX_HSC two : Int) + 1)) = hs0 - (MAX_HSC two + 1) := by
    unfold toUInt8
    omega
  simp [FHT8VPollSyncAndTX_First, hn, e1]

/-- In sync with the transmission due later in this minor cycle: the poll takes one slot
off the countdown and asks for the next poll. -/
theorem first_wait (two : Bool) (env : Externals) (a : Bool) (s : fht8v_sync_t) (n : Nat)
    (hsy : s.syncedWithFHT8V = true) (hh : s.halfSecondsToNextFHT8VTX = n)
    (hn : n ≤ MAX_HSC two + 1) (hn2 : 2 ≤ n) :
    FHT8VPollSyncAndTX_First two env a s =
      ({ s with halfSecondCount := 0, halfSecondsToNextFHT8VTX := n - 1 }, true) := by
  obtain ⟨sy, bel, st, hs0, hsc, buf, rad⟩ := s
  simp only at hsy hh
  subst hsy hh
  have hM : MAX_HSC two ≤ 3 := by cases two <;> simp [MAX_HSC]
  have e1 : toUInt8 ((hs0 : Int) - 1) = hs0 - 1 := toUInt8_sub hs0 1 (by omega) (by omega)
  have e2 : ¬ (MAX_HSC two + 1 < hs0) := by omega
  have e3 : ¬ (0 = hs0 - 1) := by omega
  simp [FHT8VPollSyncAndTX_First, e1, e2, e3]

/-- In sync with the transmission due in the first slot. -/
theorem first_send (two : Bool) (env : Externals) (a : Bool) (s : fht8v_sync_t)
    (hsy : s.syncedWithFHT8V = true) (hh : s.halfSecondsToNextFHT8VTX = 1) :
    FHT8VPollSyncAndTX_First two env a s =
      ({ valveSettingTX env { s with halfSecondCount := 0, halfSecondsToNextFHT8VTX := 0 } a
          with halfSecondsToNextFHT8VTX :=
            (FHT8VTXGapHalfSeconds_inCycle two env.FHT8VGetHC2 0) }, false) := by
  obtain ⟨sy, bel, st, hs0, hsc, buf, rad⟩ := s
  simp only at hsy hh
  subst hsy hh
  have hM : MAX_HSC two ≤ 3 := by cases two <;> simp [MAX_HSC]
  have e1 : toUInt8 0 = 0 := by decide
  simp [FHT8VPollSyncAndTX_First, e1]

theorem next_wait (two : Bool) (env : Externals) (a : Bool) (s : fht8v_sync_t) (n : Nat)
    (hsy : s.syncedWithFHT8V = true) (hh : s.halfSecondsToNextFHT8VTX = n)
    (hn : n < 256) (hn2 : 2 ≤ n) :
    FHT8VPollSyncAndTX_Next two env a s =
      ({ s with halfSecondCount := toUInt8 ((s.halfSecondCount : Int) + 1),
                halfSecondsToNextFHT8VTX := n - 1 }, true) := by
  obtain ⟨sy, bel, st, hs0, hsc, buf, rad⟩ := s
  simp only at hsy hh
  subst hsy hh
  have e1 : toUInt8 ((hs0 : Int) - 1) = hs0 - 1 := toUInt8_sub hs0 1 (by omega) (by omega)
  have e3 : ¬ (0 = hs0 - 1) := by omega
  simp [FHT8VPollSyncAndTX_Next, e1, e3]

theorem next_send (two : Bool) (env : Externals) (a : Bool) (s : fht8v_sync_t)
    (hsy : s.syncedWithFHT8V = true) (hh : s.halfSecondsToNextFHT8VTX = 1) :
    FHT8VPollSyncAndTX_Next two env a s =
      ({ valveSettingTX env
            { s with halfSecondCount := (toUInt8 ((s.halfSecondCount : Int) + 1)),
                     halfSecondsToNextFHT8VTX := 0 } a
          with halfSecondsToNextFHT8VTX :=
            (FHT8VTXGapHalfSeconds_inCycle two env.FHT8VGetHC2
              (toUInt8 ((s.halfSecondCount : Int) + 1))) }, false) := by
  obtain ⟨sy, bel, st, hs0, hsc, buf, rad⟩ := s
  simp only at hsy hh
  subst hsy hh
  have e1 : toUInt8 0 = 0 := by decide
  simp [FHT8VPollSyncAndTX_Next, e1, valveSettingTX, setFHT8V_isValveOpen,
    FHT8VTXFHTQueueAndSendCmd]
  split_ifs <;> rfl

/-! ## The sync ticks -/

theorem runPolls_append (two : Bool) (env : Externals) (s : fht8v_sync_t)
    (ps qs : List (Bool × Bool)) :
    runPolls two env s (ps ++ qs) = runPolls two env (runPolls two env s ps) qs := by
  simp [runPolls, List.foldl_append]

theorem runPolls_single (two : Bool) (env : Externals) (s : fht8v_sync_t) (p : Bool × Bool) :
    runPolls two env s [p] = (pollStep two env s p).1 := rfl

/-- A sync tick in terms of the fields, also for the first one, where the counter starts
at 0 and is set to 241. -/
theorem doSync_tick_fields (two : Bool) (env : Externals) (a : Bool) (s : fht8v_sync_t)
    (n : Nat) (hen : localFHT8VTRVEnabled env = true) (hn : 3 ≤ n) (hn2 : n < 256)
    (hs : s.syncStateFHT8V = n ∨ (n = 241 ∧ s.syncStateFHT8V = 0)) :
    (doSync two env a s).1.syncedWithFHT8V = s.syncedWithFHT8V ∧
      (doSync two env a s).1.syncStateFHT8V = n - 1 ∧
      (doSync two env a s).1.radio =
        (if n % 2 = 1 then
          s.radio ++ [⟨(FHT8VCreate200usBitStreamBptr s.FHT8VTXCommandArea 0
            ⟨env.FHT8VGetHC1, env.FHT8VGetHC2, 0x2c, n⟩).1, a⟩]
        else s.radio) := by
  rcases hs with hs | ⟨hn3, hs⟩
  · rw [doSync_tick two env a s n hen hn hn2 hs]
    split_ifs <;> exact ⟨rfl, rfl, rfl⟩
  · subst hn3
    rw [doSync_start two env a s hen hs, doSync_tick two env a _ 241 hen hn hn2 rfl]
    exact ⟨rfl, rfl, rfl⟩

theorem getElem?_snoc_lt {α : Type} (L : List α) (x : α) (k : Nat) (h : k < L.length) :
    (L ++ [x])[k]? = L[k]? := by
  rw [List.getElem?_append_left h]

theorem getElem?_snoc_eq {α : Type} (L : List α) (x : α) :
    (L ++ [x])[L.length]? = some x := by
  simp

/-- The state after `j ≤ 240` polls from reset, whichever of _First and _Next each poll
is: not in sync, the counter at `241 - j`, and `(j + 1) / 2` sync ticks sent, the `k`-th
with extension `241 - 2 * k` and sent twice. -/
theorem sync_ticks_run (two : Bool) (env : Externals) (area : Mem) (ps : List (Bool × Bool))
    (hen : localFHT8VTRVEnabled env = true) :
    ∀ j, j ≤ 240 → j ≤ ps.length →
      (runPolls two env (resetState area) (ps.take j)).syncedWithFHT8V = false ∧
      (runPolls two env (resetState area) (ps.take j)).syncStateFHT8V =
        (if j = 0 then 0 else 241 - j) ∧
      (runPolls two env (resetState area) (ps.take j)).radio.length = (j + 1) / 2 ∧
      ∀ k, k < (j + 1) / 2 → ∃ m,
        (runPolls two env (resetState area) (ps.take j)).radio[k]? =
          some ⟨(FHT8VCreate200usBitStreamBptr m 0
            ⟨env.FHT8VGetHC1, env.FHT8VGetHC2, 0x2c, 241 - 2 * k⟩).1, true⟩ := by
  intro j
  induction j with
  | zero =>
    intro _ _
    simp [runPolls, resetState]
  | succ j ih =>
    intro h1 h2
    obtain ⟨a1, a2, a3, a4⟩ := ih (by omega) (by omega)
    have ht : ps.take (j + 1) = ps.take j ++ [ps.get ⟨j, by omega⟩] := by
      rw [List.take_succ]
      simp [List.getElem?_eq_getElem (show j < ps.length by omega)]
    rw [ht, runPolls_append, runPolls_single]
    generalize runPolls two env (resetState area) (ps.take j) = s at a1 a2 a3 a4
    generalize ps.get ⟨j, by omega⟩ = p
    rw [pollStep_unsynced two env s p a1]
    generalize hs2 : ({ s with halfSecondCount :=
      if p.1 then 0 else toUInt8 ((s.halfSecondCount : Int) + 1) } : fht8v_sync_t) = s2
    have b1 : s2.syncedWithFHT8V = false := by rw [← hs2]; exact a1
    have b2 : s2.syncStateFHT8V = if j = 0 then 0 else 241 - j := by rw [← hs2]; exact a2
    have b3 : s2.radio = s.radio := by rw [← hs2]
    have b4 : s2.FHT8VTXCommandArea = s.FHT8VTXCommandArea := by rw [← hs2]
    by_cases hj : j = 239
    · subst hj
      rw [doSync_last_tick two env true s2 hen (by simpa using b2)]
      refine ⟨b1, rfl, ?_, fun k hk => ?_⟩
      · show s2.radio.length = _
        rw [b3, a3]
      · show ∃ m, s2.radio[k]? = _
        rw [b3]
        exact a4 k (by omega)
    · obtain ⟨c1, c2, c3⟩ := doSync_tick_fields two env true s2 (241 - j) hen (by omega)
        (by omega) (by
          by_cases h0 : j = 0
          · right; subst h0; simpa using b2
          · left; simpa [h0] using b2)
      refine ⟨by rw [c1, b1], by rw [c2]; simp; omega, ?_, ?_⟩
      · rw [c3, b3]
        split_ifs with hodd
        · rw [List.length_append, a3]
          simp only [List.length_singleton]
          omega
        · rw [a3]
          omega
      · intro k hk
        rw [c3, b3]
        split_ifs with hodd
        · by_cases hk2 : k < (j + 1) / 2
          · obtain ⟨m, hm⟩ := a4 k hk2
            exact ⟨m, by rw [getElem?_snoc_lt _ _ _ (by omega), hm]⟩
          · have hk3 : k = s.radio.length := by omega
            refine ⟨s2.FHT8VTXCommandArea, ?_⟩
            rw [hk3, getElem?_snoc_eq]
            have e : 241 - 2 * s.radio.length = 241 - j := by omega
            rw [e]
        · exact a4 k (by omega)

/-! ## What one poll can do to the radio and to the belief -/

theorem queue_radio (s : fht8v_sync_t) (d : Bool) :
    (FHT8VTXFHTQueueAndSendCmd s d = s ∧ s.FHT8VTXCommandArea 0 = 0xff) ∨
      (FHT8VTXFHTQueueAndSendCmd s d =
        { s with radio := s.radio ++ [⟨s.FHT8VTXCommandArea, d⟩] } ∧
        s.FHT8VTXCommandArea 0 ≠ 0xff) := by
  by_cases h : s.FHT8VTXCommandArea 0 = 0xff
  · exact Or.inl ⟨queue_empty s d h, h⟩
  · exact Or.inr ⟨queue_send s d h, h⟩

theorem doSync_radio (two : Bool) (env : Externals) (a : Bool) (s : fht8v_sync_t) :
    (doSync two env a s).1.radio = s.radio ∨
      ∃ f, (doSync two env a s).1.radio = s.radio ++ [⟨f, a⟩] := by
  obtain ⟨sy, bel, st, hs0, hsc, buf, rad⟩ := s
  unfold doSync
  simp only
  split_ifs
  all_goals first
    | exact Or.inl rfl
    | (rcases queue_radio _ a with ⟨h, _⟩ | ⟨h, _⟩ <;> rw [h] <;>
        first | exact Or.inl rfl | exact Or.inr ⟨_, rfl⟩)

/-- A poll made in sync keeps the unit in sync and the buffer as it is, and either leaves
radio and belief alone or runs `valveSettingTX`: the belief is then set from the valve
position, and the buffer is transmitted unless it is empty. -/
theorem pollStep_synced (two : Bool) (env : Externals) (s : fht8v_sync_t) (p : Bool × Bool)
    (hsy : s.syncedWithFHT8V = true) :
    (pollStep two env s p).1.syncedWithFHT8V = true ∧
      (pollStep two env s p).1.FHT8VTXCommandArea = s.FHT8VTXCommandArea ∧
      (pollStep two env s p).1.syncStateFHT8V = s.syncStateFHT8V ∧
      (((pollStep two env s p).1.radio = s.radio ∧
          (pollStep two env s p).1.FHT8V_isValveOpen = s.FHT8V_isValveOpen) ∨
        ((pollStep two env s p).1.radio = s.radio ∧ s.FHT8VTXCommandArea 0 = 0xff ∧
          (pollStep two env s p).1.FHT8V_isValveOpen =
            decide (env.NominalRadValve_get ≥ env.getMinValvePcReallyOpen)) ∨
        ((pollStep two env s p).1.radio = s.radio ++ [⟨s.FHT8VTXCommandArea, p.2⟩] ∧
          s.FHT8VTXCommandArea 0 ≠ 0xff ∧
          (pollStep two env s p).1.FHT8V_isValveOpen =
            decide (env.NominalRadValve_get ≥ env.getMinValvePcReallyOpen))) := by
  obtain ⟨sy, bel, st, hs0, hsc, buf, rad⟩ := s
  obtain ⟨f, a⟩ := p
  simp only at hsy
  subst hsy
  by_cases hb : buf 0 = 0xff
  · cases f
    · simp only [pollStep, FHT8VPollSyncAndTX_Next, Bool.not_true, Bool.false_eq_true, if_false]
      split_ifs
      · rw [valveSettingTX_empty _ _ _ hb]
        exact ⟨rfl, rfl, rfl, Or.inr (Or.inl ⟨rfl, hb, rfl⟩)⟩
      · exact ⟨rfl, rfl, rfl, Or.inl ⟨rfl, rfl⟩⟩
    · simp only [pollStep, FHT8VPollSyncAndTX_First, Bool.not_true, Bool.false_eq_true,
        if_false, if_true]
      split_ifs
      · exact ⟨rfl, rfl, rfl, Or.inl ⟨rfl, rfl⟩⟩
      · rw [valveSettingTX_empty _ _ _ hb]
        exact ⟨rfl, rfl, rfl, Or.inr (Or.inl ⟨rfl, hb, rfl⟩)⟩
      · exact ⟨rfl, rfl, rfl, Or.inl ⟨rfl, rfl⟩⟩
  · cases f
    · simp only [pollStep, FHT8VPollSyncAndTX_Next, Bool.not_true, Bool.false_eq_true, if_false]
      split_ifs
      · rw [valveSettingTX_send _ _ _ hb]
        exact ⟨rfl, rfl, rfl, Or.inr (Or.inr ⟨rfl, hb, rfl⟩)⟩
      · exact ⟨rfl, rfl, rfl, Or.inl ⟨rfl, rfl⟩⟩
    · simp only [pollStep, FHT8VPollSyncAndTX_First, Bool.not_true, Bool.false_eq_true,
        if_false, if_true]
      split_ifs
      · exact ⟨rfl, rfl, rfl, Or.inl ⟨rfl, rfl⟩⟩
      · rw [valveSettingTX_send _ _ _ hb]
        exact ⟨rfl, rfl, rfl, Or.inr (Or.inr ⟨rfl, hb, rfl⟩)⟩
      · exact ⟨rfl, rfl, rfl, Or.inl ⟨rfl, rfl⟩⟩

theorem runPolls_synced (two : Bool) (env : Externals) (ps : List (Bool × Bool)) :
    ∀ s : fht8v_sync_t, s.syncedWithFHT8V = true →
      (runPolls two env s ps).syncedWithFHT8V = true := by
  induction ps with
  | nil => intro s h; exact h
  | cons p ps ih =>
    intro s h
    exact ih _ (pollStep_synced two env s p h).1

theorem pollStep_radio (two : Bool) (env : Externals) (s : fht8v_sync_t) (p : Bool × Bool) :
    (pollStep two env s p).1.radio = s.radio ∨
      ∃ f, (pollStep two env s p).1.radio =
        s.radio ++ [⟨f, if s.syncedWithFHT8V then p.2 else true⟩] := by
  by_cases hsy : s.syncedWithFHT8V = true
  · obtain ⟨_, _, _, h | h | h⟩ := pollStep_synced two env s p hsy
    · exact Or.inl h.1
    · exact Or.inl h.1
    · exact Or.inr ⟨_, by rw [h.1, hsy]; rfl⟩
  · have hsy2 : s.syncedWithFHT8V = false := by simpa using hsy
    rw [pollStep_unsynced two env s p hsy2, hsy2]
    exact doSync_radio two env true _

theorem runPolls_radio_grows (two : Bool) (env : Externals) (ps : List (Bool × Bool)) :
    ∀ s : fht8v_sync_t, s.radio <+: (runPolls two env s ps).radio := by
  induction ps with
  | nil => intro s; exact List.prefix_refl _
  | cons p ps ih =>
    intro s
    refine List.IsPrefix.trans ?_ (ih (pollStep two env s p).1)
    rcases pollStep_radio two env s p with h | ⟨f, h⟩
    · rw [h]
    · rw [h]
      exact List.prefix_append _ _

/-! ## Minor cycles of the caller -/

theorem maxHSC_cases (two : Bool) : MAX_HSC two = 1 ∨ MAX_HSC two = 3 := by
  cases two <;> simp [MAX_HSC]

/-- In sync with more than a whole cycle to wait, the cycle only shortens the
countdown. -/
theorem pollCycle_skip (two : Bool) (env : Externals) (a : Bool) (s : fht8v_sync_t) (n : Nat)
    (hsy : s.syncedWithFHT8V = true) (hh : s.halfSecondsToNextFHT8VTX = n)
    (hn : MAX_HSC two + 1 < n) (hn2 : n < 256) :
    pollCycle two env a s =
      { s with halfSecondCount := 0, halfSecondsToNextFHT8VTX := n - (MAX_HSC two + 1) } := by
  unfold pollCycle
  rw [first_skip two env a s n hsy hh hn hn2]
  rcases maxHSC_cases two with h | h <;> rw [h] <;> simp [nextPolls]

/-- In sync with the transmission due in slot `n - 1` of this cycle, the cycle polls up
to that slot and transmits the buffer there. -/
theorem pollCycle_send (two : Bool) (env : Externals) (a : Bool) (s : fht8v_sync_t) (n : Nat)
    (hsy : s.syncedWithFHT8V = true) (hh : s.halfSecondsToNextFHT8VTX = n)
    (hn : n ≤ MAX_HSC two + 1) (hn1 : 1 ≤ n) (hb : s.FHT8VTXCommandArea 0 ≠ 0xff) :
    pollCycle two env a s =
      { s with
        halfSecondCount := n - 1,
        halfSecondsToNextFHT8VTX := FHT8VTXGapHalfSeconds_inCycle two env.FHT8VGetHC2 (n - 1),
        FHT8V_isValveOpen := decide (env.NominalRadValve_get ≥ env.getMinValvePcReallyOpen),
        radio := s.radio ++ [⟨s.FHT8VTXCommandArea, a⟩] } := by
  obtain ⟨sy, bel, st, hs0, hsc, buf, rad⟩ := s
  simp only at hsy hh hb
  subst hsy hh
  have e0 : toUInt8 0 = 0 := by decide
  have e1 : toUInt8 1 = 1 := by decide
  have e2 : toUInt8 2 = 2 := by decide
  have e3 : toUInt8 3 = 3 := by decide
  have hb2 : ¬ (255 = buf 0) := fun e => hb e.symm
  rcases maxHSC_cases two with h | h
  · rw [h] at hn
    have h2 : two = false := by cases two <;> simp_all [MAX_HSC]
    subst h2
    interval_cases hs0 <;>
      simp [pollCycle, nextPolls, MAX_HSC, FHT8VPollSyncAndTX_First, FHT8VPollSyncAndTX_Next,
        valveSettingTX, setFHT8V_isValveOpen, FHT8VTXFHTQueueAndSendCmd, hb2, e0, e1, e2, e3]
  · rw [h] at hn
    have h2 : two = true := by cases two <;> simp_all [MAX_HSC]
    subst h2
    interval_cases hs0 <;>
      simp [pollCycle, nextPolls, MAX_HSC, FHT8VPollSyncAndTX_First, FHT8VPollSyncAndTX_Next,
        valveSettingTX, setFHT8V_isValveOpen, FHT8VTXFHTQueueAndSendCmd, hb2, e0, e1, e2, e3]

/-- In sync with countdown `n` and a frame in the buffer, the next transmission is in
slot `n - 1` counted from the start of the next cycle: whole cycles are skipped while
more than a cycle remains, and the rest is polled slot by slot. -/
theorem untilTX_synced (two : Bool) (env : Externals) (a : Bool) :
    ∀ (fuel : Nat) (s : fht8v_sync_t) (n : Nat), s.syncedWithFHT8V = true →
      s.halfSecondsToNextFHT8VTX = n → 1 ≤ n → n < 256 → n ≤ fuel * (MAX_HSC two + 1) →
      s.FHT8VTXCommandArea 0 ≠ 0xff →
      untilTX two env a fuel s = some (n - 1,
        { s with
          halfSecondCount := (n - 1) % (MAX_HSC two + 1),
          halfSecondsToNextFHT8VTX :=
            FHT8VTXGapHalfSeconds_inCycle two env.FHT8VGetHC2 ((n - 1) % (MAX_HSC two + 1)),
          FHT8V_isValveOpen := decide (env.NominalRadValve_get ≥ env.getMinValvePcReallyOpen),
          radio := s.radio ++ [⟨s.FHT8VTXCommandArea, a⟩] }) := by
  intro fuel
  induction fuel with
  | zero => intro s n _ _ h1 _ h2 _; omega
  | succ fuel ih =>
    intro s n hsy hh h1 h2 h3 hb
    unfold untilTX
    by_cases hn : n ≤ MAX_HSC two + 1
    · rw [pollCycle_send two env a s n hsy hh hn h1 hb]
      have e : (n - 1) % (MAX_HSC two + 1) = n - 1 := Nat.mod_eq_of_lt (by omega)
      simp [e]
    · rw [pollCycle_skip two env a s n hsy hh (by omega) h2]
      have h4 := ih
        { s with halfSecondCount := 0, halfSecondsToNextFHT8VTX := n - (MAX_HSC two + 1) }
        (n - (MAX_HSC two + 1)) hsy rfl (by omega) (by omega)
        (by rw [Nat.add_mul] at h3; omega) hb
      simp only [ne_eq, not_true_eq_false, if_false]
      rw [h4]
      have e : (n - (MAX_HSC two + 1) - 1) % (MAX_HSC two + 1) =
          (n - 1) % (MAX_HSC two + 1) := by
        have : n - 1 = (n - (MAX_HSC two + 1) - 1) + (MAX_HSC two + 1) := by omega
        rw [this, Nat.add_mod_right]
      simp only [e]
      have e2 : n - (MAX_HSC two + 1) - 1 + (MAX_HSC two + 1) = n - 1 := by omega
      rw [e2]

theorem first_sync_wait (two : Bool) (env : Externals) (a : Bool) (s : fht8v_sync_t) (n : Nat)
    (hen : localFHT8VTRVEnabled env = true) (hsy : s.syncedWithFHT8V = false)
    (hs : s.syncStateFHT8V = 1) (hh : s.halfSecondsToNextFHT8VTX = n)
    (hn : 2 ≤ n) (hn2 : n < 256) :
    FHT8VPollSyncAndTX_First two env a s =
      ({ s with halfSecondCount := 0, halfSecondsToNextFHT8VTX := n - 1 }, true) := by
  have h := pollStep_unsynced two env s (true, a) hsy
  simp only [pollStep, if_true] at h
  rw [h]
  exact doSync_wait two env true _ n hen hs hn hn2 hh

theorem next_sync_wait (two : Bool) (env : Externals) (a : Bool) (s : fht8v_sync_t) (n : Nat)
    (hen : localFHT8VTRVEnabled env = true) (hsy : s.syncedWithFHT8V = false)
    (hs : s.syncStateFHT8V = 1) (hh : s.halfSecondsToNextFHT8VTX = n)
    (hn : 2 ≤ n) (hn2 : n < 256) :
    FHT8VPollSyncAndTX_Next two env a s =
      ({ s with halfSecondCount := toUInt8 ((s.halfSecondCount : Int) + 1),
                halfSecondsToNextFHT8VTX := n - 1 }, true) := by
  have h := pollStep_unsynced two env s (false, a) hsy
  simp only [pollStep, Bool.false_eq_true, if_false] at h
  rw [h]
  exact doSync_wait two env true _ n hen hs hn hn2 hh

/-- Waiting for the sync-final slot with more than a whole cycle to go: every slot of the
cycle is polled and takes one off the countdown. -/
theorem pollCycle_sync_skip (two : Bool) (env : Externals) (a : Bool) (s : fht8v_sync_t)
    (n : Nat) (hen : localFHT8VTRVEnabled env = true) (hsy : s.syncedWithFHT8V = false)
    (hs : s.syncStateFHT8V = 1) (hh : s.halfSecondsToNextFHT8VTX = n)
    (hn : MAX_HSC two + 1 < n) (hn2 : n < 256) :
    pollCycle two env a s =
      { s with halfSecondCount := MAX_HSC two,
               halfSecondsToNextFHT8VTX := n - (MAX_HSC two + 1) } := by
  have e1 : toUInt8 (((0 : Nat) : Int) + 1) = 1 := by decide
  have e2 : toUInt8 (((1 : Nat) : Int) + 1) = 2 := by decide
  have e3 : toUInt8 (((2 : Nat) : Int) + 1) = 3 := by decide
  obtain ⟨sy, bel, st, hs0, hsc, buf, rad⟩ := s
  simp only at hsy hs hh
  subst hsy hs hh
  unfold pollCycle
  rw [first_sync_wait two env a _ hs0 hen rfl rfl rfl (by omega) hn2]
  rcases maxHSC_cases two with h | h
  · rw [h] at hn ⊢
    simp only [nextPolls, if_true]
    rw [next_sync_wait two env a ⟨false, bel, 1, hs0 - 1, 0, buf, rad⟩ (hs0 - 1) hen rfl rfl
      rfl (by omega) (by omega)]
    simp only [e1]
    rfl
  · rw [h] at hn ⊢
    simp only [nextPolls, if_true]
    rw [next_sync_wait two env a ⟨false, bel, 1, hs0 - 1, 0, buf, rad⟩ (hs0 - 1) hen rfl rfl
      rfl (by omega) (by omega)]
    simp only [if_true, e1]
    rw [next_sync_wait two env a ⟨false, bel, 1, hs0 - 1 - 1, 1, buf, rad⟩ (hs0 - 1 - 1) hen
      rfl rfl rfl (by omega) (by omega)]
    simp only [if_true, e2]
    rw [next_sync_wait two env a ⟨false, bel, 1, hs0 - 1 - 1 - 1, 2, buf, rad⟩
      (hs0 - 1 - 1 - 1) hen rfl rfl rfl (by omega) (by omega)]
    simp only [e3]
    have e : hs0 - 1 - 1 - 1 - 1 = hs0 - (3 + 1) := by omega
    rw [e]

/-- The variables right after the sync-final transmission made in slot `h` from the buffer
contents and radio log of `s`. -/
theorem pollCycle_sync_send (two : Bool) (env : Externals) (a : Bool) (s : fht8v_sync_t)
    (n : Nat) (hen : localFHT8VTRVEnabled env = true) (hsy : s.syncedWithFHT8V = false)
    (hs : s.syncStateFHT8V = 1) (hh : s.halfSecondsToNextFHT8VTX = n)
    (hn : n ≤ MAX_HSC two + 1) (hn1 : 1 ≤ n) :
    pollCycle two env a s =
      { syncedWithFHT8V := true, FHT8V_isValveOpen := false, syncStateFHT8V := 1,
        halfSecondsToNextFHT8VTX := FHT8VTXGapHalfSeconds_inCycle two env.FHT8VGetHC2 (n - 1),
        halfSecondCount := n - 1,
        FHT8VTXCommandArea := FHT8VCreateValveSetCmdFrame env
          (FHT8VCreate200usBitStreamBptr s.FHT8VTXCommandArea 0
            ⟨env.FHT8VGetHC1, env.FHT8VGetHC2, 0x20, 0⟩).1,
        radio := s.radio ++ [⟨(FHT8VCreate200usBitStreamBptr s.FHT8VTXCommandArea 0
            ⟨env.FHT8VGetHC1, env.FHT8VGetHC2, 0x20, 0⟩).1, true⟩] } := by
  have e1 : toUInt8 (((0 : Nat) : Int) + 1) = 1 := by decide
  have e2 : toUInt8 (((1 : Nat) : Int) + 1) = 2 := by decide
  have e3 : toUInt8 (((2 : Nat) : Int) + 1) = 3 := by decide
  obtain ⟨sy, bel, st, hs0, hsc, buf, rad⟩ := s
  simp only at hsy hs hh
  subst hsy hs hh
  have hM : MAX_HSC two ≤ 3 := by rcases maxHSC_cases two with h | h <;> omega
  have hF : ∀ (c : Nat), FHT8VPollSyncAndTX_First two env a ⟨false, bel, 1, 1, c, buf, rad⟩ =
      doSync two env true ⟨false, bel, 1, 1, 0, buf, rad⟩ := fun c =>
    pollStep_unsynced two env ⟨false, bel, 1, 1, c, buf, rad⟩ (true, a) rfl
  have hN : ∀ (c : Nat), FHT8VPollSyncAndTX_Next two env a ⟨false, bel, 1, 1, c, buf, rad⟩ =
      doSync two env true ⟨false, bel, 1, 1, toUInt8 ((c : Int) + 1), buf, rad⟩ := fun c =>
    pollStep_unsynced two env ⟨false, bel, 1, 1, c, buf, rad⟩ (false, a) rfl
  have hend : ∀ k r, nextPolls two env a k (r, false) = (r, false) := by
    intro k r
    cases k <;> simp [nextPolls]
  unfold pollCycle
  by_cases h1 : hs0 = 1
  · subst h1
    rw [hF, doSync_final two env true _ hen rfl rfl, hend]
  · rw [first_sync_wait two env a _ hs0 hen rfl rfl rfl (by omega) (by omega)]
    have h3 : MAX_HSC two = 3 ∨ (MAX_HSC two = 1 ∧ hs0 = 2) := by
      rcases maxHSC_cases two with h | h
      · right; omega
      · left; exact h
    rcases h3 with h | ⟨h, h2⟩
    · rw [h] at hn ⊢
      simp only [nextPolls, if_true]
      by_cases h2 : hs0 = 2
      · subst h2
        rw [hN, doSync_final two env true _ hen rfl rfl]
        simp only [Bool.false_eq_true, if_false, e1]
      · rw [next_sync_wait two env a ⟨false, bel, 1, hs0 - 1, 0, buf, rad⟩ (hs0 - 1) hen rfl
          rfl rfl (by omega) (by omega)]
        simp only [if_true, e1]
        by_cases h3 : hs0 = 3
        · subst h3
          rw [hN, doSync_final two env true _ hen rfl rfl]
          simp only [Bool.false_eq_true, if_false, e2]
        · have h4 : hs0 = 4 := by omega
          subst h4
          rw [next_sync_wait two env a ⟨false, bel, 1, 4 - 1 - 1, 1, buf, rad⟩ (4 - 1 - 1) hen
            rfl rfl rfl (by omega) (by omega)]
          simp only [if_true, e2]
          rw [hN, doSync_final two env true _ hen rfl rfl]
          simp only [e3]
    · subst h2
      rw [h]
      simp only [nextPolls, if_true]
      rw [hN, doSync_final two env true _ hen rfl rfl]
      simp only [e1]

/-- Waiting for the sync-final slot with countdown `n`, the sync-final command goes out in
slot `n - 1` counted from the start of the next cycle. -/
theorem untilTX_sync (two : Bool) (env : Externals) (a : Bool)
    (hen : localFHT8VTRVEnabled env = true) :
    ∀ (fuel : Nat) (s : fht8v_sync_t) (n : Nat), s.syncedWithFHT8V = false →
      s.syncStateFHT8V = 1 → s.halfSecondsToNextFHT8VTX = n → 1 ≤ n → n < 256 →
      n ≤ fuel * (MAX_HSC two + 1) →
      untilTX two env a fuel s = some (n - 1,
        { syncedWithFHT8V := true, FHT8V_isValveOpen := false, syncStateFHT8V := 1,
          halfSecondsToNextFHT8VTX :=
            FHT8VTXGapHalfSeconds_inCycle two env.FHT8VGetHC2 ((n - 1) % (MAX_HSC two + 1)),
          halfSecondCount := (n - 1) % (MAX_HSC two + 1),
          FHT8VTXCommandArea := FHT8VCreateValveSetCmdFrame env
            (FHT8VCreate200usBitStreamBptr s.FHT8VTXCommandArea 0
              ⟨env.FHT8VGetHC1, env.FHT8VGetHC2, 0x20, 0⟩).1,
          radio := s.radio ++ [⟨(FHT8VCreate200usBitStreamBptr s.FHT8VTXCommandArea 0
              ⟨env.FHT8VGetHC1, env.FHT8VGetHC2, 0x20, 0⟩).1, true⟩] }) := by
  intro fuel
  induction fuel with
  | zero => intro s n _ _ _ h1 _ h2; omega
  | succ fuel ih =>
    intro s n hsy hs hh h1 h2 h3
    unfold untilTX
    by_cases hn : n ≤ MAX_HSC two + 1
    · rw [pollCycle_sync_send two env a s n hen hsy hs hh hn h1]
      have e : (n - 1) % (MAX_HSC two + 1) = n - 1 := Nat.mod_eq_of_lt (by omega)
      simp [e]
    · rw [pollCycle_sync_skip two env a s n hen hsy hs hh (by omega) h2]
      have h4 := ih
        { s with halfSecondCount := MAX_HSC two,
                 halfSecondsToNextFHT8VTX := n - (MAX_HSC two + 1) }
        (n - (MAX_HSC two + 1)) hsy hs rfl (by omega) (by omega)
        (by rw [Nat.add_mul] at h3; omega)
      simp only [ne_eq, not_true_eq_false, if_false]
      rw [h4]
      have e : (n - (MAX_HSC two + 1) - 1) % (MAX_HSC two + 1) =
          (n - 1) % (MAX_HSC two + 1) := by
        have : n - 1 = (n - (MAX_HSC two + 1) - 1) + (MAX_HSC two + 1) := by omega
        rw [this, Nat.add_mod_right]
      simp only [e]
      have e2 : n - (MAX_HSC two + 1) - 1 + (MAX_HSC two + 1) = n - 1 := by omega
      rw [e2]

/-! ## The countdown left by a transmitting poll -/

theorem queue_fields (s : fht8v_sync_t) (d : Bool) :
    (FHT8VTXFHTQueueAndSendCmd s d).syncedWithFHT8V = s.syncedWithFHT8V ∧
      (FHT8VTXFHTQueueAndSendCmd s d).FHT8V_isValveOpen = s.FHT8V_isValveOpen ∧
      (FHT8VTXFHTQueueAndSendCmd s d).syncStateFHT8V = s.syncStateFHT8V ∧
      (FHT8VTXFHTQueueAndSendCmd s d).halfSecondsToNextFHT8VTX = s.halfSecondsToNextFHT8VTX ∧
      (FHT8VTXFHTQueueAndSendCmd s d).halfSecondCount = s.halfSecondCount ∧
      (FHT8VTXFHTQueueAndSendCmd s d).FHT8VTXCommandArea = s.FHT8VTXCommandArea := by
  unfold FHT8VTXFHTQueueAndSendCmd
  split_ifs <;> exact ⟨rfl, rfl, rfl, rfl, rfl, rfl⟩

/-- A run of `doSync` that leaves the unit in sync, having started out of sync, has set
the countdown to the gap for the slot it ran in. -/
theorem doSync_synced_countdown (two : Bool) (env : Externals) (a : Bool) (s : fht8v_sync_t)
    (h0 : s.syncedWithFHT8V = false) (h1 : (doSync two env a s).1.syncedWithFHT8V = true) :
    (doSync two env a s).1.halfSecondsToNextFHT8VTX =
      FHT8VTXGapHalfSeconds_inCycle two env.FHT8VGetHC2 (doSync two env a s).1.halfSecondCount := by
  obtain ⟨sy, bel, st, hs0, hsc, buf, rad⟩ := s
  simp only at h0
  subst h0
  revert h1
  unfold doSync
  simp only
  split_ifs <;> simp [(queue_fields _ _).1, (queue_fields _ _).2.2.2.2.1]

/-- A poll that transmits and leaves the unit in sync has set the countdown to the gap
for the slot it ran in. -/
theorem poll_tx_countdown (two : Bool) (env : Externals) (s : fht8v_sync_t) (p : Bool × Bool)
    (h1 : (pollStep two env s p).1.syncedWithFHT8V = true)
    (h2 : (pollStep two env s p).1.radio ≠ s.radio) :
    (pollStep two env s p).1.halfSecondsToNextFHT8VTX =
      FHT8VTXGapHalfSeconds_inCycle two env.FHT8VGetHC2
        (pollStep two env s p).1.halfSecondCount := by
  by_cases hsy : s.syncedWithFHT8V = true
  · obtain ⟨sy, bel, st, hs0, hsc, buf, rad⟩ := s
    obtain ⟨f, a⟩ := p
    simp only at hsy
    subst hsy
    revert h2
    cases f
    · simp only [pollStep, FHT8VPollSyncAndTX_Next, Bool.not_true, Bool.false_eq_true, if_false]
      split_ifs
      · intro _
        simp [valveSettingTX, setFHT8V_isValveOpen, (queue_fields _ _).2.2.2.2.1]
      · intro h; exact absurd rfl h
    · simp only [pollStep, FHT8VPollSyncAndTX_First, Bool.not_true, Bool.false_eq_true,
        if_false, if_true]
      split_ifs
      · intro h; exact absurd rfl h
      · intro _
        simp [valveSettingTX, setFHT8V_isValveOpen, (queue_fields _ _).2.2.2.2.1]
      · intro h; exact absurd rfl h
  · have hsy2 : s.syncedWithFHT8V = false := by simpa using hsy
    rw [pollStep_unsynced two env s p hsy2] at h1 ⊢
    exact doSync_synced_countdown two env true _ hsy2 h1

/-! ## The hub-mode receiver -/

theorem range_seven : List.range 7 = [0, 1, 2, 3, 4, 5, 6] := by decide

theorem readOneByteWithParity_lt (m : Mem) (st : decode_state_t) :
    (readOneByteWithParity m st).1 < 256 := by
  unfold readOneByteWithParity
  split_ifs
  · exact Nat.zero_lt_succ _
  · simp only [range_seven, List.foldl_cons, List.foldl_nil]
    exact Nat.mod_lt _ (by norm_num)

/-- Every field of a decoded command is a byte. -/
theorem decode_valid (fuel : Nat) (m : Mem) (s l t : Nat) (cmd : fht8v_msg_t)
    (h : FHT8VDecodeBitStream fuel m s l = some (some (t, cmd))) : cmd.valid := by
  unfold FHT8VDecodeBitStream at h
  simp only at h
  split at h
  · exact absurd h (by simp)
  · exact absurd h (by simp)
  · split_ifs at h <;> cases h
    exact ⟨readOneByteWithParity_lt _ _, readOneByteWithParity_lt _ _,
      readOneByteWithParity_lt _ _, readOneByteWithParity_lt _ _⟩

theorem compoundHC_eq (a b : Nat) (hb : b < 256) (ha : a < 256) :
    ((a <<< 8) ||| b) % 65536 = a * 256 + b := by
  have h := Nat.mul_add_lt_is_or (show b < 2 ^ 8 by simpa using hb) a
  rw [Nat.shiftLeft_eq, Nat.mul_comm a (2 ^ 8), ← h]
  norm_num
  omega

theorem statsTrailerCheck_mailbox (henv : HubExternals) (st : fht8v_hub_t)
    (trailer lastByte : Nat) (command : fht8v_msg_t) :
    (statsTrailerCheck henv st trailer lastByte command).lastCallForHeatHC =
      st.lastCallForHeatHC := by
  unfold statsTrailerCheck
  simp only
  split_ifs
  · split
    · split_ifs <;> rfl
    · rfl
  all_goals rfl

/-- The poll on a received frame that passes the preamble scan at `pos` and decodes to
`cmd`: the poll returns true, and the mailbox is written exactly when the command is 0x26
with extension at or above the threshold and the house code is accepted. -/
theorem poll_decoded (fuel : Nat) (env : Externals) (henv : HubExternals) (rx : rfm22_rx_t)
    (st : fht8v_hub_t) (pos trailer : Nat) (cmd : fht8v_msg_t)
    (heav : st.eavesdropping = true) (hirq : henv.PIN_RFM_NIRQ = true → rx.nIRQ = 0)
    (hst : rx.status &&& 0x1000 ≠ 0)
    (hscan : preambleScan henv { st with FHT8VRXHubArea := receivedFrame henv rx st } 6 0 =
      .body pos)
    (hdec : FHT8VDecodeBitStream fuel (receivedFrame henv rx st) pos
      (env.FHT8V_200US_BIT_STREAM_FRAME_BUF_SIZE - 1) = some (some (trailer, cmd))) :
    ∃ st2, FHT8VCallForHeatPoll fuel env henv rx st = some (st2, true) ∧
      st2.lastCallForHeatHC =
        (if 0x26 = cmd.command ∧ cmd.extension ≥ env.getMinValvePcReallyOpen then
          if henv.FHT8VHubAcceptedHouseCode cmd.hc1 cmd.hc2 then
            ((cmd.hc1 <<< 8) ||| cmd.hc2) % 65536
          else st.lastCallForHeatHC
        else st.lastCallForHeatHC) := by
  have hq : (henv.PIN_RFM_NIRQ && decide (rx.nIRQ ≠ 0)) = false := by
    cases hp : henv.PIN_RFM_NIRQ
    · rfl
    · simp [hirq hp]
  obtain ⟨ev, hc, er, buf⟩ := st
  simp only at heav
  subst heav
  unfold receivedFrame at hscan hdec
  simp only at hscan hdec
  unfold FHT8VCallForHeatPoll
  simp only [hq, Bool.not_true, Bool.false_eq_true, if_false, hst, ne_eq,
    not_false_eq_true, if_true, hscan, Nat.zero_add, hdec]
  refine ⟨_, rfl, ?_⟩
  split_ifs <;> simp [statsTrailerCheck_mailbox]

set_option maxRecDepth 100000 in
/-- The sample valve-setting frame is what the encoder writes into a zeroed buffer. -/
theorem sampleValveFrame_encoded :
    memList (FHT8VCreate200usBitStreamBptr (fun _ => 0) 0 ⟨13, 73, 0x26, 127⟩).1 0 42 =
      sampleValveFrame := by decide

set_option maxRecDepth 100000 in
/-- The sample sync frame is what the encoder writes into a zeroed buffer. -/
theorem sampleSyncFrame_encoded :
    memList (FHT8VCreate200usBitStreamBptr (fun _ => 0) 0 ⟨13, 73, 0x2c, 241⟩).1 0 42 =
      sampleSyncFrame := by decide

/-! ## The decoder's loop bound -/

theorem absReadBit_length (L L2 : List Nat) (b : Nat) (h : absReadBit L = some (b, L2)) :
    L2.length + 2 ≤ L.length := by
  unfold absReadBit at h
  split at h
  · cases h
    simp
  · cases h
    simp
  · exact absurd h (by simp)

/-- The loop over the leading zeros ends within `fuel` passes when fewer than `2 * fuel`
pairs are left: every pass that goes on has read an encoded 0, which is two pairs. -/
theorem absFind_total : ∀ (fuel : Nat) (L : List Nat), L.length < 2 * fuel →
    absFindLeadingOne fuel (some L) ≠ none := by
  intro fuel
  induction fuel with
  | zero => intro L h; omega
  | succ fuel ih =>
    intro L h
    unfold absFindLeadingOne absStep
    cases hr : absReadBit L with
    | none => simp [hr]
    | some x =>
      obtain ⟨b, L2⟩ := x
      have hl := absReadBit_length L L2 b hr
      simp only [hr]
      split_ifs
      · simp
      · exact ih L2 (by omega)
      · simp

/-- With the start inside the buffer, the decoder returns within the loop bound `fuel`
when `fuel` exceeds twice the number of bytes from the start to the last byte. -/
theorem decode_total (fuel : Nat) (m : Mem) (s l : Nat) (h : s ≤ l + 1)
    (hf : 2 * (l + 1 - s) < fuel) : FHT8VDecodeBitStream fuel m s l ≠ none := by
  rw [decode_refines fuel m s l h]
  have ht := absFind_total fuel (pairsFrom m (4 * s) (4 * (l + 1) - 4 * s))
    (by rw [pairsFrom_length]; omega)
  unfold absDecode
  cases hA : absFindLeadingOne fuel (some (pairsFrom m (4 * s) (4 * (l + 1) - 4 * s))) with
  | none => exact absurd hA ht
  | some o =>
    cases o <;> simp

theorem preambleScan_pos (henv : HubExternals) (st : fht8v_hub_t) :
    ∀ (n p pos : Nat), preambleScan henv st n p = .body pos → p ≤ pos ∧ pos ≤ p + n := by
  intro n
  induction n with
  | zero =>
    intro p pos h
    simp only [preambleScan, preamble_scan_t.body.injEq] at h
    omega
  | succ n ih =>
    intro p pos h
    unfold preambleScan at h
    simp only at h
    split_ifs at h
    · split at h <;> exact absurd h (by simp)
    · simp only [preamble_scan_t.body.injEq] at h
      omega
    · have := ih (p + 1) pos h
      omega

/-- The poll returns within the decoder's loop bound `fuel` when the frame buffer has
room for the preamble and `fuel` exceeds twice its size. -/
theorem poll_total (fuel : Nat) (env : Externals) (henv : HubExternals) (rx : rfm22_rx_t)
    (st : fht8v_hub_t) (hsize : 6 ≤ env.FHT8V_200US_BIT_STREAM_FRAME_BUF_SIZE)
    (hf : 2 * env.FHT8V_200US_BIT_STREAM_FRAME_BUF_SIZE < fuel) :
    FHT8VCallForHeatPoll fuel env henv rx st ≠ none := by
  unfold FHT8VCallForHeatPoll
  simp only
  by_cases h1 : (!st.eavesdropping) = true
  · rw [if_pos h1]
    exact Option.some_ne_none _
  rw [if_neg h1]
  by_cases h2 : (henv.PIN_RFM_NIRQ && decide (rx.nIRQ ≠ 0)) = true
  · rw [if_pos h2]
    exact Option.some_ne_none _
  rw [if_neg h2]
  by_cases h3 : rx.status &&& 0x1000 ≠ 0
  · rw [if_pos h3]
    split
    · exact Option.some_ne_none _
    · rename_i pos hscan
      obtain ⟨_, hp⟩ := preambleScan_pos henv _ 6 0 pos hscan
      have ht := decode_total fuel
        (rx.RFM22RXFIFO (memset st.FHT8VRXHubArea 0 0xff henv.FHT8V_MAX_FRAME_SIZE) 0
          henv.FHT8V_MAX_FRAME_SIZE) (0 + pos)
        (0 + env.FHT8V_200US_BIT_STREAM_FRAME_BUF_SIZE - 1) (by omega) (by omega)
      split
      · rename_i hd
        exact absurd hd ht
      · exact Option.some_ne_none _
      · exact Option.some_ne_none _
  · rw [if_neg h3]
    split_ifs <;> exact Option.some_ne_none _

/-! ## The receiver on a frame whose body does not decode -/

/-- The poll on a received frame that passes the preamble scan at `pos` and whose body
fails to decode: the poll returns false and records `FHT8VRXErr_BAD_RX_FRAME`; nothing
else changes but the receive buffer. -/
theorem poll_decode_failed (fuel : Nat) (env : Externals) (henv : HubExternals)
    (rx : rfm22_rx_t) (st : fht8v_hub_t) (pos : Nat)
    (heav : st.eavesdropping = true) (hirq : henv.PIN_RFM_NIRQ = true → rx.nIRQ = 0)
    (hst : rx.status &&& 0x1000 ≠ 0)
    (hscan : preambleScan henv { st with FHT8VRXHubArea := receivedFrame henv rx st } 6 0 =
      .body pos)
    (hdec : FHT8VDecodeBitStream fuel (receivedFrame henv rx st) pos
      (env.FHT8V_200US_BIT_STREAM_FRAME_BUF_SIZE - 1) = some none) :
    FHT8VCallForHeatPoll fuel env henv rx st =
      some ({ st with FHT8VRXHubArea := receivedFrame henv rx st,
                      lastRXerrno := FHT8VRXErr_BAD_RX_FRAME }, false) := by
  have hq : (henv.PIN_RFM_NIRQ && decide (rx.nIRQ ≠ 0)) = false := by
    cases hp : henv.PIN_RFM_NIRQ
    · rfl
    · simp [hirq hp]
  obtain ⟨ev, hc, er, buf⟩ := st
  simp only at heav
  subst heav
  unfold receivedFrame at hscan hdec ⊢
  simp only at hscan hdec ⊢
  unfold FHT8VCallForHeatPoll
  simp only [hq, Bool.not_true, Bool.false_eq_true, if_false, hst, ne_eq,
    not_false_eq_true, if_true, hscan, Nat.zero_add, hdec]
  rfl

/-! ## The encoder's partial byte in terms of physical bits -/

theorem pairBits_length (ps : List Nat) : (pairBits ps).length = 2 * ps.length := by
  induction ps with
  | nil => rfl
  | cons p ps ih => simp only [pairBits, List.length_cons, ih]; omega

/-- The bits of the leftover pairs are the bits left after the whole bytes. -/
theorem pairBits_leftPairs (ps : List Nat) :
    pairBits (leftPairs ps) = (pairBits ps).drop (8 * ((pairBits ps).length / 8)) := by
  induction ps using leftPairs.induct with
  | case1 a b c d rest ih =>
    have e : (pairBits (a :: b :: c :: d :: rest)).length = 8 + (pairBits rest).length := by
      simp only [pairBits, List.length_cons]; omega
    have e2 : 8 * ((8 + (pairBits rest).length) / 8) = 8 + 8 * ((pairBits rest).length / 8) := by
      omega
    rw [leftPairs, ih, e, e2, Nat.add_comm 8]
    rfl
  | case2 l hl =>
    have hlen : l.length < 4 := by
      match l, hl with
      | [], _ => simp
      | [_], _ => simp
      | [_, _], _ => simp
      | [_, _, _], _ => simp
      | a :: b :: c :: d :: rest, hl => exact absurd rfl (hl a b c d rest)
    have e : leftPairs l = l := by
      match l, hl with
      | [], _ => rfl
      | [_], _ => rfl
      | [_, _], _ => rfl
      | [_, _, _], _ => rfl
      | a :: b :: c :: d :: rest, hl => exact absurd rfl (hl a b c d rest)
    have e2 : (pairBits l).length / 8 = 0 := by
      rw [pairBits_length]; omega
    rw [e, e2]
    rfl

theorem leftPairs_mem (ps : List Nat) : ∀ x ∈ leftPairs ps, x ∈ ps := by
  induction ps using leftPairs.induct with
  | case1 a b c d rest ih =>
    intro x hx
    rw [leftPairs] at hx
    simp only [List.mem_cons]
    exact Or.inr (Or.inr (Or.inr (Or.inr (ih x hx))))
  | case2 l hl =>
    intro x hx
    rw [leftPairs] at hx
    · exact hx
    · exact hl

/-- The byte under construction in terms of physical bits: its top bits are the bits of
the leftover pairs, its two low bits count the free pairs less one, and it is 0xff when
nothing is left over. -/
theorem partialByte_bits (x : Nat) (L : List Nat) (h4 : ∀ a ∈ L, a < 4)
    (h : PartialByte x L) :
    x < 256 ∧ (byteBitsMSB x).take (pairBits L).length = pairBits L ∧
      x % 4 = 3 - (pairBits L).length / 2 ∧ (pairBits L = [] → x = 0xff) := by
  match L, h4, h with
  | [], _, h =>
    simp only [PartialByte] at h
    subst h
    exact ⟨by norm_num, rfl, rfl, fun _ => rfl⟩
  | [a], h4, h =>
    obtain ⟨h1, h2, h3⟩ := h
    have ha := h4 a (by simp)
    refine ⟨h3, ?_, by simp [pairBits]; omega, fun e => by simp [pairBits] at e⟩
    simp only [pairBits, byteBitsMSB, List.length_cons, List.length_nil, List.map_cons,
      List.take_succ_cons, List.take_zero, List.cons.injEq, decide_eq_decide, and_true]
    omega
  | [a, b], h4, h =>
    obtain ⟨h1, h2, h3⟩ := h
    have ha := h4 a (by simp)
    have hb := h4 b (by simp)
    refine ⟨h3, ?_, by simp [pairBits]; omega, fun e => by simp [pairBits] at e⟩
    simp only [pairBits, byteBitsMSB, List.length_cons, List.length_nil, List.map_cons,
      List.take_succ_cons, List.take_zero, List.cons.injEq, decide_eq_decide, and_true]
    omega
  | [a, b, c], h4, h =>
    obtain ⟨h1, h2, h3⟩ := h
    have ha := h4 a (by simp)
    have hb := h4 b (by simp)
    have hc := h4 c (by simp)
    refine ⟨h3, ?_, by simp [pairBits]; omega, fun e => by simp [pairBits] at e⟩
    simp only [pairBits, byteBitsMSB, List.length_cons, List.length_nil, List.map_cons,
      List.take_succ_cons, List.take_zero, List.cons.injEq, decide_eq_decide, and_true]
    omega
  | _ :: _ :: _ :: _ :: _, _, h => exact absurd h (by simp [PartialByte])

/-! ## Reading a byte with parity from its line code -/

set_option maxRecDepth 100000 in
/-- The byte built by eight shifts has the bits shifted in, and the parity test of the
decoder is the test that the parity bit differs from the XOR of the eight bits. -/
theorem nine_bits_value : ∀ c7 c6 c5 c4 c3 c2 c1 c0 pb : Bool,
    shiftIn (shiftIn (shiftIn (shiftIn (shiftIn (shiftIn (shiftIn c7.toNat c6.toNat)
        c5.toNat) c4.toNat) c3.toNat) c2.toNat) c1.toNat) c0.toNat < 256 ∧
    byteBitsMSB (shiftIn (shiftIn (shiftIn (shiftIn (shiftIn (shiftIn (shiftIn c7.toNat
        c6.toNat) c5.toNat) c4.toNat) c3.toNat) c2.toNat) c1.toNat) c0.toNat) =
      [c7, c6, c5, c4, c3, c2, c1, c0] ∧
    (((c7.toNat ^^^ c6.toNat ^^^ c5.toNat ^^^ c4.toNat ^^^ c3.toNat ^^^ c2.toNat ^^^
        c1.toNat ^^^ c0.toNat) ≠ pb.toNat) ↔
      pb ≠ [c7, c6, c5, c4, c3, c2, c1, c0].foldl xor false) := by
  decide

set_option maxRecDepth 100000 in
/-- Changing one of nine bits whose last is the XOR of the first eight leaves nine bits
whose last differs from the XOR of the first eight. -/
theorem nine_bits_flip : ∀ g7 g6 g5 g4 g3 g2 g1 g0 gp : Bool, ∀ i < 9,
    gp = [g7, g6, g5, g4, g3, g2, g1, g0].foldl xor false →
    ([g7, g6, g5, g4, g3, g2, g1, g0, gp].set i
        (!(List.getD [g7, g6, g5, g4, g3, g2, g1, g0, gp] i false))).getD 8 false ≠
      (([g7, g6, g5, g4, g3, g2, g1, g0, gp].set i
        (!(List.getD [g7, g6, g5, g4, g3, g2, g1, g0, gp] i false))).take 8).foldl xor false := by
  decide

theorem list_nine (l : List Bool) (h : l.length = 9) :
    ∃ a b c d e f g h i, l = [a, b, c, d, e, f, g, h, i] := by
  match l, h with
  | [a, b, c, d, e, f, g, h, i], _ => exact ⟨a, b, c, d, e, f, g, h, i, rfl⟩

/-- Reading a byte with parity where the pairs from the cursor to the end of the buffer
are the line code of nine bits followed by anything: the eight bits come back as the
byte, and the state fails exactly when the ninth differs from the XOR of the eight. -/
theorem readByte_nine (m : Mem) (st : decode_state_t) (X : List Nat)
    (c7 c6 c5 c4 c3 c2 c1 c0 pb : Bool) (hf : st.failed = false) (hm : MaskOK st.mask)
    (hp : pairsFrom m (statePos st) (4 * (st.lastByte + 1) - statePos st) =
      encBits [c7, c6, c5, c4, c3, c2, c1, c0, pb] ++ X) :
    (readOneByteWithParity m st).1 < 256 ∧
      byteBitsMSB (readOneByteWithParity m st).1 = [c7, c6, c5, c4, c3, c2, c1, c0] ∧
      ((readOneByteWithParity m st).2.failed = true ↔
        pb ≠ [c7, c6, c5, c4, c3, c2, c1, c0].foldl xor false) := by
  have hlen := congrArg List.length hp
  rw [pairsFrom_length, List.length_append, encBits_length] at hlen
  simp only [List.length_cons, List.length_nil] at hlen
  have hsim : Sim m st.lastByte st (some (encBits [c7, c6, c5, c4, c3, c2, c1, c0, pb] ++ X)) := by
    refine ⟨⟨rfl, hf, hm, hp.symm⟩, ?_⟩
    rw [List.length_append, encBits_length]
    simp only [List.length_cons, List.length_nil]
    omega
  obtain ⟨s1, s2⟩ := sim_byte m st.lastByte st _ hsim
  rw [absByte_bits] at s1 s2
  obtain ⟨v1, v2, v3⟩ := nine_bits_value c7 c6 c5 c4 c3 c2 c1 c0 pb
  simp only at s1 s2
  rw [s1]
  refine ⟨v1, v2, ?_⟩
  rw [← v3]
  split_ifs at s2 with hx
  · exact ⟨fun _ => hx, fun _ => s2⟩
  · refine ⟨fun hfail => ?_, fun h => absurd h hx⟩
    have := s2.1.2.1
    rw [hfail] at this
    exact absurd this (by decide)

/-! ## Pairs of a part of the buffer -/

theorem pairsFrom_add (m : Mem) (a b : Nat) :
    ∀ q, pairsFrom m q (a + b) = pairsFrom m q a ++ pairsFrom m (q + a) b := by
  induction a with
  | zero => intro q; simp [pairsFrom]
  | succ a ih =>
    intro q
    rw [Nat.add_right_comm]
    simp only [pairsFrom, List.cons_append]
    rw [ih (q + 1)]
    have e : q + 1 + a = q + (a + 1) := by omega
    rw [e]

theorem pairsFrom_take (m : Mem) (q n N : Nat) (h : n ≤ N) :
    pairsFrom m q n = (pairsFrom m q N).take n := by
  obtain ⟨b, rfl⟩ : ∃ b, N = n + b := ⟨N - n, by omega⟩
  rw [pairsFrom_add, List.take_left' (pairsFrom_length m q n)]

theorem pairsFrom_drop (m : Mem) (q j N : Nat) (h : j ≤ N) :
    pairsFrom m (q + j) (N - j) = (pairsFrom m q N).drop j := by
  obtain ⟨b, rfl⟩ : ∃ b, N = j + b := ⟨N - j, by omega⟩
  rw [pairsFrom_add, List.drop_left' (pairsFrom_length m q j)]
  simp

/-- The pairs read from memory depend only on the bytes that hold them. -/
theorem pairsFrom_congr_bytes (m1 m2 : Mem) (n : Nat) :
    ∀ q, (∀ i, q / 4 ≤ i → i ≤ (q + n - 1) / 4 → m1 i = m2 i) →
      pairsFrom m1 q n = pairsFrom m2 q n := by
  induction n with
  | zero => intro q _; rfl
  | succ n ih =>
    intro q h
    simp only [pairsFrom]
    have e1 : pairAt m1 q = pairAt m2 q := by
      unfold pairAt
      rw [h (q / 4) (Nat.le_refl _) (by omega)]
    rw [e1, ih (q + 1) (fun i hi1 hi2 => h i (by omega) (by omega))]

/-! ## Decoding a frame from any preamble byte, with any declared last byte -/

theorem absDecode_zeros (j : Nat) (c : fht8v_msg_t) (ck : Nat) (hc : c.valid) (hk : ck < 256)
    (X : List Nat) (fuel : Nat) (hfuel : j + 1 ≤ fuel) :
    absDecode fuel (encBits (List.replicate j false ++ bodyBits c ck) ++ X) =
      some (if frameChecksum c = ck then some (X, c) else none) := by
  have e : encBits (List.replicate j false ++ bodyBits c ck) ++ X =
      encBits (List.replicate j false) ++ 3 :: 2 :: 0 ::
        (encBits (byteWithParity c.hc1 ++ byteWithParity c.hc2 ++
          byteWithParity 0 ++ byteWithParity c.command ++ byteWithParity c.extension ++
          byteWithParity ck ++ [false]) ++ X) := by
    simp [bodyBits, encBits_append, encBits, encBit]
  rw [e]
  unfold absDecode
  rw [absFind_zeros j fuel _ hfuel]
  simp only
  rw [absBody_frame c ck hc hk X]

theorem encBits_zeros_length (j : Nat) : (encBits (List.replicate j false)).length = 2 * j := by
  rw [encBits_length]
  simp [List.count_replicate]

theorem frame_pairs_ge (c : fht8v_msg_t) (ck : Nat) :
    27 ≤ (encBits (List.replicate 12 false ++ bodyBits c ck)).length := by
  rw [encBits_length]
  simp [bodyBits]
  omega

/-- What the decoder finds when it starts `k ≤ 6` bytes into a frame and the declared
last byte is far enough for every pair up to the end of the trailing 0. -/
theorem frame_pairs_at (m : Mem) (p : Nat) (c : fht8v_msg_t) (ck : Nat)
    (hc : c.valid) (hk : ck < 256) (k l : Nat) (hk6 : k ≤ 6)
    (hl : 4 * p + (encBits (List.replicate 12 false ++ bodyBits c ck)).length ≤ 4 * (l + 1)) :
    ∃ Y, pairsFrom (frameWithChecksum m p c ck).1 (4 * (p + k)) (4 * (l + 1) - 4 * (p + k)) =
        encBits (List.replicate (12 - 2 * k) false ++ bodyBits c ck) ++ Y ∧
      endAddress l Y = (frameWithChecksum m p c ck).2 := by
  obtain ⟨T, hT, hend, hle⟩ := frame_pairs m p c ck hc hk
  have hge := frame_pairs_ge c ck
  have hsplit : encBits (List.replicate 12 false ++ bodyBits c ck) =
      encBits (List.replicate (2 * k) false) ++
        encBits (List.replicate (12 - 2 * k) false ++ bodyBits c ck) := by
    rw [← encBits_append, ← List.append_assoc, ← List.replicate_add]
    have : 2 * k + (12 - 2 * k) = 12 := by omega
    rw [this]
  generalize hE : encBits (List.replicate 12 false ++ bodyBits c ck) = E at hT hl hge hsplit
  generalize (frameWithChecksum m p c ck).1 = M at hT ⊢
  generalize (frameWithChecksum m p c ck).2 = e at hT hend hle ⊢
  have hN0 := congrArg List.length hT
  rw [pairsFrom_length, List.length_append, List.length_cons] at hN0
  -- the pairs of the frame up to the end of the trailing 0
  have ha : pairsFrom M (4 * p) E.length = E := by
    rw [pairsFrom_take M (4 * p) E.length _ (by omega : E.length ≤ 4 * (e + 1) - 4 * p), hT,
      List.take_left' rfl]
  -- all pairs up to the declared last byte
  have hb : pairsFrom M (4 * p) (4 * (l + 1) - 4 * p) =
      E ++ pairsFrom M (4 * p + E.length) (4 * (l + 1) - 4 * p - E.length) := by
    have : 4 * (l + 1) - 4 * p = E.length + (4 * (l + 1) - 4 * p - E.length) := by omega
    rw [this, pairsFrom_add, ha]
    simp
  refine ⟨pairsFrom M (4 * p + E.length) (4 * (l + 1) - 4 * p - E.length), ?_, ?_⟩
  · have e1 : 4 * (p + k) = 4 * p + 4 * k := by omega
    have e2 : 4 * (l + 1) - (4 * p + 4 * k) = 4 * (l + 1) - 4 * p - 4 * k := by omega
    rw [e1, e2, pairsFrom_drop M (4 * p) (4 * k) _ (by omega), hb,
      List.drop_append_of_le_length (by omega), hsplit,
      List.drop_left' (by rw [encBits_zeros_length]; omega)]
  · unfold endAddress at hend ⊢
    rw [pairsFrom_length]
    simp only [List.length_cons] at hend
    omega

/-- Decoding a frame that carries checksum byte `ck` from `k ≤ 6` bytes into its
preamble, the declared last byte being any byte from the one that holds the last pair of
the trailing 0 on. -/
theorem decode_frame_at (m : Mem) (p : Nat) (c : fht8v_msg_t) (ck fuel k l : Nat)
    (hc : c.valid) (hk : ck < 256) (hfuel : 13 ≤ fuel) (hk6 : k ≤ 6)
    (hl : 4 * p + (encBits (List.replicate 12 false ++ bodyBits c ck)).length ≤ 4 * (l + 1)) :
    FHT8VDecodeBitStream fuel (frameWithChecksum m p c ck).1 (p + k) l =
      some (if frameChecksum c = ck then some ((frameWithChecksum m p c ck).2, c) else none) := by
  obtain ⟨Y, hY, hend⟩ := frame_pairs_at m p c ck hc hk k l hk6 hl
  have hge := frame_pairs_ge c ck
  rw [decode_refines fuel _ (p + k) l (by omega), hY,
    absDecode_zeros (12 - 2 * k) c ck hc hk _ fuel (by omega)]
  by_cases h : frameChecksum c = ck
  · simp [h, hend]
  · simp [h]

/-! ## A frame cut short -/

theorem absReadBit_short (L : List Nat) (h : L = [] ∨ L = [3] ∨ L = [3, 2]) :
    absReadBit L = none := by
  rcases h with h | h | h <;> subst h <;> rfl

/-- Reading as many bits as there are symbols from a line-coded stream that is cut short
ends in the failed state. -/
theorem run_take (S : List Bool) :
    ∀ (n k : Nat), n < (encBits S).length → S.length ≤ k →
      absRun k (some ((encBits S).take n)) = none := by
  induction S with
  | nil => intro n k hn; simp [encBits] at hn
  | cons b S ih =>
    intro n k hn hk
    simp only [List.length_cons] at hk
    obtain ⟨k1, rfl⟩ : ∃ k1, k = k1 + 1 := ⟨k - 1, by omega⟩
    cases b with
    | false =>
      simp only [encBits, encBit, List.cons_append, List.nil_append, List.length_cons] at hn ⊢
      match n, hn with
      | 0, _ => exact absRun_fail _ _ (absReadBit_short _ (Or.inl rfl))
      | 1, _ => exact absRun_fail _ _ (absReadBit_short _ (Or.inr (Or.inl rfl)))
      | n2 + 2, hn =>
        simp only [List.take_succ_cons, absRun, absStep_zero]
        exact ih n2 k1 (by omega) (by omega)
    | true =>
      simp only [encBits, encBit, List.cons_append, List.nil_append, List.length_cons] at hn ⊢
      match n, hn with
      | 0, _ => exact absRun_fail _ _ (absReadBit_short _ (Or.inl rfl))
      | 1, _ => exact absRun_fail _ _ (absReadBit_short _ (Or.inr (Or.inl rfl)))
      | 2, _ => exact absRun_fail _ _ (absReadBit_short _ (Or.inr (Or.inr rfl)))
      | n2 + 3, hn =>
        simp only [List.take_succ_cons, absRun, absStep_one]
        exact ih n2 k1 (by omega) (by omega)

/-- A stream cut short within the preamble zeros or the leading 1 makes the search for
the leading 1 fail. -/
theorem absFind_take (j : Nat) :
    ∀ (n fuel : Nat), n < 2 * j + 3 → j + 1 ≤ fuel →
      absFindLeadingOne fuel
        (some ((encBits (List.replicate j false ++ [true])).take n)) = some none := by
  induction j with
  | zero =>
    intro n fuel hn hfuel
    obtain ⟨f, rfl⟩ : ∃ f, fuel = f + 1 := ⟨fuel - 1, by omega⟩
    simp only [List.replicate_zero, List.nil_append, encBits, encBit, List.append_nil]
    match n, hn with
    | 0, _ => exact absFind_fail _ _ (absReadBit_short _ (Or.inl rfl))
    | 1, _ => exact absFind_fail _ _ (absReadBit_short _ (Or.inr (Or.inl rfl)))
    | 2, _ => exact absFind_fail _ _ (absReadBit_short _ (Or.inr (Or.inr rfl)))
  | succ j ih =>
    intro n fuel hn hfuel
    obtain ⟨f, rfl⟩ : ∃ f, fuel = f + 1 := ⟨fuel - 1, by omega⟩
    have e : encBits (List.replicate (j + 1) false ++ [true]) =
        3 :: 0 :: encBits (List.replicate j false ++ [true]) := by
      simp [List.replicate_succ, encBits, encBit]
    rw [e]
    match n, hn with
    | 0, _ => exact absFind_fail _ _ (absReadBit_short _ (Or.inl rfl))
    | 1, _ => exact absFind_fail _ _ (absReadBit_short _ (Or.inr (Or.inl rfl)))
    | n2 + 2, hn =>
      simp only [List.take_succ_cons]
      have e2 : absFindLeadingOne (f + 1) (some (3 :: 0 ::
          (encBits (List.replicate j false ++ [true])).take n2)) =
          absFindLeadingOne f
            (some ((encBits (List.replicate j false ++ [true])).take n2)) := by
        simp [absFindLeadingOne, absStep_zero]
      rw [e2]
      exact ih n2 f (by omega) (by omega)

/-- A frame cut short anywhere before the end of its trailing 0 does not decode. -/
theorem absDecode_take (c : fht8v_msg_t) (ck n fuel : Nat)
    (hn : n < (encBits (List.replicate 12 false ++ bodyBits c ck)).length)
    (hfuel : 13 ≤ fuel) :
    absDecode fuel ((encBits (List.replicate 12 false ++ bodyBits c ck)).take n) =
      some none := by
  have hsplit : List.replicate 12 false ++ bodyBits c ck =
      (List.replicate 12 false ++ [true]) ++ (byteWithParity c.hc1 ++ byteWithParity c.hc2 ++
        byteWithParity 0 ++ byteWithParity c.command ++ byteWithParity c.extension ++
        byteWithParity ck ++ [false]) := by
    simp [bodyBits]
  generalize hB : (byteWithParity c.hc1 ++ byteWithParity c.hc2 ++
        byteWithParity 0 ++ byteWithParity c.command ++ byteWithParity c.extension ++
        byteWithParity ck ++ [false]) = B at hsplit
  have hBlen : B.length = 55 := by
    subst hB
    simp [byteWithParity, byteBitsMSB]
  rw [hsplit, encBits_append] at hn ⊢
  have hlen : (encBits (List.replicate 12 false ++ [true])).length = 27 := by decide
  unfold absDecode
  by_cases hlt : n < 27
  · rw [List.take_append_of_le_length (by omega), absFind_take 12 n fuel (by omega) (by omega)]
  · rw [List.take_append_eq_append_take, List.take_of_length_le (by omega)]
    have e : encBits (List.replicate 12 false ++ [true]) =
        encBits (List.replicate 12 false) ++ [3, 2, 0] := by decide
    rw [e, List.append_assoc]
    simp only [List.cons_append, List.nil_append]
    rw [absFind_zeros 12 fuel _ (by omega)]
    simp only
    rw [absBody_none_of_run]
    rw [← e, hlen]
    rw [List.length_append, hlen] at hn
    exact run_take B (n - 27) 55 (by omega) (by omega)

/-! ## The declared last byte -/

/-- A decode that starts beyond the declared last byte fails on its first read. -/
theorem decode_off_end (fuel : Nat) (m : Mem) (s l : Nat) (h : l < s) :
    FHT8VDecodeBitStream (fuel + 1) m s l = some none := by
  simp [FHT8VDecodeBitStream, findLeadingOne, readOneBit, h]

/-- The decoder reads no byte outside the range from its start to the declared last
byte: two memories that agree there decode alike. -/
theorem decode_congr (fuel : Nat) (m1 m2 : Mem) (s l : Nat)
    (h : ∀ i, s ≤ i → i ≤ l → m1 i = m2 i) :
    FHT8VDecodeBitStream fuel m1 s l = FHT8VDecodeBitStream fuel m2 s l := by
  by_cases hs : s ≤ l
  · rw [decode_refines fuel m1 s l (by omega), decode_refines fuel m2 s l (by omega),
      pairsFrom_congr_bytes m1 m2 _ (4 * s) (fun i h1 h2 => h i (by omega) (by omega))]
  · cases fuel with
    | zero => rfl
    | succ f => rw [decode_off_end f m1 s l (by omega), decode_off_end f m2 s l (by omega)]

/-- Decoding a frame with a declared last byte before the end of its trailing 0 returns
NULL. -/
theorem decode_truncated (m : Mem) (p : Nat) (c : fht8v_msg_t) (ck fuel l : Nat)
    (hc : c.valid) (hk : ck < 256) (hfuel : 13 ≤ fuel)
    (hl : 4 * (l + 1) < 4 * p + (encBits (List.replicate 12 false ++ bodyBits c ck)).length) :
    FHT8VDecodeBitStream fuel (frameWithChecksum m p c ck).1 p l = some none := by
  by_cases hs : p ≤ l
  · obtain ⟨T, hT, _, hle⟩ := frame_pairs m p c ck hc hk
    have hN := congrArg List.length hT
    rw [pairsFrom_length, List.length_append, List.length_cons] at hN
    rw [decode_refines fuel _ p l (by omega),
      pairsFrom_take _ (4 * p) (4 * (l + 1) - 4 * p)
        (4 * ((frameWithChecksum m p c ck).2 + 1) - 4 * p) (by omega),
      hT, List.take_append_of_le_length (by omega),
      absDecode_take c ck _ fuel (by omega) hfuel]
    rfl
  · obtain ⟨f, rfl⟩ : ∃ f, fuel = f + 1 := ⟨fuel - 1, by omega⟩
    exact decode_off_end f _ p l (by omega)

/-- The byte that holds the last pair of the trailing 0, in terms of bit pairs. -/
theorem trailingZeroByte_le (p : Nat) (c : fht8v_msg_t) (l : Nat) :
    trailingZeroByte p c ≤ l ↔
      4 * p + (encBits (List.replicate 12 false ++ bodyBits c (frameChecksum c))).length ≤
        4 * (l + 1) := by
  have hge := frame_pairs_ge c (frameChecksum c)
  unfold trailingZeroByte frameBitLength
  rw [lineCode_length]
  omega

/-! ## The preamble scan of the receiver -/

/-- The scan passes over bytes that hold 0xcc. -/
theorem preambleScan_skip (henv : HubExternals) (st : fht8v_hub_t) :
    ∀ (k n p : Nat), (∀ i, p ≤ i → i < p + k → st.FHT8VRXHubArea i = 0xcc) →
      preambleScan henv st (n + k) p = preambleScan henv st n (p + k) := by
  intro k
  induction k with
  | zero => intro n p _; rfl
  | succ k ih =>
    intro n p h
    have h0 : st.FHT8VRXHubArea p = 0xcc := h p (Nat.le_refl p) (by omega)
    rw [← Nat.add_assoc]
    simp only [preambleScan, h0, ne_eq, not_true_eq_false, if_false]
    rw [ih n (p + 1) (fun i h1 h2 => h i (by omega) (by omega)), Nat.add_assoc,
      Nat.add_comm 1 k]

/-- The scan of a buffer whose first byte other than 0xcc among the first six is at `pos`
(6 if there is none), that byte being neither the JSON leading character nor a full-stats
header byte. -/
theorem preambleScan_first (henv : HubExternals) (st : fht8v_hub_t) (pos : Nat)
    (hpos : pos ≤ 6) (hcc : ∀ i, i < pos → st.FHT8VRXHubArea i = 0xcc)
    (hb : pos < 6 → st.FHT8VRXHubArea pos ≠ 0xcc ∧
      st.FHT8VRXHubArea pos ≠ henv.MSG_JSON_LEADING_CHAR ∧
      (st.FHT8VRXHubArea pos &&& henv.MESSAGING_FULL_STATS_FLAGS_HEADER_MASK) ≠
        henv.MESSAGING_FULL_STATS_FLAGS_HEADER_MSBS) :
    preambleScan henv st 6 0 =
      if pos < 2 then .returned (setLastRXErr st FHT8VRXErr_BAD_PREAMBLE, false)
      else .body pos := by
  have h := preambleScan_skip henv st pos (6 - pos) 0 (fun i _ h2 => hcc i (by omega))
  rw [Nat.sub_add_cancel hpos, Nat.zero_add] at h
  rw [h]
  by_cases h6 : pos < 6
  · obtain ⟨b1, b2, b3⟩ := hb h6
    obtain ⟨n, hn⟩ : ∃ n, 6 - pos = n + 1 := ⟨6 - pos - 1, by omega⟩
    rw [hn]
    simp only [preambleScan, ne_eq, Ne.symm b1, not_false_eq_true, if_true, Ne.symm b2,
      if_false, Ne.symm b3]
  · have e : pos = 6 := by omega
    subst e
    rfl

/-- A poll whose preamble scan ends with a return gives that result. -/
theorem poll_scan_returned (fuel : Nat) (env : Externals) (henv : HubExternals)
    (rx : rfm22_rx_t) (st : fht8v_hub_t) (r : fht8v_hub_t × Bool)
    (heav : st.eavesdropping = true) (hirq : henv.PIN_RFM_NIRQ = true → rx.nIRQ = 0)
    (hst : rx.status &&& 0x1000 ≠ 0)
    (hscan : preambleScan henv { st with FHT8VRXHubArea := receivedFrame henv rx st } 6 0 =
      .returned r) :
    FHT8VCallForHeatPoll fuel env henv rx st = some r := by
  have hq : (henv.PIN_RFM_NIRQ && decide (rx.nIRQ ≠ 0)) = false := by
    cases hp : henv.PIN_RFM_NIRQ
    · rfl
    · simp [hirq hp]
  obtain ⟨ev, hc, er, buf⟩ := st
  simp only at heav
  subst heav
  unfold receivedFrame at hscan
  simp only at hscan
  unfold FHT8VCallForHeatPoll
  simp only [hq, Bool.not_true, Bool.false_eq_true, if_false, hst, ne_eq,
    not_false_eq_true, if_true, hscan]

/-- A poll whose decoder runs out of passes has no result. -/
theorem poll_decode_none (fuel : Nat) (env : Externals) (henv : HubExternals)
    (rx : rfm22_rx_t) (st : fht8v_hub_t) (pos : Nat)
    (heav : st.eavesdropping = true) (hirq : henv.PIN_RFM_NIRQ = true → rx.nIRQ = 0)
    (hst : rx.status &&& 0x1000 ≠ 0)
    (hscan : preambleScan henv { st with FHT8VRXHubArea := receivedFrame henv rx st } 6 0 =
      .body pos)
    (hdec : FHT8VDecodeBitStream fuel (receivedFrame henv rx st) pos
      (env.FHT8V_200US_BIT_STREAM_FRAME_BUF_SIZE - 1) = none) :
    FHT8VCallForHeatPoll fuel env henv rx st = none := by
  have hq : (henv.PIN_RFM_NIRQ && decide (rx.nIRQ ≠ 0)) = false := by
    cases hp : henv.PIN_RFM_NIRQ
    · rfl
    · simp [hirq hp]
  obtain ⟨ev, hc, er, buf⟩ := st
  simp only at heav
  subst heav
  unfold receivedFrame at hscan hdec
  simp only at hscan hdec
  unfold FHT8VCallForHeatPoll
  simp only [hq, Bool.not_true, Bool.false_eq_true, if_false, hst, ne_eq,
    not_false_eq_true, if_true, hscan, Nat.zero_add, hdec]

/-! ## The countdown never wraps -/

theorem valveSettingTX_fields (env : Externals) (s : fht8v_sync_t) (a : Bool) :
    (valveSettingTX env s a).syncedWithFHT8V = s.syncedWithFHT8V ∧
      (valveSettingTX env s a).syncStateFHT8V = s.syncStateFHT8V ∧
      (valveSettingTX env s a).halfSecondCount = s.halfSecondCount := by
  obtain ⟨q1, _, q3, _, q5, _⟩ := queue_fields s a
  exact ⟨q1, q3, q5⟩

/-- One poll in sync keeps the invariant: the countdown is decremented from at least 1,
or set afresh. -/
theorem countdownOK_synced (two : Bool) (env : Externals) (s : fht8v_sync_t)
    (p : Bool × Bool) (n n2 : Nat) (h : CountdownOK two n s)
    (hsy : s.syncedWithFHT8V = true) (hn2 : n2 ≤ MAX_HSC two)
    (hp : n2 = if p.1 then 0 else n + 1) :
    CountdownOK two n2 (pollStep two env s p).1 := by
  obtain ⟨i1, i2, i3, i4, _⟩ := h
  have i5 := i4 hsy
  have hM := maxHSC_cases two
  have hsyn := (pollStep_synced two env s p hsy).1
  have e8 : toUInt8 ((s.halfSecondCount : Int) + 1) = n + 1 := by
    rw [i1]; unfold toUInt8; omega
  obtain ⟨p1, p2⟩ := p
  simp only at hp
  cases p1 with
  | true =>
    simp only [if_true] at hp
    subst hp
    simp only [pollStep, if_true] at hsyn ⊢
    by_cases hc : MAX_HSC two + 1 < s.halfSecondsToNextFHT8VTX
    · rw [first_skip two env p2 s _ hsy rfl hc (by omega)]
      exact ⟨rfl, hn2, by simp only; omega, fun _ => by simp only; omega,
        fun hf => by simp [hsy] at hf⟩
    · by_cases h1 : s.halfSecondsToNextFHT8VTX = 1
      · rw [first_send two env p2 s hsy h1] at hsyn ⊢
        refine ⟨?_, hn2, ?_, fun _ => ?_, fun hf => ?_⟩
        · exact (valveSettingTX_fields env _ p2).2.2
        · simp only; rw [gap_inCycle_value two _ 0 (by omega)]; omega
        · simp only; rw [gap_inCycle_value two _ 0 (by omega)]; omega
        · rw [hsyn] at hf; cases hf
      · rw [first_wait two env p2 s _ hsy rfl (by omega) (by omega)]
        exact ⟨rfl, hn2, by simp only; omega, fun _ => by simp only; omega,
          fun hf => by simp [hsy] at hf⟩
  | false =>
    simp only [Bool.false_eq_true, if_false] at hp
    subst hp
    simp only [pollStep, Bool.false_eq_true, if_false] at hsyn ⊢
    by_cases h1 : s.halfSecondsToNextFHT8VTX = 1
    · rw [next_send two env p2 s hsy h1] at hsyn ⊢
      refine ⟨?_, hn2, ?_, fun _ => ?_, fun hf => ?_⟩
      · rw [(valveSettingTX_fields env _ p2).2.2]; exact e8
      · simp only; rw [e8, gap_inCycle_value two _ (n + 1) hn2]; omega
      · simp only; rw [e8, gap_inCycle_value two _ (n + 1) hn2]; omega
      · rw [hsyn] at hf; cases hf
    · rw [next_wait two env p2 s _ hsy rfl (by omega) (by omega)]
      exact ⟨e8, hn2, by simp only; omega, fun _ => by simp only; omega,
        fun hf => by simp [hsy] at hf⟩

/-- One poll out of sync, with a configured house code, keeps the invariant: the sync
counter runs down from 241 to 1, the last tick stores a countdown of at least 5, and the
countdown is then decremented from at least 1 until the sync final is sent. -/
theorem countdownOK_unsynced (two : Bool) (env : Externals) (s : fht8v_sync_t)
    (p : Bool × Bool) (n n2 : Nat) (h : CountdownOK two n s)
    (hen : localFHT8VTRVEnabled env = true)
    (hsy : s.syncedWithFHT8V = false) (hn2 : n2 ≤ MAX_HSC two)
    (hp : n2 = if p.1 then 0 else n + 1) :
    CountdownOK two n2 (pollStep two env s p).1 := by
  obtain ⟨i1, i2, i3, _, i5⟩ := h
  have hM := maxHSC_cases two
  have e8 : (if p.1 then 0 else toUInt8 ((s.halfSecondCount : Int) + 1)) = n2 := by
    rw [hp, i1]
    split_ifs
    · rfl
    · unfold toUInt8; omega
  rw [pollStep_unsynced two env s p hsy, e8]
  generalize hs2 : ({ s with halfSecondCount := n2 } : fht8v_sync_t) = s2
  have b1 : s2.syncedWithFHT8V = false := by rw [← hs2]; exact hsy
  have b2 : s2.syncStateFHT8V = s.syncStateFHT8V := by rw [← hs2]
  have b3 : s2.halfSecondsToNextFHT8VTX = s.halfSecondsToNextFHT8VTX := by rw [← hs2]
  have b4 : s2.halfSecondCount = n2 := by rw [← hs2]
  rcases i5 hsy with h0 | ⟨h2, h241⟩ | ⟨h1, hcd⟩
  · rw [doSync_start two env true s2 hen (b2.trans h0),
      doSync_tick two env true _ 241 hen (by norm_num) (by norm_num) rfl]
    simp only [show (241 % 2 = 1) from rfl, if_true]
    exact ⟨b4, hn2, by simp only; omega, fun hf => by simp [b1] at hf,
      fun _ => Or.inr (Or.inl ⟨by simp only; omega, by simp only; omega⟩)⟩
  · by_cases h3 : 3 ≤ s.syncStateFHT8V
    · rw [doSync_tick two env true s2 _ hen h3 (by omega) b2]
      split_ifs
      · exact ⟨b4, hn2, by simp only; omega, fun hf => by simp [b1] at hf,
          fun _ => Or.inr (Or.inl ⟨by simp only; omega, by simp only; omega⟩)⟩
      · exact ⟨b4, hn2, by simp only; omega, fun hf => by simp [b1] at hf,
          fun _ => Or.inr (Or.inl ⟨by simp only; omega, by simp only; omega⟩)⟩
    · have e2 : s2.syncStateFHT8V = 2 := by omega
      rw [doSync_last_tick two env true s2 hen e2]
      have hm8 : env.FHT8VGetHC2 % 8 < 8 := Nat.mod_lt _ (by norm_num)
      have hl := last_tick_countdown two env.FHT8VGetHC2 n2 hn2
      refine ⟨b4, hn2, ?_, fun hf => by simp [b1] at hf, fun _ => Or.inr (Or.inr ⟨rfl, ?_⟩)⟩
      · simp only; rw [b4, hl]; omega
      · simp only; rw [b4, hl]; omega
  · by_cases hc1 : s.halfSecondsToNextFHT8VTX = 1
    · rw [doSync_final two env true s2 hen (b2.trans h1) (b3.trans hc1)]
      have hg := gap_inCycle_value two env.FHT8VGetHC2 n2 hn2
      refine ⟨b4, hn2, ?_, fun _ => ?_, fun hf => by simp at hf⟩
      · simp only; rw [b4, hg]; omega
      · simp only; rw [b4, hg]; omega
    · rw [doSync_wait two env true s2 _ hen (b2.trans h1) (by omega) (by omega) b3]
      exact ⟨b4, hn2, by simp only; omega, fun hf => by simp [b1] at hf,
        fun _ => Or.inr (Or.inr ⟨b2.trans h1, by simp only; omega⟩)⟩

/-- The invariant holds along every bounded sequence of polls. -/
theorem countdownOK_run (two : Bool) (env : Externals)
    (hen : localFHT8VTRVEnabled env = true) (ps : List (Bool × Bool)) :
    ∀ (n : Nat) (s : fht8v_sync_t), CountdownOK two n s → pollsBounded two n ps = true →
      ∃ n2, CountdownOK two n2 (runPolls two env s ps) := by
  induction ps with
  | nil => intro n s h _; exact ⟨n, h⟩
  | cons p ps ih =>
    intro n s h hb
    have hstep : ∀ n2, n2 ≤ MAX_HSC two → (n2 = if p.1 then 0 else n + 1) →
        CountdownOK two n2 (pollStep two env s p).1 := by
      intro n2 hn2 hp
      cases hsy : s.syncedWithFHT8V
      · exact countdownOK_unsynced two env s p n n2 h hen hsy hn2 hp
      · exact countdownOK_synced two env s p n n2 h hsy hn2 hp
    show ∃ n2, CountdownOK two n2 (runPolls two env (pollStep two env s p).1 ps)
    cases hp1 : p.1
    · simp only [pollsBounded, hp1, Bool.false_eq_true, if_false, Bool.and_eq_true,
        decide_eq_true_eq] at hb
      exact ih (n + 1) _ (hstep (n + 1) (by omega) (by simp [hp1])) hb.2
    · simp only [pollsBounded, hp1, if_true] at hb
      exact ih 0 _ (hstep 0 (Nat.zero_le _) (by simp [hp1])) hb

/-! ## The reads of the decoder -/

/-- Recording the reads does not change what `readOneBit` returns; every read is at an
address from the cursor to the last byte; the last byte is kept, the cursor does not go
back and the mask stays one of the decoder's values. -/
theorem readOneBit_traced_spec (m : Mem) (st : decode_state_t) (hm : MaskOK st.mask) :
    (readOneBit_traced m st).1 = readOneBit m st ∧
      (∀ a ∈ (readOneBit_traced m st).2, st.bitStream ≤ a ∧ a ≤ st.lastByte) ∧
      (readOneBit m st).2.lastByte = st.lastByte ∧
      st.bitStream ≤ (readOneBit m st).2.bitStream ∧
      MaskOK (readOneBit m st).2.mask := by
  obtain ⟨p, l, mask, fl⟩ := st
  simp only at hm
  cases fl with
  | true =>
    by_cases hpl : l < p <;> simp [readOneBit_traced, readOneBit, hpl, hm]
  | false =>
    by_cases hpl : l < p
    · simp [readOneBit_traced, readOneBit, hpl, hm]
    · generalize hr : readOneBit m ⟨p, l, mask, false⟩ = r
      generalize ht : readOneBit_traced m ⟨p, l, mask, false⟩ = t
      rcases hm with h | h | h | h | h <;> subst h <;>
      · simp [readOneBit, hpl, land_c0, land_30, land_0c, land_03] at hr
        simp [readOneBit_traced, hpl, land_c0, land_30, land_0c, land_03] at ht
        split_ifs at hr ht <;> subst hr ht <;> simp [MaskOK] <;> omega

theorem readsWithin_nil (s l : Nat) : ReadsWithin s l [] := by
  intro a ha; cases ha

theorem readsWithin_append (s l : Nat) (r1 r2 : List Nat) (h1 : ReadsWithin s l r1)
    (h2 : ReadsWithin s l r2) : ReadsWithin s l (r1 ++ r2) := by
  intro a ha
  rcases List.mem_append.mp ha with h | h
  · exact h1 a h
  · exact h2 a h

/-- One `readOneBit` within a decode from `s` to `l`. -/
theorem readOneBit_traced_within (m : Mem) (s l : Nat) (st : decode_state_t)
    (h : CursorOK s l st) :
    (readOneBit_traced m st).1 = readOneBit m st ∧
      ReadsWithin s l (readOneBit_traced m st).2 ∧ CursorOK s l (readOneBit m st).2 := by
  obtain ⟨h1, h2, h3⟩ := h
  obtain ⟨a1, a2, a3, a4, a5⟩ := readOneBit_traced_spec m st h3
  refine ⟨a1, fun a ha => ?_, a3.trans h1, Nat.le_trans h2 a4, a5⟩
  have := a2 a ha
  omega

theorem step_traced_within (m : Mem) (s l : Nat)
    (acc : (decode_state_t × Nat × Nat) × List Nat)
    (h : CursorOK s l acc.1.1) (hr : ReadsWithin s l acc.2) :
    (readOneByteWithParity_step_traced m acc).1 = readOneByteWithParity_step m acc.1 ∧
      ReadsWithin s l (readOneByteWithParity_step_traced m acc).2 ∧
      CursorOK s l (readOneByteWithParity_step m acc.1).1 := by
  obtain ⟨a1, a2, a3⟩ := readOneBit_traced_within m s l acc.1.1 h
  refine ⟨?_, readsWithin_append s l _ _ hr a2, a3⟩
  simp only [readOneByteWithParity_step_traced, readOneByteWithParity_step, a1]

theorem fold_traced_within (m : Mem) (s l : Nat) (L : List Nat) :
    ∀ (acc : (decode_state_t × Nat × Nat) × List Nat),
      CursorOK s l acc.1.1 → ReadsWithin s l acc.2 →
      (L.foldl (fun acc _ => readOneByteWithParity_step_traced m acc) acc).1 =
          L.foldl (fun acc _ => readOneByteWithParity_step m acc) acc.1 ∧
        ReadsWithin s l (L.foldl (fun acc _ => readOneByteWithParity_step_traced m acc) acc).2 ∧
        CursorOK s l (L.foldl (fun acc _ => readOneByteWithParity_step m acc) acc.1).1 := by
  induction L with
  | nil => intro acc h hr; exact ⟨rfl, hr, h⟩
  | cons x L ih =>
    intro acc h hr
    obtain ⟨a1, a2, a3⟩ := step_traced_within m s l acc h hr
    simp only [List.foldl_cons]
    have := ih (readOneByteWithParity_step_traced m acc) (by rw [a1]; exact a3) a2
    rw [a1] at this
    exact this

/-- One `readOneByteWithParity` within a decode from `s` to `l`. -/
theorem readOneByte_traced_within (m : Mem) (s l : Nat) (st : decode_state_t)
    (h : CursorOK s l st) :
    (readOneByteWithParity_traced m st).1 = readOneByteWithParity m st ∧
      ReadsWithin s l (readOneByteWithParity_traced m st).2 ∧
      CursorOK s l (readOneByteWithParity m st).2 := by
  unfold readOneByteWithParity_traced readOneByteWithParity
  by_cases hf : st.failed = true
  · simp only [hf, if_true]
    exact ⟨trivial, readsWithin_nil s l, h⟩
  · simp only [hf, Bool.false_eq_true, if_false]
    obtain ⟨a1, a2, a3⟩ := readOneBit_traced_within m s l st h
    obtain ⟨b1, b2, b3⟩ := fold_traced_within m s l (List.range 7)
      (((readOneBit_traced m st).1.2, (readOneBit_traced m st).1.1,
        (readOneBit_traced m st).1.1), (readOneBit_traced m st).2)
      (by rw [a1]; exact a3) a2
    simp only [a1] at b1 b2 b3 ⊢
    generalize (List.range 7).foldl (fun acc _ => readOneByteWithParity_step_traced m acc)
      (((readOneBit m st).2, (readOneBit m st).1, (readOneBit m st).1),
        (readOneBit_traced m st).2) = accT at b1 b2
    generalize (List.range 7).foldl (fun acc _ => readOneByteWithParity_step m acc)
      ((readOneBit m st).2, (readOneBit m st).1, (readOneBit m st).1) = acc at b1 b3
    subst b1
    obtain ⟨c1, c2, c3⟩ := readOneBit_traced_within m s l accT.1.1 b3
    rw [c1]
    refine ⟨rfl, readsWithin_append s l _ _ b2 c2, ?_⟩
    split_ifs
    · exact c3
    · exact c3

/-- The search for the leading 1 within a decode from `s` to `l`. -/
theorem findLeadingOne_traced_within (m : Mem) (s l : Nat) :
    ∀ (fuel : Nat) (st : decode_state_t), CursorOK s l st →
      (findLeadingOne_traced m fuel st).1 = findLeadingOne m fuel st ∧
        ReadsWithin s l (findLeadingOne_traced m fuel st).2 ∧
        ∀ st2, findLeadingOne m fuel st = some (some st2) → CursorOK s l st2 := by
  intro fuel
  induction fuel with
  | zero =>
    intro st _
    exact ⟨rfl, readsWithin_nil s l, fun st2 h => by simp [findLeadingOne] at h⟩
  | succ fuel ih =>
    intro st h
    obtain ⟨a1, a2, a3⟩ := readOneBit_traced_within m s l st h
    obtain ⟨b1, b2, b3⟩ := ih (readOneBit m st).2 a3
    simp only [findLeadingOne_traced, findLeadingOne, a1]
    split_ifs with h0 hfl
    · exact ⟨rfl, a2, fun st2 h => by cases h⟩
    · exact ⟨b1, readsWithin_append s l _ _ a2 b2, b3⟩
    · refine ⟨rfl, a2, fun st2 h => ?_⟩
      simp only [Option.some.injEq] at h
      subst h
      exact a3

/-- A whole decode from `s` to `l`: recording the reads does not change the result, and
every read is at an address from `s` to `l`. -/
theorem decode_traced_within (fuel : Nat) (m : Mem) (s l : Nat) :
    (FHT8VDecodeBitStream_traced fuel m s l).1 = FHT8VDecodeBitStream fuel m s l ∧
      ReadsWithin s l (FHT8VDecodeBitStream_traced fuel m s l).2 := by
  unfold FHT8VDecodeBitStream_traced FHT8VDecodeBitStream
  simp only
  obtain ⟨f1, f2, f3⟩ := findLeadingOne_traced_within m s l fuel ⟨s, l, 0, false⟩
    ⟨rfl, Nat.le_refl s, Or.inl rfl⟩
  rw [f1]
  generalize (findLeadingOne_traced m fuel ⟨s, l, 0, false⟩).2 = t0 at f2 ⊢
  cases hF : findLeadingOne m fuel ⟨s, l, 0, false⟩ with
  | none => exact ⟨rfl, f2⟩
  | some o =>
    cases o with
    | none => exact ⟨rfl, f2⟩
    | some st =>
      simp only
      have c0 := f3 st hF
      obtain ⟨a1, a2, c1⟩ := readOneByte_traced_within m s l st c0
      rw [a1]
      generalize (readOneByteWithParity_traced m st).2 = t1 at a2 ⊢
      obtain ⟨b1, b2, c2⟩ := readOneByte_traced_within m s l _ c1
      rw [b1]
      generalize (readOneByteWithParity_traced m (readOneByteWithParity m st).2).2 = t2
        at b2 ⊢
      generalize readOneByteWithParity m st = r1 at c1 c2 ⊢
      obtain ⟨d1, d2, c3⟩ := readOneByte_traced_within m s l _ c2
      rw [d1]
      generalize (readOneByteWithParity_traced m (readOneByteWithParity m r1.2).2).2 = t3
        at d2 ⊢
      generalize readOneByteWithParity m r1.2 = r2 at c2 c3 ⊢
      obtain ⟨e1, e2, c4⟩ := readOneByte_traced_within m s l _ c3
      rw [e1]
      generalize (readOneByteWithParity_traced m (readOneByteWithParity m r2.2).2).2 = t4
        at e2 ⊢
      generalize readOneByteWithParity m r2.2 = r3 at c3 c4 ⊢
      obtain ⟨g1, g2, c5⟩ := readOneByte_traced_within m s l _ c4
      rw [g1]
      generalize (readOneByteWithParity_traced m (readOneByteWithParity m r3.2).2).2 = t5
        at g2 ⊢
      generalize readOneByteWithParity m r3.2 = r4 at c4 c5 ⊢
      obtain ⟨k1, k2, c6⟩ := readOneByte_traced_within m s l _ c5
      rw [k1]
      generalize (readOneByteWithParity_traced m (readOneByteWithParity m r4.2).2).2 = t6
        at k2 ⊢
      generalize readOneByteWithParity m r4.2 = r5 at c5 c6 ⊢
      obtain ⟨n1, n2, _⟩ := readOneBit_traced_within m s l _ c6
      rw [n1]
      generalize (readOneBit_traced m (readOneByteWithParity m r5.2).2).2 = t7 at n2 ⊢
      have hall : ReadsWithin s l (t0 ++ t1 ++ t2 ++ t3 ++ t4 ++ t5 ++ t6) :=
        readsWithin_append s l _ _ (readsWithin_append s l _ _ (readsWithin_append s l _ _
          (readsWithin_append s l _ _ (readsWithin_append s l _ _
            (readsWithin_append s l _ _ f2 a2) b2) d2) e2) g2) k2
      have hall2 := readsWithin_append s l _ _ hall n2
      split_ifs
      · exact ⟨rfl, hall⟩
      · exact ⟨rfl, hall⟩
      · exact ⟨rfl, hall2⟩
      · exact ⟨rfl, hall2⟩
      · exact ⟨rfl, hall2⟩

/-! ## Passes of the loop over the leading zeros -/

/-- Once the loop has ended within the bound, a larger bound gives the same outcome. -/
theorem findLeadingOne_more (m : Mem) (k : Nat) :
    ∀ (fuel : Nat) (st : decode_state_t) (r : Option decode_state_t),
      findLeadingOne m fuel st = some r → findLeadingOne m (fuel + k) st = some r := by
  intro fuel
  induction fuel with
  | zero => intro st r h; simp [findLeadingOne] at h
  | succ fuel ih =>
    intro st r h
    rw [Nat.add_right_comm]
    simp only [findLeadingOne] at h ⊢
    split_ifs at h ⊢ with h0 hfl
    · exact h
    · exact ih _ _ h
    · exact h

theorem decode_more (fuel k : Nat) (m : Mem) (s l : Nat)
    (h : FHT8VDecodeBitStream fuel m s l ≠ none) :
    FHT8VDecodeBitStream (fuel + k) m s l = FHT8VDecodeBitStream fuel m s l := by
  unfold FHT8VDecodeBitStream at h ⊢
  simp only at h ⊢
  cases hF : findLeadingOne m fuel ⟨s, l, 0, false⟩ with
  | none => rw [hF] at h; exact absurd rfl h
  | some r => rw [findLeadingOne_more m k fuel _ r hF]

/-- The decoder returns for every buffer, start and last byte once the bound on the
passes exceeds half the number of bit pairs from the start to the last byte. -/
theorem decode_total_any (fuel : Nat) (m : Mem) (s l : Nat)
    (hf : 2 * (l + 1 - s) < fuel) : FHT8VDecodeBitStream fuel m s l ≠ none := by
  by_cases h : s ≤ l + 1
  · exact decode_total fuel m s l h hf
  · obtain ⟨f, rfl⟩ : ∃ f, fuel = f + 1 := ⟨fuel - 1, by omega⟩
    rw [decode_off_end f m s l (by omega)]
    simp

/-! ## Decoding a frame that carries an address byte -/

theorem frameWithAddress_zero (m : Mem) (p : Nat) (c : fht8v_msg_t) (ck : Nat) :
    frameWithAddress m p c 0 ck = frameWithChecksum m p c ck := rfl

theorem frameWithAddress_eq (m : Mem) (p : Nat) (c : fht8v_msg_t) (a ck : Nat)
    (hc : c.valid) (ha : a < 256) (hk : ck < 256) :
    frameWithAddress m p c a ck =
      (poke (appendEncBits (preambleMem m p, p + 6)
          (bodyBitsWithAddress c a ck ++ [false, false])).1
        (appendEncBits (preambleMem m p, p + 6)
          (bodyBitsWithAddress c a ck ++ [false, false])).2 0xff,
       (appendEncBits (preambleMem m p, p + 6)
          (bodyBitsWithAddress c a ck ++ [false, false])).2) := by
  obtain ⟨h1, h2, h3, h4⟩ := hc
  have e : bodyBitsWithAddress c a ck ++ [false, false] =
      [true] ++ (byteWithParity c.hc1 ++ (byteWithParity c.hc2 ++ (byteWithParity a ++
        (byteWithParity c.command ++ (byteWithParity c.extension ++ (byteWithParity ck ++
          ([false] ++ ([false] ++ [false])))))))) := by
    simp [bodyBitsWithAddress]
  rw [e]
  simp only [appendEncBits_append]
  unfold frameWithAddress
  simp only [appendByteEP_eq _ _ _ h1, appendByteEP_eq _ _ _ h2, appendByteEP_eq _ _ _ h3,
    appendByteEP_eq _ _ _ h4, appendByteEP_eq _ _ _ hk,
    appendByteEP_eq _ _ _ ha, appendEncBits_single, appendEncBits_eta, preambleMem]

/-- What the decoder sees of a frame with an address byte: its line code up to the
trailing 0, then a pair 11. -/
theorem frameWithAddress_pairs (m : Mem) (p : Nat) (c : fht8v_msg_t) (a ck : Nat)
    (hc : c.valid) (ha : a < 256) (hk : ck < 256) :
    ∃ T, pairsFrom (frameWithAddress m p c a ck).1 (4 * p)
        (4 * ((frameWithAddress m p c a ck).2 + 1) - 4 * p) =
        encBits (List.replicate 12 false ++ bodyBitsWithAddress c a ck) ++ 3 :: T ∧
      endAddress (frameWithAddress m p c a ck).2 (3 :: T) = (frameWithAddress m p c a ck).2 ∧
      p ≤ (frameWithAddress m p c a ck).2 := by
  have h := encInv_bits p (bodyBitsWithAddress c a ck ++ [false, false]) _ _ _
    (preamble_encInv m p)
  have e : encBits (List.replicate 12 false) ++
      encBits (bodyBitsWithAddress c a ck ++ [false, false]) =
      encBits (List.replicate 12 false ++ bodyBitsWithAddress c a ck) ++ [3, 0, 3, 0] := by
    simp only [encBits_append, List.append_assoc]; rfl
  rw [e] at h
  have hq := frameWithAddress_eq m p c a ck hc ha hk
  obtain ⟨T, hT, hTl⟩ := unpack_pack_extra _
    (encBits_lt (List.replicate 12 false ++ bodyBitsWithAddress c a ck))
  generalize appendEncBits (preambleMem m p, p + 6)
    (bodyBitsWithAddress c a ck ++ [false, false]) = s at h hq
  generalize encBits (List.replicate 12 false ++ bodyBitsWithAddress c a ck) = E
    at h hT hTl ⊢
  rw [hq]
  obtain ⟨h1, h2, _⟩ := h
  have h2b : memList (poke s.1 s.2 0xff) p (packPairs (E ++ [3, 0, 3, 0])).length =
      packPairs (E ++ [3, 0, 3, 0]) := by
    rw [memList_poke _ _ _ _ _ (by omega)]
    exact h2
  have h3 : (poke s.1 s.2 0xff) s.2 = 0xff := poke_same _ _ _
  generalize poke s.1 s.2 0xff = M at h2b h3 ⊢
  generalize hK : (packPairs (E ++ [3, 0, 3, 0])).length = K at h1 h2b
  have hlenU := congrArg List.length hT
  rw [unpackBytes_length, hK] at hlenU
  simp only [List.length_append, List.length_cons] at hlenU
  have hll := leftPairs_length_lt (E ++ [3, 0, 3, 0])
  refine ⟨T ++ [3, 3, 3, 3], ?_, ?_, by simp only; omega⟩
  · have e1 : 4 * (s.2 + 1) - 4 * p = 4 * (K + 1) := by omega
    simp only
    rw [e1, pairsFrom_bytes, memList_succ, unpackBytes_append, h2b, hT, ← h1, h3]
    simp [unpackBytes, unpackByte]
  · unfold endAddress
    simp only [List.length_append, List.length_cons, List.length_nil]
    omega

theorem absDecode_address (j : Nat) (c : fht8v_msg_t) (a ck : Nat) (hc : c.valid)
    (ha : a < 256) (hk : ck < 256) (X : List Nat) (fuel : Nat) (hfuel : j + 1 ≤ fuel) :
    absDecode fuel (encBits (List.replicate j false ++ bodyBitsWithAddress c a ck) ++ X) =
      some (if (0xc + c.hc1 + c.hc2 + a + c.command + c.extension) % 256 = ck
        then some (X, c) else none) := by
  obtain ⟨h1, h2, h3, h4⟩ := hc
  have e : encBits (List.replicate j false ++ bodyBitsWithAddress c a ck) ++ X =
      encBits (List.replicate j false) ++ 3 :: 2 :: 0 ::
        (encBits (byteWithParity c.hc1) ++ (encBits (byteWithParity c.hc2) ++
          (encBits (byteWithParity a) ++ (encBits (byteWithParity c.command) ++
          (encBits (byteWithParity c.extension) ++ (encBits (byteWithParity ck) ++
          (3 :: 0 :: X))))))) := by
    simp [bodyBitsWithAddress, encBits_append, encBits, encBit]
  rw [e]
  unfold absDecode
  rw [absFind_zeros j fuel _ hfuel]
  simp only
  unfold absBody
  simp only [absByte_enc _ h1, absByte_enc _ h2, absByte_enc _ h3, absByte_enc _ h4,
    absByte_enc _ hk, absByte_enc _ ha, absStep_zero]
  by_cases hck : (12 + c.hc1 + c.hc2 + a + c.command + c.extension) % 256 = ck
  · simp [hck]
  · simp [hck]

/-- Decoding a frame that carries the address byte `a` and the checksum byte `ck`. -/
theorem decode_frameWithAddress (m : Mem) (p : Nat) (c : fht8v_msg_t) (a ck fuel : Nat)
    (hc : c.valid) (ha : a < 256) (hk : ck < 256) (hfuel : 13 ≤ fuel) :
    FHT8VDecodeBitStream fuel (frameWithAddress m p c a ck).1 p
        (frameWithAddress m p c a ck).2 =
      some (if (0xc + c.hc1 + c.hc2 + a + c.command + c.extension) % 256 = ck
        then some ((frameWithAddress m p c a ck).2, c) else none) := by
  obtain ⟨T, hT, hend, hle⟩ := frameWithAddress_pairs m p c a ck hc ha hk
  rw [decode_refines fuel _ p _ (by omega), hT,
    absDecode_address 12 c a ck hc ha hk _ fuel hfuel]
  by_cases h : (0xc + c.hc1 + c.hc2 + a + c.command + c.extension) % 256 = ck
  · simp [h, hend]
  · simp [h]

set_option maxRecDepth 100000 in
/-- Two frames that differ at byte 21 and decode to the same command: the encoder's frame
for house code 13/73, command 0x26, extension 127, and the frame with the address byte 1
and the checksum 8 in place of 0 and 7. -/
theorem address_example :
    (frameWithAddress (fun _ => 0) 0 ⟨13, 73, 0x26, 127⟩ 1 8).1 21 ≠
        (FHT8VCreate200usBitStreamBptr (fun _ => 0) 0 ⟨13, 73, 0x26, 127⟩).1 21 ∧
      FHT8VDecodeBitStream 13 (frameWithAddress (fun _ => 0) 0 ⟨13, 73, 0x26, 127⟩ 1 8).1 0 41 =
        some (some (41, ⟨13, 73, 0x26, 127⟩)) ∧
      FHT8VDecodeBitStream 13
          (FHT8VCreate200usBitStreamBptr (fun _ => 0) 0 ⟨13, 73, 0x26, 127⟩).1 0 41 =
        some (some (41, ⟨13, 73, 0x26, 127⟩)) := by
  decide

/-! ## The frame builder's output, part by part -/

/-- The encoder writes the same bytes, terminator included, wherever it is started and
whatever the buffer held; it leaves the bytes before its start alone. -/
theorem frame_shift (m1 m2 : Mem) (p n : Nat) (c : fht8v_msg_t) (hc : c.valid) :
    (FHT8VCreate200usBitStreamBptr m2 (p + n) c).2 =
        (FHT8VCreate200usBitStreamBptr m1 p c).2 + n ∧
      (∀ j, p + j ≤ (FHT8VCreate200usBitStreamBptr m1 p c).2 →
        (FHT8VCreate200usBitStreamBptr m2 (p + n) c).1 (p + n + j) =
          (FHT8VCreate200usBitStreamBptr m1 p c).1 (p + j)) ∧
      (∀ i, i < p + n → (FHT8VCreate200usBitStreamBptr m2 (p + n) c).1 i = m2 i) ∧
      (FHT8VCreate200usBitStreamBptr m2 (p + n) c).1
        (FHT8VCreate200usBitStreamBptr m2 (p + n) c).2 = 0xff := by
  simp only [createBitStream_eq]
  have hk := frameChecksum_lt c
  obtain ⟨a1, a2, a3⟩ := frame_layout m1 p c (frameChecksum c) hc hk
  obtain ⟨b1, b2, b3⟩ := frame_layout m2 (p + n) c (frameChecksum c) hc hk
  have hfr := frameWithChecksum_frame m2 (p + n) c (frameChecksum c) hc hk
  generalize (packPairs (encBits
    (List.replicate 12 false ++ bodyBits c (frameChecksum c) ++ [false, false]))) = P
    at a1 a2 b1 b2
  generalize frameWithChecksum m1 p c (frameChecksum c) = N at a1 a2 a3
  generalize frameWithChecksum m2 (p + n) c (frameChecksum c) = H at b1 b2 b3 hfr
  refine ⟨by omega, ?_, fun i hi => hfr i (Or.inl hi), b3⟩
  intro j hj
  by_cases hlt : j < P.length
  · have e : memList (fun i => N.1 (i - n)) (p + n) P.length = memList N.1 p P.length := by
      simp only [memList]
      apply List.map_congr_left
      intro x _
      show N.1 (p + n + x - n) = N.1 (p + x)
      rw [show p + n + x - n = p + x by omega]
    have q1 := memList_eq_get H.1 (fun i => N.1 (i - n)) (p + n) P.length
      (b2.trans (a2.symm.trans e.symm)) j hlt
    rw [q1]
    show N.1 (p + n + j - n) = N.1 (p + j)
    rw [show p + n + j - n = p + j by omega]
  · have ej : j = P.length := by omega
    subst ej
    rw [← b1, b3, ← a1, a3]

/-- The result of `FHT8VCreateValveSetCmdFrame_r` when stats reporting is off and the
valve is below the really-open threshold: the bare frame. -/
theorem frame_r_bare (env : Externals) (m : Mem) (bptr : Nat) (cmd : fht8v_msg_t) (pc : Nat)
    (hs : env.enableTrailingMinimalStatsPayload = false)
    (ht : ¬ env.getMinValvePcReallyOpen ≤ pc) :
    FHT8VCreateValveSetCmdFrame_r env m bptr cmd pc =
      ⟨(FHT8VCreate200usBitStreamBptr m bptr ⟨cmd.hc1, cmd.hc2, 0x26, pc * 255 / 100 % 256⟩).1,
        ⟨cmd.hc1, cmd.hc2, 0x26, pc * 255 / 100 % 256⟩,
        (FHT8VCreate200usBitStreamBptr m bptr
          ⟨cmd.hc1, cmd.hc2, 0x26, pc * 255 / 100 % 256⟩).2⟩ := by
  simp [FHT8VCreateValveSetCmdFrame_r, FHT8VCreateValveSetCmdFrameHT_r, hs, ht]

/-- The result when stats reporting is off and the valve is at or above the threshold:
the pre-preamble, then the frame. -/
theorem frame_r_header (env : Externals) (m : Mem) (bptr : Nat) (cmd : fht8v_msg_t)
    (pc : Nat) (hs : env.enableTrailingMinimalStatsPayload = false)
    (ht : env.getMinValvePcReallyOpen ≤ pc) :
    FHT8VCreateValveSetCmdFrame_r env m bptr cmd pc =
      ⟨(FHT8VCreate200usBitStreamBptr
          (memset m bptr env.RFM22_PREAMBLE_BYTE env.RFM22_PREAMBLE_BYTES)
          (bptr + env.RFM22_PREAMBLE_BYTES)
          ⟨cmd.hc1, cmd.hc2, 0x26, pc * 255 / 100 % 256⟩).1,
        ⟨cmd.hc1, cmd.hc2, 0x26, pc * 255 / 100 % 256⟩,
        (FHT8VCreate200usBitStreamBptr
          (memset m bptr env.RFM22_PREAMBLE_BYTE env.RFM22_PREAMBLE_BYTES)
          (bptr + env.RFM22_PREAMBLE_BYTES)
          ⟨cmd.hc1, cmd.hc2, 0x26, pc * 255 / 100 % 256⟩).2⟩ := by
  simp [FHT8VCreateValveSetCmdFrame_r, FHT8VCreateValveSetCmdFrameHT_r, hs, ht]

/-- The result when stats reporting is on and the populated stats hold temperature and
power but no ambient light: the pre-preamble, the frame, the three bytes of the minimal
stats payload and the terminator. -/
theorem frame_r_minimal (env : Externals) (m : Mem) (bptr : Nat) (cmd : fht8v_msg_t)
    (pc : Nat) (hs : env.enableTrailingMinimalStatsPayload = true)
    (hp : (env.populateCoreStats.containsTempAndPower &&
      !env.populateCoreStats.containsAmbL) = true) :
    FHT8VCreateValveSetCmdFrame_r env m bptr cmd pc =
      ⟨poke (env.writeTrailingMinimalStatsPayload
          (FHT8VCreate200usBitStreamBptr
            (memset m bptr env.RFM22_PREAMBLE_BYTE env.RFM22_PREAMBLE_BYTES)
            (bptr + env.RFM22_PREAMBLE_BYTES)
            ⟨cmd.hc1, cmd.hc2, 0x26, pc * 255 / 100 % 256⟩).1
          (FHT8VCreate200usBitStreamBptr
            (memset m bptr env.RFM22_PREAMBLE_BYTE env.RFM22_PREAMBLE_BYTES)
            (bptr + env.RFM22_PREAMBLE_BYTES)
            ⟨cmd.hc1, cmd.hc2, 0x26, pc * 255 / 100 % 256⟩).2
          env.populateCoreStats.tempAndPower)
        ((FHT8VCreate200usBitStreamBptr
            (memset m bptr env.RFM22_PREAMBLE_BYTE env.RFM22_PREAMBLE_BYTES)
            (bptr + env.RFM22_PREAMBLE_BYTES)
            ⟨cmd.hc1, cmd.hc2, 0x26, pc * 255 / 100 % 256⟩).2 + 3) 0xff,
        ⟨cmd.hc1, cmd.hc2, 0x26, pc * 255 / 100 % 256⟩,
        (FHT8VCreate200usBitStreamBptr
            (memset m bptr env.RFM22_PREAMBLE_BYTE env.RFM22_PREAMBLE_BYTES)
            (bptr + env.RFM22_PREAMBLE_BYTES)
            ⟨cmd.hc1, cmd.hc2, 0x26, pc * 255 / 100 % 256⟩).2 + 3⟩ := by
  simp only [Bool.and_eq_true, Bool.not_eq_true'] at hp
  simp [FHT8VCreateValveSetCmdFrame_r, FHT8VCreateValveSetCmdFrameHT_r, hs, hp.1, hp.2]

/-- The result when stats reporting is on and the populated stats are not just
temperature and power: the pre-preamble, the frame and what the full stats encoder, given
the stats with the ID flag cleared, writes from the frame's terminator on. -/
theorem frame_r_full (env : Externals) (m : Mem) (bptr : Nat) (cmd : fht8v_msg_t)
    (pc : Nat) (hs : env.enableTrailingMinimalStatsPayload = true)
    (hp : (env.populateCoreStats.containsTempAndPower &&
      !env.populateCoreStats.containsAmbL) = false) :
    FHT8VCreateValveSetCmdFrame_r env m bptr cmd pc =
      ⟨(env.encodeFullStatsMessageCore
          (FHT8VCreate200usBitStreamBptr
            (memset m bptr env.RFM22_PREAMBLE_BYTE env.RFM22_PREAMBLE_BYTES)
            (bptr + env.RFM22_PREAMBLE_BYTES)
            ⟨cmd.hc1, cmd.hc2, 0x26, pc * 255 / 100 % 256⟩).1
          (FHT8VCreate200usBitStreamBptr
            (memset m bptr env.RFM22_PREAMBLE_BYTE env.RFM22_PREAMBLE_BYTES)
            (bptr + env.RFM22_PREAMBLE_BYTES)
            ⟨cmd.hc1, cmd.hc2, 0x26, pc * 255 / 100 % 256⟩).2
          (env.FHT8V_200US_BIT_STREAM_FRAME_BUF_SIZE -
            ((FHT8VCreate200usBitStreamBptr
              (memset m bptr env.RFM22_PREAMBLE_BYTE env.RFM22_PREAMBLE_BYTES)
              (bptr + env.RFM22_PREAMBLE_BYTES)
              ⟨cmd.hc1, cmd.hc2, 0x26, pc * 255 / 100 % 256⟩).2 - bptr))
          env.getStatsTXLevel false { env.populateCoreStats with containsID := false }).1,
        ⟨cmd.hc1, cmd.hc2, 0x26, pc * 255 / 100 % 256⟩,
        ((env.encodeFullStatsMessageCore
          (FHT8VCreate200usBitStreamBptr
            (memset m bptr env.RFM22_PREAMBLE_BYTE env.RFM22_PREAMBLE_BYTES)
            (bptr + env.RFM22_PREAMBLE_BYTES)
            ⟨cmd.hc1, cmd.hc2, 0x26, pc * 255 / 100 % 256⟩).1
          (FHT8VCreate200usBitStreamBptr
            (memset m bptr env.RFM22_PREAMBLE_BYTE env.RFM22_PREAMBLE_BYTES)
            (bptr + env.RFM22_PREAMBLE_BYTES)
            ⟨cmd.hc1, cmd.hc2, 0x26, pc * 255 / 100 % 256⟩).2
          (env.FHT8V_200US_BIT_STREAM_FRAME_BUF_SIZE -
            ((FHT8VCreate200usBitStreamBptr
              (memset m bptr env.RFM22_PREAMBLE_BYTE env.RFM22_PREAMBLE_BYTES)
              (bptr + env.RFM22_PREAMBLE_BYTES)
              ⟨cmd.hc1, cmd.hc2, 0x26, pc * 255 / 100 % 256⟩).2 - bptr))
          env.getStatsTXLevel false { env.populateCoreStats with containsID := false }).2).getD
            (FHT8VCreate200usBitStreamBptr
              (memset m bptr env.RFM22_PREAMBLE_BYTE env.RFM22_PREAMBLE_BYTES)
              (bptr + env.RFM22_PREAMBLE_BYTES)
              ⟨cmd.hc1, cmd.hc2, 0x26, pc * 255 / 100 % 256⟩).2⟩ := by
  simp only [FHT8VCreateValveSetCmdFrame_r, FHT8VCreateValveSetCmdFrameHT_r, hs,
    Bool.true_or, if_true, Bool.not_false, Bool.and_true, hp, Bool.false_eq_true, if_false]
  split <;> rename_i h <;> simp [h]

/-- The scan of a buffer whose first byte other than 0xcc, at `pos` among the first six,
is the JSON leading character: the JSON check decides, at any index. -/
theorem preambleScan_json (henv : HubExternals) (st : fht8v_hub_t) (pos : Nat)
    (hpos : pos < 6) (hcc : ∀ i, i < pos → st.FHT8VRXHubArea i = 0xcc)
    (hne : st.FHT8VRXHubArea pos ≠ 0xcc)
    (hj : st.FHT8VRXHubArea pos = henv.MSG_JSON_LEADING_CHAR) :
    preambleScan henv st 6 0 =
      if (henv.adjustJSONMsgForRXAndCheckCRC st.FHT8VRXHubArea pos
          (henv.FHT8V_MAX_FRAME_SIZE - pos)).2 > 0 then
        .returned ({ st with FHT8VRXHubArea :=
          (henv.adjustJSONMsgForRXAndCheckCRC st.FHT8VRXHubArea pos
            (henv.FHT8V_MAX_FRAME_SIZE - pos)).1 }, true)
      else
        .returned ({ st with
          FHT8VRXHubArea := (henv.adjustJSONMsgForRXAndCheckCRC st.FHT8VRXHubArea pos
            (henv.FHT8V_MAX_FRAME_SIZE - pos)).1,
          lastRXerrno := FHT8VRXErr_BAD_RX_STATSFRAME }, false) := by
  have h := preambleScan_skip henv st pos (6 - pos) 0 (fun i _ h2 => hcc i (by omega))
  rw [Nat.sub_add_cancel (by omega), Nat.zero_add] at h
  rw [h]
  obtain ⟨n, hn⟩ : ∃ n, 6 - pos = n + 1 := ⟨6 - pos - 1, by omega⟩
  rw [hn]
  simp only [preambleScan, ne_eq, Ne.symm hne, not_false_eq_true, if_true, hj.symm,
    setLastRXErr]

/-- The scan of a buffer whose first byte other than 0xcc, at `pos` among the first six,
is a full-stats header byte and not the JSON leading character: the stats decoder decides,
at any index. -/
theorem preambleScan_stats (henv : HubExternals) (st : fht8v_hub_t) (pos : Nat)
    (hpos : pos < 6) (hcc : ∀ i, i < pos → st.FHT8VRXHubArea i = 0xcc)
    (hne : st.FHT8VRXHubArea pos ≠ 0xcc)
    (hj : st.FHT8VRXHubArea pos ≠ henv.MSG_JSON_LEADING_CHAR)
    (hs : (st.FHT8VRXHubArea pos &&& henv.MESSAGING_FULL_STATS_FLAGS_HEADER_MASK) =
      henv.MESSAGING_FULL_STATS_FLAGS_HEADER_MSBS) :
    preambleScan henv st 6 0 =
      .returned (st, (henv.decodeFullStatsMessageCore st.FHT8VRXHubArea 0
        (henv.FHT8V_MAX_FRAME_SIZE - pos) henv.stTXalwaysAll false).isSome) := by
  have h := preambleScan_skip henv st pos (6 - pos) 0 (fun i _ h2 => hcc i (by omega))
  rw [Nat.sub_add_cancel (by omega), Nat.zero_add] at h
  rw [h]
  obtain ⟨n, hn⟩ : ∃ n, 6 - pos = n + 1 := ⟨6 - pos - 1, by omega⟩
  rw [hn]
  simp only [preambleScan, ne_eq, Ne.symm hne, not_false_eq_true, if_true, Ne.symm hj,
    if_false, hs.symm]
  cases henv.decodeFullStatsMessageCore st.FHT8VRXHubArea 0
    (henv.FHT8V_MAX_FRAME_SIZE - pos) henv.stTXalwaysAll false <;> rfl

/-! ## Claims -/

/-- C1: for every command with all four fields in [0,255], decoding the output of
`FHT8VCreate200usBitStreamBptr` from its first byte, with `lastByte` at the terminator,
succeeds (given at least 13 passes of the leading-zero loop), yields the same command
and returns exactly the address of the encoder's terminating 0xff. -/
theorem C1_decode_encode_roundtrip (m : Mem) (bptr : Nat) (c : fht8v_msg_t) (fuel : Nat)
    (hc : c.valid) (hfuel : 13 ≤ fuel) :
    FHT8VDecodeBitStream fuel (FHT8VCreate200usBitStreamBptr m bptr c).1 bptr
        (FHT8VCreate200usBitStreamBptr m bptr c).2 =
      some (some ((FHT8VCreate200usBitStreamBptr m bptr c).2, c)) := by
  rw [createBitStream_eq,
    decode_frameWithChecksum m bptr c _ fuel hc (frameChecksum_lt c) hfuel]
  simp

/-- C1 at the command 13/73 set-valve 128 written at address 0 of zeroed memory. -/
theorem C1_decode_encode_roundtrip_witness :
    (⟨13, 73, 0x26, 128⟩ : fht8v_msg_t).valid ∧ 13 ≤ 13 ∧
    FHT8VDecodeBitStream 13
        (FHT8VCreate200usBitStreamBptr (fun _ => 0) 0 ⟨13, 73, 0x26, 128⟩).1 0
        (FHT8VCreate200usBitStreamBptr (fun _ => 0) 0 ⟨13, 73, 0x26, 128⟩).2 =
      some (some ((FHT8VCreate200usBitStreamBptr (fun _ => 0) 0 ⟨13, 73, 0x26, 128⟩).2,
        ⟨13, 73, 0x26, 128⟩)) :=
  ⟨by decide, by decide,
    C1_decode_encode_roundtrip (fun _ => 0) 0 ⟨13, 73, 0x26, 128⟩ 13 (by decide) (by decide)⟩

/-- C2: for every command the bytes `FHT8VCreate200usBitStreamBptr` writes before the
terminator are exactly the whole bytes of the MSB-first packing of the line code (0 as
1100, 1 as 111000) of the frame bits: twelve 0 bits (six 0xcc bytes), one 1 bit, then
hc1, hc2, a zero address byte, command, extension and the checksum, each as 8 bits
MSB-first with its even-parity bit, then three 0 bits; the byte after them is 0xff and
its address is the one returned. -/
theorem C2_bitstream_is_packed_line_code (m : Mem) (bptr : Nat) (c : fht8v_msg_t)
    (hc : c.valid) :
    (FHT8VCreate200usBitStreamBptr m bptr c).2 =
        bptr + (packMSB (lineCode (frameBits c))).length ∧
      memList (FHT8VCreate200usBitStreamBptr m bptr c).1 bptr
        (packMSB (lineCode (frameBits c))).length = packMSB (lineCode (frameBits c)) ∧
      (FHT8VCreate200usBitStreamBptr m bptr c).1 (FHT8VCreate200usBitStreamBptr m bptr c).2 =
        0xff ∧
      (packMSB (lineCode (frameBits c))).take 6 = [0xcc, 0xcc, 0xcc, 0xcc, 0xcc, 0xcc] := by
  have h := frame_layout m bptr c (frameChecksum c) hc (frameChecksum_lt c)
  rw [← createBitStream_eq] at h
  rw [packMSB_lineCode]
  refine ⟨h.1, h.2.1, h.2.2, ?_⟩
  have e : encBits (frameBits c) = [3, 0, 3, 0, 3, 0, 3, 0, 3, 0, 3, 0, 3, 0, 3, 0, 3, 0, 3, 0,
      3, 0, 3, 0] ++ encBits (bodyBits c (frameChecksum c) ++ [false, false]) := by
    simp only [frameBits, List.append_assoc]
    rw [encBits_append]
    rfl
  rw [e]
  simp [packPairs]

/-- C2 at the command 13/73 set-valve 128 written at address 0 of zeroed memory. -/
theorem C2_bitstream_is_packed_line_code_witness :
    memList (FHT8VCreate200usBitStreamBptr (fun _ => 0) 0 ⟨13, 73, 0x26, 128⟩).1 0
        (packMSB (lineCode (frameBits ⟨13, 73, 0x26, 128⟩))).length =
      packMSB (lineCode (frameBits ⟨13, 73, 0x26, 128⟩)) :=
  (C2_bitstream_is_packed_line_code (fun _ => 0) 0 ⟨13, 73, 0x26, 128⟩ (by decide)).2.1

/-- C3: for every command no byte written by `FHT8VCreate200usBitStreamBptr` before the
returned terminator address equals 0xff, and the byte at the returned address is 0xff,
so the first 0xff in the buffer is the terminator. -/
theorem C3_first_ff_is_terminator (m : Mem) (bptr : Nat) (c : fht8v_msg_t) (hc : c.valid) :
    (∀ i, bptr ≤ i → i < (FHT8VCreate200usBitStreamBptr m bptr c).2 →
        (FHT8VCreate200usBitStreamBptr m bptr c).1 i ≠ 0xff) ∧
      (FHT8VCreate200usBitStreamBptr m bptr c).1 (FHT8VCreate200usBitStreamBptr m bptr c).2 =
        0xff := by
  obtain ⟨h1, h2, h3⟩ := frame_layout m bptr c (frameChecksum c) hc (frameChecksum_lt c)
  rw [← createBitStream_eq] at h1 h2 h3
  refine ⟨fun i hi1 hi2 => ?_, h3⟩
  have hlt : i - bptr < (packPairs (encBits (List.replicate 12 false ++
      bodyBits c (frameChecksum c) ++ [false, false]))).length := by omega
  have hmem := memList_get (FHT8VCreate200usBitStreamBptr m bptr c).1 bptr _ (i - bptr) hlt
  rw [h2, show bptr + (i - bptr) = i by omega] at hmem
  exact packPairs_ne_ff _ (encBits_lt _) (encBits_chain _) _ hmem

/-- C3 at the command 13/73 set-valve 128 written at address 0 of zeroed memory. -/
theorem C3_first_ff_is_terminator_witness :
    (FHT8VCreate200usBitStreamBptr (fun _ => 0) 0 ⟨13, 73, 0x26, 128⟩).1
      (FHT8VCreate200usBitStreamBptr (fun _ => 0) 0 ⟨13, 73, 0x26, 128⟩).2 = 0xff :=
  (C3_first_ff_is_terminator (fun _ => 0) 0 ⟨13, 73, 0x26, 128⟩ (by decide)).2

/-- C4: for every command (address field disabled) the number of encoded bytes before the
terminator is at least 35 and at most 45, so the terminator index is below
`MIN_FHT8V_200US_BIT_STREAM_BUF_SIZE` = 46, and no byte outside the 46 bytes from `bptr`
is changed. -/
theorem C4_encoded_length_bounds (m : Mem) (bptr : Nat) (c : fht8v_msg_t) (hc : c.valid) :
    bptr + 35 ≤ (FHT8VCreate200usBitStreamBptr m bptr c).2 ∧
      (FHT8VCreate200usBitStreamBptr m bptr c).2 ≤ bptr + 45 ∧
      (FHT8VCreate200usBitStreamBptr m bptr c).2 <
        bptr + MIN_FHT8V_200US_BIT_STREAM_BUF_SIZE ∧
      ∀ i, (i < bptr ∨ bptr + MIN_FHT8V_200US_BIT_STREAM_BUF_SIZE ≤ i) →
        (FHT8VCreate200usBitStreamBptr m bptr c).1 i = m i := by
  obtain ⟨h1, _, _⟩ := frame_layout m bptr c (frameChecksum c) hc (frameChecksum_lt c)
  obtain ⟨b1, b2⟩ := frame_length_bounds c (frameChecksum c) hc (frameChecksum_lt c)
  have hfr := frameWithChecksum_frame m bptr c (frameChecksum c) hc (frameChecksum_lt c)
  rw [← createBitStream_eq] at h1 hfr
  unfold MIN_FHT8V_200US_BIT_STREAM_BUF_SIZE
  refine ⟨by omega, by omega, by omega, fun i hi => hfr i (by omega)⟩

/-- C4 at the command 13/73 set-valve 128 written at address 0 of zeroed memory. -/
theorem C4_encoded_length_bounds_witness :
    0 + 35 ≤ (FHT8VCreate200usBitStreamBptr (fun _ => 0) 0 ⟨13, 73, 0x26, 128⟩).2 ∧
      (FHT8VCreate200usBitStreamBptr (fun _ => 0) 0 ⟨13, 73, 0x26, 128⟩).2 ≤ 0 + 45 :=
  ⟨(C4_encoded_length_bounds (fun _ => 0) 0 ⟨13, 73, 0x26, 128⟩ (by decide)).1,
    (C4_encoded_length_bounds (fun _ => 0) 0 ⟨13, 73, 0x26, 128⟩ (by decide)).2.1⟩

/-- C5: for every command and every byte `ck` other than its checksum, the frame encoded
like the valid frame but carrying `ck` (with its own parity bit) in the checksum position
makes `FHT8VDecodeBitStream` return NULL; with the right checksum that frame is the
output of `FHT8VCreate200usBitStreamBptr`. -/
theorem C5_bad_checksum_rejected (m : Mem) (bptr : Nat) (c : fht8v_msg_t) (ck fuel : Nat)
    (hc : c.valid) (hk : ck < 256) (hne : ck ≠ frameChecksum c) (hfuel : 13 ≤ fuel) :
    FHT8VDecodeBitStream fuel (frameWithChecksum m bptr c ck).1 bptr
        (frameWithChecksum m bptr c ck).2 = some none ∧
      frameWithChecksum m bptr c (frameChecksum c) = FHT8VCreate200usBitStreamBptr m bptr c := by
  refine ⟨?_, rfl⟩
  rw [decode_frameWithChecksum m bptr c ck fuel hc hk hfuel]
  simp [Ne.symm hne]

/-- C5 at the command 13/73 set-valve 128 carrying checksum byte 0 instead of 0x08. -/
theorem C5_bad_checksum_rejected_witness :
    FHT8VDecodeBitStream 13 (frameWithChecksum (fun _ => 0) 0 ⟨13, 73, 0x26, 128⟩ 0).1 0
        (frameWithChecksum (fun _ => 0) 0 ⟨13, 73, 0x26, 128⟩ 0).2 = some none :=
  (C5_bad_checksum_rejected (fun _ => 0) 0 ⟨13, 73, 0x26, 128⟩ 0 13 (by decide) (by decide)
    (by decide) (by decide)).1

/-- C6: for every command and every bit position of the encoded stream from its first
preamble bit up to and including the last bit of the encoded trailing 0, inverting that
single physical bit in the output of `FHT8VCreate200usBitStreamBptr` makes
`FHT8VDecodeBitStream`, decoding from the start of the stream with the last byte at the
terminator, return NULL (given at least 14 passes of the leading-zero loop). -/
theorem C6_single_bit_flip_rejected (m : Mem) (bptr : Nat) (c : fht8v_msg_t) (t fuel : Nat)
    (hc : c.valid) (ht : t < frameBitLength c) (hfuel : 14 ≤ fuel) :
    FHT8VDecodeBitStream fuel (flipBit (FHT8VCreate200usBitStreamBptr m bptr c).1 bptr t) bptr
      (FHT8VCreate200usBitStreamBptr m bptr c).2 = some none :=
  decode_flipped m bptr c t fuel hc ht hfuel

set_option maxRecDepth 100000 in
/-- C6 at the command 13/73 set-valve 128 with bit 100 of its 306 stream bits inverted. -/
theorem C6_single_bit_flip_rejected_witness :
    100 < frameBitLength ⟨13, 73, 0x26, 128⟩ ∧
    FHT8VDecodeBitStream 14
      (flipBit (FHT8VCreate200usBitStreamBptr (fun _ => 0) 0 ⟨13, 73, 0x26, 128⟩).1 0 100) 0
      (FHT8VCreate200usBitStreamBptr (fun _ => 0) 0 ⟨13, 73, 0x26, 128⟩).2 = some none :=
  ⟨by decide,
    C6_single_bit_flip_rejected (fun _ => 0) 0 ⟨13, 73, 0x26, 128⟩ 100 14 (by decide)
      (by decide) (by decide)⟩

/-- C7: for every byte value b in [0,255], `_FHT8VCreate200usAppendByteEP` appends the 8
bits of b most significant first and then a ninth bit that is 1 exactly when b has an odd
number of set bits (the value of `parity_even_bit`), so the nine bits appended hold an
even number of ones. -/
theorem C7_append_byte_even_parity (m : Mem) (bptr b : Nat) (hb : b < 256) :
    _FHT8VCreate200usAppendByteEP m bptr b =
        appendEncBits (m, bptr) (byteBitsMSB b ++ [decide (popCount8 b % 2 = 1)]) ∧
      parity_even_bit b = popCount8 b % 2 ∧
      (byteBitsMSB b ++ [decide (popCount8 b % 2 = 1)]).count true % 2 = 0 := by
  refine ⟨appendByteEP_eq m bptr b hb, parity_even_bit_eq b hb,
    (byteWithParity_count b hb).2.2⟩

/-- C7 at the byte 0x26, which has three set bits. -/
theorem C7_append_byte_even_parity_witness :
    parity_even_bit 0x26 = popCount8 0x26 % 2 :=
  (C7_append_byte_even_parity (fun _ => 0) 0 0x26 (by decide)).2.1

/-- C8 as stated fails: at 1% open the extension byte is 2, while 1 * 255 / 100 = 2.55
rounded to the nearest integer is 3 (2 is off by 0.55). -/
theorem C8_extension_not_rounded :
    (FHT8VCreateValveSetCmdFrameHT_r (sampleExternals false) (fun _ => 0) 0 false
        ⟨13, 73, 0, 0⟩ 1 none).command.extension = 2 ∧
      roundDiv (1 * 255) 100 = 3 ∧
      (FHT8VCreateValveSetCmdFrameHT_r (sampleExternals false) (fun _ => 0) 0 false
        ⟨13, 73, 0, 0⟩ 1 none).command.extension ≠ roundDiv (1 * 255) 100 := by
  decide

/-- C8 amended: for every percentOpen in [0,100], `FHT8VCreateValveSetCmdFrameHT_r` sets
command.command to 0x26 and command.extension to percentOpen * 255 / 100 rounded down,
and leaves the house code as it was. -/
theorem C8_extension_is_floor (env : Externals) (m : Mem) (bptr : Nat) (doHeader : Bool)
    (cmd : fht8v_msg_t) (pc : Nat) (trailer : Option FullStatsMessageCore_t)
    (hpc : pc ≤ 100) :
    (FHT8VCreateValveSetCmdFrameHT_r env m bptr doHeader cmd pc trailer).command.command =
        0x26 ∧
      (FHT8VCreateValveSetCmdFrameHT_r env m bptr doHeader cmd pc trailer).command.extension =
        pc * 255 / 100 ∧
      100 * (FHT8VCreateValveSetCmdFrameHT_r env m bptr doHeader cmd pc
        trailer).command.extension ≤ pc * 255 ∧
      pc * 255 < 100 * ((FHT8VCreateValveSetCmdFrameHT_r env m bptr doHeader cmd pc
        trailer).command.extension + 1) ∧
      (FHT8VCreateValveSetCmdFrameHT_r env m bptr doHeader cmd pc trailer).command.hc1 =
        cmd.hc1 ∧
      (FHT8VCreateValveSetCmdFrameHT_r env m bptr doHeader cmd pc trailer).command.hc2 =
        cmd.hc2 := by
  rw [frameHT_command]
  have e : pc * 255 / 100 % 256 = pc * 255 / 100 := by omega
  rw [e]
  refine ⟨rfl, rfl, ?_, ?_, rfl, rfl⟩
  · show 100 * (pc * 255 / 100) ≤ pc * 255
    omega
  · show pc * 255 < 100 * (pc * 255 / 100 + 1)
    omega

/-- C8 amended, at 50% open: the extension byte is 127. -/
theorem C8_extension_is_floor_witness :
    (FHT8VCreateValveSetCmdFrameHT_r (sampleExternals false) (fun _ => 0) 0 false
        ⟨13, 73, 0, 0⟩ 50 none).command.extension = 50 * 255 / 100 :=
  (C8_extension_is_floor (sampleExternals false) (fun _ => 0) 0 false ⟨13, 73, 0, 0⟩ 50 none
    (by decide)).2.1

/-- C9: the output of `FHT8VCreateValveSetCmdFrame_r` for a house code of two bytes, with a
stats codec that writes only from its pointer on.  It begins with the radio pre-preamble
(RFM22_PREAMBLE_BYTES copies of RFM22_PREAMBLE_BYTE), followed by the bytes of the FHT8V
frame for opcode 0x26 and the scaled percent open, exactly when minimal-stats reporting is
enabled or percentOpen is at or above getMinValvePcReallyOpen; otherwise it is the bare
frame.  With stats reporting disabled the terminator follows the frame at once: there is
no trailer.  With it enabled a trailer is written where the frame's terminator was: the
three bytes of the minimal payload and the terminator if the populated stats hold
temperature and power and no ambient light, whether or not they hold an ID, else what the
full stats encoder writes for the populated stats with the ID flag cleared (nothing more
than the terminator if that encoder fails). -/
theorem C9_header_trailer_policy (env : Externals) (hcodec : StatsCodecOK env) (m : Mem)
    (bptr : Nat) (cmd : fht8v_msg_t) (pc : Nat) (h1 : cmd.hc1 < 256) (h2 : cmd.hc2 < 256) :
    (FHT8VCreateValveSetCmdFrame_r env m bptr cmd pc).command =
      ⟨cmd.hc1, cmd.hc2, 0x26, pc * 255 / 100 % 256⟩ ∧
    ((env.enableTrailingMinimalStatsPayload = true ∨ env.getMinValvePcReallyOpen ≤ pc) →
      memList (FHT8VCreateValveSetCmdFrame_r env m bptr cmd pc).mem bptr
          env.RFM22_PREAMBLE_BYTES =
        List.replicate env.RFM22_PREAMBLE_BYTES env.RFM22_PREAMBLE_BYTE ∧
      (∀ j, bptr + j < (FHT8VCreate200usBitStreamBptr m bptr
          ⟨cmd.hc1, cmd.hc2, 0x26, pc * 255 / 100 % 256⟩).2 →
        (FHT8VCreateValveSetCmdFrame_r env m bptr cmd pc).mem
            (bptr + env.RFM22_PREAMBLE_BYTES + j) =
          (FHT8VCreate200usBitStreamBptr m bptr
            ⟨cmd.hc1, cmd.hc2, 0x26, pc * 255 / 100 % 256⟩).1 (bptr + j))) ∧
    (¬ (env.enableTrailingMinimalStatsPayload = true ∨ env.getMinValvePcReallyOpen ≤ pc) →
      (FHT8VCreateValveSetCmdFrame_r env m bptr cmd pc).mem =
        (FHT8VCreate200usBitStreamBptr m bptr
          ⟨cmd.hc1, cmd.hc2, 0x26, pc * 255 / 100 % 256⟩).1 ∧
      (FHT8VCreateValveSetCmdFrame_r env m bptr cmd pc).bptr =
        (FHT8VCreate200usBitStreamBptr m bptr
          ⟨cmd.hc1, cmd.hc2, 0x26, pc * 255 / 100 % 256⟩).2) ∧
    (env.enableTrailingMinimalStatsPayload = false →
      (FHT8VCreateValveSetCmdFrame_r env m bptr cmd pc).bptr =
        (FHT8VCreate200usBitStreamBptr m bptr
          ⟨cmd.hc1, cmd.hc2, 0x26, pc * 255 / 100 % 256⟩).2 +
          (if env.getMinValvePcReallyOpen ≤ pc then env.RFM22_PREAMBLE_BYTES else 0) ∧
      (FHT8VCreateValveSetCmdFrame_r env m bptr cmd pc).mem
        (FHT8VCreateValveSetCmdFrame_r env m bptr cmd pc).bptr = 0xff) ∧
    (env.enableTrailingMinimalStatsPayload = true →
      (env.populateCoreStats.containsTempAndPower &&
        !env.populateCoreStats.containsAmbL) = true →
      (FHT8VCreateValveSetCmdFrame_r env m bptr cmd pc).bptr =
        (FHT8VCreate200usBitStreamBptr m bptr
          ⟨cmd.hc1, cmd.hc2, 0x26, pc * 255 / 100 % 256⟩).2 + env.RFM22_PREAMBLE_BYTES + 3 ∧
      (FHT8VCreateValveSetCmdFrame_r env m bptr cmd pc).mem
        (FHT8VCreateValveSetCmdFrame_r env m bptr cmd pc).bptr = 0xff ∧
      ∀ (M : Mem) (i : Nat),
        (FHT8VCreate200usBitStreamBptr m bptr
          ⟨cmd.hc1, cmd.hc2, 0x26, pc * 255 / 100 % 256⟩).2 + env.RFM22_PREAMBLE_BYTES ≤ i →
        i < (FHT8VCreate200usBitStreamBptr m bptr
          ⟨cmd.hc1, cmd.hc2, 0x26, pc * 255 / 100 % 256⟩).2 + env.RFM22_PREAMBLE_BYTES + 3 →
        (FHT8VCreateValveSetCmdFrame_r env m bptr cmd pc).mem i =
          env.writeTrailingMinimalStatsPayload M
            ((FHT8VCreate200usBitStreamBptr m bptr
              ⟨cmd.hc1, cmd.hc2, 0x26, pc * 255 / 100 % 256⟩).2 + env.RFM22_PREAMBLE_BYTES)
            env.populateCoreStats.tempAndPower i) ∧
    (env.enableTrailingMinimalStatsPayload = true →
      (env.populateCoreStats.containsTempAndPower &&
        !env.populateCoreStats.containsAmbL) = false →
      ∀ M : Mem,
        (FHT8VCreateValveSetCmdFrame_r env m bptr cmd pc).bptr =
          ((env.encodeFullStatsMessageCore M
            ((FHT8VCreate200usBitStreamBptr m bptr
              ⟨cmd.hc1, cmd.hc2, 0x26, pc * 255 / 100 % 256⟩).2 + env.RFM22_PREAMBLE_BYTES)
            (env.FHT8V_200US_BIT_STREAM_FRAME_BUF_SIZE -
              ((FHT8VCreate200usBitStreamBptr m bptr
                ⟨cmd.hc1, cmd.hc2, 0x26, pc * 255 / 100 % 256⟩).2 +
                  env.RFM22_PREAMBLE_BYTES - bptr))
            env.getStatsTXLevel false
            { env.populateCoreStats with containsID := false }).2).getD
              ((FHT8VCreate200usBitStreamBptr m bptr
                ⟨cmd.hc1, cmd.hc2, 0x26, pc * 255 / 100 % 256⟩).2 +
                  env.RFM22_PREAMBLE_BYTES) ∧
        (∀ tail i,
          (env.encodeFullStatsMessageCore M
            ((FHT8VCreate200usBitStreamBptr m bptr
              ⟨cmd.hc1, cmd.hc2, 0x26, pc * 255 / 100 % 256⟩).2 + env.RFM22_PREAMBLE_BYTES)
            (env.FHT8V_200US_BIT_STREAM_FRAME_BUF_SIZE -
              ((FHT8VCreate200usBitStreamBptr m bptr
                ⟨cmd.hc1, cmd.hc2, 0x26, pc * 255 / 100 % 256⟩).2 +
                  env.RFM22_PREAMBLE_BYTES - bptr))
            env.getStatsTXLevel false
            { env.populateCoreStats with containsID := false }).2 = some tail →
          (FHT8VCreate200usBitStreamBptr m bptr
            ⟨cmd.hc1, cmd.hc2, 0x26, pc * 255 / 100 % 256⟩).2 + env.RFM22_PREAMBLE_BYTES ≤ i →
          i ≤ tail →
          (FHT8VCreateValveSetCmdFrame_r env m bptr cmd pc).mem i =
            (env.encodeFullStatsMessageCore M
              ((FHT8VCreate200usBitStreamBptr m bptr
                ⟨cmd.hc1, cmd.hc2, 0x26, pc * 255 / 100 % 256⟩).2 +
                  env.RFM22_PREAMBLE_BYTES)
              (env.FHT8V_200US_BIT_STREAM_FRAME_BUF_SIZE -
                ((FHT8VCreate200usBitStreamBptr m bptr
                  ⟨cmd.hc1, cmd.hc2, 0x26, pc * 255 / 100 % 256⟩).2 +
                    env.RFM22_PREAMBLE_BYTES - bptr))
              env.getStatsTXLevel false
              { env.populateCoreStats with containsID := false }).1 i) ∧
        ((env.encodeFullStatsMessageCore M
            ((FHT8VCreate200usBitStreamBptr m bptr
              ⟨cmd.hc1, cmd.hc2, 0x26, pc * 255 / 100 % 256⟩).2 + env.RFM22_PREAMBLE_BYTES)
            (env.FHT8V_200US_BIT_STREAM_FRAME_BUF_SIZE -
              ((FHT8VCreate200usBitStreamBptr m bptr
                ⟨cmd.hc1, cmd.hc2, 0x26, pc * 255 / 100 % 256⟩).2 +
                  env.RFM22_PREAMBLE_BYTES - bptr))
            env.getStatsTXLevel false
            { env.populateCoreStats with containsID := false }).2 = none →
          (FHT8VCreateValveSetCmdFrame_r env m bptr cmd pc).mem
            (FHT8VCreateValveSetCmdFrame_r env m bptr cmd pc).bptr = 0xff)) := by
  have hv : (⟨cmd.hc1, cmd.hc2, 0x26, pc * 255 / 100 % 256⟩ : fht8v_msg_t).valid :=
    ⟨h1, h2, by norm_num, Nat.mod_lt _ (by norm_num)⟩
  generalize hc : (⟨cmd.hc1, cmd.hc2, 0x26, pc * 255 / 100 % 256⟩ : fht8v_msg_t) = c at hv
  have hcmd : (FHT8VCreateValveSetCmdFrame_r env m bptr cmd pc).command = c := by
    rw [← hc]
    exact frameHT_command _ _ _ _ _ _ _
  obtain ⟨s1, s2, s3, s4⟩ := frame_shift m
    (memset m bptr env.RFM22_PREAMBLE_BYTE env.RFM22_PREAMBLE_BYTES) bptr
    env.RFM22_PREAMBLE_BYTES c hv
  have hle : bptr ≤ (FHT8VCreate200usBitStreamBptr m bptr c).2 := by
    rw [createBitStream_eq]
    have := (frame_layout m bptr c (frameChecksum c) hv (frameChecksum_lt c)).1
    omega
  have hEt : (FHT8VCreate200usBitStreamBptr m bptr c).1
      (FHT8VCreate200usBitStreamBptr m bptr c).2 = 0xff := by
    rw [createBitStream_eq]
    exact (frame_layout m bptr c (frameChecksum c) hv (frameChecksum_lt c)).2.2
  have eB := frame_r_bare env m bptr cmd pc
  have eH := frame_r_header env m bptr cmd pc
  have eM := frame_r_minimal env m bptr cmd pc
  have eF := frame_r_full env m bptr cmd pc
  rw [hc] at eB eH eM eF
  generalize FHT8VCreate200usBitStreamBptr m bptr c = E at s1 s2 hle hEt eB ⊢
  generalize FHT8VCreate200usBitStreamBptr
    (memset m bptr env.RFM22_PREAMBLE_BYTE env.RFM22_PREAMBLE_BYTES)
    (bptr + env.RFM22_PREAMBLE_BYTES) c = F at s1 s2 s3 s4 eH eM eF
  generalize FHT8VCreateValveSetCmdFrame_r env m bptr cmd pc = R at hcmd eB eH eM eF ⊢
  -- the pre-preamble and the frame as the encoder leaves them
  have hhead : ∀ i, i < env.RFM22_PREAMBLE_BYTES → F.1 (bptr + i) = env.RFM22_PREAMBLE_BYTE := by
    intro i hi
    rw [s3 (bptr + i) (by omega), memset_apply, if_pos ⟨by omega, by omega⟩]
  have hlist : ∀ M : Mem, (∀ i, i < env.RFM22_PREAMBLE_BYTES →
      M (bptr + i) = env.RFM22_PREAMBLE_BYTE) →
      memList M bptr env.RFM22_PREAMBLE_BYTES =
        List.replicate env.RFM22_PREAMBLE_BYTES env.RFM22_PREAMBLE_BYTE := by
    intro M hM
    apply List.ext_getElem
    · simp [memList]
    · intro i hi1 hi2
      simp only [memList, List.length_map, List.length_range] at hi1
      simp only [memList, List.getElem_map, List.getElem_range, List.getElem_replicate]
      exact hM i hi1
  refine ⟨hcmd, ?_, ?_, ?_, ?_, ?_⟩
  · intro hcond
    cases hs : env.enableTrailingMinimalStatsPayload with
    | false =>
      have ht : env.getMinValvePcReallyOpen ≤ pc := by
        rcases hcond with h | h
        · rw [hs] at h; cases h
        · exact h
      rw [eH hs ht]
      exact ⟨hlist _ hhead, fun j hj => s2 j (by omega)⟩
    | true =>
      cases hp : (env.populateCoreStats.containsTempAndPower &&
          !env.populateCoreStats.containsAmbL) with
      | true =>
        rw [eM hs hp]
        simp only
        have hbefore : ∀ i, i < F.2 → poke (env.writeTrailingMinimalStatsPayload F.1 F.2
            env.populateCoreStats.tempAndPower) (F.2 + 3) 0xff i = F.1 i := by
          intro i hi
          rw [poke_other _ _ _ _ (by omega), hcodec.minimal_before _ _ _ _ hi]
        refine ⟨hlist _ (fun i hi => ?_), fun j hj => ?_⟩
        · rw [hbefore _ (by omega)]; exact hhead i hi
        · rw [hbefore _ (by omega)]; exact s2 j (by omega)
      | false =>
        rw [eF hs hp]
        simp only
        refine ⟨hlist _ (fun i hi => ?_), fun j hj => ?_⟩
        · rw [hcodec.full_before _ _ _ _ _ _ _ (by omega)]; exact hhead i hi
        · rw [hcodec.full_before _ _ _ _ _ _ _ (by omega)]; exact s2 j (by omega)
  · intro hcond
    have hs : env.enableTrailingMinimalStatsPayload = false := by
      cases h : env.enableTrailingMinimalStatsPayload
      · rfl
      · exact absurd (Or.inl h) hcond
    have ht : ¬ env.getMinValvePcReallyOpen ≤ pc := fun h => hcond (Or.inr h)
    rw [eB hs ht]
    exact ⟨rfl, rfl⟩
  · intro hs
    by_cases ht : env.getMinValvePcReallyOpen ≤ pc
    · rw [eH hs ht, if_pos ht]
      exact ⟨s1, s4⟩
    · rw [eB hs ht, if_neg ht]
      exact ⟨rfl, hEt⟩
  · intro hs hp
    rw [eM hs hp]
    simp only
    rw [s1]
    refine ⟨rfl, poke_same _ _ _, fun M i hi1 hi2 => ?_⟩
    rw [poke_other _ _ _ _ (by omega)]
    exact hcodec.minimal_bytes _ _ _ _ _ hi1 hi2
  · intro hs hp M
    rw [eF hs hp]
    simp only
    rw [s1] at s4 ⊢
    have htail := hcodec.full_tail F.1 M (E.2 + env.RFM22_PREAMBLE_BYTES)
      (env.FHT8V_200US_BIT_STREAM_FRAME_BUF_SIZE - (E.2 + env.RFM22_PREAMBLE_BYTES - bptr))
      env.getStatsTXLevel false { env.populateCoreStats with containsID := false }
    simp only at htail
    refine ⟨by rw [htail], fun tail i hM hi1 hi2 => ?_, fun hM => ?_⟩
    · exact hcodec.full_bytes F.1 M _ _ _ _ _ tail i (htail.trans hM) hi1 hi2
    · rw [htail, hM]
      simp only [Option.getD_none]
      rw [hcodec.full_failed _ _ _ _ _ _ (htail.trans hM)]
      exact s4

/-- C9 on the sample environment with stats reporting enabled and the valve 5% open,
below the threshold: the pre-preamble is there. -/
theorem C9_header_trailer_policy_witness :
    (13 : Nat) < 256 ∧ (73 : Nat) < 256 ∧
    ((sampleExternals true).enableTrailingMinimalStatsPayload = true ∨
      (sampleExternals true).getMinValvePcReallyOpen ≤ 5) ∧
    memList (FHT8VCreateValveSetCmdFrame_r (sampleExternals true) (fun _ => 0) 0
        ⟨13, 73, 0, 0⟩ 5).mem 0 (sampleExternals true).RFM22_PREAMBLE_BYTES =
      List.replicate (sampleExternals true).RFM22_PREAMBLE_BYTES
        (sampleExternals true).RFM22_PREAMBLE_BYTE :=
  ⟨by decide, by decide, Or.inl rfl,
    ((C9_header_trailer_policy (sampleExternals true) (sampleExternals_codecOK true)
      (fun _ => 0) 0 ⟨13, 73, 0, 0⟩ 5 (by decide) (by decide)).2.1 (Or.inl rfl)).1⟩

/-- C10: with a stats codec whose output is a function of its inputs, calling
`FHT8VCreateValveSetCmdFrameHT_r` a second time on the buffer the first call left, with
the same house code, percent-open, header flag and trailer, gives the same returned
address and the same bytes from `bptr` up to and including the terminator; so does a call
on any other prior buffer contents; and the same holds for `FHT8VCreateValveSetCmdFrame`
on the shared buffer. -/
theorem C10_valve_frame_idempotent (env : Externals) (hcodec : StatsCodecOK env)
    (m m2 : Mem) (bptr : Nat) (doHeader : Bool) (cmd : fht8v_msg_t) (pc : Nat)
    (trailer : Option FullStatsMessageCore_t) (h1 : cmd.hc1 < 256) (h2 : cmd.hc2 < 256) :
    ((FHT8VCreateValveSetCmdFrameHT_r env
          (FHT8VCreateValveSetCmdFrameHT_r env m bptr doHeader cmd pc trailer).mem bptr doHeader
          (FHT8VCreateValveSetCmdFrameHT_r env m bptr doHeader cmd pc trailer).command pc
          trailer).bptr =
        (FHT8VCreateValveSetCmdFrameHT_r env m bptr doHeader cmd pc trailer).bptr ∧
      ∀ i, bptr ≤ i →
        i ≤ (FHT8VCreateValveSetCmdFrameHT_r env m bptr doHeader cmd pc trailer).bptr →
        (FHT8VCreateValveSetCmdFrameHT_r env
          (FHT8VCreateValveSetCmdFrameHT_r env m bptr doHeader cmd pc trailer).mem bptr doHeader
          (FHT8VCreateValveSetCmdFrameHT_r env m bptr doHeader cmd pc trailer).command pc
          trailer).mem i =
        (FHT8VCreateValveSetCmdFrameHT_r env m bptr doHeader cmd pc trailer).mem i) ∧
    ((FHT8VCreateValveSetCmdFrameHT_r env m2 bptr doHeader cmd pc trailer).bptr =
        (FHT8VCreateValveSetCmdFrameHT_r env m bptr doHeader cmd pc trailer).bptr ∧
      ∀ i, bptr ≤ i →
        i ≤ (FHT8VCreateValveSetCmdFrameHT_r env m bptr doHeader cmd pc trailer).bptr →
        (FHT8VCreateValveSetCmdFrameHT_r env m2 bptr doHeader cmd pc trailer).mem i =
        (FHT8VCreateValveSetCmdFrameHT_r env m bptr doHeader cmd pc trailer).mem i) ∧
    (txFrameEnd env (FHT8VCreateValveSetCmdFrame env m) = txFrameEnd env m ∧
      ∀ i, i ≤ txFrameEnd env m →
        FHT8VCreateValveSetCmdFrame env (FHT8VCreateValveSetCmdFrame env m) i =
          FHT8VCreateValveSetCmdFrame env m i) ∧
    (txFrameEnd env m2 = txFrameEnd env m ∧
      ∀ i, i ≤ txFrameEnd env m →
        FHT8VCreateValveSetCmdFrame env m2 i = FHT8VCreateValveSetCmdFrame env m i) := by
  have hind := fun mm => frameHT_independent env hcodec m mm bptr doHeader cmd pc trailer h1 h2
  have hcong := fun mm => frameHT_cmd_congr env mm bptr doHeader cmd
    (FHT8VCreateValveSetCmdFrameHT_r env m bptr doHeader cmd pc trailer).command pc trailer
    (by rw [frameHT_command]) (by rw [frameHT_command])
  have htx := fun mm => txFrame_independent env hcodec m mm
  refine ⟨?_, ?_, ?_, ?_⟩
  · rw [hcong]
    obtain ⟨k1, _, k3⟩ := hind (FHT8VCreateValveSetCmdFrameHT_r env m bptr doHeader cmd pc
      trailer).mem
    exact ⟨k1.symm, fun i hi1 hi2 => (k3 i hi1 hi2).symm⟩
  · obtain ⟨k1, _, k3⟩ := hind m2
    exact ⟨k1.symm, fun i hi1 hi2 => (k3 i hi1 hi2).symm⟩
  · obtain ⟨k1, k3⟩ := htx (FHT8VCreateValveSetCmdFrame env m)
    exact ⟨k1.symm, fun i hi => (k3 i hi).symm⟩
  · obtain ⟨k1, k3⟩ := htx m2
    exact ⟨k1.symm, fun i hi => (k3 i hi).symm⟩

/-- C10 at the sample environment with stats reporting on, the shared buffer zeroed. -/
theorem C10_valve_frame_idempotent_witness :
    StatsCodecOK (sampleExternals true) ∧
    txFrameEnd (sampleExternals true)
        (FHT8VCreateValveSetCmdFrame (sampleExternals true) (fun _ => 0)) =
      txFrameEnd (sampleExternals true) (fun _ => 0) :=
  ⟨sampleExternals_codecOK true,
    (C10_valve_frame_idempotent (sampleExternals true) (sampleExternals_codecOK true)
      (fun _ => 0) (fun _ => 0) 0 true ⟨13, 73, 0, 0⟩ 50 none (by decide)
      (by decide)).2.2.1.1⟩

/-- C11: from the reset state with a configured house code, the first 240 polls, each of
them FHT8VPollSyncAndTX_First or _Next with any `allowDoubleTX`, make exactly 120
transmissions.  After `j` polls `(j + 1) / 2` frames have gone out, so one goes out on each
odd poll and none on an even poll; the log after `j` polls is the start of the final log;
the `k`-th frame (from 0) is the encoder's bit stream for house code, opcode 0x2c and
extension `241 - 2 * k`; and after the 240th poll the sync counter is 1 and the unit is
not in sync. -/
theorem C11_sync_tick_sequence (two : Bool) (env : Externals) (area : Mem)
    (ps : List (Bool × Bool)) (hhc : env.FHT8VGetHC1 ≤ 99 ∧ env.FHT8VGetHC2 ≤ 99)
    (hlen : ps.length = 240) :
    (∀ j, j ≤ 240 →
        (runPolls two env (resetState area) (ps.take j)).radio.length = (j + 1) / 2 ∧
        (runPolls two env (resetState area) (ps.take j)).radio <+:
          (runPolls two env (resetState area) ps).radio) ∧
      (runPolls two env (resetState area) ps).radio.length = 120 ∧
      (∀ k, k < 120 → ∃ m,
        (runPolls two env (resetState area) ps).radio[k]? =
          some ⟨(FHT8VCreate200usBitStreamBptr m 0
            ⟨env.FHT8VGetHC1, env.FHT8VGetHC2, 0x2c, 241 - 2 * k⟩).1, true⟩) ∧
      (runPolls two env (resetState area) ps).syncStateFHT8V = 1 ∧
      (runPolls two env (resetState area) ps).syncedWithFHT8V = false := by
  have hen : localFHT8VTRVEnabled env = true := by
    simp [localFHT8VTRVEnabled, hhc.1, hhc.2]
  have hrun := sync_ticks_run two env area ps hen
  obtain ⟨a1, a2, a3, a4⟩ := hrun 240 (Nat.le_refl _) (by omega)
  have hall : ps.take 240 = ps := by
    rw [← hlen]
    exact List.take_length ps
  rw [hall] at a1 a2 a3 a4
  refine ⟨fun j hj => ⟨(hrun j hj (by omega)).2.2.1, ?_⟩, a3, a4, a2, a1⟩
  have hsplit : ps = ps.take j ++ ps.drop j := (List.take_append_drop j ps).symm
  have h := runPolls_radio_grows two env (ps.drop j)
    (runPolls two env (resetState area) (ps.take j))
  rw [← runPolls_append, ← hsplit] at h
  exact h

/-- C11 on the sample environment, the buffer zeroed: _First and then three _Next polls
in each of 60 minor cycles. -/
theorem C11_sync_tick_sequence_witness :
    ((sampleExternals false).FHT8VGetHC1 ≤ 99 ∧ (sampleExternals false).FHT8VGetHC2 ≤ 99) ∧
    ((List.range 240).map (fun i => (decide (i % 4 = 0), false))).length = 240 ∧
    (runPolls true (sampleExternals false) (resetState (fun _ => 0))
      ((List.range 240).map (fun i => (decide (i % 4 = 0), false)))).syncStateFHT8V = 1 :=
  ⟨by decide, by simp,
    (C11_sync_tick_sequence true (sampleExternals false) (fun _ => 0)
      ((List.range 240).map (fun i => (decide (i % 4 = 0), false)))
      (by decide) (by simp)).2.2.2.1⟩

/-- C12: a poll that transmits and leaves the unit in sync (the sync-final poll or a
valve-setting poll) leaves the countdown at the gap for its slot.  From any such state, in
sync in slot `halfSecondCount ≤ MAX_HSC` with a frame in the buffer, the caller that polls
_First at each cycle start and _Next at each later slot while the previous poll returned
true, at most MAX_HSC times a cycle, sees the next transmission after `t` slots of the
cycles that follow: with the remaining slots of the current cycle and the first slot of
the next that is exactly `(hc2 & 7) + 230` slots after the last one.  That transmission is
of the buffer, and it leaves the state in the same form, whichever slot it falls in. -/
theorem C12_steady_state_gap (two : Bool) (env : Externals) (a : Bool) :
    (∀ (s0 : fht8v_sync_t) (p : Bool × Bool),
      (pollStep two env s0 p).1.syncedWithFHT8V = true →
      (pollStep two env s0 p).1.radio ≠ s0.radio →
      (pollStep two env s0 p).1.halfSecondsToNextFHT8VTX =
        FHT8VTXGapHalfSeconds_inCycle two env.FHT8VGetHC2
          (pollStep two env s0 p).1.halfSecondCount) ∧
    (∀ (s : fht8v_sync_t) (fuel : Nat), s.syncedWithFHT8V = true →
      s.halfSecondsToNextFHT8VTX =
        FHT8VTXGapHalfSeconds_inCycle two env.FHT8VGetHC2 s.halfSecondCount →
      s.halfSecondCount ≤ MAX_HSC two → s.FHT8VTXCommandArea 0 ≠ 0xff → 120 ≤ fuel →
      ∃ t r, untilTX two env a fuel s = some (t, r) ∧
        (MAX_HSC two - s.halfSecondCount) + 1 + t = (env.FHT8VGetHC2 &&& 7) + 230 ∧
        r.radio = s.radio ++ [⟨s.FHT8VTXCommandArea, a⟩] ∧
        r.syncedWithFHT8V = true ∧
        r.halfSecondsToNextFHT8VTX =
          FHT8VTXGapHalfSeconds_inCycle two env.FHT8VGetHC2 r.halfSecondCount ∧
        r.halfSecondCount = t % (MAX_HSC two + 1) ∧
        r.halfSecondCount ≤ MAX_HSC two ∧
        r.FHT8VTXCommandArea = s.FHT8VTXCommandArea) := by
  refine ⟨fun s0 p h1 h2 => poll_tx_countdown two env s0 p h1 h2, ?_⟩
  intro s fuel hsy hh hc hb hfuel
  have hM := maxHSC_cases two
  have hg := gap_inCycle_value two env.FHT8VGetHC2 s.halfSecondCount hc
  rw [hg] at hh
  have hfu : 240 ≤ fuel * (MAX_HSC two + 1) := by
    rcases hM with h | h <;> rw [h] <;> omega
  have hmod := Nat.mod_lt (env.FHT8VGetHC2 % 8 + 230 - (MAX_HSC two - s.halfSecondCount) - 1)
    (show MAX_HSC two + 1 > 0 by omega)
  have hrun := untilTX_synced two env a fuel s _ hsy hh (by omega) (by omega) (by omega) hb
  refine ⟨_, _, hrun, ?_, rfl, hsy, rfl, rfl, ?_, rfl⟩
  · rw [land_seven]
    omega
  · show _ % _ ≤ _
    omega

/-- C12 from a state just after a transmission in slot 0, house code part `hc2 = 73`:
the next transmission is 231 slots later. -/
theorem C12_steady_state_gap_witness :
    sampleSent.syncedWithFHT8V = true ∧
    ∃ t r, untilTX true (sampleExternals false) false 120 sampleSent = some (t, r) ∧
      (MAX_HSC true - sampleSent.halfSecondCount) + 1 + t = 231 := by
  obtain ⟨t, r, h1, h2, _⟩ := (C12_steady_state_gap true (sampleExternals false) false).2
    sampleSent 120 rfl (by decide) (by decide) (by decide) (by decide)
  exact ⟨rfl, t, r, h1, h2⟩

/-- C13: with a configured house code, take the poll in which the sync counter goes from
2 to 1, made in a slot `halfSecondCount ≤ MAX_HSC` of its cycle.  It transmits nothing,
returns false so that the remaining `MAX_HSC - halfSecondCount` slots of the cycle are
skipped, and stores the countdown `(hc2 & 7) + 8` less those remaining slots.  The caller
that then polls _First at each cycle start and _Next at each later slot while the previous
poll returned true sees the sync-final command (opcode 0x20, extension 0, sent twice) go
out after `t` slots of the following cycles, which is exactly `(hc2 & 7) + 8` slots after
the slot of that poll, and the unit is then in sync. -/
theorem C13_sync_final_delay (two : Bool) (env : Externals) (a : Bool) (s0 : fht8v_sync_t)
    (p : Bool × Bool) (fuel : Nat)
    (hhc : env.FHT8VGetHC1 ≤ 99 ∧ env.FHT8VGetHC2 ≤ 99)
    (hsy : s0.syncedWithFHT8V = false) (hst : s0.syncStateFHT8V = 2)
    (hslot : (pollStep two env s0 p).1.halfSecondCount ≤ MAX_HSC two) (hfuel : 8 ≤ fuel) :
    (pollStep two env s0 p).1.syncStateFHT8V = 1 ∧
      (pollStep two env s0 p).2 = false ∧
      (pollStep two env s0 p).1.radio = s0.radio ∧
      (pollStep two env s0 p).1.halfSecondsToNextFHT8VTX =
        (env.FHT8VGetHC2 &&& 7) + 8 - (MAX_HSC two - (pollStep two env s0 p).1.halfSecondCount) ∧
      ∃ t r, untilTX two env a fuel (pollStep two env s0 p).1 = some (t, r) ∧
        (MAX_HSC two - (pollStep two env s0 p).1.halfSecondCount) + 1 + t =
          (env.FHT8VGetHC2 &&& 7) + 8 ∧
        r.syncedWithFHT8V = true ∧
        r.radio = s0.radio ++ [⟨(FHT8VCreate200usBitStreamBptr s0.FHT8VTXCommandArea 0
          ⟨env.FHT8VGetHC1, env.FHT8VGetHC2, 0x20, 0⟩).1, true⟩] := by
  have hen : localFHT8VTRVEnabled env = true := by
    simp [localFHT8VTRVEnabled, hhc.1, hhc.2]
  have hM := maxHSC_cases two
  rw [pollStep_unsynced two env s0 p hsy] at hslot ⊢
  generalize hs2 : ({ s0 with halfSecondCount :=
    if p.1 then 0 else toUInt8 ((s0.halfSecondCount : Int) + 1) } : fht8v_sync_t) = s2
    at hslot ⊢
  have b1 : s2.syncedWithFHT8V = false := by rw [← hs2]; exact hsy
  have b2 : s2.syncStateFHT8V = 2 := by rw [← hs2]; exact hst
  have b3 : s2.radio = s0.radio := by rw [← hs2]
  have b4 : s2.FHT8VTXCommandArea = s0.FHT8VTXCommandArea := by rw [← hs2]
  rw [doSync_last_tick two env true s2 hen b2] at hslot ⊢
  simp only at hslot
  have hcd := last_tick_countdown two env.FHT8VGetHC2 s2.halfSecondCount hslot
  have hfu : 16 ≤ fuel * (MAX_HSC two + 1) := by
    rcases hM with h | h <;> rw [h] <;> omega
  have hrun := untilTX_sync two env a hen fuel
    { s2 with syncStateFHT8V := 1,
              halfSecondsToNextFHT8VTX :=
                (toUInt8 (((env.FHT8VGetHC2 % 8 + 8 : Nat) : Int) -
                  ((MAX_HSC two : Int) - (s2.halfSecondCount : Int)))) }
    (env.FHT8VGetHC2 % 8 + 8 - (MAX_HSC two - s2.halfSecondCount)) b1 rfl hcd
    (by omega) (by omega) (by omega)
  refine ⟨rfl, rfl, b3, ?_, _, _, hrun, ?_, rfl, ?_⟩
  · rw [land_seven]
    exact hcd
  · rw [land_seven]
    show MAX_HSC two - s2.halfSecondCount + 1 + _ = _
    omega
  · show s2.radio ++ [⟨(FHT8VCreate200usBitStreamBptr s2.FHT8VTXCommandArea 0 _).1, true⟩] = _
    rw [b3, b4]

/-- C13 at the sample environment: the last sync tick polled by _Next in slot 2 of a
four-slot cycle. -/
theorem C13_sync_final_delay_witness :
    sampleLastTick.syncStateFHT8V = 2 ∧
    (pollStep true (sampleExternals false) sampleLastTick (false, false)).1.halfSecondsToNextFHT8VTX =
      ((sampleExternals false).FHT8VGetHC2 &&& 7) + 8 -
        (MAX_HSC true -
          (pollStep true (sampleExternals false) sampleLastTick (false, false)).1.halfSecondCount) :=
  ⟨rfl, (C13_sync_final_delay true (sampleExternals false) false sampleLastTick (false, false)
    8 (by decide) rfl rfl (by decide) (by decide)).2.2.2.1⟩

/-- C14 as written fails: with the house code erased, a unit that is in sync with a
transmission due and a valve-setting frame (house code 13/73, valve shut) still in the
buffer transmits that frame at the next poll. -/
theorem C14_unconfigured_in_sync_transmits :
    localFHT8VTRVEnabled sampleUnconfigured = false ∧
      (sampleDue (FHT8VCreate200usBitStreamBptr (fun _ => 0) 0 ⟨13, 73, 0x26, 0⟩).1).radio = [] ∧
      (FHT8VPollSyncAndTX_First true sampleUnconfigured false
        (sampleDue (FHT8VCreate200usBitStreamBptr (fun _ => 0) 0
          ⟨13, 73, 0x26, 0⟩).1)).1.radio.length = 1 := by
  have hb : (FHT8VCreate200usBitStreamBptr (fun _ => 0) 0 ⟨13, 73, 0x26, 0⟩).1 0 = 0xcc :=
    bitStream_head (fun _ => 0) ⟨13, 73, 0x26, 0⟩ (by decide)
  generalize (FHT8VCreate200usBitStreamBptr (fun _ => 0) 0 ⟨13, 73, 0x26, 0⟩).1 = buf at hb ⊢
  refine ⟨by decide, rfl, ?_⟩
  rw [first_send true sampleUnconfigured false _ rfl rfl, valveSettingTX_send _ _ _ (by
    show buf 0 ≠ 0xff
    rw [hb]
    decide)]
  rfl

/-- C14, amended: with the house code unconfigured (`hc1 > 99` or `hc2 > 99`) a poll
makes no transmission when the unit is not in sync, and none when it is in sync and the
shared buffer is empty (starts with 0xff); and with the house code unconfigured
FHT8VCreateValveSetCmdFrame leaves the buffer empty. -/
theorem C14_unconfigured_no_tx (two : Bool) (env : Externals) (s : fht8v_sync_t)
    (p : Bool × Bool) (hhc : env.FHT8VGetHC1 > 99 ∨ env.FHT8VGetHC2 > 99)
    (hs : s.syncedWithFHT8V = false ∨ s.FHT8VTXCommandArea 0 = 0xff) :
    (pollStep two env s p).1.radio = s.radio ∧
      ∀ b : Mem, FHT8VCreateValveSetCmdFrame env b 0 = 0xff := by
  have hen : localFHT8VTRVEnabled env = false := by
    unfold localFHT8VTRVEnabled
    rcases hhc with h | h
    · simp [Nat.not_le.mpr h]
    · simp [Nat.not_le.mpr h]
  refine ⟨?_, fun b => ?_⟩
  · by_cases hsy : s.syncedWithFHT8V = true
    · have hb : s.FHT8VTXCommandArea 0 = 0xff := by
        rcases hs with h | h
        · rw [hsy] at h; exact absurd h (by decide)
        · exact h
      obtain ⟨_, _, _, h | h | h⟩ := pollStep_synced two env s p hsy
      · exact h.1
      · exact h.1
      · exact absurd hb h.2.1
    · have hsy2 : s.syncedWithFHT8V = false := by simpa using hsy
      rw [pollStep_unsynced two env s p hsy2, doSync_disabled two env true _ hen]
  · simp [FHT8VCreateValveSetCmdFrame, hen, poke]

/-- C14, amended, at the sample environment with the house code erased, in sync with a
transmission due and the buffer emptied. -/
theorem C14_unconfigured_no_tx_witness :
    (sampleUnconfigured.FHT8VGetHC1 > 99 ∨ sampleUnconfigured.FHT8VGetHC2 > 99) ∧
    (pollStep true sampleUnconfigured (sampleDue (fun _ => 0xff)) (true, false)).1.radio =
      (sampleDue (fun _ => 0xff)).radio :=
  ⟨Or.inl (by decide),
    (C14_unconfigured_no_tx true sampleUnconfigured (sampleDue (fun _ => 0xff)) (true, false)
      (Or.inl (by decide)) (Or.inr rfl)).1⟩

/-- C15: getFHT8V_isValveOpen is false in every state that is not in sync; and right
after a poll made in sync that transmits (the valve-setting command in the buffer) it is
true exactly when the valve's percent-open is at or above the really-open threshold. -/
theorem C15_valve_open_report (two : Bool) (env : Externals) (s : fht8v_sync_t)
    (p : Bool × Bool) :
    (s.syncedWithFHT8V = false → getFHT8V_isValveOpen s = false) ∧
      (s.syncedWithFHT8V = true → (pollStep two env s p).1.radio ≠ s.radio →
        (getFHT8V_isValveOpen (pollStep two env s p).1 = true ↔
          env.NominalRadValve_get ≥ env.getMinValvePcReallyOpen)) := by
  refine ⟨fun h => by simp [getFHT8V_isValveOpen, h], fun hsy htx => ?_⟩
  obtain ⟨h1, _, _, h | h | h⟩ := pollStep_synced two env s p hsy
  · exact absurd h.1 htx
  · exact absurd h.1 htx
  · simp [getFHT8V_isValveOpen, h1, h.2.2]

/-- C15 at the sample environment (valve 50% open, threshold 10%): in sync with a
transmission due and a frame in the buffer. -/
theorem C15_valve_open_report_witness :
    (sampleDue (fun _ => 0xcc)).syncedWithFHT8V = true ∧
    (getFHT8V_isValveOpen
      (pollStep true (sampleExternals false) (sampleDue (fun _ => 0xcc)) (true, false)).1 = true ↔
      (sampleExternals false).NominalRadValve_get ≥
        (sampleExternals false).getMinValvePcReallyOpen) :=
  ⟨rfl, (C15_valve_open_report true (sampleExternals false) (sampleDue (fun _ => 0xcc))
    (true, false)).2 rfl (by
      rw [show (pollStep true (sampleExternals false) (sampleDue (fun _ => 0xcc))
        (true, false)).1.radio = [⟨fun _ => 0xcc, false⟩] from rfl]
      simp [sampleDue])⟩

/-- C16 fails on the code: in sync with a transmission due and the buffer empty (as
FHT8VCreateValveSetCmdFrame leaves it once the house code is erased), the poll transmits
nothing, `FHT8VTXFHTQueueAndSendCmd` returning at once, and yet `valveSettingTX` goes on to
set the belief, here from false to true. -/
theorem C16_belief_set_without_tx :
    (sampleDue (FHT8VCreateValveSetCmdFrame sampleUnconfigured (fun _ => 0))).FHT8V_isValveOpen
        = false ∧
      (FHT8VPollSyncAndTX_First true sampleUnconfigured false
        (sampleDue (FHT8VCreateValveSetCmdFrame sampleUnconfigured
          (fun _ => 0)))).1.FHT8V_isValveOpen = true ∧
      (FHT8VPollSyncAndTX_First true sampleUnconfigured false
        (sampleDue (FHT8VCreateValveSetCmdFrame sampleUnconfigured (fun _ => 0)))).1.radio =
        (sampleDue (FHT8VCreateValveSetCmdFrame sampleUnconfigured (fun _ => 0))).radio := by
  refine ⟨rfl, ?_, ?_⟩
  · rw [first_send true sampleUnconfigured false _ rfl rfl, valveSettingTX_empty _ _ _ rfl]
    rfl
  · rw [first_send true sampleUnconfigured false _ rfl rfl, valveSettingTX_empty _ _ _ rfl]

/-- C17: a poll either transmits nothing or adds one transmission to the radio; one made
while the unit is not in sync is a double transmission whatever `allowDoubleTX` is, and
one made in sync is double exactly when `allowDoubleTX` is true. -/
theorem C17_double_tx_policy (two : Bool) (env : Externals) (s : fht8v_sync_t)
    (allowDoubleTX isFirst : Bool) :
    (pollStep two env s (isFirst, allowDoubleTX)).1.radio = s.radio ∨
      ∃ frame, (pollStep two env s (isFirst, allowDoubleTX)).1.radio =
        s.radio ++ [⟨frame, if s.syncedWithFHT8V then allowDoubleTX else true⟩] :=
  pollStep_radio two env s (isFirst, allowDoubleTX)

/-- C18 as written fails in its last part: after FHT8VSyncAndTXReset with the house code
erased, the next poll does not restart the sync sequence: the counter stays 0 and nothing
is transmitted. -/
theorem C18_no_restart_when_unconfigured :
    (pollStep true sampleUnconfigured (FHT8VSyncAndTXReset (sampleDue (fun _ => 0xcc)))
        (true, false)).1.syncStateFHT8V = 0 ∧
      (pollStep true sampleUnconfigured (FHT8VSyncAndTXReset (sampleDue (fun _ => 0xcc)))
        (true, false)).1.radio = [] := by
  rw [pollStep_unsynced true sampleUnconfigured _ _ rfl,
    doSync_disabled true sampleUnconfigured true _ (by decide)]
  exact ⟨rfl, rfl⟩

/-- C18, amended: from a state in sync every sequence of polls leaves the unit in sync;
FHT8VSyncAndTXReset clears the synced flag, the sync counter, the countdown and the
belief; and, when a house code is configured, the poll after it restarts the sync
sequence: it sets the counter to 241, sends the sync tick with extension 241 twice and
leaves the counter at 240, still out of sync. -/
theorem C18_no_automatic_resync (two : Bool) (env : Externals) (s : fht8v_sync_t)
    (ps : List (Bool × Bool)) (p : Bool × Bool) :
    (s.syncedWithFHT8V = true → (runPolls two env s ps).syncedWithFHT8V = true) ∧
      ((FHT8VSyncAndTXReset s).syncedWithFHT8V = false ∧
        (FHT8VSyncAndTXReset s).syncStateFHT8V = 0 ∧
        (FHT8VSyncAndTXReset s).halfSecondsToNextFHT8VTX = 0 ∧
        (FHT8VSyncAndTXReset s).FHT8V_isValveOpen = false) ∧
      (env.FHT8VGetHC1 ≤ 99 ∧ env.FHT8VGetHC2 ≤ 99 →
        (pollStep two env (FHT8VSyncAndTXReset s) p).1.syncStateFHT8V = 240 ∧
        (pollStep two env (FHT8VSyncAndTXReset s) p).1.syncedWithFHT8V = false ∧
        (pollStep two env (FHT8VSyncAndTXReset s) p).1.radio =
          s.radio ++ [⟨(FHT8VCreate200usBitStreamBptr s.FHT8VTXCommandArea 0
            ⟨env.FHT8VGetHC1, env.FHT8VGetHC2, 0x2c, 241⟩).1, true⟩]) := by
  refine ⟨runPolls_synced two env ps s, ⟨rfl, rfl, rfl, rfl⟩, fun hhc => ?_⟩
  have hen : localFHT8VTRVEnabled env = true := by
    simp [localFHT8VTRVEnabled, hhc.1, hhc.2]
  rw [pollStep_unsynced two env _ p rfl]
  obtain ⟨c1, c2, c3⟩ := doSync_tick_fields two env true
    { FHT8VSyncAndTXReset s with
      halfSecondCount :=
        (if p.1 then 0 else toUInt8 (((FHT8VSyncAndTXReset s).halfSecondCount : Int) + 1)) }
    241 hen (by omega) (by omega) (Or.inr ⟨rfl, rfl⟩)
  exact ⟨c2, c1, c3⟩

/-- C18, amended, at the sample environment: a run of polls from a state in sync, and
the poll after a reset. -/
theorem C18_no_automatic_resync_witness :
    (sampleDue (fun _ => 0xcc)).syncedWithFHT8V = true ∧
    (runPolls true (sampleExternals false) (sampleDue (fun _ => 0xcc))
      [(true, false), (false, false), (true, true)]).syncedWithFHT8V = true ∧
    (pollStep true (sampleExternals false) (FHT8VSyncAndTXReset (sampleDue (fun _ => 0xcc)))
      (true, false)).1.syncStateFHT8V = 240 :=
  ⟨rfl,
    (C18_no_automatic_resync true (sampleExternals false) (sampleDue (fun _ => 0xcc))
      [(true, false), (false, false), (true, true)] (true, false)).1 rfl,
    ((C18_no_automatic_resync true (sampleExternals false) (sampleDue (fun _ => 0xcc))
      [(true, false), (false, false), (true, true)] (true, false)).2.2 (by decide)).1⟩

/-- C19: when the poll receives a frame (eavesdropping, nIRQ active where the pin is
used, frame flagged in the status) that passes the preamble scan and decodes to a command
whose opcode is not 0x26, it returns true and leaves the mailbox `lastCallForHeatHC` as it
was, whatever the extension and the house code are. -/
theorem C19_other_opcode_keeps_mailbox (fuel : Nat) (env : Externals) (henv : HubExternals)
    (rx : rfm22_rx_t) (st : fht8v_hub_t) (pos trailer : Nat) (cmd : fht8v_msg_t)
    (heav : st.eavesdropping = true) (hirq : henv.PIN_RFM_NIRQ = true → rx.nIRQ = 0)
    (hst : rx.status &&& 0x1000 ≠ 0)
    (hscan : preambleScan henv { st with FHT8VRXHubArea := receivedFrame henv rx st } 6 0 =
      .body pos)
    (hdec : FHT8VDecodeBitStream fuel (receivedFrame henv rx st) pos
      (env.FHT8V_200US_BIT_STREAM_FRAME_BUF_SIZE - 1) = some (some (trailer, cmd)))
    (hop : cmd.command ≠ 0x26) :
    ∃ st2, FHT8VCallForHeatPoll fuel env henv rx st = some (st2, true) ∧
      st2.lastCallForHeatHC = st.lastCallForHeatHC := by
  obtain ⟨st2, h1, h2⟩ := poll_decoded fuel env henv rx st pos trailer cmd heav hirq hst
    hscan hdec
  refine ⟨st2, h1, ?_⟩
  rw [h2, if_neg (fun h => hop h.1.symm)]

set_option maxRecDepth 100000 in
/-- C19 on the sample receiver: the sync frame for house code 13/73 with extension 241,
which is above the really-open threshold. -/
theorem C19_other_opcode_keeps_mailbox_witness :
    FHT8VDecodeBitStream 2 (receivedFrame sampleHubExternals (sampleRX sampleSyncFrame) sampleHub)
        6 ((sampleExternals false).FHT8V_200US_BIT_STREAM_FRAME_BUF_SIZE - 1) =
      some (some (41, ⟨13, 73, 0x2c, 241⟩)) ∧
    ∃ st2, FHT8VCallForHeatPoll 2 (sampleExternals false) sampleHubExternals
        (sampleRX sampleSyncFrame) sampleHub = some (st2, true) ∧
      st2.lastCallForHeatHC = sampleHub.lastCallForHeatHC :=
  ⟨by decide,
    C19_other_opcode_keeps_mailbox 2 (sampleExternals false) sampleHubExternals
      (sampleRX sampleSyncFrame) sampleHub 6 41 ⟨13, 73, 0x2c, 241⟩ rfl (by decide) (by decide)
      rfl (by decide) (by decide)⟩

/-- C20: when the poll receives a frame that passes the preamble scan and decodes to a
command with opcode 0x26, it returns true; if the extension is at or above the
really-open threshold and FHT8VHubAcceptedHouseCode accepts the house code, the mailbox
becomes `hc1 * 256 + hc2`; if the extension is below the threshold or the house code is
not accepted, the mailbox is as it was. -/
theorem C20_call_for_heat_mailbox (fuel : Nat) (env : Externals) (henv : HubExternals)
    (rx : rfm22_rx_t) (st : fht8v_hub_t) (pos trailer : Nat) (cmd : fht8v_msg_t)
    (heav : st.eavesdropping = true) (hirq : henv.PIN_RFM_NIRQ = true → rx.nIRQ = 0)
    (hst : rx.status &&& 0x1000 ≠ 0)
    (hscan : preambleScan henv { st with FHT8VRXHubArea := receivedFrame henv rx st } 6 0 =
      .body pos)
    (hdec : FHT8VDecodeBitStream fuel (receivedFrame henv rx st) pos
      (env.FHT8V_200US_BIT_STREAM_FRAME_BUF_SIZE - 1) = some (some (trailer, cmd)))
    (hop : cmd.command = 0x26) :
    ∃ st2, FHT8VCallForHeatPoll fuel env henv rx st = some (st2, true) ∧
      (cmd.extension ≥ env.getMinValvePcReallyOpen →
        henv.FHT8VHubAcceptedHouseCode cmd.hc1 cmd.hc2 = true →
        st2.lastCallForHeatHC = cmd.hc1 * 256 + cmd.hc2) ∧
      (cmd.extension < env.getMinValvePcReallyOpen ∨
          henv.FHT8VHubAcceptedHouseCode cmd.hc1 cmd.hc2 = false →
        st2.lastCallForHeatHC = st.lastCallForHeatHC) := by
  obtain ⟨st2, h1, h2⟩ := poll_decoded fuel env henv rx st pos trailer cmd heav hirq hst
    hscan hdec
  obtain ⟨v1, v2, _, _⟩ := decode_valid fuel _ _ _ _ _ hdec
  refine ⟨st2, h1, fun hx ha => ?_, fun hno => ?_⟩
  · rw [h2, if_pos ⟨hop.symm, hx⟩, if_pos ha, compoundHC_eq _ _ v2 v1]
  · rw [h2]
    rcases hno with hx | ha
    · rw [if_neg (fun h => absurd h.2 (Nat.not_le.mpr hx))]
    · split_ifs with c1 c2
      · rw [ha] at c2
        exact absurd c2 (by decide)
      · rfl
      · rfl

set_option maxRecDepth 100000 in
/-- C20 on the sample receiver: the valve-setting frame for house code 13/73 with
extension 127, the threshold being 10: the mailbox becomes `13 * 256 + 73`. -/
theorem C20_call_for_heat_mailbox_witness :
    FHT8VDecodeBitStream 2 (receivedFrame sampleHubExternals (sampleRX sampleValveFrame) sampleHub)
        6 ((sampleExternals false).FHT8V_200US_BIT_STREAM_FRAME_BUF_SIZE - 1) =
      some (some (41, ⟨13, 73, 0x26, 127⟩)) ∧
    ∃ st2, FHT8VCallForHeatPoll 2 (sampleExternals false) sampleHubExternals
        (sampleRX sampleValveFrame) sampleHub = some (st2, true) ∧
      st2.lastCallForHeatHC = 13 * 256 + 73 := by
  obtain ⟨st2, h1, h2, _⟩ := C20_call_for_heat_mailbox 2 (sampleExternals false)
    sampleHubExternals (sampleRX sampleValveFrame) sampleHub 6 41 ⟨13, 73, 0x26, 127⟩ rfl
    (by decide) (by decide) rfl (by decide) rfl
  exact ⟨by decide, st2, h1, h2 (by decide) rfl⟩

/-- C21: when the poll receives a frame (eavesdropping, nIRQ active where the pin is
used, frame flagged in the status) whose preamble passes the scan and whose body fails
FHT8VDecodeBitStream, it returns false, records the error code FHT8VRXErr_BAD_RX_FRAME,
which is 3, stays in eavesdropping mode and leaves the mailbox `lastCallForHeatHC` as it
was. -/
theorem C21_bad_frame_reported (fuel : Nat) (env : Externals) (henv : HubExternals)
    (rx : rfm22_rx_t) (st : fht8v_hub_t) (pos : Nat)
    (heav : st.eavesdropping = true) (hirq : henv.PIN_RFM_NIRQ = true → rx.nIRQ = 0)
    (hst : rx.status &&& 0x1000 ≠ 0)
    (hscan : preambleScan henv { st with FHT8VRXHubArea := receivedFrame henv rx st } 6 0 =
      .body pos)
    (hdec : FHT8VDecodeBitStream fuel (receivedFrame henv rx st) pos
      (env.FHT8V_200US_BIT_STREAM_FRAME_BUF_SIZE - 1) = some none) :
    ∃ st2, FHT8VCallForHeatPoll fuel env henv rx st = some (st2, false) ∧
      st2.lastRXerrno = FHT8VRXErr_BAD_RX_FRAME ∧ FHT8VRXErr_BAD_RX_FRAME = 3 ∧
      st2.eavesdropping = true ∧ st2.lastCallForHeatHC = st.lastCallForHeatHC := by
  rw [poll_decode_failed fuel env henv rx st pos heav hirq hst hscan hdec]
  exact ⟨_, rfl, rfl, rfl, heav, rfl⟩

set_option maxRecDepth 100000 in
/-- C21 on the sample receiver: the sample valve-setting frame with one bit pair of its
body changed. -/
theorem C21_bad_frame_reported_witness :
    FHT8VDecodeBitStream 2 (receivedFrame sampleHubExternals (sampleRX sampleBadFrame) sampleHub)
        6 ((sampleExternals false).FHT8V_200US_BIT_STREAM_FRAME_BUF_SIZE - 1) = some none ∧
    ∃ st2, FHT8VCallForHeatPoll 2 (sampleExternals false) sampleHubExternals
        (sampleRX sampleBadFrame) sampleHub = some (st2, false) ∧
      st2.lastRXerrno = 3 := by
  obtain ⟨st2, h1, h2, h3, _⟩ := C21_bad_frame_reported 2 (sampleExternals false)
    sampleHubExternals (sampleRX sampleBadFrame) sampleHub 6 rfl (by decide) (by decide) rfl
    (by decide)
  exact ⟨by decide, st2, h1, h2.trans h3⟩

/-- C22: FHT8VCallForHeatHeardGetAndClear returns the stored compound house code (0xffff
if that is what the mailbox holds) and leaves the mailbox at 0xffff and everything else
alone, so that a call right after it returns 0xffff and FHT8VCallForHeatHeard is then
false; FHT8VCallForHeatHeard, which only reads, is true exactly when the mailbox differs
from 0xffff. -/
theorem C22_mailbox_get_and_clear (st : fht8v_hub_t) :
    (FHT8VCallForHeatHeardGetAndClear st).2 = st.lastCallForHeatHC ∧
      (FHT8VCallForHeatHeardGetAndClear st).1 = { st with lastCallForHeatHC := 0xffff } ∧
      (FHT8VCallForHeatHeardGetAndClear (FHT8VCallForHeatHeardGetAndClear st).1).2 = 0xffff ∧
      FHT8VCallForHeatHeard (FHT8VCallForHeatHeardGetAndClear st).1 = false ∧
      (FHT8VCallForHeatHeard st = true ↔ st.lastCallForHeatHC ≠ 0xffff) := by
  refine ⟨rfl, rfl, rfl, by simp [FHT8VCallForHeatHeard, FHT8VCallForHeatHeardGetAndClear], ?_⟩
  simp [FHT8VCallForHeatHeard]

set_option maxRecDepth 100000 in
/-- C23 as written fails for the all-0xff command: it encodes to 43 bytes before the
terminator, not 45 (the address byte is sent as 0 and the checksum is 0x08). -/
theorem C23_all_ff_is_43_bytes :
    (FHT8VCreate200usBitStreamBptr (fun _ => 0) 0 ⟨0xff, 0xff, 0xff, 0xff⟩).2 = 43 ∧
      (FHT8VCreate200usBitStreamBptr (fun _ => 0) 0 ⟨0xff, 0xff, 0xff, 0xff⟩).1 43 = 0xff := by
  decide

set_option maxRecDepth 100000 in
/-- C23, amended: every command encodes to at least 35 and at most 45 bytes before the
terminator; the command with all fields zero encodes to exactly 35 bytes, which is the
minimum; 45 bytes, the maximum, are reached by hc1 = 0xf7, hc2 = 0xfe, command =
extension = 0xff; and the command with all fields 0xff encodes to exactly 43 bytes. -/
theorem C23_encoded_size_extremes (m : Mem) (bptr : Nat) (c : fht8v_msg_t) (hc : c.valid) :
    bptr + 35 ≤ (FHT8VCreate200usBitStreamBptr m bptr c).2 ∧
      (FHT8VCreate200usBitStreamBptr m bptr c).2 ≤ bptr + 45 ∧
      (FHT8VCreate200usBitStreamBptr m bptr ⟨0, 0, 0, 0⟩).2 = bptr + 35 ∧
      (FHT8VCreate200usBitStreamBptr m bptr ⟨0xf7, 0xfe, 0xff, 0xff⟩).2 = bptr + 45 ∧
      (FHT8VCreate200usBitStreamBptr m bptr ⟨0xff, 0xff, 0xff, 0xff⟩).2 = bptr + 43 := by
  have hb := frame_length_bounds c (frameChecksum c) hc (frameChecksum_lt c)
  have h0 := (frame_layout m bptr c (frameChecksum c) hc (frameChecksum_lt c)).1
  have h1 := (frame_layout m bptr ⟨0, 0, 0, 0⟩ (frameChecksum ⟨0, 0, 0, 0⟩) (by decide)
    (frameChecksum_lt _)).1
  have h2 := (frame_layout m bptr ⟨0xf7, 0xfe, 0xff, 0xff⟩
    (frameChecksum ⟨0xf7, 0xfe, 0xff, 0xff⟩) (by decide) (frameChecksum_lt _)).1
  have h3 := (frame_layout m bptr ⟨0xff, 0xff, 0xff, 0xff⟩
    (frameChecksum ⟨0xff, 0xff, 0xff, 0xff⟩) (by decide) (frameChecksum_lt _)).1
  rw [← createBitStream_eq] at h0 h1 h2 h3
  have e1 : (packPairs (encBits (List.replicate 12 false ++
      bodyBits ⟨0, 0, 0, 0⟩ (frameChecksum ⟨0, 0, 0, 0⟩) ++ [false, false]))).length = 35 := by
    decide
  have e2 : (packPairs (encBits (List.replicate 12 false ++
      bodyBits ⟨0xf7, 0xfe, 0xff, 0xff⟩ (frameChecksum ⟨0xf7, 0xfe, 0xff, 0xff⟩) ++
        [false, false]))).length = 45 := by
    decide
  have e3 : (packPairs (encBits (List.replicate 12 false ++
      bodyBits ⟨0xff, 0xff, 0xff, 0xff⟩ (frameChecksum ⟨0xff, 0xff, 0xff, 0xff⟩) ++
        [false, false]))).length = 43 := by
    decide
  rw [e1] at h1
  rw [e2] at h2
  rw [e3] at h3
  exact ⟨by omega, by omega, h1, h2, h3⟩

/-- C23, amended, for the sample valve-setting command written at address 0 of a zeroed
buffer. -/
theorem C23_encoded_size_extremes_witness :
    (⟨13, 73, 0x26, 127⟩ : fht8v_msg_t).valid ∧
    0 + 35 ≤ (FHT8VCreate200usBitStreamBptr (fun _ => 0) 0 ⟨13, 73, 0x26, 127⟩).2 :=
  ⟨by decide, (C23_encoded_size_extremes (fun _ => 0) 0 ⟨13, 73, 0x26, 127⟩ (by decide)).1⟩

/-- C24: append any sequence of logical bits with _FHT8VCreate200usAppendEncBit, starting
at a byte that holds 0xff.  The pointer has then moved on by the number of whole bytes of
the concatenated patterns (1100 per 0, 111000 per 1); the bytes completed are the whole
bytes of the MSB-first packing of those physical bits; and the byte under construction
holds the leftover bits on top, has its two low bits equal to the number of unfilled
pairs less one, and is 0xff when nothing is left over.  This is for every sequence, so for
every fill state in which a pattern crosses a byte boundary. -/
theorem C24_append_bits_refines_packing (bits : List Bool) (m : Mem) (bptr : Nat)
    (h : m bptr = 0xff) :
    (appendEncBits (m, bptr) bits).2 = bptr + (lineCode bits).length / 8 ∧
      memList (appendEncBits (m, bptr) bits).1 bptr ((lineCode bits).length / 8) =
        packMSB (lineCode bits) ∧
      (appendEncBits (m, bptr) bits).1 (appendEncBits (m, bptr) bits).2 < 256 ∧
      (byteBitsMSB ((appendEncBits (m, bptr) bits).1 (appendEncBits (m, bptr) bits).2)).take
          ((lineCode bits).drop (8 * ((lineCode bits).length / 8))).length =
        (lineCode bits).drop (8 * ((lineCode bits).length / 8)) ∧
      (appendEncBits (m, bptr) bits).1 (appendEncBits (m, bptr) bits).2 % 4 =
        3 - ((lineCode bits).drop (8 * ((lineCode bits).length / 8))).length / 2 ∧
      ((lineCode bits).drop (8 * ((lineCode bits).length / 8)) = [] →
        (appendEncBits (m, bptr) bits).1 (appendEncBits (m, bptr) bits).2 = 0xff) := by
  have h0 : EncInv bptr m bptr [] := ⟨rfl, rfl, h⟩
  obtain ⟨e1, e2, e3⟩ := encInv_bits bptr bits m bptr [] h0
  rw [List.nil_append] at e1 e2 e3
  have hlen : (lineCode bits).length / 8 = (packPairs (encBits bits)).length := by
    rw [packPairs_length, lineCode_length]
    omega
  have hleft : (lineCode bits).drop (8 * ((lineCode bits).length / 8)) =
      pairBits (leftPairs (encBits bits)) := by
    rw [pairBits_leftPairs, ← lineCode_eq]
  obtain ⟨p1, p2, p3, p4⟩ := partialByte_bits _ _
    (fun a ha => encBits_lt bits a (leftPairs_mem _ a ha)) e3
  rw [hleft, hlen, packMSB_lineCode]
  exact ⟨e1, e2, p1, p2, p3, p4⟩

/-- C24 for three ones and five zeros appended at address 0 of memory that holds 0xff: the
second and the third 1 and one of the zeros cross a byte boundary. -/
theorem C24_append_bits_refines_packing_witness :
    (fun _ => 0xff : Mem) 0 = 0xff ∧
    memList (appendEncBits (fun _ => 0xff, 0)
        [true, true, true, false, false, false, false, false]).1 0
        ((lineCode [true, true, true, false, false, false, false, false]).length / 8) =
      packMSB (lineCode [true, true, true, false, false, false, false, false]) :=
  ⟨rfl, (C24_append_bits_refines_packing [true, true, true, false, false, false, false, false]
    (fun _ => 0xff) 0 rfl).2.1⟩

/-- C25: for a decode state that has not failed (its mask one of the decoder's values),
with `q` the pair index of its cursor: readOneBit returns 1 without failing exactly when
the three pairs at `q` lie within the buffer and read 11, 10, 00, and the cursor is then
at `q + 3`; it returns 0 without failing exactly when the two pairs at `q` lie within the
buffer and read 11, 00, and the cursor is then at `q + 2`; in every other case it marks
the state failed and returns 0. -/
theorem C25_readOneBit_patterns (m : Mem) (st : decode_state_t) (hf : st.failed = false)
    (hm : MaskOK st.mask) :
    (((readOneBit m st).1 = 1 ∧ (readOneBit m st).2.failed = false) ↔
        (statePos st + 2 < 4 * (st.lastByte + 1) ∧ pairAt m (statePos st) = 3 ∧
          pairAt m (statePos st + 1) = 2 ∧ pairAt m (statePos st + 2) = 0)) ∧
      (((readOneBit m st).1 = 0 ∧ (readOneBit m st).2.failed = false) ↔
        (statePos st + 1 < 4 * (st.lastByte + 1) ∧ pairAt m (statePos st) = 3 ∧
          pairAt m (statePos st + 1) = 0)) ∧
      (¬ (statePos st + 2 < 4 * (st.lastByte + 1) ∧ pairAt m (statePos st) = 3 ∧
            pairAt m (statePos st + 1) = 2 ∧ pairAt m (statePos st + 2) = 0) →
        ¬ (statePos st + 1 < 4 * (st.lastByte + 1) ∧ pairAt m (statePos st) = 3 ∧
            pairAt m (statePos st + 1) = 0) →
        (readOneBit m st).1 = 0 ∧ (readOneBit m st).2.failed = true) ∧
      ((readOneBit m st).2.failed = false →
        statePos (readOneBit m st).2 = statePos st + 2 + (readOneBit m st).1 ∧
          MaskOK (readOneBit m st).2.mask ∧
          (readOneBit m st).2.lastByte = st.lastByte) := by
  obtain ⟨hl, h | h | h⟩ := readOneBit_cases m st hf hm
  · obtain ⟨a1, a2, a3, a4, a5, a6, a7⟩ := h
    refine ⟨⟨fun x => ?_, fun x => ?_⟩, ⟨fun _ => ⟨a1, a2, a3⟩, fun _ => ⟨a4, a5⟩⟩,
      fun _ y => absurd ⟨a1, a2, a3⟩ y, fun _ => ⟨by rw [a7, a4], a6, hl⟩⟩
    · rw [a4] at x; exact absurd x.1 (by decide)
    · rw [a3] at x; exact absurd x.2.2.1 (by decide)
  · obtain ⟨a1, a2, a3, a4, a5, a6, a7, a8⟩ := h
    refine ⟨⟨fun _ => ⟨a1, a2, a3, a4⟩, fun _ => ⟨a5, a6⟩⟩, ⟨fun x => ?_, fun x => ?_⟩,
      fun y _ => absurd ⟨a1, a2, a3, a4⟩ y, fun _ => ⟨by rw [a8, a5], a7, hl⟩⟩
    · rw [a5] at x; exact absurd x.1 (by decide)
    · rw [a3] at x; exact absurd x.2.2 (by decide)
  · obtain ⟨a1, a2, a3, a4⟩ := h
    refine ⟨⟨fun x => ?_, fun x => absurd x a4⟩, ⟨fun x => ?_, fun x => absurd x a3⟩,
      fun _ _ => ⟨a1, a2⟩, fun x => ?_⟩
    · rw [a2] at x; exact absurd x.2 (by decide)
    · rw [a2] at x; exact absurd x.2 (by decide)
    · rw [a2] at x; exact absurd x (by decide)

/-- C25 on the byte 0xe0 (pairs 11, 10, 00, 00): a 1 is read and the cursor moves three
pairs on. -/
theorem C25_readOneBit_patterns_witness :
    MaskOK (0 : Nat) ∧
    (((readOneBit (fun _ => 0xe0) ⟨0, 0, 0, false⟩).1 = 1 ∧
        (readOneBit (fun _ => 0xe0) ⟨0, 0, 0, false⟩).2.failed = false) ↔
      (statePos ⟨0, 0, 0, false⟩ + 2 < 4 * (0 + 1) ∧
        pairAt (fun _ => 0xe0) (statePos ⟨0, 0, 0, false⟩) = 3 ∧
        pairAt (fun _ => 0xe0) (statePos ⟨0, 0, 0, false⟩ + 1) = 2 ∧
        pairAt (fun _ => 0xe0) (statePos ⟨0, 0, 0, false⟩ + 2) = 0)) :=
  ⟨Or.inl rfl, (C25_readOneBit_patterns (fun _ => 0xe0) ⟨0, 0, 0, false⟩ rfl (Or.inl rfl)).1⟩

/-- C26 as written fails for the second pair 01: on the byte 0xd0 (pairs 11, 01, 00, 00)
readOneBit marks the state failed, although the third pair is 00. -/
theorem C26_second_pair_01_fails :
    pairAt (fun _ => 0xd0) 0 = 3 ∧ pairAt (fun _ => 0xd0) 1 = 1 ∧ pairAt (fun _ => 0xd0) 2 = 0 ∧
      readOneBit (fun _ => 0xd0) ⟨0, 0, 0, false⟩ = (0, ⟨0, 0, 0x30, true⟩) := by
  decide

/-- C26, amended: in readOneBit, after a leading pair 11 with two more pairs within the
buffer, a second pair reading 10 is taken as the second pair of a logical 1: the outcome
is decided by the third pair, a 1 being read if it is 00 and the state failing if not; a
second pair reading 01 marks the state failed whatever the third pair is. -/
theorem C26_second_pair_of_one (m : Mem) (st : decode_state_t) (hf : st.failed = false)
    (hm : MaskOK st.mask) (hroom : statePos st + 2 < 4 * (st.lastByte + 1))
    (h1 : pairAt m (statePos st) = 3) :
    (pairAt m (statePos st + 1) = 2 →
        ((readOneBit m st).2.failed = false ↔ pairAt m (statePos st + 2) = 0) ∧
        (pairAt m (statePos st + 2) = 0 → (readOneBit m st).1 = 1)) ∧
      (pairAt m (statePos st + 1) = 1 →
        (readOneBit m st).2.failed = true ∧ (readOneBit m st).1 = 0) := by
  obtain ⟨_, h | h | h⟩ := readOneBit_cases m st hf hm
  · obtain ⟨a1, a2, a3, a4, a5, a6, a7⟩ := h
    refine ⟨fun x => ?_, fun x => ?_⟩
    · rw [a3] at x; exact absurd x (by decide)
    · rw [a3] at x; exact absurd x (by decide)
  · obtain ⟨a1, a2, a3, a4, a5, a6, a7, a8⟩ := h
    refine ⟨fun _ => ⟨⟨fun _ => a4, fun _ => a6⟩, fun _ => a5⟩, fun x => ?_⟩
    rw [a3] at x; exact absurd x (by decide)
  · obtain ⟨a1, a2, a3, a4⟩ := h
    refine ⟨fun x => ⟨⟨fun y => ?_, fun y => absurd ⟨hroom, h1, x, y⟩ a4⟩,
      fun y => absurd ⟨hroom, h1, x, y⟩ a4⟩, fun _ => ⟨a2, a1⟩⟩
    rw [a2] at y; exact absurd y (by decide)

/-- C26, amended, on the byte 0xe0 (pairs 11, 10, 00, 00). -/
theorem C26_second_pair_of_one_witness :
    pairAt (fun _ => 0xe0) (statePos ⟨0, 0, 0, false⟩ + 1) = 2 ∧
    (readOneBit (fun _ => 0xe0) ⟨0, 0, 0, false⟩).1 = 1 :=
  ⟨by decide,
    ((C26_second_pair_of_one (fun _ => 0xe0) ⟨0, 0, 0, false⟩ rfl (Or.inl rfl) (by decide)
      (by decide)).1 (by decide)).2 (by decide)⟩

/-- C27: let the pairs from the cursor of a live decode state to the end of its buffer be
the line code of nine logical bits b7..b0, p, followed by anything.  Then
readOneByteWithParity returns the byte whose bits, MSB first, are b7..b0, and marks the
state failed if and only if p differs from the XOR of b7..b0.  Hence, if the nine bits are
those of a validly encoded byte (parity bit equal to the XOR of the eight) with any single
one of them changed, the read fails. -/
theorem C27_read_byte_with_parity (m : Mem) (st : decode_state_t) (X : List Nat)
    (bits : List Bool) (hlen : bits.length = 9) (hf : st.failed = false)
    (hm : MaskOK st.mask)
    (hp : pairsFrom m (statePos st) (4 * (st.lastByte + 1) - statePos st) =
      encBits bits ++ X) :
    (readOneByteWithParity m st).1 < 256 ∧
      byteBitsMSB (readOneByteWithParity m st).1 = bits.take 8 ∧
      ((readOneByteWithParity m st).2.failed = true ↔
        bits.getD 8 false ≠ (bits.take 8).foldl xor false) ∧
      ∀ (good : List Bool) (i : Nat), good.length = 9 → i < 9 →
        good.getD 8 false = (good.take 8).foldl xor false →
        bits = good.set i (!(good.getD i false)) →
        (readOneByteWithParity m st).2.failed = true := by
  obtain ⟨c7, c6, c5, c4, c3, c2, c1, c0, pb, rfl⟩ := list_nine bits hlen
  obtain ⟨h1, h2, h3⟩ := readByte_nine m st X c7 c6 c5 c4 c3 c2 c1 c0 pb hf hm hp
  refine ⟨h1, h2, h3, fun good i hg hi hpar hbits => ?_⟩
  obtain ⟨g7, g6, g5, g4, g3, g2, g1, g0, gp, rfl⟩ := list_nine good hg
  have hflip := nine_bits_flip g7 g6 g5 g4 g3 g2 g1 g0 gp i hi hpar
  rw [← hbits] at hflip
  exact h3.mpr hflip

set_option maxRecDepth 100000 in
/-- C27 on the line code of the byte 0xa5, its parity bit 0 and one more 0, read from the
start of a six-byte buffer. -/
theorem C27_read_byte_with_parity_witness :
    pairsFrom (fun i => [0xe3, 0x38, 0xcc, 0xe3, 0x38, 0xcc].getD i 0) (statePos ⟨0, 5, 0, false⟩)
        (4 * (5 + 1) - statePos ⟨0, 5, 0, false⟩) =
      encBits [true, false, true, false, false, true, false, true, false] ++ [3, 0] ∧
    byteBitsMSB (readOneByteWithParity (fun i => [0xe3, 0x38, 0xcc, 0xe3, 0x38, 0xcc].getD i 0)
        ⟨0, 5, 0, false⟩).1 = [true, false, true, false, false, true, false, true] :=
  ⟨by decide,
    (C27_read_byte_with_parity (fun i => [0xe3, 0x38, 0xcc, 0xe3, 0x38, 0xcc].getD i 0)
      ⟨0, 5, 0, false⟩ [3, 0] [true, false, true, false, false, true, false, true, false]
      rfl rfl (Or.inl rfl) (by decide)).2.1⟩

/-- C28: on a decode state whose failed flag is set, readOneBit and readOneByteWithParity
return 0 and leave the whole state as it is: the flag stays set and the cursor and the
mask are unchanged.  So neither operation ever clears the flag. -/
theorem C28_failure_is_sticky (m : Mem) (st : decode_state_t) (h : st.failed = true) :
    readOneBit m st = (0, st) ∧ readOneByteWithParity m st = (0, st) ∧
      (readOneBit m st).2.failed = true ∧ (readOneByteWithParity m st).2.failed = true := by
  have h1 := readOneBit_failed m st h
  have h2 : readOneByteWithParity m st = (0, st) := by
    unfold readOneByteWithParity
    rw [if_pos h]
  refine ⟨h1, h2, ?_, ?_⟩
  · rw [h1]; exact h
  · rw [h2]; exact h

/-- C28 on a failed state in the middle of a byte. -/
theorem C28_failure_is_sticky_witness :
    readOneBit (fun _ => 0xe0) ⟨5, 9, 0x30, true⟩ = (0, ⟨5, 9, 0x30, true⟩) :=
  (C28_failure_is_sticky (fun _ => 0xe0) ⟨5, 9, 0x30, true⟩ rfl).1

/-- C29: for every valid command, decoding the encoder's output with declared last byte
`L` returns the command and the end address when `L` is at least the byte that holds the
final bit pair of the encoded trailing 0, and returns NULL for every smaller `L`; so it
succeeds exactly for those `L`, and the result is the same for any memory that agrees
with the encoder's output from the start to byte `L`: nothing beyond `L` is read. -/
theorem C29_decode_needs_trailing_zero (m : Mem) (bptr : Nat) (c : fht8v_msg_t)
    (fuel L : Nat) (hc : c.valid) (hfuel : 13 ≤ fuel) :
    (trailingZeroByte bptr c ≤ L →
      FHT8VDecodeBitStream fuel (FHT8VCreate200usBitStreamBptr m bptr c).1 bptr L =
        some (some ((FHT8VCreate200usBitStreamBptr m bptr c).2, c))) ∧
    (L < trailingZeroByte bptr c →
      FHT8VDecodeBitStream fuel (FHT8VCreate200usBitStreamBptr m bptr c).1 bptr L =
        some none) ∧
    ((∃ r, FHT8VDecodeBitStream fuel (FHT8VCreate200usBitStreamBptr m bptr c).1 bptr L =
        some (some r)) ↔ trailingZeroByte bptr c ≤ L) ∧
    (∀ m2 : Mem, (∀ i, bptr ≤ i → i ≤ L →
        m2 i = (FHT8VCreate200usBitStreamBptr m bptr c).1 i) →
      FHT8VDecodeBitStream fuel m2 bptr L =
        FHT8VDecodeBitStream fuel (FHT8VCreate200usBitStreamBptr m bptr c).1 bptr L) := by
  have hk := frameChecksum_lt c
  have hle := trailingZeroByte_le bptr c L
  have h1 : trailingZeroByte bptr c ≤ L →
      FHT8VDecodeBitStream fuel (FHT8VCreate200usBitStreamBptr m bptr c).1 bptr L =
        some (some ((FHT8VCreate200usBitStreamBptr m bptr c).2, c)) := by
    intro h
    have hd := decode_frame_at m bptr c (frameChecksum c) fuel 0 L hc hk hfuel (by omega)
      (hle.mp h)
    rw [createBitStream_eq]
    simpa using hd
  have h2 : L < trailingZeroByte bptr c →
      FHT8VDecodeBitStream fuel (FHT8VCreate200usBitStreamBptr m bptr c).1 bptr L =
        some none := by
    intro h
    rw [createBitStream_eq]
    exact decode_truncated m bptr c (frameChecksum c) fuel L hc hk hfuel (by omega)
  refine ⟨h1, h2, ⟨?_, fun h => ⟨_, h1 h⟩⟩, ?_⟩
  · rintro ⟨r, hr⟩
    by_contra hn
    rw [h2 (by omega)] at hr
    cases hr
  · intro m2 hm2
    exact decode_congr fuel m2 _ bptr L hm2

theorem C29_decode_needs_trailing_zero_witness :
    (⟨13, 73, 0x26, 127⟩ : fht8v_msg_t).valid ∧ 13 ≤ 13 ∧
    ((trailingZeroByte 0 ⟨13, 73, 0x26, 127⟩ ≤ 37 →
      FHT8VDecodeBitStream 13 (FHT8VCreate200usBitStreamBptr (fun _ => 0) 0
          ⟨13, 73, 0x26, 127⟩).1 0 37 =
        some (some ((FHT8VCreate200usBitStreamBptr (fun _ => 0) 0 ⟨13, 73, 0x26, 127⟩).2,
          ⟨13, 73, 0x26, 127⟩))) ∧
    (37 < trailingZeroByte 0 ⟨13, 73, 0x26, 127⟩ →
      FHT8VDecodeBitStream 13 (FHT8VCreate200usBitStreamBptr (fun _ => 0) 0
          ⟨13, 73, 0x26, 127⟩).1 0 37 = some none) ∧
    ((∃ r, FHT8VDecodeBitStream 13 (FHT8VCreate200usBitStreamBptr (fun _ => 0) 0
          ⟨13, 73, 0x26, 127⟩).1 0 37 = some (some r)) ↔
        trailingZeroByte 0 ⟨13, 73, 0x26, 127⟩ ≤ 37) ∧
    (∀ m2 : Mem, (∀ i, 0 ≤ i → i ≤ 37 →
        m2 i = (FHT8VCreate200usBitStreamBptr (fun _ => 0) 0 ⟨13, 73, 0x26, 127⟩).1 i) →
      FHT8VDecodeBitStream 13 m2 0 37 =
        FHT8VDecodeBitStream 13 (FHT8VCreate200usBitStreamBptr (fun _ => 0) 0
          ⟨13, 73, 0x26, 127⟩).1 0 37)) :=
  ⟨by decide, by decide,
    C29_decode_needs_trailing_zero (fun _ => 0) 0 ⟨13, 73, 0x26, 127⟩ 13 37 (by decide)
      (by decide)⟩

/-- C30: for every valid command and every `k` from 0 to 6, decoding the encoder's output
from byte offset `k`, with any declared last byte that covers the encoded trailing 0,
returns the same command and the same end address as decoding from offset 0: the command
encoded and the address at which the encoder stopped. -/
theorem C30_decode_any_preamble_left (m : Mem) (bptr : Nat) (c : fht8v_msg_t)
    (fuel L k : Nat) (hc : c.valid) (hfuel : 13 ≤ fuel) (hk : k ≤ 6)
    (hL : trailingZeroByte bptr c ≤ L) :
    FHT8VDecodeBitStream fuel (FHT8VCreate200usBitStreamBptr m bptr c).1 (bptr + k) L =
        FHT8VDecodeBitStream fuel (FHT8VCreate200usBitStreamBptr m bptr c).1 bptr L ∧
      FHT8VDecodeBitStream fuel (FHT8VCreate200usBitStreamBptr m bptr c).1 (bptr + k) L =
        some (some ((FHT8VCreate200usBitStreamBptr m bptr c).2, c)) := by
  have hck := frameChecksum_lt c
  have hle := (trailingZeroByte_le bptr c L).mp hL
  have h0 := decode_frame_at m bptr c (frameChecksum c) fuel 0 L hc hck hfuel (by omega) hle
  have h1 := decode_frame_at m bptr c (frameChecksum c) fuel k L hc hck hfuel hk hle
  rw [createBitStream_eq]
  rw [Nat.add_zero] at h0
  rw [h1, h0]
  simp

set_option maxRecDepth 100000 in
theorem C30_decode_any_preamble_left_witness :
    (⟨13, 73, 0x26, 127⟩ : fht8v_msg_t).valid ∧ 13 ≤ 13 ∧ 4 ≤ 6 ∧
    trailingZeroByte 0 ⟨13, 73, 0x26, 127⟩ ≤ 44 ∧
    FHT8VDecodeBitStream 13 (FHT8VCreate200usBitStreamBptr (fun _ => 0) 0
        ⟨13, 73, 0x26, 127⟩).1 (0 + 4) 44 =
      FHT8VDecodeBitStream 13 (FHT8VCreate200usBitStreamBptr (fun _ => 0) 0
        ⟨13, 73, 0x26, 127⟩).1 0 44 ∧
    FHT8VDecodeBitStream 13 (FHT8VCreate200usBitStreamBptr (fun _ => 0) 0
        ⟨13, 73, 0x26, 127⟩).1 (0 + 4) 44 =
      some (some ((FHT8VCreate200usBitStreamBptr (fun _ => 0) 0 ⟨13, 73, 0x26, 127⟩).2,
        ⟨13, 73, 0x26, 127⟩)) :=
  ⟨by decide, by decide, by decide, by decide,
    C30_decode_any_preamble_left (fun _ => 0) 0 ⟨13, 73, 0x26, 127⟩ 13 44 4 (by decide)
      (by decide) (by decide) (by decide)⟩

/-- C31: when the unit is not in sync and the house code is unconfigured (hc1 > 99 or
hc2 > 99), FHT8VPollSyncAndTX_First and FHT8VPollSyncAndTX_Next return false, leave the
synced flag false, transmit nothing, and leave the sync counter, the half-second countdown,
the valve belief and the transmit buffer as they were. -/
theorem C31_unconfigured_unsynced_idle (two : Bool) (env : Externals) (a : Bool)
    (s : fht8v_sync_t) (hhc : 99 < env.FHT8VGetHC1 ∨ 99 < env.FHT8VGetHC2)
    (hsy : s.syncedWithFHT8V = false) :
    FHT8VPollSyncAndTX_First two env a s = ({ s with halfSecondCount := 0 }, false) ∧
    FHT8VPollSyncAndTX_Next two env a s =
      ({ s with halfSecondCount := toUInt8 ((s.halfSecondCount : Int) + 1) }, false) ∧
    ∀ p : Bool × Bool,
      (pollStep two env s p).2 = false ∧
      (pollStep two env s p).1.syncedWithFHT8V = false ∧
      (pollStep two env s p).1.radio = s.radio ∧
      (pollStep two env s p).1.syncStateFHT8V = s.syncStateFHT8V ∧
      (pollStep two env s p).1.halfSecondsToNextFHT8VTX = s.halfSecondsToNextFHT8VTX ∧
      (pollStep two env s p).1.FHT8V_isValveOpen = s.FHT8V_isValveOpen ∧
      (pollStep two env s p).1.FHT8VTXCommandArea = s.FHT8VTXCommandArea := by
  have hen : localFHT8VTRVEnabled env = false := by
    simp only [localFHT8VTRVEnabled, Bool.and_eq_false_imp, decide_eq_true_eq,
      decide_eq_false_iff_not]
    omega
  obtain ⟨sy, bel, st, cd, hsc, buf, rad⟩ := s
  simp only at hsy
  subst hsy
  refine ⟨?_, ?_, fun p => ?_⟩
  · simp [FHT8VPollSyncAndTX_First, doSync_disabled two env true _ hen]
  · simp [FHT8VPollSyncAndTX_Next, doSync_disabled two env true _ hen]
  · rw [pollStep_unsynced two env _ p rfl, doSync_disabled two env true _ hen]
    simp

theorem C31_unconfigured_unsynced_idle_witness :
    (99 < sampleUnconfigured.FHT8VGetHC1 ∨ 99 < sampleUnconfigured.FHT8VGetHC2) ∧
    (resetState (fun _ => 0)).syncedWithFHT8V = false ∧
    (FHT8VPollSyncAndTX_First true sampleUnconfigured false (resetState (fun _ => 0))).2 =
      false :=
  ⟨by decide, rfl,
    congrArg Prod.snd (C31_unconfigured_unsynced_idle true sampleUnconfigured false
      (resetState (fun _ => 0)) (by decide) rfl).1⟩

/-- C32: with a configured house code, take a poll (_First or _Next) made while the unit is
not in sync, the sync counter is 1 (final pending) and the countdown is 1, so that this
poll brings it to zero.  The poll transmits, twice, the encoding of opcode 0x20 with
extension 0 for the stored house code, returns false and sets the synced flag; the valve
belief is false, so getFHT8V_isValveOpen is false whatever the percent open; and the
transmit buffer then holds the frame that FHT8VCreateValveSetCmdFrame builds for the
current percent open, which carries opcode 0x26 and the scaled percent open and, for a
well-behaved stats codec, has the same bytes whatever the buffer held before. -/
theorem C32_sync_final_step (two : Bool) (env : Externals) (s : fht8v_sync_t)
    (p : Bool × Bool) (hhc : env.FHT8VGetHC1 ≤ 99 ∧ env.FHT8VGetHC2 ≤ 99)
    (hsy : s.syncedWithFHT8V = false) (hst : s.syncStateFHT8V = 1)
    (hcd : s.halfSecondsToNextFHT8VTX = 1) :
    (pollStep two env s p).2 = false ∧
    (pollStep two env s p).1.radio = s.radio ++
      [⟨(FHT8VCreate200usBitStreamBptr s.FHT8VTXCommandArea 0
        ⟨env.FHT8VGetHC1, env.FHT8VGetHC2, 0x20, 0⟩).1, true⟩] ∧
    (pollStep two env s p).1.syncedWithFHT8V = true ∧
    (pollStep two env s p).1.FHT8V_isValveOpen = false ∧
    getFHT8V_isValveOpen (pollStep two env s p).1 = false ∧
    (pollStep two env s p).1.FHT8VTXCommandArea =
      (FHT8VCreateValveSetCmdFrame_r env
        (FHT8VCreate200usBitStreamBptr s.FHT8VTXCommandArea 0
          ⟨env.FHT8VGetHC1, env.FHT8VGetHC2, 0x20, 0⟩).1 0
        ⟨env.FHT8VGetHC1, env.FHT8VGetHC2, 0, 0⟩ env.NominalRadValve_get).mem ∧
    (FHT8VCreateValveSetCmdFrame_r env
        (FHT8VCreate200usBitStreamBptr s.FHT8VTXCommandArea 0
          ⟨env.FHT8VGetHC1, env.FHT8VGetHC2, 0x20, 0⟩).1 0
        ⟨env.FHT8VGetHC1, env.FHT8VGetHC2, 0, 0⟩ env.NominalRadValve_get).command =
      ⟨env.FHT8VGetHC1, env.FHT8VGetHC2, 0x26, env.NominalRadValve_get * 255 / 100 % 256⟩ ∧
    (StatsCodecOK env → ∀ (b : Mem) (i : Nat), i ≤ txFrameEnd env b →
      (pollStep two env s p).1.FHT8VTXCommandArea i = FHT8VCreateValveSetCmdFrame env b i) := by
  have hen : localFHT8VTRVEnabled env = true := by
    simp [localFHT8VTRVEnabled, hhc.1, hhc.2]
  rw [pollStep_unsynced two env s p hsy]
  generalize hs2 : ({ s with halfSecondCount :=
    if p.1 then 0 else toUInt8 ((s.halfSecondCount : Int) + 1) } : fht8v_sync_t) = s2
  have b2 : s2.syncStateFHT8V = 1 := by rw [← hs2]; exact hst
  have b3 : s2.halfSecondsToNextFHT8VTX = 1 := by rw [← hs2]; exact hcd
  have b4 : s2.radio = s.radio := by rw [← hs2]
  have b5 : s2.FHT8VTXCommandArea = s.FHT8VTXCommandArea := by rw [← hs2]
  rw [doSync_final two env true s2 hen b2 b3]
  simp only [b4, b5, getFHT8V_isValveOpen, Bool.and_false, true_and]
  have e : FHT8VCreateValveSetCmdFrame env
      (FHT8VCreate200usBitStreamBptr s.FHT8VTXCommandArea 0
        ⟨env.FHT8VGetHC1, env.FHT8VGetHC2, 0x20, 0⟩).1 =
      (FHT8VCreateValveSetCmdFrame_r env
        (FHT8VCreate200usBitStreamBptr s.FHT8VTXCommandArea 0
          ⟨env.FHT8VGetHC1, env.FHT8VGetHC2, 0x20, 0⟩).1 0
        ⟨env.FHT8VGetHC1, env.FHT8VGetHC2, 0, 0⟩ env.NominalRadValve_get).mem := by
    simp [FHT8VCreateValveSetCmdFrame, hen]
  refine ⟨e, ?_, fun hcodec b i hi => ?_⟩
  · simp only [FHT8VCreateValveSetCmdFrame_r]
    exact frameHT_command _ _ _ _ _ _ _
  · have h := txFrame_independent env hcodec b
      (FHT8VCreate200usBitStreamBptr s.FHT8VTXCommandArea 0
        ⟨env.FHT8VGetHC1, env.FHT8VGetHC2, 0x20, 0⟩).1
    exact (h.2 i hi).symm

theorem C32_sync_final_step_witness :
    ((sampleExternals false).FHT8VGetHC1 ≤ 99 ∧ (sampleExternals false).FHT8VGetHC2 ≤ 99) ∧
    getFHT8V_isValveOpen (pollStep true (sampleExternals false)
      ⟨false, true, 1, 1, 0, fun _ => 0, []⟩ (true, false)).1 = false :=
  ⟨by decide,
    (C32_sync_final_step true (sampleExternals false) ⟨false, true, 1, 1, 0, fun _ => 0, []⟩
      (true, false) (by decide) rfl rfl rfl).2.2.2.2.1⟩

/-- C33: for every hc2, in [0,255] or beyond, and every halfSecondCount `h` up to MAX_HSC (1 or 3),
no value stored into the 8-bit countdown wraps.  The `int` values `(hc2 & 7) + 230`,
`MAX_HSC - h`, the gap less that difference, `(hc2 & 7) + 8` and the final-sync delay are
all within 0..255, so the conversions to `uint8_t` leave them as they are:
FHT8VTXGapHalfSeconds(hc2) is `(hc2 & 7) + 230` in [230,237], FHT8VTXGapHalfSeconds(hc2, h)
is that less `MAX_HSC - h`, in [230 - MAX_HSC, 237], and the final-sync delay that doSync
stores at the last sync tick is `(hc2 & 7) + 8 - (MAX_HSC - h)`, in [8 - MAX_HSC, 15]. -/
theorem C33_countdown_values_do_not_wrap (two : Bool) (hc2 h : Nat) (hh : h ≤ MAX_HSC two) :
    (0 ≤ ((hc2 &&& 7 : Nat) : Int) + 230 ∧ ((hc2 &&& 7 : Nat) : Int) + 230 ≤ 255 ∧
      FHT8VTXGapHalfSeconds hc2 = (hc2 &&& 7) + 230 ∧
      230 ≤ FHT8VTXGapHalfSeconds hc2 ∧ FHT8VTXGapHalfSeconds hc2 ≤ 237) ∧
    (0 ≤ (MAX_HSC two : Int) - (h : Int) ∧
      0 ≤ (FHT8VTXGapHalfSeconds hc2 : Int) - ((MAX_HSC two : Int) - (h : Int)) ∧
      (FHT8VTXGapHalfSeconds hc2 : Int) - ((MAX_HSC two : Int) - (h : Int)) ≤ 255 ∧
      FHT8VTXGapHalfSeconds_inCycle two hc2 h = (hc2 &&& 7) + 230 - (MAX_HSC two - h) ∧
      230 - MAX_HSC two ≤ FHT8VTXGapHalfSeconds_inCycle two hc2 h ∧
      FHT8VTXGapHalfSeconds_inCycle two hc2 h ≤ 237) ∧
    (0 ≤ ((hc2 &&& 7 : Nat) : Int) + 8 ∧ ((hc2 &&& 7 : Nat) : Int) + 8 ≤ 255 ∧
      0 ≤ ((hc2 &&& 7 : Nat) : Int) + 8 - ((MAX_HSC two : Int) - (h : Int)) ∧
      ((hc2 &&& 7 : Nat) : Int) + 8 - ((MAX_HSC two : Int) - (h : Int)) ≤ 255 ∧
      8 - MAX_HSC two ≤ (hc2 &&& 7) + 8 - (MAX_HSC two - h) ∧
      (hc2 &&& 7) + 8 - (MAX_HSC two - h) ≤ 15 ∧
      ∀ (env : Externals) (a : Bool) (s : fht8v_sync_t), env.FHT8VGetHC2 = hc2 →
        localFHT8VTRVEnabled env = true → s.syncStateFHT8V = 2 → s.halfSecondCount = h →
        (doSync two env a s).1.halfSecondsToNextFHT8VTX =
          (hc2 &&& 7) + 8 - (MAX_HSC two - h)) := by
  have hM := maxHSC_cases two
  have h7 := land_seven hc2
  have hg := gap_value hc2
  have hgc := gap_inCycle_value two hc2 h hh
  have hm8 : hc2 % 8 < 8 := Nat.mod_lt _ (by norm_num)
  refine ⟨⟨?_, ?_, ?_, ?_, ?_⟩, ⟨?_, ?_, ?_, ?_, ?_, ?_⟩, ?_, ?_, ?_, ?_, ?_, ?_, ?_⟩ <;>
    try omega
  intro env a s he hen hs hc
  rw [doSync_last_tick two env a s hen hs]
  simp only
  rw [he, hc, last_tick_countdown two hc2 h hh, h7]

theorem C33_countdown_values_do_not_wrap_witness :
    0 ≤ MAX_HSC true ∧
    FHT8VTXGapHalfSeconds_inCycle true 7 0 = (7 &&& 7) + 230 - (MAX_HSC true - 0) :=
  ⟨by decide, (C33_countdown_values_do_not_wrap true 7 0 (by decide)).2.1.2.2.2.1⟩

set_option maxRecDepth 100000 in
/-- C34 as written fails when the first byte other than 0xcc is the JSON leading
character at index 3: the scan ends with a return, the poll records
FHT8VRXErr_BAD_RX_STATSFRAME (5) for the failed JSON check, and FHT8VDecodeBitStream, which
from index 3 would return NULL and have FHT8VRXErr_BAD_RX_FRAME (3) recorded, is not
run. -/
theorem C34_json_byte_not_decoded :
    (∀ i, i < 3 →
      receivedFrame sampleHubExternals (sampleRX [0xcc, 0xcc, 0xcc, 0x7b, 0x7d]) sampleHub i =
        0xcc) ∧
    receivedFrame sampleHubExternals (sampleRX [0xcc, 0xcc, 0xcc, 0x7b, 0x7d]) sampleHub 3 =
      sampleHubExternals.MSG_JSON_LEADING_CHAR ∧
    FHT8VDecodeBitStream 2
      (receivedFrame sampleHubExternals (sampleRX [0xcc, 0xcc, 0xcc, 0x7b, 0x7d]) sampleHub) 3
      ((sampleExternals false).FHT8V_200US_BIT_STREAM_FRAME_BUF_SIZE - 1) = some none ∧
    ∃ st2, FHT8VCallForHeatPoll 2 (sampleExternals false) sampleHubExternals
        (sampleRX [0xcc, 0xcc, 0xcc, 0x7b, 0x7d]) sampleHub = some (st2, false) ∧
      st2.lastRXerrno = 5 := by
  refine ⟨by decide, by decide, by decide, ?_⟩
  have hscan : preambleScan sampleHubExternals
      { sampleHub with FHT8VRXHubArea := (receivedFrame sampleHubExternals
          (sampleRX [0xcc, 0xcc, 0xcc, 0x7b, 0x7d]) sampleHub) } 6 0 =
      .returned (setLastRXErr
        { sampleHub with FHT8VRXHubArea := (receivedFrame sampleHubExternals
            (sampleRX [0xcc, 0xcc, 0xcc, 0x7b, 0x7d]) sampleHub) }
        FHT8VRXErr_BAD_RX_STATSFRAME, false) := by
    rfl
  exact ⟨_, poll_scan_returned 2 (sampleExternals false) sampleHubExternals
    (sampleRX [0xcc, 0xcc, 0xcc, 0x7b, 0x7d]) sampleHub _ rfl (by decide) (by decide) hscan,
    rfl⟩

/-- C34, amended: let FHT8VCallForHeatPoll receive a frame (eavesdropping, nIRQ active
where the pin is used, frame flagged in the status), and let `pos` be the index of the
first byte other than 0xcc among the first six bytes of the buffer (6 if all six are
0xcc).  If that byte is neither the JSON leading character nor a full-stats header byte,
or there is none: for `pos` 0 or 1 the poll returns false and records
FHT8VRXErr_BAD_PREAMBLE, which is 2, the mailbox `lastCallForHeatHC` staying as it was;
for `pos` 2 to 6 the scan hands `pos` to FHT8VDecodeBitStream as its start, with the last
byte of the buffer, and the poll ends as that decode does: false with
FHT8VRXErr_BAD_RX_FRAME if it returns NULL, true if it decodes a command.  If that byte is
the JSON leading character, at any index, the poll returns what the JSON check gives
(true, or false with FHT8VRXErr_BAD_RX_STATSFRAME); if it is a full-stats header byte, at
any index, the poll returns whether the stats decoder succeeds.  In both of these cases
the mailbox is unchanged and FHT8VDecodeBitStream is not run: the result is there for
every bound `f` on its passes, the bound 0 included. -/
theorem C34_preamble_scan (fuel : Nat) (env : Externals) (henv : HubExternals)
    (rx : rfm22_rx_t) (st : fht8v_hub_t) (pos : Nat)
    (heav : st.eavesdropping = true) (hirq : henv.PIN_RFM_NIRQ = true → rx.nIRQ = 0)
    (hst : rx.status &&& 0x1000 ≠ 0) (hpos : pos ≤ 6)
    (hcc : ∀ i, i < pos → receivedFrame henv rx st i = 0xcc)
    (hne : pos < 6 → receivedFrame henv rx st pos ≠ 0xcc) :
    ((pos < 6 → receivedFrame henv rx st pos ≠ henv.MSG_JSON_LEADING_CHAR ∧
        (receivedFrame henv rx st pos &&& henv.MESSAGING_FULL_STATS_FLAGS_HEADER_MASK) ≠
          henv.MESSAGING_FULL_STATS_FLAGS_HEADER_MSBS) →
      (pos < 2 →
        FHT8VCallForHeatPoll fuel env henv rx st =
          some ({ st with FHT8VRXHubArea := receivedFrame henv rx st,
                          lastRXerrno := FHT8VRXErr_BAD_PREAMBLE }, false) ∧
        FHT8VRXErr_BAD_PREAMBLE = 2) ∧
      (2 ≤ pos →
        preambleScan henv { st with FHT8VRXHubArea := receivedFrame henv rx st } 6 0 =
          .body pos ∧
        (FHT8VDecodeBitStream fuel (receivedFrame henv rx st) pos
            (env.FHT8V_200US_BIT_STREAM_FRAME_BUF_SIZE - 1) = none →
          FHT8VCallForHeatPoll fuel env henv rx st = none) ∧
        (FHT8VDecodeBitStream fuel (receivedFrame henv rx st) pos
            (env.FHT8V_200US_BIT_STREAM_FRAME_BUF_SIZE - 1) = some none →
          FHT8VCallForHeatPoll fuel env henv rx st =
            some ({ st with FHT8VRXHubArea := receivedFrame henv rx st,
                            lastRXerrno := FHT8VRXErr_BAD_RX_FRAME }, false)) ∧
        (∀ trailer cmd, FHT8VDecodeBitStream fuel (receivedFrame henv rx st) pos
            (env.FHT8V_200US_BIT_STREAM_FRAME_BUF_SIZE - 1) = some (some (trailer, cmd)) →
          ∃ st2, FHT8VCallForHeatPoll fuel env henv rx st = some (st2, true) ∧
            st2.lastCallForHeatHC =
              (if 0x26 = cmd.command ∧ cmd.extension ≥ env.getMinValvePcReallyOpen then
                if henv.FHT8VHubAcceptedHouseCode cmd.hc1 cmd.hc2 then
                  ((cmd.hc1 <<< 8) ||| cmd.hc2) % 65536
                else st.lastCallForHeatHC
              else st.lastCallForHeatHC)))) ∧
    (pos < 6 → receivedFrame henv rx st pos = henv.MSG_JSON_LEADING_CHAR →
      ∀ f, FHT8VCallForHeatPoll f env henv rx st =
        some (if (henv.adjustJSONMsgForRXAndCheckCRC (receivedFrame henv rx st) pos
            (henv.FHT8V_MAX_FRAME_SIZE - pos)).2 > 0 then
          ({ st with FHT8VRXHubArea :=
            (henv.adjustJSONMsgForRXAndCheckCRC (receivedFrame henv rx st) pos
              (henv.FHT8V_MAX_FRAME_SIZE - pos)).1 }, true)
        else
          ({ st with
            FHT8VRXHubArea := (henv.adjustJSONMsgForRXAndCheckCRC (receivedFrame henv rx st)
              pos (henv.FHT8V_MAX_FRAME_SIZE - pos)).1,
            lastRXerrno := FHT8VRXErr_BAD_RX_STATSFRAME }, false))) ∧
    (pos < 6 → receivedFrame henv rx st pos ≠ henv.MSG_JSON_LEADING_CHAR →
      (receivedFrame henv rx st pos &&& henv.MESSAGING_FULL_STATS_FLAGS_HEADER_MASK) =
        henv.MESSAGING_FULL_STATS_FLAGS_HEADER_MSBS →
      ∀ f, FHT8VCallForHeatPoll f env henv rx st =
        some ({ st with FHT8VRXHubArea := receivedFrame henv rx st },
          (henv.decodeFullStatsMessageCore (receivedFrame henv rx st) 0
            (henv.FHT8V_MAX_FRAME_SIZE - pos) henv.stTXalwaysAll false).isSome)) := by
  refine ⟨fun hb => ?_, fun h6 hj f => ?_, fun h6 hj hs f => ?_⟩
  · have hscan := preambleScan_first henv
      { st with FHT8VRXHubArea := receivedFrame henv rx st } pos hpos hcc
      (fun h6 => ⟨hne h6, (hb h6).1, (hb h6).2⟩)
    refine ⟨fun h2 => ⟨?_, rfl⟩, fun h2 => ?_⟩
    · rw [if_pos h2] at hscan
      exact poll_scan_returned fuel env henv rx st _ heav hirq hst hscan
    · rw [if_neg (by omega)] at hscan
      exact ⟨hscan, poll_decode_none fuel env henv rx st pos heav hirq hst hscan,
        poll_decode_failed fuel env henv rx st pos heav hirq hst hscan,
        fun trailer cmd hd => poll_decoded fuel env henv rx st pos trailer cmd heav hirq hst
          hscan hd⟩
  · have hscan := preambleScan_json henv
      { st with FHT8VRXHubArea := receivedFrame henv rx st } pos h6 hcc (hne h6) hj
    simp only at hscan
    split_ifs at hscan ⊢ with hr
    · exact poll_scan_returned f env henv rx st _ heav hirq hst hscan
    · exact poll_scan_returned f env henv rx st _ heav hirq hst hscan
  · have hscan := preambleScan_stats henv
      { st with FHT8VRXHubArea := receivedFrame henv rx st } pos h6 hcc (hne h6) hj hs
    exact poll_scan_returned f env henv rx st _ heav hirq hst hscan

set_option maxRecDepth 100000 in
/-- C34, amended, on a buffer whose second byte is 0x12. -/
theorem C34_preamble_scan_witness :
    sampleHub.eavesdropping = true ∧ (sampleRX [0xcc, 0x12, 0, 0]).status &&& 0x1000 ≠ 0 ∧
    receivedFrame sampleHubExternals (sampleRX [0xcc, 0x12, 0, 0]) sampleHub 1 = 0x12 ∧
    ∃ st2, FHT8VCallForHeatPoll 2 (sampleExternals false) sampleHubExternals
        (sampleRX [0xcc, 0x12, 0, 0]) sampleHub = some (st2, false) ∧
      st2.lastRXerrno = 2 ∧ st2.lastCallForHeatHC = 0xffff :=
  ⟨rfl, by decide, by decide, _,
    (((C34_preamble_scan 2 (sampleExternals false) sampleHubExternals
      (sampleRX [0xcc, 0x12, 0, 0]) sampleHub 1 rfl (by decide) (by decide) (by decide)
      (fun i hi => by
        have e : i = 0 := by omega
        subst e
        decide)
      (fun _ => by decide)).1 (fun _ => by decide)).1 (by decide)).1, rfl, rfl⟩

/-- C35: build the valve-setting frame with FHT8VCreateValveSetCmdFrameHT_r and no
trailer.  Without the header the result is that of FHT8VCreate200usBitStreamBptr at the
same address for the command with opcode 0x26 and the scaled extension.  With the header
the buffer holds RFM22_PREAMBLE_BYTES copies of RFM22_PREAMBLE_BYTE followed by exactly the
bytes, terminator included, that the call without header writes, and the returned
position of the terminator is larger by RFM22_PREAMBLE_BYTES. -/
theorem C35_header_prepends_preamble (env : Externals) (m : Mem) (bptr : Nat)
    (cmd : fht8v_msg_t) (pc : Nat) (h1 : cmd.hc1 < 256) (h2 : cmd.hc2 < 256) :
    (FHT8VCreateValveSetCmdFrameHT_r env m bptr false cmd pc none).mem =
        (FHT8VCreate200usBitStreamBptr m bptr
          ⟨cmd.hc1, cmd.hc2, 0x26, pc * 255 / 100 % 256⟩).1 ∧
      (FHT8VCreateValveSetCmdFrameHT_r env m bptr false cmd pc none).bptr =
        (FHT8VCreate200usBitStreamBptr m bptr
          ⟨cmd.hc1, cmd.hc2, 0x26, pc * 255 / 100 % 256⟩).2 ∧
      (FHT8VCreateValveSetCmdFrameHT_r env m bptr true cmd pc none).bptr =
        (FHT8VCreateValveSetCmdFrameHT_r env m bptr false cmd pc none).bptr +
          env.RFM22_PREAMBLE_BYTES ∧
      memList (FHT8VCreateValveSetCmdFrameHT_r env m bptr true cmd pc none).mem bptr
          env.RFM22_PREAMBLE_BYTES =
        List.replicate env.RFM22_PREAMBLE_BYTES env.RFM22_PREAMBLE_BYTE ∧
      (∀ j, bptr + j ≤ (FHT8VCreateValveSetCmdFrameHT_r env m bptr false cmd pc none).bptr →
        (FHT8VCreateValveSetCmdFrameHT_r env m bptr true cmd pc none).mem
            (bptr + env.RFM22_PREAMBLE_BYTES + j) =
          (FHT8VCreateValveSetCmdFrameHT_r env m bptr false cmd pc none).mem (bptr + j)) ∧
      (FHT8VCreateValveSetCmdFrameHT_r env m bptr true cmd pc none).mem
          (FHT8VCreateValveSetCmdFrameHT_r env m bptr true cmd pc none).bptr = 0xff := by
  have hv : (⟨cmd.hc1, cmd.hc2, 0x26, pc * 255 / 100 % 256⟩ : fht8v_msg_t).valid :=
    ⟨h1, h2, by norm_num, Nat.mod_lt _ (by norm_num)⟩
  generalize hc : (⟨cmd.hc1, cmd.hc2, 0x26, pc * 255 / 100 % 256⟩ : fht8v_msg_t) = c at hv
  have eN : FHT8VCreateValveSetCmdFrameHT_r env m bptr false cmd pc none =
      ⟨(FHT8VCreate200usBitStreamBptr m bptr c).1, c,
        (FHT8VCreate200usBitStreamBptr m bptr c).2⟩ := by
    rw [← hc]; rfl
  have eH : FHT8VCreateValveSetCmdFrameHT_r env m bptr true cmd pc none =
      ⟨(FHT8VCreate200usBitStreamBptr
          (memset m bptr env.RFM22_PREAMBLE_BYTE env.RFM22_PREAMBLE_BYTES)
          (bptr + env.RFM22_PREAMBLE_BYTES) c).1, c,
        (FHT8VCreate200usBitStreamBptr
          (memset m bptr env.RFM22_PREAMBLE_BYTE env.RFM22_PREAMBLE_BYTES)
          (bptr + env.RFM22_PREAMBLE_BYTES) c).2⟩ := by
    rw [← hc]; rfl
  rw [eN, eH]
  simp only [createBitStream_eq]
  have hk := frameChecksum_lt c
  obtain ⟨a1, a2, a3⟩ := frame_layout m bptr c (frameChecksum c) hv hk
  obtain ⟨b1, b2, b3⟩ := frame_layout
    (memset m bptr env.RFM22_PREAMBLE_BYTE env.RFM22_PREAMBLE_BYTES)
    (bptr + env.RFM22_PREAMBLE_BYTES) c (frameChecksum c) hv hk
  have hfr := frameWithChecksum_frame
    (memset m bptr env.RFM22_PREAMBLE_BYTE env.RFM22_PREAMBLE_BYTES)
    (bptr + env.RFM22_PREAMBLE_BYTES) c (frameChecksum c) hv hk
  generalize (packPairs (encBits
    (List.replicate 12 false ++ bodyBits c (frameChecksum c) ++ [false, false]))) = P
    at a1 a2 b1 b2
  generalize frameWithChecksum m bptr c (frameChecksum c) = N at a1 a2 a3
  generalize frameWithChecksum
    (memset m bptr env.RFM22_PREAMBLE_BYTE env.RFM22_PREAMBLE_BYTES)
    (bptr + env.RFM22_PREAMBLE_BYTES) c (frameChecksum c) = H at b1 b2 b3 hfr
  refine ⟨trivial, trivial, by omega, ?_, ?_, b3⟩
  · apply List.ext_getElem
    · simp [memList]
    · intro i hi1 hi2
      simp only [memList, List.length_map, List.length_range] at hi1
      simp only [memList, List.getElem_map, List.getElem_range, List.getElem_replicate]
      rw [hfr (bptr + i) (Or.inl (by omega)), memset_apply, if_pos ⟨by omega, by omega⟩]
  · intro j hj
    by_cases hlt : j < P.length
    · have e : memList (fun i => N.1 (i - env.RFM22_PREAMBLE_BYTES))
          (bptr + env.RFM22_PREAMBLE_BYTES) P.length = memList N.1 bptr P.length := by
        simp only [memList]
        apply List.map_congr_left
        intro x _
        show N.1 (bptr + env.RFM22_PREAMBLE_BYTES + x - env.RFM22_PREAMBLE_BYTES) =
          N.1 (bptr + x)
        rw [show bptr + env.RFM22_PREAMBLE_BYTES + x - env.RFM22_PREAMBLE_BYTES = bptr + x by
          omega]
      have q1 := memList_eq_get H.1 (fun i => N.1 (i - env.RFM22_PREAMBLE_BYTES))
        (bptr + env.RFM22_PREAMBLE_BYTES) P.length (b2.trans (a2.symm.trans e.symm)) j hlt
      rw [q1]
      show N.1 (bptr + env.RFM22_PREAMBLE_BYTES + j - env.RFM22_PREAMBLE_BYTES) =
        N.1 (bptr + j)
      rw [show bptr + env.RFM22_PREAMBLE_BYTES + j - env.RFM22_PREAMBLE_BYTES = bptr + j by
        omega]
    · have ej : j = P.length := by omega
      subst ej
      rw [← b1, b3, ← a1, a3]

theorem C35_header_prepends_preamble_witness :
    (13 : Nat) < 256 ∧ (73 : Nat) < 256 ∧
    (FHT8VCreateValveSetCmdFrameHT_r (sampleExternals false) (fun _ => 0) 0 true
        ⟨13, 73, 0, 0⟩ 50 none).bptr =
      (FHT8VCreateValveSetCmdFrameHT_r (sampleExternals false) (fun _ => 0) 0 false
        ⟨13, 73, 0, 0⟩ 50 none).bptr + (sampleExternals false).RFM22_PREAMBLE_BYTES :=
  ⟨by decide, by decide,
    (C35_header_prepends_preamble (sampleExternals false) (fun _ => 0) 0 ⟨13, 73, 0, 0⟩ 50
      (by decide) (by decide)).2.2.1⟩

/-- C36: with a configured house code, run from reset any sequence of calls of
FHT8VPollSyncAndTX_First and FHT8VPollSyncAndTX_Next in which at most MAX_HSC calls of _Next
follow each _First.  In the state reached the slot count is at most MAX_HSC and the
half-second countdown is at most 237; the countdown is at least 1 while the sync final is
pending (not in sync, sync counter 1) and while in sync, which are the states in which the
next poll decrements it, so that the 8-bit decrement gives the value less one and never
wraps to 255. -/
theorem C36_countdown_never_wraps (two : Bool) (env : Externals) (area : Mem)
    (ps : List (Bool × Bool)) (hhc : env.FHT8VGetHC1 ≤ 99 ∧ env.FHT8VGetHC2 ≤ 99)
    (hps : pollsBounded two 0 ps = true) :
    (runPolls two env (resetState area) ps).halfSecondCount ≤ MAX_HSC two ∧
    (runPolls two env (resetState area) ps).halfSecondsToNextFHT8VTX ≤ 237 ∧
    ((runPolls two env (resetState area) ps).syncedWithFHT8V = false →
      (runPolls two env (resetState area) ps).syncStateFHT8V = 1 →
      1 ≤ (runPolls two env (resetState area) ps).halfSecondsToNextFHT8VTX) ∧
    ((runPolls two env (resetState area) ps).syncedWithFHT8V = true →
      1 ≤ (runPolls two env (resetState area) ps).halfSecondsToNextFHT8VTX) ∧
    (((runPolls two env (resetState area) ps).syncedWithFHT8V = true ∨
        (runPolls two env (resetState area) ps).syncStateFHT8V = 1) →
      toUInt8 (((runPolls two env (resetState area) ps).halfSecondsToNextFHT8VTX : Int) - 1)
          + 1 = (runPolls two env (resetState area) ps).halfSecondsToNextFHT8VTX ∧
        toUInt8 (((runPolls two env (resetState area) ps).halfSecondsToNextFHT8VTX : Int) - 1)
          ≠ 255) := by
  have hen : localFHT8VTRVEnabled env = true := by
    simp [localFHT8VTRVEnabled, hhc.1, hhc.2]
  have h0 : CountdownOK two 0 (resetState area) :=
    ⟨rfl, Nat.zero_le _, by simp [resetState], fun hf => by simp [resetState] at hf,
      fun _ => Or.inl rfl⟩
  obtain ⟨n2, i1, i2, i3, i4, i5⟩ := countdownOK_run two env hen ps 0 (resetState area) h0 hps
  generalize runPolls two env (resetState area) ps = s at i1 i3 i4 i5
  have hpend : s.syncedWithFHT8V = false → s.syncStateFHT8V = 1 →
      1 ≤ s.halfSecondsToNextFHT8VTX := by
    intro hf h1
    rcases i5 hf with h | h | h
    · omega
    · omega
    · exact h.2
  have hdec : (s.syncedWithFHT8V = true ∨ s.syncStateFHT8V = 1) →
      1 ≤ s.halfSecondsToNextFHT8VTX := by
    intro h
    cases hsy : s.syncedWithFHT8V
    · rcases h with h | h
      · rw [hsy] at h; cases h
      · exact hpend hsy h
    · exact i4 hsy
  refine ⟨by omega, i3, hpend, i4, fun h => ?_⟩
  have := hdec h
  unfold toUInt8
  omega

theorem C36_countdown_never_wraps_witness :
    ((sampleExternals false).FHT8VGetHC1 ≤ 99 ∧ (sampleExternals false).FHT8VGetHC2 ≤ 99) ∧
    pollsBounded true 0 [(true, false), (false, false), (false, false), (true, false)] =
      true ∧
    (runPolls true (sampleExternals false) (resetState (fun _ => 0))
      [(true, false), (false, false), (false, false), (true, false)]).halfSecondsToNextFHT8VTX
      ≤ 237 :=
  ⟨by decide, by decide,
    (C36_countdown_never_wraps true (sampleExternals false) (fun _ => 0)
      [(true, false), (false, false), (false, false), (true, false)] (by decide)
      (by decide)).2.1⟩

/-- C37: for every buffer, start `s`, last byte `l` and bound on the passes, the decoder
with its reads recorded returns what FHT8VDecodeBitStream returns, and every address it
reads is from `s` to `l` inclusive (none at all when `s` is after `l`).  Each readOneBit,
on a state whose mask is one of the decoder's values, reads only addresses from its cursor
to `lastByte`; and what FHT8VDecodeBitStream returns does not depend on any byte outside
`s..l`. -/
theorem C37_decoder_reads_within_buffer (fuel : Nat) (m : Mem) (s l : Nat) :
    (FHT8VDecodeBitStream_traced fuel m s l).1 = FHT8VDecodeBitStream fuel m s l ∧
    (∀ a ∈ (FHT8VDecodeBitStream_traced fuel m s l).2, s ≤ a ∧ a ≤ l) ∧
    (l < s → (FHT8VDecodeBitStream_traced fuel m s l).2 = []) ∧
    (∀ st : decode_state_t, MaskOK st.mask →
      (readOneBit_traced m st).1 = readOneBit m st ∧
      ∀ a ∈ (readOneBit_traced m st).2, st.bitStream ≤ a ∧ a ≤ st.lastByte) ∧
    (∀ m2 : Mem, (∀ i, s ≤ i → i ≤ l → m2 i = m i) →
      FHT8VDecodeBitStream fuel m2 s l = FHT8VDecodeBitStream fuel m s l) := by
  obtain ⟨h1, h2⟩ := decode_traced_within fuel m s l
  refine ⟨h1, h2, fun hls => ?_, fun st hm => ?_, fun m2 hm2 => decode_congr fuel m2 m s l hm2⟩
  · apply List.eq_nil_iff_forall_not_mem.mpr
    intro a ha
    have := h2 a ha
    omega
  · obtain ⟨a1, a2, _⟩ := readOneBit_traced_spec m st hm
    exact ⟨a1, a2⟩

/-- C38: FHT8VDecodeBitStream terminates on every buffer, start `s` and last byte `l`.
A pass of the loop over the leading zeros that reads a 0 without failing moves the cursor
on by exactly two bit pairs, within the buffer, so a bound on the passes of more than half
the `4 * (l + 1 - s)` bit pairs from the start to the last byte is never used up: the
decoder returns, and what it returns is the same for every such bound. -/
theorem C38_decode_terminates (fuel : Nat) (m : Mem) (s l : Nat)
    (hf : 2 * (l + 1 - s) < fuel) :
    FHT8VDecodeBitStream fuel m s l ≠ none ∧
    FHT8VDecodeBitStream fuel m s l = FHT8VDecodeBitStream (2 * (l + 1 - s) + 1) m s l ∧
    (∀ st : decode_state_t, st.failed = false → MaskOK st.mask →
      (readOneBit m st).1 = 0 → (readOneBit m st).2.failed = false →
      statePos (readOneBit m st).2 = statePos st + 2 ∧
        statePos (readOneBit m st).2 ≤ 4 * (st.lastByte + 1)) := by
  refine ⟨decode_total_any fuel m s l hf, ?_, fun st hfl hm h0 hnf => ?_⟩
  · obtain ⟨k, rfl⟩ : ∃ k, fuel = 2 * (l + 1 - s) + 1 + k :=
      ⟨fuel - (2 * (l + 1 - s) + 1), by omega⟩
    exact decode_more _ k m s l (decode_total_any _ m s l (by omega))
  · obtain ⟨_, h | h | h⟩ := readOneBit_cases m st hfl hm
    · obtain ⟨a1, _, _, _, _, _, a7⟩ := h
      exact ⟨a7, by omega⟩
    · obtain ⟨_, _, _, _, a5, _⟩ := h
      rw [a5] at h0; cases h0
    · obtain ⟨_, a2, _⟩ := h
      rw [a2] at hnf; cases hnf

theorem C38_decode_terminates_witness :
    2 * (1 + 1 - 0) < 5 ∧ FHT8VDecodeBitStream 5 (fun _ => 0xcc) 0 1 ≠ none :=
  ⟨by decide, (C38_decode_terminates 5 (fun _ => 0xcc) 0 1 (by decide)).1⟩

/-- C39: with the address field disabled, FHT8VDecodeBitStream accepts a well-formed frame
whose third body byte is any value `a`, provided the checksum byte is
`(0x0c + hc1 + hc2 + a + command + extension) mod 256` (with any other checksum byte it
returns NULL), and returns the command that the frame with `a = 0`, which is the encoder's
output, decodes to.  So decoding is not injective: there are two buffers that differ in a
byte of the frame and decode to the same command, one of them the encoder's output for
that command, which re-encoding therefore does not reproduce from the other. -/
theorem C39_address_byte_ignored (m : Mem) (p : Nat) (c : fht8v_msg_t) (a fuel : Nat)
    (hc : c.valid) (ha : a < 256) (hfuel : 13 ≤ fuel) :
    FHT8VDecodeBitStream fuel
        (frameWithAddress m p c a
          ((0x0c + c.hc1 + c.hc2 + a + c.command + c.extension) % 256)).1 p
        (frameWithAddress m p c a
          ((0x0c + c.hc1 + c.hc2 + a + c.command + c.extension) % 256)).2 =
      some (some ((frameWithAddress m p c a
        ((0x0c + c.hc1 + c.hc2 + a + c.command + c.extension) % 256)).2, c)) ∧
    (∀ ck, ck < 256 → ck ≠ (0x0c + c.hc1 + c.hc2 + a + c.command + c.extension) % 256 →
      FHT8VDecodeBitStream fuel (frameWithAddress m p c a ck).1 p
        (frameWithAddress m p c a ck).2 = some none) ∧
    frameWithAddress m p c 0 ((0x0c + c.hc1 + c.hc2 + 0 + c.command + c.extension) % 256) =
      FHT8VCreate200usBitStreamBptr m p c ∧
    FHT8VDecodeBitStream fuel (FHT8VCreate200usBitStreamBptr m p c).1 p
        (FHT8VCreate200usBitStreamBptr m p c).2 =
      some (some ((FHT8VCreate200usBitStreamBptr m p c).2, c)) ∧
    (∃ (m1 : Mem) (c0 : fht8v_msg_t) (l : Nat),
      (∃ i, i ≤ l ∧ m1 i ≠ (FHT8VCreate200usBitStreamBptr (fun _ => 0) 0 c0).1 i) ∧
      FHT8VDecodeBitStream 13 m1 0 l = some (some (l, c0)) ∧
      FHT8VDecodeBitStream 13 (FHT8VCreate200usBitStreamBptr (fun _ => 0) 0 c0).1 0 l =
        some (some (l, c0))) := by
  have hk : (0x0c + c.hc1 + c.hc2 + a + c.command + c.extension) % 256 < 256 :=
    Nat.mod_lt _ (by norm_num)
  refine ⟨?_, fun ck hck hne => ?_, rfl, ?_, ?_⟩
  · rw [decode_frameWithAddress m p c a _ fuel hc ha hk hfuel, if_pos rfl]
  · rw [decode_frameWithAddress m p c a ck fuel hc ha hck hfuel, if_neg (Ne.symm hne)]
  · rw [createBitStream_eq,
      decode_frameWithChecksum m p c (frameChecksum c) fuel hc (frameChecksum_lt c) hfuel,
      if_pos rfl]
  · obtain ⟨e1, e2, e3⟩ := address_example
    exact ⟨_, ⟨13, 73, 0x26, 127⟩, 41, ⟨21, by norm_num, e1⟩, e2, e3⟩

set_option maxRecDepth 100000 in
theorem C39_address_byte_ignored_witness :
    (⟨13, 73, 0x26, 127⟩ : fht8v_msg_t).valid ∧ (1 : Nat) < 256 ∧ 13 ≤ 13 ∧
    FHT8VDecodeBitStream 13
        (frameWithAddress (fun _ => 0) 0 ⟨13, 73, 0x26, 127⟩ 1
          ((0x0c + 13 + 73 + 1 + 0x26 + 127) % 256)).1 0
        (frameWithAddress (fun _ => 0) 0 ⟨13, 73, 0x26, 127⟩ 1
          ((0x0c + 13 + 73 + 1 + 0x26 + 127) % 256)).2 =
      some (some ((frameWithAddress (fun _ => 0) 0 ⟨13, 73, 0x26, 127⟩ 1
        ((0x0c + 13 + 73 + 1 + 0x26 + 127) % 256)).2, ⟨13, 73, 0x26, 127⟩)) :=
  ⟨by decide, by decide, by decide,
    (C39_address_byte_ignored (fun _ => 0) 0 ⟨13, 73, 0x26, 127⟩ 1 13 (by decide) (by decide)
      (by decide)).1⟩

/-- C40: for every percent open `p` up to 100 and every threshold `t` with `p ≥ t`, the
frame built by FHT8VCreateValveSetCmdFrameHT_r for `p` carries opcode 0x26 and the
extension `(p * 255) / 100`, which fits a byte and is at least `t`.  So a hub whose
getMinValvePcReallyOpen is `t` and whose poll decodes that command from a received frame
returns true and, where its house code filter accepts the house code, stores the compound
house code in the mailbox.  Built without header and trailer for a house code of two bytes,
the frame does decode to that command. -/
theorem C40_open_valve_heard (env : Externals) (m : Mem) (bptr : Nat) (doHeader : Bool)
    (cmd : fht8v_msg_t) (trailer : Option FullStatsMessageCore_t) (p t : Nat)
    (hp : p ≤ 100) (hpt : t ≤ p) :
    (FHT8VCreateValveSetCmdFrameHT_r env m bptr doHeader cmd p trailer).command =
      ⟨cmd.hc1, cmd.hc2, 0x26, p * 255 / 100⟩ ∧
    t ≤ (FHT8VCreateValveSetCmdFrameHT_r env m bptr doHeader cmd p trailer).command.extension ∧
    (FHT8VCreateValveSetCmdFrameHT_r env m bptr doHeader cmd p trailer).command.extension ≤
      255 ∧
    (∀ (fuel : Nat) (env2 : Externals) (henv : HubExternals) (rx : rfm22_rx_t)
        (st : fht8v_hub_t) (pos tr : Nat),
      env2.getMinValvePcReallyOpen = t → st.eavesdropping = true →
      (henv.PIN_RFM_NIRQ = true → rx.nIRQ = 0) → rx.status &&& 0x1000 ≠ 0 →
      preambleScan henv { st with FHT8VRXHubArea := receivedFrame henv rx st } 6 0 =
        .body pos →
      FHT8VDecodeBitStream fuel (receivedFrame henv rx st) pos
          (env2.FHT8V_200US_BIT_STREAM_FRAME_BUF_SIZE - 1) =
        some (some (tr,
          (FHT8VCreateValveSetCmdFrameHT_r env m bptr doHeader cmd p trailer).command)) →
      ∃ st2, FHT8VCallForHeatPoll fuel env2 henv rx st = some (st2, true) ∧
        st2.lastCallForHeatHC =
          if henv.FHT8VHubAcceptedHouseCode cmd.hc1 cmd.hc2 then
            ((cmd.hc1 <<< 8) ||| cmd.hc2) % 65536
          else st.lastCallForHeatHC) ∧
    (∀ fuel, 13 ≤ fuel → cmd.hc1 < 256 → cmd.hc2 < 256 →
      FHT8VDecodeBitStream fuel
          (FHT8VCreateValveSetCmdFrameHT_r env m bptr false cmd p none).mem bptr
          (FHT8VCreateValveSetCmdFrameHT_r env m bptr false cmd p none).bptr =
        some (some ((FHT8VCreateValveSetCmdFrameHT_r env m bptr false cmd p none).bptr,
          ⟨cmd.hc1, cmd.hc2, 0x26, p * 255 / 100⟩))) := by
  have hx : p * 255 / 100 % 256 = p * 255 / 100 := by omega
  have hcmd := frameHT_command env m bptr doHeader cmd p trailer
  rw [hx] at hcmd
  rw [hcmd]
  refine ⟨rfl, by simp only; omega, by simp only; omega, ?_, ?_⟩
  · intro fuel env2 henv rx st pos tr ht heav hirq hst hscan hdec
    obtain ⟨st2, h1, h2⟩ := poll_decoded fuel env2 henv rx st pos tr _ heav hirq hst hscan hdec
    refine ⟨st2, h1, ?_⟩
    rw [h2, if_pos ⟨rfl, by simp only [ht]; omega⟩]
  · intro fuel hfuel h1 h2
    have hv : (⟨cmd.hc1, cmd.hc2, 0x26, p * 255 / 100⟩ : fht8v_msg_t).valid :=
      ⟨h1, h2, by norm_num, by simp only; omega⟩
    have eN : FHT8VCreateValveSetCmdFrameHT_r env m bptr false cmd p none =
        ⟨(FHT8VCreate200usBitStreamBptr m bptr ⟨cmd.hc1, cmd.hc2, 0x26, p * 255 / 100⟩).1,
          ⟨cmd.hc1, cmd.hc2, 0x26, p * 255 / 100⟩,
          (FHT8VCreate200usBitStreamBptr m bptr ⟨cmd.hc1, cmd.hc2, 0x26, p * 255 / 100⟩).2⟩ := by
      simp only [FHT8VCreateValveSetCmdFrameHT_r, hx]
      rfl
    rw [eN]
    simp only
    rw [createBitStream_eq, decode_frameWithChecksum m bptr _ _ fuel hv (frameChecksum_lt _)
      hfuel, if_pos rfl]

theorem C40_open_valve_heard_witness :
    50 ≤ 100 ∧ 10 ≤ 50 ∧
    10 ≤ (FHT8VCreateValveSetCmdFrameHT_r (sampleExternals false) (fun _ => 0) 0 true
      ⟨13, 73, 0, 0⟩ 50 none).command.extension :=
  ⟨by decide, by decide,
    (C40_open_valve_heard (sampleExternals false) (fun _ => 0) 0 true ⟨13, 73, 0, 0⟩ none 50 10
      (by decide) (by decide)).2.1⟩
